import Mathlib

/-!
# cI2C: a shallow embedding of the Arduino master I2C driver (`src/src/ci2c.c`, v1.2)

The driver talks to the AVR two-wire peripheral through the memory mapped
registers `TWCR`, `TWSR`, `TWDR`, `TWBR` and to the Arduino core through
`millis()` and `delay()`.  All of these are external to the repository, so the
embedding takes them as a `Periph` record of state transformers over an
arbitrary peripheral state `σ`: every volatile register access of the C code is
one call of the record.

Integers are `Nat` with explicit reductions (`% 256` for `uint8_t`,
`% 65536` for `uint16_t`).  The poll loops of the primitives may spin for ever
when the completion flag never sets and the clock does not advance; they take a
fuel argument and return `Option`.

A ghost `log` in the driver state records, in order, every primitive that is
entered (`start`, `sndAddr`, `wr8`, `rd8`, `stop`, `reset`, `delay`), the value
of every data register read made by `I2C_rd` (`twdr`) and the boolean returned
by every primitive (`ret`).

One section of the definitions embeds the functions of the earlier driver
`src/ci2c.c` (v0.2) that differ from v1.2, under the prefix `V02`.
-/

namespace CI2C

/-! ## Constants of `ci2c.c` / `ci2c.h` -/

def START : Nat := 0x08

def REPEATED_START : Nat := 0x10

def MT_SLA_ACK : Nat := 0x18

def MT_SLA_NACK : Nat := 0x20

def MT_DATA_ACK : Nat := 0x28

def MT_DATA_NACK : Nat := 0x30

def MR_SLA_ACK : Nat := 0x40

def MR_SLA_NACK : Nat := 0x48

def MR_DATA_ACK : Nat := 0x50

def MR_DATA_NACK : Nat := 0x58

def LOST_ARBTRTN : Nat := 0x38

def DEF_CI2C_NB_RETRIES : Nat := 3

def DEF_CI2C_TIMEOUT : Nat := 100

/-- Bit numbers of the control register `TWCR`, from the AVR device header
(`avr/io.h`, ATmega328P), which `ci2c.c` uses by name. -/
def TWINT : Nat := 7

def TWEA : Nat := 6

def TWSTA : Nat := 5

def TWSTO : Nat := 4

def TWEN : Nat := 2

/-- Prescaler bits of the status register `TWSR` (AVR device header). -/
def TWPS0 : Nat := 0

def TWPS1 : Nat := 1

/-- Direction bit, `enum enI2C_RW`. -/
inductive I2C_RW
  | I2C_WRITE
  | I2C_READ
  deriving DecidableEq, Repr

/-- Numeric value of the direction enumerator. -/
def I2C_RW.toNat : I2C_RW → Nat
  | .I2C_WRITE => 0
  | .I2C_READ => 1

/-- Slave status, `enum enI2C_STATUS`. -/
inductive I2C_STATUS
  | I2C_OK
  | I2C_BUSY
  | I2C_NACK
  deriving DecidableEq, Repr

/-- Values of `enum enI2C_INT_SIZE`; the field is kept as a raw byte because the
setter receives and tests out-of-range values. -/
def I2C_NO_REG : Nat := 0

def I2C_8B_REG : Nat := 1

def I2C_16B_REG : Nat := 2

/-- Values of `enum enI2C_SPEED`. -/
def I2C_STD : Nat := 100

def I2C_FM : Nat := 400

def I2C_FMP : Nat := 1000

def I2C_HS : Nat := 3400

/-- A `ci2c_fct_ptr` value: the address of one of the two built-in transaction
functions, or of a function supplied by the application. -/
inductive ci2c_fct_ptr
  | wr_builtin
  | rd_builtin
  | user (k : Nat)
  deriving DecidableEq, Repr

/-- The `cfg` part of `I2C_SLAVE`. -/
structure I2C_SLAVE_CFG where
  addr : Nat
  reg_size : Nat
  wr : ci2c_fct_ptr
  rd : ci2c_fct_ptr
  deriving DecidableEq, Repr

/-- The slave descriptor `I2C_SLAVE`. -/
structure I2C_SLAVE where
  cfg : I2C_SLAVE_CFG
  reg_addr : Nat
  status : I2C_STATUS
  deriving DecidableEq, Repr

/-- The `cfg` part of the static `i2c` structure. -/
structure I2C_CFG where
  speed : Nat
  retries : Nat
  timeout : Nat
  deriving DecidableEq, Repr

/-- Ghost events recorded by the embedding. -/
inductive Ev
  | start
  | stop
  | sndAddr (byte : Nat)
  | wr8 (dat : Nat)
  | rd8 (ack : Bool)
  | reset
  | delay (ms : Nat)
  | twdr (v : Nat)
  | ret (ok : Bool)
  deriving DecidableEq, Repr

/-- The environment of the driver: volatile register accesses and the Arduino
time functions, as transformers of a peripheral state. -/
structure Periph (σ : Type) where
  rdTWCR : σ → Nat × σ
  wrTWCR : Nat → σ → σ
  rdTWSR : σ → Nat × σ
  wrTWSR : Nat → σ → σ
  rdTWDR : σ → Nat × σ
  wrTWDR : Nat → σ → σ
  wrTWBR : Nat → σ → σ
  millis : σ → Nat × σ
  delay : Nat → σ → σ

/-- The static `i2c` structure, the peripheral state and the ghost log. -/
structure World (σ : Type) where
  cfg : I2C_CFG
  start_wait : Nat
  busy : Bool
  hw : σ
  log : List Ev

/-- Initial value of the static `i2c` structure over a peripheral state. -/
def World.init {σ : Type} (h : σ) : World σ :=
  { cfg := { speed := 0, retries := DEF_CI2C_NB_RETRIES, timeout := DEF_CI2C_TIMEOUT },
    start_wait := 0, busy := false, hw := h, log := [] }

variable {σ : Type}

/-- Append one ghost event. -/
def World.emit (w : World σ) (e : Ev) : World σ := { w with log := w.log ++ [e] }

/-! ## Register accesses -/

/-- Volatile read of the 8-bit register `TWCR`. -/
def rdTWCR (P : Periph σ) (w : World σ) : Nat × World σ :=
  ((P.rdTWCR w.hw).1 % 256, { w with hw := (P.rdTWCR w.hw).2 })

/-- Write of `TWCR`. -/
def wrTWCR (P : Periph σ) (v : Nat) (w : World σ) : World σ :=
  { w with hw := P.wrTWCR v w.hw }

/-- The macro `TWI_STATUS`, `(TWSR & 0xF8)`: one volatile read per use. -/
def TWI_STATUS (P : Periph σ) (w : World σ) : Nat × World σ :=
  ((P.rdTWSR w.hw).1 &&& 0xF8, { w with hw := (P.rdTWSR w.hw).2 })

/-- Volatile read of the 8-bit register `TWDR`. -/
def rdTWDR (P : Periph σ) (w : World σ) : Nat × World σ :=
  ((P.rdTWDR w.hw).1 % 256, { w with hw := (P.rdTWDR w.hw).2 })

/-- Write of `TWDR`. -/
def wrTWDR (P : Periph σ) (v : Nat) (w : World σ) : World σ :=
  { w with hw := P.wrTWDR v w.hw }

/-- Arduino `delay(ms)`. -/
def delay (P : Periph σ) (ms : Nat) (w : World σ) : World σ :=
  { w with hw := P.delay ms w.hw, log := w.log ++ [Ev.delay ms] }

/-! ## Slave descriptor functions -/

/-- `I2C_slave_set_addr`. -/
def I2C_slave_set_addr (slave : I2C_SLAVE) (sl_addr : Nat) : Bool × I2C_SLAVE :=
  if sl_addr > 0x7F then (false, slave)
  else (true, { slave with cfg := { slave.cfg with addr := sl_addr } })

/-- `I2C_slave_set_reg_size`. -/
def I2C_slave_set_reg_size (slave : I2C_SLAVE) (reg_sz : Nat) : Bool × I2C_SLAVE :=
  (!(decide (reg_sz > I2C_16B_REG)),
   { slave with cfg := { slave.cfg with
       reg_size := if reg_sz > I2C_16B_REG then I2C_16B_REG else reg_sz } })

/-- `I2C_slave_set_rw_func`. -/
def I2C_slave_set_rw_func (slave : I2C_SLAVE) (func : ci2c_fct_ptr) (rw : I2C_RW) : I2C_SLAVE :=
  if rw.toNat ≠ 0 then { slave with cfg := { slave.cfg with rd := func } }
  else { slave with cfg := { slave.cfg with wr := func } }

/-- `I2C_slave_set_reg_addr`. -/
def I2C_slave_set_reg_addr (slave : I2C_SLAVE) (reg_addr : Nat) : I2C_SLAVE :=
  { slave with reg_addr := reg_addr }

/-- `I2C_slave_init`; the argument `slave` is the prior content of the memory
the descriptor lives in. -/
def I2C_slave_init (slave : I2C_SLAVE) (sl_addr : Nat) (reg_sz : Nat) : I2C_SLAVE :=
  let slave := (I2C_slave_set_addr slave sl_addr).2
  let slave := (I2C_slave_set_reg_size slave reg_sz).2
  let slave := I2C_slave_set_rw_func slave .wr_builtin .I2C_WRITE
  let slave := I2C_slave_set_rw_func slave .rd_builtin .I2C_READ
  { slave with reg_addr := 65535, status := .I2C_OK }

/-- `I2C_slave_get_addr`. -/
def I2C_slave_get_addr (slave : I2C_SLAVE) : Nat := slave.cfg.addr

/-- `I2C_slave_get_reg_size`: the enumerator converted to `bool`. -/
def I2C_slave_get_reg_size (slave : I2C_SLAVE) : Bool := decide (slave.cfg.reg_size ≠ 0)

/-- `I2C_slave_get_reg_addr`. -/
def I2C_slave_get_reg_addr (slave : I2C_SLAVE) : Nat := slave.reg_addr

/-! ## Bus primitives -/

/-- `I2C_reset`: `TWCR = 0`, then two read-modify-write accesses setting `TWEA`
and `TWEN`. -/
def I2C_reset (P : Periph σ) (w : World σ) : World σ :=
  let w := w.emit .reset
  let w := wrTWCR P 0 w
  let r := rdTWCR P w
  let w := wrTWCR P ((r.1 ||| (1 <<< TWEA)) % 256) r.2
  let r := rdTWCR P w
  wrTWCR P ((r.1 ||| (1 <<< TWEN)) % 256) r.2

/-- `I2C_start_timeout`: `i2c.start_wait = (uint16_t) millis()`. -/
def I2C_start_timeout (P : Periph σ) (w : World σ) : World σ :=
  { w with start_wait := (P.millis w.hw).1 % 65536, hw := (P.millis w.hw).2 }

/-- `I2C_timeout`: `((uint16_t) millis() - i2c.start_wait) >= i2c.cfg.timeout`,
the subtraction being done on 16-bit unsigned values (AVR `int` is 16 bits). -/
def I2C_timeout (P : Periph σ) (w : World σ) : Bool × World σ :=
  (decide (((P.millis w.hw).1 % 65536 + 65536 - w.start_wait % 65536) % 65536 ≥ w.cfg.timeout),
   { w with hw := (P.millis w.hw).2 })

/-- The poll loop shared by the primitives,
`while (pending(TWCR)) { if (I2C_timeout()) { I2C_reset(); return false; } }`.
`some true`: the loop ended normally; `some false`: timeout, bus reset;
`none`: out of fuel. -/
def wait_flag (P : Periph σ) (pending : Nat → Bool) : Nat → World σ → Option (Bool × World σ)
  | 0, _ => none
  | F + 1, w =>
    if pending (rdTWCR P w).1 then
      if (I2C_timeout P (rdTWCR P w).2).1 then
        some (false, I2C_reset P (I2C_timeout P (rdTWCR P w).2).2)
      else wait_flag P pending F (I2C_timeout P (rdTWCR P w).2).2
    else some (true, (rdTWCR P w).2)

/-- Loop condition `!(TWCR & (1 << TWINT))`. -/
def twint_clear (v : Nat) : Bool := v &&& (1 <<< TWINT) == 0

/-- Loop condition `(TWCR & (1 << TWSTO))`. -/
def twsto_set (v : Nat) : Bool := v &&& (1 <<< TWSTO) != 0

/-- `I2C_start`. -/
def I2C_start (P : Periph σ) (F : Nat) (w : World σ) : Option (Bool × World σ) :=
  let w := I2C_start_timeout P (w.emit .start)
  let w := wrTWCR P ((1 <<< TWINT) ||| (1 <<< TWSTA) ||| (1 <<< TWEN)) w
  match wait_flag P twint_clear F w with
  | none => none
  | some (false, w) => some (false, w.emit (.ret false))
  | some (true, w) =>
    if (TWI_STATUS P w).1 = START then some (true, (TWI_STATUS P w).2.emit (.ret true))
    else
      let w := (TWI_STATUS P w).2
      if (TWI_STATUS P w).1 = REPEATED_START then some (true, (TWI_STATUS P w).2.emit (.ret true))
      else
        let w := (TWI_STATUS P w).2
        if (TWI_STATUS P w).1 = LOST_ARBTRTN then
          some (false, (I2C_reset P (TWI_STATUS P w).2).emit (.ret false))
        else some (false, (TWI_STATUS P w).2.emit (.ret false))

/-- `I2C_stop`. -/
def I2C_stop (P : Periph σ) (F : Nat) (w : World σ) : Option (Bool × World σ) :=
  let w := I2C_start_timeout P (w.emit .stop)
  let w := wrTWCR P ((1 <<< TWINT) ||| (1 <<< TWEN) ||| (1 <<< TWSTO)) w
  match wait_flag P twsto_set F w with
  | none => none
  | some (false, w) => some (false, w.emit (.ret false))
  | some (true, w) => some (true, w.emit (.ret true))

/-- The part of `I2C_wr8` after the wait loop. -/
def I2C_wr8_status (P : Periph σ) (F : Nat) (w : World σ) : Option (Bool × World σ) :=
  if (TWI_STATUS P w).1 = MT_DATA_ACK then some (true, (TWI_STATUS P w).2.emit (.ret true))
  else
    let w := (TWI_STATUS P w).2
    if (TWI_STATUS P w).1 = MT_DATA_NACK then
      match I2C_stop P F (TWI_STATUS P w).2 with
      | none => none
      | some (_, w) => some (false, w.emit (.ret false))
    else some (false, (I2C_reset P (TWI_STATUS P w).2).emit (.ret false))

/-- `I2C_wr8`. -/
def I2C_wr8 (P : Periph σ) (F : Nat) (dat : Nat) (w : World σ) : Option (Bool × World σ) :=
  let w := wrTWDR P (dat % 256) (w.emit (.wr8 dat))
  let w := I2C_start_timeout P w
  let w := wrTWCR P ((1 <<< TWINT) ||| (1 <<< TWEN)) w
  match wait_flag P twint_clear F w with
  | none => none
  | some (false, w) => some (false, w.emit (.ret false))
  | some (true, w) => I2C_wr8_status P F w

/-- `I2C_rd8`. -/
def I2C_rd8 (P : Periph σ) (F : Nat) (ack : Bool) (w : World σ) : Option (Bool × World σ) :=
  let w := I2C_start_timeout P (w.emit (.rd8 ack))
  let w := if ack then wrTWCR P ((1 <<< TWINT) ||| (1 <<< TWEN) ||| (1 <<< TWEA)) w
           else wrTWCR P ((1 <<< TWINT) ||| (1 <<< TWEN)) w
  match wait_flag P twint_clear F w with
  | none => none
  | some (false, w) => some (false, w.emit (.ret false))
  | some (true, w) =>
    if (TWI_STATUS P w).1 = LOST_ARBTRTN then
      some (false, (I2C_reset P (TWI_STATUS P w).2).emit (.ret false))
    else
      let w := (TWI_STATUS P w).2
      if (TWI_STATUS P w).1 = MR_DATA_NACK ∧ ack = false then
        some (true, (TWI_STATUS P w).2.emit (.ret true))
      else
        let w := (TWI_STATUS P w).2
        if (TWI_STATUS P w).1 = MR_DATA_ACK ∧ ack = true then
          some (true, (TWI_STATUS P w).2.emit (.ret true))
        else some (false, (TWI_STATUS P w).2.emit (.ret false))

/-- The part of `I2C_sndAddr` after the wait loop. -/
def I2C_sndAddr_status (P : Periph σ) (F : Nat) (w : World σ) : Option (Bool × World σ) :=
  if (TWI_STATUS P w).1 = MT_SLA_ACK then some (true, (TWI_STATUS P w).2.emit (.ret true))
  else
    let w := (TWI_STATUS P w).2
    if (TWI_STATUS P w).1 = MR_SLA_ACK then some (true, (TWI_STATUS P w).2.emit (.ret true))
    else
      let w := (TWI_STATUS P w).2
      if (TWI_STATUS P w).1 = MT_SLA_NACK then
        match I2C_stop P F (TWI_STATUS P w).2 with
        | none => none
        | some (_, w) => some (false, w.emit (.ret false))
      else
        let w := (TWI_STATUS P w).2
        if (TWI_STATUS P w).1 = MR_SLA_NACK then
          match I2C_stop P F (TWI_STATUS P w).2 with
          | none => none
          | some (_, w) => some (false, w.emit (.ret false))
        else some (false, (I2C_reset P (TWI_STATUS P w).2).emit (.ret false))

/-- The byte `I2C_sndAddr` loads into the 8-bit register `TWDR`,
`(slave->cfg.addr << 1) | rw`. -/
def addr_byte (slave : I2C_SLAVE) (rw : I2C_RW) : Nat :=
  (((slave.cfg.addr % 256) <<< 1) ||| rw.toNat) % 256

/-- `I2C_sndAddr`. -/
def I2C_sndAddr (P : Periph σ) (F : Nat) (slave : I2C_SLAVE) (rw : I2C_RW) (w : World σ) :
    Option (Bool × World σ) :=
  let w := wrTWDR P (addr_byte slave rw) (w.emit (.sndAddr (addr_byte slave rw)))
  let w := I2C_start_timeout P w
  let w := wrTWCR P ((1 <<< TWINT) ||| (1 <<< TWEN)) w
  match wait_flag P twint_clear F w with
  | none => none
  | some (false, w) => some (false, w.emit (.ret false))
  | some (true, w) => I2C_sndAddr_status P F w

/-! ## Transaction engine -/

/-- A read/write strategy, the type behind `ci2c_fct_ptr`: it receives the
descriptor, the register address, the caller's buffer and the byte count, and
returns its boolean together with the descriptor, buffer and driver state it
leaves behind (`none`: it does not return). -/
abbrev Strategy (σ : Type) :=
  I2C_SLAVE → Nat → List Nat → Nat → World σ → Option (Bool × I2C_SLAVE × List Nat × World σ)

/-- The register-address bytes `I2C_wr`/`I2C_rd` send for register `reg_addr`:
`(uint8_t) (reg_addr >> 8)` when the width is 16 bits, then `(uint8_t) reg_addr`. -/
def I2C_wr_reg (P : Periph σ) (F : Nat) (slave : I2C_SLAVE) (reg_addr : Nat) (w : World σ) :
    Option (Bool × World σ) :=
  if slave.cfg.reg_size ≥ I2C_16B_REG then
    match I2C_wr8 P F ((reg_addr >>> 8) % 256) w with
    | none => none
    | some (false, w) => some (false, w)
    | some (true, w) => I2C_wr8 P F (reg_addr % 256) w
  else I2C_wr8 P F (reg_addr % 256) w

/-- The `for` loop of `I2C_wr`; `n` iterations are left and `cnt` is the loop
counter, so that `data[cnt]` is the byte `*data++` reads. -/
def I2C_wr_loop (P : Periph σ) (F : Nat) (data : List Nat) :
    Nat → Nat → I2C_SLAVE → World σ → Option (Bool × I2C_SLAVE × World σ)
  | 0, _, slave, w => some (true, slave, w)
  | n + 1, cnt, slave, w =>
    match I2C_wr8 P F (data.getD cnt 0) w with
    | none => none
    | some (false, w) => some (false, slave, w)
    | some (true, w) =>
      I2C_wr_loop P F data n (cnt + 1) { slave with reg_addr := (slave.reg_addr + 1) % 65536 } w

/-- The conditional block of `I2C_wr`,
`if ((slave->cfg.reg_size) && (reg_addr != slave->reg_addr)) { ... }`: the cursor
is set to `reg_addr`, then the register-address bytes are sent. -/
def I2C_wr_setreg (P : Periph σ) (F : Nat) (slave : I2C_SLAVE) (reg_addr : Nat) (w : World σ) :
    Option (Bool × I2C_SLAVE × World σ) :=
  if slave.cfg.reg_size ≠ 0 ∧ reg_addr ≠ slave.reg_addr then
    match I2C_wr_reg P F (I2C_slave_set_reg_addr slave reg_addr) reg_addr w with
    | none => none
    | some (b, w) => some (b, I2C_slave_set_reg_addr slave reg_addr, w)
  else some (true, slave, w)

/-- `I2C_wr`. -/
def I2C_wr (P : Periph σ) (F : Nat) : Strategy σ := fun slave reg_addr data bytes w =>
  if bytes = 0 then some (false, slave, data, w)
  else
    match I2C_start P F w with
    | none => none
    | some (false, w) => some (false, slave, data, w)
    | some (true, w) =>
      match I2C_sndAddr P F slave .I2C_WRITE w with
      | none => none
      | some (false, w) => some (false, slave, data, w)
      | some (true, w) =>
        match I2C_wr_setreg P F slave reg_addr w with
        | none => none
        | some (false, slave, w) => some (false, slave, data, w)
        | some (true, slave, w) =>
          match I2C_wr_loop P F data bytes 0 slave w with
          | none => none
          | some (false, slave, w) => some (false, slave, data, w)
          | some (true, slave, w) =>
            match I2C_stop P F w with
            | none => none
            | some (b, w) => some (b, slave, data, w)

/-- The `for` loop of `I2C_rd`: `I2C_rd8` withholds the acknowledgment when
`cnt == bytes - 1`, then `*data++ = TWDR`. -/
def I2C_rd_loop (P : Periph σ) (F : Nat) (bytes : Nat) :
    Nat → Nat → I2C_SLAVE → List Nat → World σ → Option (Bool × I2C_SLAVE × List Nat × World σ)
  | 0, _, slave, data, w => some (true, slave, data, w)
  | n + 1, cnt, slave, data, w =>
    match I2C_rd8 P F (if cnt = bytes - 1 then false else true) w with
    | none => none
    | some (false, w) => some (false, slave, data, w)
    | some (true, w) =>
      I2C_rd_loop P F bytes n (cnt + 1) { slave with reg_addr := (slave.reg_addr + 1) % 65536 }
        (data.set cnt (rdTWDR P w).1) ((rdTWDR P w).2.emit (.twdr (rdTWDR P w).1))

/-- The write phase of `I2C_rd` that sets the register address of the slave:
start, address with the write bit, register-address bytes. -/
def I2C_rd_wrphase (P : Periph σ) (F : Nat) (slave : I2C_SLAVE) (reg_addr : Nat) (w : World σ) :
    Option (Bool × World σ) :=
  match I2C_start P F w with
  | none => none
  | some (false, w) => some (false, w)
  | some (true, w) =>
    match I2C_sndAddr P F slave .I2C_WRITE w with
    | none => none
    | some (false, w) => some (false, w)
    | some (true, w) => I2C_wr_reg P F slave reg_addr w

/-- The conditional block of `I2C_rd`,
`if ((slave->cfg.reg_size) && (reg_addr != slave->reg_addr)) { ... }`: the cursor
is set to `reg_addr`, then the write phase runs. -/
def I2C_rd_setreg (P : Periph σ) (F : Nat) (slave : I2C_SLAVE) (reg_addr : Nat) (w : World σ) :
    Option (Bool × I2C_SLAVE × World σ) :=
  if slave.cfg.reg_size ≠ 0 ∧ reg_addr ≠ slave.reg_addr then
    match I2C_rd_wrphase P F (I2C_slave_set_reg_addr slave reg_addr) reg_addr w with
    | none => none
    | some (b, w) => some (b, I2C_slave_set_reg_addr slave reg_addr, w)
  else some (true, slave, w)

/-- `I2C_rd`. -/
def I2C_rd (P : Periph σ) (F : Nat) : Strategy σ := fun slave reg_addr data bytes w =>
  if bytes = 0 then some (false, slave, data, w)
  else
    match I2C_rd_setreg P F slave reg_addr w with
    | none => none
    | some (false, slave, w) => some (false, slave, data, w)
    | some (true, slave, w) =>
      match I2C_start P F w with
      | none => none
      | some (false, w) => some (false, slave, data, w)
      | some (true, w) =>
        match I2C_sndAddr P F slave .I2C_READ w with
        | none => none
        | some (false, w) => some (false, slave, data, w)
        | some (true, w) =>
          match I2C_rd_loop P F bytes bytes 0 slave data w with
          | none => none
          | some (false, slave, data, w) => some (false, slave, data, w)
          | some (true, slave, data, w) =>
            match I2C_stop P F w with
            | none => none
            | some (b, w) => some (b, slave, data, w)

/-! ## Retry / dispatch layer -/

/-- Call through a `ci2c_fct_ptr`: the two built-in functions, or entry `k` of
the table `ext` of application functions. -/
def call_fct (P : Periph σ) (ext : Nat → Strategy σ) (F : Nat) : ci2c_fct_ptr → Strategy σ
  | .wr_builtin => I2C_wr P F
  | .rd_builtin => I2C_rd P F
  | .user k => ext k

/-- `I2C_is_busy`. -/
def I2C_is_busy (w : World σ) : Bool := w.busy

/-- The retry loop of `I2C_comm`,
`while ((!ack) && (retry != 0)) { delay(5); ack = fc(...); retry--; }`. -/
def I2C_comm_retry (P : Periph σ) (fc : Strategy σ) (reg_addr bytes : Nat) :
    Nat → Bool → I2C_SLAVE → List Nat → World σ → Option (Bool × I2C_SLAVE × List Nat × World σ)
  | 0, ack, slave, data, w => some (ack, slave, data, w)
  | retry + 1, ack, slave, data, w =>
    if ack = false then
      match fc slave reg_addr data bytes (delay P 5 w) with
      | none => none
      | some (ack, slave, data, w) => I2C_comm_retry P fc reg_addr bytes retry ack slave data w
    else some (ack, slave, data, w)

/-- `I2C_comm`. -/
def I2C_comm (P : Periph σ) (ext : Nat → Strategy σ) (F : Nat) (slave : I2C_SLAVE)
    (reg_addr : Nat) (data : List Nat) (bytes : Nat) (rw : I2C_RW) (w : World σ) :
    Option (I2C_STATUS × I2C_SLAVE × List Nat × World σ) :=
  let retry := w.cfg.retries
  let fc := call_fct P ext F (if rw.toNat ≠ 0 then slave.cfg.rd else slave.cfg.wr)
  if I2C_is_busy w then some (.I2C_BUSY, { slave with status := .I2C_BUSY }, data, w)
  else
    match fc slave reg_addr data bytes { w with busy := true } with
    | none => none
    | some (ack, slave, data, w) =>
      match I2C_comm_retry P fc reg_addr bytes retry ack slave data w with
      | none => none
      | some (ack, slave, data, w) =>
        let st := if ack then I2C_STATUS.I2C_OK else I2C_STATUS.I2C_NACK
        some (st, { slave with status := st }, data, { w with busy := false })

/-- `I2C_write`. -/
def I2C_write (P : Periph σ) (ext : Nat → Strategy σ) (F : Nat) (slave : I2C_SLAVE)
    (reg_addr : Nat) (data : List Nat) (bytes : Nat) (w : World σ) :
    Option (I2C_STATUS × I2C_SLAVE × List Nat × World σ) :=
  I2C_comm P ext F slave reg_addr data bytes .I2C_WRITE w

/-- `I2C_read`. -/
def I2C_read (P : Periph σ) (ext : Nat → Strategy σ) (F : Nat) (slave : I2C_SLAVE)
    (reg_addr : Nat) (data : List Nat) (bytes : Nat) (w : World σ) :
    Option (I2C_STATUS × I2C_SLAVE × List Nat × World σ) :=
  I2C_comm P ext F slave reg_addr data bytes .I2C_READ w

/-! ## Log frames -/

/-- The state `w1` is `w` after some driver code ran: configuration and busy
flag are the same and the log grew by `δ`. -/
def Ext (w w1 : World σ) (δ : List Ev) : Prop :=
  w1.cfg = w.cfg ∧ w1.busy = w.busy ∧ w1.log = w.log ++ δ

/-- What a primitive that fails may log between its call and its return: nothing,
a bus reset, a nested successful stop, or a nested stop that timed out. -/
def Recovery : List (List Ev) := [[], [.reset], [.stop, .ret true], [.stop, .reset, .ret false]]

/-- Log contract shared by the primitives: the call event `c`, nested recovery
events (none when the primitive succeeds) and the returned boolean. -/
def Prim (c : Ev) (b : Bool) (w w1 : World σ) : Prop :=
  ∃ t, t ∈ Recovery ∧ (b = true → t = []) ∧ Ext w w1 (c :: t ++ [.ret b])

/-! ## Logs of call sequences -/

/-- The log of the calls `cs` when each of them returns `true`. -/
def acked : List Ev → List Ev
  | [] => []
  | c :: cs => c :: .ret true :: acked cs

/-- `RunLog plan m δ`: `δ` is the log of a run through the calls of `plan` in
which the first `m` calls returned `true` and, when the plan is longer than `m`,
call number `m` returned `false` and ended the run. -/
inductive RunLog : List Ev → Nat → List Ev → Prop
  | done : RunLog [] 0 []
  | ok (c : Ev) (plan : List Ev) (m : Nat) (δ : List Ev) :
      RunLog plan m δ → RunLog (c :: plan) (m + 1) (c :: .ret true :: δ)
  | fail (c : Ev) (plan : List Ev) (t : List Ev) :
      t ∈ Recovery → RunLog (c :: plan) 0 (c :: t ++ [.ret false])

/-- Data events: the values `I2C_rd` reads from the data register. -/
def Ev.isData : Ev → Bool
  | .twdr _ => true
  | _ => false

/-- The log without its data events: calls and returns only. -/
def calls (δ : List Ev) : List Ev := δ.filter fun e => !e.isData

/-- The data-register values of a log, in order. -/
def values (δ : List Ev) : List Nat :=
  δ.filterMap fun e => match e with
    | .twdr v => some v
    | _ => none

/-- A run of the calls `plan` from state `w` to state `w1`: `m` calls returned
`true`, `ok`, the result of the run, tells whether that was all of them, and `vs`
are the values read from the data register on the way. -/
def Run (plan : List Ev) (w w1 : World σ) (ok : Bool) (m : Nat) (vs : List Nat) : Prop :=
  ∃ δ, Ext w w1 δ ∧ RunLog plan m (calls δ) ∧ values δ = vs ∧ (ok = true ↔ m = plan.length)

/-! ## The call sequences of the transaction engine -/

/-- The register-address bytes of a width: high byte first for 16 bits. -/
def reg_seq (slave : I2C_SLAVE) (reg_addr : Nat) : List Nat :=
  if slave.cfg.reg_size ≥ I2C_16B_REG then [(reg_addr >>> 8) % 256, reg_addr % 256]
  else [reg_addr % 256]

/-- The register-address bytes a transaction at `reg_addr` sends: none when the
slave has no register map or `reg_addr` is the cached cursor. -/
def reg_bytes (slave : I2C_SLAVE) (reg_addr : Nat) : List Nat :=
  if slave.cfg.reg_size ≠ 0 ∧ reg_addr ≠ slave.reg_addr then reg_seq slave reg_addr else []

/-- The calls of the data loop of `I2C_wr` from counter `cnt`, `n` iterations. -/
def data_calls (data : List Nat) (cnt n : Nat) : List Ev :=
  (List.range' cnt n).map fun i => Ev.wr8 (data.getD i 0)

/-- The calls `I2C_wr` makes when none of them fails. -/
def wr_plan (slave : I2C_SLAVE) (reg_addr : Nat) (data : List Nat) (bytes : Nat) : List Ev :=
  [.start] ++ ([.sndAddr (addr_byte slave .I2C_WRITE)] ++
    ((reg_bytes slave reg_addr).map .wr8 ++ (data_calls data 0 bytes ++ [.stop])))

/-- The cursor after `j` executions of `slave->reg_addr++` (16-bit). -/
def bump (j : Nat) (c : Nat) : Nat := (fun x => (x + 1) % 65536)^[j] c

/-- The cursor `I2C_wr` leaves when `m` of its calls returned `true`. -/
def wr_cursor (slave : I2C_SLAVE) (reg_addr bytes m : Nat) : Nat :=
  bump (min (m - 2 - (reg_bytes slave reg_addr).length) bytes)
    (if reg_bytes slave reg_addr = [] ∨ m < 2 then slave.reg_addr else reg_addr)

/-! ## Runs of `I2C_rd` -/

/-- The calls of the receive loop of `I2C_rd` from counter `cnt`, `n`
iterations: the acknowledgment is withheld at index `bytes - 1`. -/
def rd_calls (bytes cnt n : Nat) : List Ev :=
  (List.range' cnt n).map fun i => Ev.rd8 (if i = bytes - 1 then false else true)

/-- The calls of the write phase of `I2C_rd`; empty when the phase is skipped. -/
def rd_setreg_plan (slave : I2C_SLAVE) (reg_addr : Nat) : List Ev :=
  if reg_bytes slave reg_addr = [] then []
  else [.start] ++ ([.sndAddr (addr_byte slave .I2C_WRITE)] ++ (reg_bytes slave reg_addr).map .wr8)

/-- The calls `I2C_rd` makes when none of them fails. -/
def rd_plan (slave : I2C_SLAVE) (reg_addr : Nat) (bytes : Nat) : List Ev :=
  rd_setreg_plan slave reg_addr ++
    ([.start] ++ ([.sndAddr (addr_byte slave .I2C_READ)] ++ (rd_calls bytes 0 bytes ++ [.stop])))

/-- The buffer after the values `vs` were stored from index `cnt` on
(`*data++ = TWDR`). -/
def store (data : List Nat) : Nat → List Nat → List Nat
  | _, [] => data
  | cnt, v :: vs => store (data.set cnt v) (cnt + 1) vs

/-- The cursor `I2C_rd` leaves when `m` of its calls returned `true`. -/
def rd_cursor (slave : I2C_SLAVE) (reg_addr bytes m : Nat) : Nat :=
  bump (min (m - (rd_setreg_plan slave reg_addr).length - 2) bytes)
    (if reg_bytes slave reg_addr = [] then slave.reg_addr else reg_addr)

/-! ## A mock peripheral

A test double for the registers: every command written to `TWCR` completes at
once.  Starts and data bytes are always acknowledged; the address byte is
acknowledged when `ackAddr` is set and refused otherwise.  Received bytes come
from the queue `rx`. -/

/-- Bus phase of the mock. -/
inductive MockMode
  | idle
  | started
  | tx
  | rx
  deriving DecidableEq, Repr

/-- State of the mock peripheral. -/
structure Mock where
  twcr : Nat
  twsr : Nat
  twdr : Nat
  twbr : Nat
  mode : MockMode
  ackAddr : Bool
  rx : List Nat
  clock : Nat
  deriving DecidableEq, Repr

/-- What the mock does when `v` is written to `TWCR`. -/
def Mock.command (v : Nat) (h : Mock) : Mock :=
  if v &&& (1 <<< TWINT) = 0 then { h with twcr := v }
  else if v &&& (1 <<< TWSTA) ≠ 0 then
    { h with twcr := v, mode := .started,
             twsr := (if h.mode = .idle then START else REPEATED_START) }
  else if v &&& (1 <<< TWSTO) ≠ 0 then
    { h with twcr := v ^^^ (1 <<< TWSTO), mode := .idle, twsr := 0xF8 }
  else
    match h.mode with
    | .idle => { h with twcr := v, twsr := 0xF8 }
    | .started =>
      if h.ackAddr then
        if h.twdr % 2 = 1 then { h with twcr := v, twsr := MR_SLA_ACK, mode := .rx }
        else { h with twcr := v, twsr := MT_SLA_ACK, mode := .tx }
      else
        { h with twcr := v, twsr := (if h.twdr % 2 = 1 then MR_SLA_NACK else MT_SLA_NACK) }
    | .tx => { h with twcr := v, twsr := MT_DATA_ACK }
    | .rx =>
      { h with twcr := v, twdr := h.rx.headD 0, rx := h.rx.tail,
               twsr := (if v &&& (1 <<< TWEA) ≠ 0 then MR_DATA_ACK else MR_DATA_NACK) }

/-- The mock as a `Periph`. -/
def MockP : Periph Mock where
  rdTWCR h := (h.twcr, h)
  wrTWCR v h := h.command v
  rdTWSR h := (h.twsr, h)
  wrTWSR v h := { h with twsr := v }
  rdTWDR h := (h.twdr, h)
  wrTWDR v h := { h with twdr := v }
  wrTWBR v h := { h with twbr := v }
  millis h := (h.clock, { h with clock := h.clock + 1 })
  delay ms h := { h with clock := h.clock + ms }

/-- The mock at power-up. -/
def Mock.init (ackAddr : Bool) (rx : List Nat) : Mock :=
  { twcr := 0, twsr := 0xF8, twdr := 0xFF, twbr := 0, mode := .idle, ackAddr := ackAddr,
    rx := rx, clock := 0 }

/-- No application strategies. -/
def noExt : Nat → Strategy σ := fun _ _ _ data _ w => some (false, ⟨⟨0, 0, .wr_builtin, .rd_builtin⟩, 0, .I2C_OK⟩, data, w)

/-- Register-address framing in the words of the specification: nothing when
the slave has no register map or the address is the cached cursor; otherwise the
low byte, preceded by the high byte when the width is 16 bits. -/
def framing (slave : I2C_SLAVE) (reg_addr : Nat) : List Ev :=
  if slave.cfg.reg_size = I2C_NO_REG ∨ reg_addr = slave.reg_addr then []
  else if slave.cfg.reg_size = I2C_8B_REG then [.wr8 (reg_addr % 256)]
  else [.wr8 (reg_addr / 256), .wr8 (reg_addr % 256)]

/-! ## The retry loop as a sequence of invocations -/

/-- A re-invocation as the specification words it: wait `delay(5)`, then call the
strategy again on the descriptor, buffer and driver state the previous
invocation left behind. -/
def reinvoke (P : Periph σ) (fc : Strategy σ) (reg_addr bytes : Nat) :
    Bool × I2C_SLAVE × List Nat × World σ → Option (Bool × I2C_SLAVE × List Nat × World σ)
  | (_, s, d, w) => fc s reg_addr d bytes (delay P 5 w)

/-- The outcome of invocation number `k` (counted from 0) of the strategy when
every invocation is followed by a re-invocation; `first` is the outcome of
invocation 0. -/
def invocation (P : Periph σ) (fc : Strategy σ) (reg_addr bytes : Nat)
    (first : Option (Bool × I2C_SLAVE × List Nat × World σ)) :
    Nat → Option (Bool × I2C_SLAVE × List Nat × World σ)
  | 0 => first
  | k + 1 => (invocation P fc reg_addr bytes first k).bind (reinvoke P fc reg_addr bytes)

/-! ## The refusing mock -/

/-- The log of one write attempt whose address byte `b` is refused: start,
address, the stop issued by `I2C_sndAddr`, failure. -/
def nack_attempt (b : Nat) : List Ev :=
  [.start, .ret true, .sndAddr b, .stop, .ret true, .ret false]

/-- The log of `R` retries of such an attempt, each after `delay(5)`. -/
def nack_retries (b : Nat) : Nat → List Ev
  | 0 => []
  | R + 1 => .delay 5 :: (nack_attempt b ++ nack_retries b R)

/-! ## The bus sequences in the words of the specification -/

/-- The calls that open a write transaction: start, address byte `b`, framing. -/
def write_header (b : Nat) (slave : I2C_SLAVE) (reg_addr : Nat) : List Ev :=
  [.start, .sndAddr b] ++ framing slave reg_addr

/-- The calls of a complete write transaction: the header, the data bytes in
order, stop. -/
def write_sequence (b : Nat) (slave : I2C_SLAVE) (reg_addr : Nat) (d : List Nat) : List Ev :=
  write_header b slave reg_addr ++ d.map .wr8 ++ [.stop]

/-- The calls that open a read transaction: the write phase that sets the
register address (start, address byte `bw` with the write bit, framing) when
there is framing to send; then start and the address byte `br` with the read
bit. -/
def read_header (bw br : Nat) (slave : I2C_SLAVE) (reg_addr : Nat) : List Ev :=
  (if framing slave reg_addr = [] then [] else [.start, .sndAddr bw] ++ framing slave reg_addr) ++
    [.start, .sndAddr br]

/-- The calls of a complete read transaction of `n` bytes: the header, `n - 1`
receives that acknowledge, one that does not, stop. -/
def read_sequence (bw br : Nat) (slave : I2C_SLAVE) (reg_addr : Nat) (n : Nat) : List Ev :=
  read_header bw br slave reg_addr ++ List.replicate (n - 1) (.rd8 true) ++ [.rd8 false, .stop]

/-! ## A mock that refuses one byte -/

/-- A mock whose slave refuses one transmitted byte: in state `(h, some j)` the
next `j` bytes sent in transmit mode are acknowledged and the one after is
refused (`MT_DATA_NACK`); in state `(h, none)`, and for everything else, it
behaves like `MockP`. -/
def RefuseP : Periph (Mock × Option Nat) where
  rdTWCR s := (s.1.twcr, s)
  wrTWCR v s :=
    if s.1.mode = .tx ∧ v = (1 <<< TWINT) ||| (1 <<< TWEN) then
      match s.2 with
      | some 0 => ({ s.1 with twcr := v, twsr := MT_DATA_NACK }, none)
      | some (j + 1) => (s.1.command v, some j)
      | none => (s.1.command v, none)
    else (s.1.command v, s.2)
  rdTWSR s := (s.1.twsr, s)
  wrTWSR v s := ({ s.1 with twsr := v }, s.2)
  rdTWDR s := (s.1.twdr, s)
  wrTWDR v s := ({ s.1 with twdr := v }, s.2)
  wrTWBR v s := ({ s.1 with twbr := v }, s.2)
  millis s := (s.1.clock, ({ s.1 with clock := s.1.clock + 1 }, s.2))
  delay ms s := ({ s.1 with clock := s.1.clock + ms }, s.2)

/-- The scenario of the specification's elision test: a write of `d1` to register
0x10, a write of `d2` to register 0x10, a write of `d3` to register 0x11, on the
same descriptor.  The result holds the three statuses and the logs of the second
and of the third write. -/
def elision_scenario (P : Periph σ) (F : Nat) (slave : I2C_SLAVE) (d1 d2 d3 : List Nat)
    (w : World σ) : Option (I2C_STATUS × I2C_STATUS × I2C_STATUS × List Ev × List Ev) :=
  match I2C_write P noExt F slave 0x10 d1 d1.length w with
  | none => none
  | some (st1, s1, _, w1) =>
    match I2C_write P noExt F s1 0x10 d2 d2.length w1 with
    | none => none
    | some (st2, s2, _, w2) =>
      match I2C_write P noExt F s2 0x11 d3 d3.length w2 with
      | none => none
      | some (st3, _, _, w3) =>
        some (st1, st2, st3, w2.log.drop w1.log.length, w3.log.drop w2.log.length)

/-! ## Configuration of the driver -/

/-- `clrRegBit(r, b)` on the value of an 8-bit register,
`r & (uint8_t) (~(1 << b))`. -/
def clrRegBit (v b : Nat) : Nat := v &&& (255 ^^^ ((1 <<< b) % 256))

/-- Read of the whole volatile register `TWSR`. -/
def rdTWSR (P : Periph σ) (w : World σ) : Nat × World σ :=
  ((P.rdTWSR w.hw).1 % 256, { w with hw := (P.rdTWSR w.hw).2 })

/-- Write of the volatile register `TWSR`. -/
def wrTWSR (P : Periph σ) (v : Nat) (w : World σ) : World σ :=
  { w with hw := P.wrTWSR v w.hw }

/-- Write of the volatile register `TWBR`. -/
def wrTWBR (P : Periph σ) (v : Nat) (w : World σ) : World σ :=
  { w with hw := P.wrTWBR v w.hw }

/-- The value assigned to the 8-bit register `TWBR`,
`(((F_CPU / 1000) / i2c.cfg.speed) - 16) / 2`.  `F_CPU` is the clock frequency
the build passes to the compiler, a positive `long` constant: the expression is
evaluated in signed arithmetic, the division truncates toward zero, and the
assignment keeps the low eight bits. -/
def twbr_value (F_CPU speed : Nat) : Nat :=
  ((((((F_CPU / 1000) / speed : Nat) : Int) - 16).tdiv 2) % 256).toNat

/-- `I2C_set_speed`. -/
def I2C_set_speed (P : Periph σ) (F_CPU : Nat) (speed : Nat) (w : World σ) : Nat × World σ :=
  let w := { w with cfg := { w.cfg with
    speed := (if speed = 0 then I2C_STD else if speed > I2C_FM then I2C_FM else speed) } }
  let r := rdTWCR P w
  let w := wrTWCR P (clrRegBit r.1 TWEN) r.2
  let r := rdTWSR P w
  let w := wrTWSR P (clrRegBit r.1 TWPS0) r.2
  let r := rdTWSR P w
  let w := wrTWSR P (clrRegBit r.1 TWPS1) r.2
  let w := wrTWBR P (twbr_value F_CPU w.cfg.speed) w
  let w := I2C_reset P w
  (w.cfg.speed, w)

/-- `I2C_set_timeout`, with `max_timeout = 500`. -/
def I2C_set_timeout (timeout : Nat) (w : World σ) : Nat × World σ :=
  let w := { w with cfg := { w.cfg with timeout := (if timeout > 500 then 500 else timeout) } }
  (w.cfg.timeout, w)

/-- `I2C_set_retries`, with `max_retries = 8`. -/
def I2C_set_retries (retries : Nat) (w : World σ) : Nat × World σ :=
  let w := { w with cfg := { w.cfg with retries := (if retries > 8 then 8 else retries) } }
  (w.cfg.retries, w)

/-! ## A mock that reports scripted status codes

Every command completes at once.  A command other than a stop takes the next
code of the script as the content of `TWSR` (0xF8 when the script is used up); a
stop clears `TWSTO` at once and leaves 0xF8. -/

/-- State of the scripted mock. -/
structure Script where
  twcr : Nat
  twsr : Nat
  twdr : Nat
  twbr : Nat
  script : List Nat
  clock : Nat
  deriving DecidableEq, Repr

/-- The scripted mock as a `Periph`. -/
def ScriptP : Periph Script where
  rdTWCR h := (h.twcr, h)
  wrTWCR v h :=
    if v &&& (1 <<< TWINT) = 0 then { h with twcr := v }
    else if v &&& (1 <<< TWSTO) ≠ 0 then { h with twcr := v ^^^ (1 <<< TWSTO), twsr := 0xF8 }
    else { h with twcr := v, twsr := h.script.headD 0xF8, script := h.script.tail }
  rdTWSR h := (h.twsr, h)
  wrTWSR v h := { h with twsr := v }
  rdTWDR h := (h.twdr, h)
  wrTWDR v h := { h with twdr := v }
  wrTWBR v h := { h with twbr := v }
  millis h := (h.clock, { h with clock := h.clock + 1 })
  delay ms h := { h with clock := h.clock + ms }

/-- The scripted mock at power-up, with the codes it will report. -/
def Script.init (script : List Nat) : Script :=
  { twcr := 0, twsr := 0xF8, twdr := 0xFF, twbr := 0, script := script, clock := 0 }

/-! ## A mock whose commands never complete

The completion flag `TWINT` is cleared by every write of `TWCR` and never set,
and a pending stop (`TWSTO`) is never cleared by the peripheral; `TWCR` otherwise
reads back what was written.  The millisecond clock is advanced by `step i`
(possibly 0) after the reading number `i`; `last` records the value `millis()`
returned last. -/

/-- State of the hung mock. -/
structure Hung where
  twcr : Nat
  twsr : Nat
  twdr : Nat
  twbr : Nat
  clock : Nat
  reads : Nat
  last : Nat
  step : Nat → Nat

/-- The hung mock as a `Periph`. -/
def HungP : Periph Hung where
  rdTWCR h := (h.twcr, h)
  wrTWCR v h := { h with twcr := v &&& (255 ^^^ (1 <<< TWINT)) }
  rdTWSR h := (h.twsr, h)
  wrTWSR v h := { h with twsr := v }
  rdTWDR h := (h.twdr, h)
  wrTWDR v h := { h with twdr := v }
  wrTWBR v h := { h with twbr := v }
  millis h := (h.clock, { h with clock := h.clock + h.step h.reads, reads := h.reads + 1,
                                 last := h.clock })
  delay ms h := { h with clock := h.clock + ms }

/-- The hung mock with its clock at `clock`. -/
def Hung.init (clock : Nat) (step : Nat → Nat) : Hung :=
  { twcr := 0, twsr := 0xF8, twdr := 0xFF, twbr := 0, clock := clock, reads := 0, last := clock,
    step := step }

/-- The time by which the clock of the hung mock advances over `k` readings,
from the reading number `r` on. -/
def advance (step : Nat → Nat) : Nat → Nat → Nat
  | _, 0 => 0
  | r, k + 1 => step r + advance step (r + 1) k

/-! ## A mock slave with memory

Every command completes at once and every byte is acknowledged.  After the
address byte with the write bit the slave takes the next `width` bytes as its
register pointer (high byte first) and stores every further byte at the pointer,
which then moves on by one; after the address byte with the read bit it returns
the byte at the pointer and moves the pointer on by one. -/

/-- State of the memory mock. -/
structure Mem where
  twcr : Nat
  twsr : Nat
  twdr : Nat
  twbr : Nat
  mode : MockMode
  width : Nat
  pending : Nat
  ptr : Nat
  mem : Nat → Nat
  clock : Nat

/-- What the memory mock does when `v` is written to `TWCR`. -/
def Mem.command (v : Nat) (h : Mem) : Mem :=
  if v &&& (1 <<< TWINT) = 0 then { h with twcr := v }
  else if v &&& (1 <<< TWSTA) ≠ 0 then
    { h with twcr := v, mode := .started,
             twsr := (if h.mode = .idle then START else REPEATED_START) }
  else if v &&& (1 <<< TWSTO) ≠ 0 then
    { h with twcr := v ^^^ (1 <<< TWSTO), mode := .idle, twsr := 0xF8 }
  else
    match h.mode with
    | .idle => { h with twcr := v, twsr := 0xF8 }
    | .started =>
      if h.twdr % 2 = 1 then { h with twcr := v, twsr := MR_SLA_ACK, mode := .rx }
      else { h with twcr := v, twsr := MT_SLA_ACK, mode := .tx, pending := h.width }
    | .tx =>
      if h.pending = 0 then
        { h with twcr := v, twsr := MT_DATA_ACK, ptr := h.ptr + 1,
                 mem := fun a => if a = h.ptr then h.twdr else h.mem a }
      else
        { h with twcr := v, twsr := MT_DATA_ACK, pending := h.pending - 1,
                 ptr := (if h.pending = h.width then h.twdr else h.ptr * 256 + h.twdr) }
    | .rx =>
      { h with twcr := v, twdr := h.mem h.ptr, ptr := h.ptr + 1,
               twsr := (if v &&& (1 <<< TWEA) ≠ 0 then MR_DATA_ACK else MR_DATA_NACK) }

/-- The memory mock as a `Periph`. -/
def MemP : Periph Mem where
  rdTWCR h := (h.twcr, h)
  wrTWCR v h := h.command v
  rdTWSR h := (h.twsr, h)
  wrTWSR v h := { h with twsr := v }
  rdTWDR h := (h.twdr, h)
  wrTWDR v h := { h with twdr := v }
  wrTWBR v h := { h with twbr := v }
  millis h := (h.clock, { h with clock := h.clock + 1 })
  delay ms h := { h with clock := h.clock + ms }

/-- The memory mock at power-up: a slave whose register pointer takes `width`
bytes and whose memory holds `mem`. -/
def Mem.init (width : Nat) (mem : Nat → Nat) : Mem :=
  { twcr := 0, twsr := 0xF8, twdr := 0xFF, twbr := 0, mode := .idle, width := width,
    pending := 0, ptr := 0, mem := mem, clock := 0 }

/-- The number of register-address bytes the driver sends for a descriptor. -/
def reg_width (slave : I2C_SLAVE) : Nat := if slave.cfg.reg_size ≥ I2C_16B_REG then 2 else 1

/-- The register pointer a slave of matching width holds once it has received
the register-address bytes the driver sends for `reg_addr`. -/
def reg_pointer (slave : I2C_SLAVE) (reg_addr : Nat) : Nat :=
  if slave.cfg.reg_size ≥ I2C_16B_REG then ((reg_addr >>> 8) % 256) * 256 + reg_addr % 256
  else reg_addr % 256

/-! ## The end of a failed attempt -/

/-- Bus actions among the logged events: the calls of the five primitives and
the bus reset. -/
def Ev.isAction : Ev → Bool
  | .start => true
  | .stop => true
  | .sndAddr _ => true
  | .wr8 _ => true
  | .rd8 _ => true
  | .reset => true
  | _ => false

/-- The last bus action of a log. -/
def last_action (δ : List Ev) : Option Ev := (δ.filter Ev.isAction).getLast?

/-- The log `δ` ends with a primitive `c` that returned `false`, after the
recovery `t`; a failure without recovery leaves `c` being a start or the
reception of a byte. -/
def FailTail (δ : List Ev) : Prop :=
  ∃ pre c t, δ = pre ++ (c :: t ++ [.ret false]) ∧ t ∈ Recovery ∧ c.isAction = true ∧
    (t = [] → c = .start ∨ ∃ a, c = .rd8 a)

/-- From `w` to `w1` the driver ran an attempt that ended with a failed
primitive. -/
def Fail (w w1 : World σ) : Prop := ∃ δ, Ext w w1 δ ∧ FailTail δ

/-! ## A peripheral that records its commands -/

/-- The peripheral `P` with a record of every value written to `TWCR`, in
order. -/
def Traced (P : Periph σ) : Periph (σ × List Nat) where
  rdTWCR s := ((P.rdTWCR s.1).1, ((P.rdTWCR s.1).2, s.2))
  wrTWCR v s := (P.wrTWCR v s.1, s.2 ++ [v])
  rdTWSR s := ((P.rdTWSR s.1).1, ((P.rdTWSR s.1).2, s.2))
  wrTWSR v s := (P.wrTWSR v s.1, s.2)
  rdTWDR s := ((P.rdTWDR s.1).1, ((P.rdTWDR s.1).2, s.2))
  wrTWDR v s := (P.wrTWDR v s.1, s.2)
  wrTWBR v s := (P.wrTWBR v s.1, s.2)
  millis s := ((P.millis s.1).1, ((P.millis s.1).2, s.2))
  delay ms s := (P.delay ms s.1, s.2)

/-! ## Contiguous accesses -/

/-- The driver states reachable from the initial state of the static `i2c`
structure (over any initial peripheral state) by calls, one after the other, of
the configuration setters, the bus reset, the five primitives, and `I2C_write` /
`I2C_read` on any descriptor, with any arguments and any fuel. -/
inductive Reachable (P : Periph σ) (ext : Nat → Strategy σ) : World σ → Prop
  | init (h : σ) : Reachable P ext (World.init h)
  | set_retries (x : Nat) (w : World σ) :
      Reachable P ext w → Reachable P ext (I2C_set_retries x w).2
  | set_timeout (x : Nat) (w : World σ) :
      Reachable P ext w → Reachable P ext (I2C_set_timeout x w).2
  | set_speed (F_CPU s : Nat) (w : World σ) :
      Reachable P ext w → Reachable P ext (I2C_set_speed P F_CPU s w).2
  | reset (w : World σ) : Reachable P ext w → Reachable P ext (I2C_reset P w)
  | start (F : Nat) (w : World σ) (b : Bool) (w1 : World σ) :
      Reachable P ext w → I2C_start P F w = some (b, w1) → Reachable P ext w1
  | stop (F : Nat) (w : World σ) (b : Bool) (w1 : World σ) :
      Reachable P ext w → I2C_stop P F w = some (b, w1) → Reachable P ext w1
  | wr8 (F dat : Nat) (w : World σ) (b : Bool) (w1 : World σ) :
      Reachable P ext w → I2C_wr8 P F dat w = some (b, w1) → Reachable P ext w1
  | rd8 (F : Nat) (ack : Bool) (w : World σ) (b : Bool) (w1 : World σ) :
      Reachable P ext w → I2C_rd8 P F ack w = some (b, w1) → Reachable P ext w1
  | sndAddr (F : Nat) (slave : I2C_SLAVE) (rw : I2C_RW) (w : World σ) (b : Bool) (w1 : World σ) :
      Reachable P ext w → I2C_sndAddr P F slave rw w = some (b, w1) → Reachable P ext w1
  | write (F : Nat) (slave : I2C_SLAVE) (r : Nat) (d : List Nat) (n : Nat) (w : World σ)
      (st : I2C_STATUS) (s1 : I2C_SLAVE) (d1 : List Nat) (w1 : World σ) :
      Reachable P ext w → I2C_write P ext F slave r d n w = some (st, s1, d1, w1) →
      Reachable P ext w1
  | read (F : Nat) (slave : I2C_SLAVE) (r : Nat) (d : List Nat) (n : Nat) (w : World σ)
      (st : I2C_STATUS) (s1 : I2C_SLAVE) (d1 : List Nat) (w1 : World σ) :
      Reachable P ext w → I2C_read P ext F slave r d n w = some (st, s1, d1, w1) →
      Reachable P ext w1

/-! ## A mock that needs one poll to complete

The acknowledging mock with a delay: the first reading of `TWCR` after a write
of `TWCR` shows the completion flag `TWINT` clear; later readings show what the
mock holds. -/

/-- The slow mock as a `Periph`: the state of `MockP` and whether `TWCR` was
written since it was last read. -/
def SlowP : Periph (Mock × Bool) where
  rdTWCR s := (if s.2 then s.1.twcr &&& (255 ^^^ (1 <<< TWINT)) else s.1.twcr, (s.1, false))
  wrTWCR v s := (s.1.command v, true)
  rdTWSR s := (s.1.twsr, s)
  wrTWSR v s := ({ s.1 with twsr := v }, s.2)
  rdTWDR s := (s.1.twdr, s)
  wrTWDR v s := ({ s.1 with twdr := v }, s.2)
  wrTWBR v s := ({ s.1 with twbr := v }, s.2)
  millis s := (s.1.clock, ({ s.1 with clock := s.1.clock + 1 }, s.2))
  delay ms s := ({ s.1 with clock := s.1.clock + ms }, s.2)

/-! ## The driver of version 0.2 (`src/ci2c.c`)

Version 0.2 has, statement for statement, the `I2C_reset`, `I2C_start_timeout`,
`I2C_timeout`, `I2C_start`, `I2C_stop` and `I2C_slave_set_reg_addr` of version
1.2, and its `I2C_snd8` and `I2C_rcv8` are `I2C_wr8` and `I2C_rd8` under their
former names (`I2C_rcv8` returns the same boolean expression through an
`if`/`else`).  Those are shared; the definitions below are the functions of
version 0.2 that differ. -/

/-- Enumerator `I2C_SLOW` of `I2C_SPEED` in version 0.2. -/
def V02.I2C_SLOW : Nat := 100

/-- Enumerator `I2C_LOW` of `I2C_SPEED` in version 0.2. -/
def V02.I2C_LOW : Nat := 400

/-- Enumerator `I2C_FAST` of `I2C_SPEED` in version 0.2. -/
def V02.I2C_FAST : Nat := 1000

/-- The value version 0.2 assigns to the 8-bit register `TWBR`,
`((F_CPU / (i2c.cfg.speed * 1000)) - 16) / 2`.  `i2c.cfg.speed` has the packed
enumeration type `I2C_SPEED`, 16 bits and unsigned, and `int` has 16 bits on the
target, so the product is reduced modulo 65536 before it is converted to the
`long` of `F_CPU`; the rest is evaluated in signed arithmetic, the division
truncates toward zero, and the assignment keeps the low eight bits. -/
def V02.twbr_value (F_CPU speed : Nat) : Nat :=
  (((((F_CPU / ((speed * 1000) % 65536) : Nat) : Int) - 16).tdiv 2) % 256).toNat

/-- `I2C_set_speed` of version 0.2; the result is its `bool`. -/
def V02.I2C_set_speed (P : Periph σ) (F_CPU : Nat) (speed : Nat) (w : World σ) :
    Bool × World σ :=
  let w := { w with cfg := { w.cfg with
    speed := (if speed = 0 then V02.I2C_SLOW
      else if speed > V02.I2C_FAST then V02.I2C_SLOW else speed) } }
  let r := rdTWCR P w
  let w := wrTWCR P (clrRegBit r.1 TWEN) r.2
  let r := rdTWSR P w
  let w := wrTWSR P (clrRegBit r.1 TWPS0) r.2
  let r := rdTWSR P w
  let w := wrTWSR P (clrRegBit r.1 TWPS1) r.2
  let w := wrTWBR P (V02.twbr_value F_CPU w.cfg.speed) w
  let w := I2C_reset P w
  (decide (w.cfg.speed = speed), w)

/-- `I2C_sndAddr` of version 0.2: the caller passes the address byte, which the
`uint8_t` parameter reduces to eight bits. -/
def V02.I2C_sndAddr (P : Periph σ) (F : Nat) (sl_addr : Nat) (w : World σ) :
    Option (Bool × World σ) :=
  let w := wrTWDR P (sl_addr % 256) (w.emit (.sndAddr (sl_addr % 256)))
  let w := I2C_start_timeout P w
  let w := wrTWCR P ((1 <<< TWINT) ||| (1 <<< TWEN)) w
  match wait_flag P twint_clear F w with
  | none => none
  | some (false, w) => some (false, w.emit (.ret false))
  | some (true, w) => I2C_sndAddr_status P F w

/-- The conditional block of `I2C_rd` of version 0.2,
`if (slave->cfg.reg_size) { ... }`: the register-address bytes, a repeated
start, and the address `(slave->cfg.addr << 1) | 0x01`. -/
def V02.I2C_rd_setreg (P : Periph σ) (F : Nat) (slave : I2C_SLAVE) (reg_addr : Nat)
    (w : World σ) : Option (Bool × World σ) :=
  if slave.cfg.reg_size ≠ 0 then
    match I2C_wr_reg P F slave reg_addr w with
    | none => none
    | some (false, w) => some (false, w)
    | some (true, w) =>
      match I2C_start P F w with
      | none => none
      | some (false, w) => some (false, w)
      | some (true, w) => V02.I2C_sndAddr P F (((slave.cfg.addr % 256) <<< 1) ||| 1) w
  else some (true, w)

/-- `I2C_rd` of version 0.2.  The cursor is set to `reg_addr` first; a count of
zero is incremented (`if (nb_bytes == 0) { nb_bytes++; }`); the first address
byte is `slave->cfg.addr << 1`. -/
def V02.I2C_rd (P : Periph σ) (F : Nat) : Strategy σ := fun slave reg_addr data nb_bytes w =>
  let slave := I2C_slave_set_reg_addr slave reg_addr
  let nb_bytes := if nb_bytes = 0 then (nb_bytes + 1) % 65536 else nb_bytes
  match I2C_start P F w with
  | none => none
  | some (false, w) => some (false, slave, data, w)
  | some (true, w) =>
    match V02.I2C_sndAddr P F ((slave.cfg.addr % 256) <<< 1) w with
    | none => none
    | some (false, w) => some (false, slave, data, w)
    | some (true, w) =>
      match V02.I2C_rd_setreg P F slave reg_addr w with
      | none => none
      | some (false, w) => some (false, slave, data, w)
      | some (true, w) =>
        match I2C_rd_loop P F nb_bytes nb_bytes 0 slave data w with
        | none => none
        | some (false, slave, data, w) => some (false, slave, data, w)
        | some (true, slave, data, w) =>
          match I2C_stop P F w with
          | none => none
          | some (b, w) => some (b, slave, data, w)

/-- The address byte with the write bit, `slave->cfg.addr << 1` as a `uint8_t`. -/
def V02.sla_w (slave : I2C_SLAVE) : Nat := ((slave.cfg.addr % 256) <<< 1) % 256

/-- The address byte with the read bit, `(slave->cfg.addr << 1) | 0x01` as a
`uint8_t`. -/
def V02.sla_r (slave : I2C_SLAVE) : Nat := (((slave.cfg.addr % 256) <<< 1) ||| 1) % 256

/-- The calls of the conditional block of `I2C_rd` of version 0.2; empty for a
slave without register map. -/
def V02.rd_setreg_plan (slave : I2C_SLAVE) (reg_addr : Nat) : List Ev :=
  if slave.cfg.reg_size ≠ 0 then
    (reg_seq slave reg_addr).map .wr8 ++ ([.start] ++ [.sndAddr (V02.sla_r slave)])
  else []

/-- The calls `I2C_rd` of version 0.2 makes for `n` receives when none of them
fails. -/
def V02.rd_plan (slave : I2C_SLAVE) (reg_addr : Nat) (n : Nat) : List Ev :=
  [.start] ++ ([.sndAddr (V02.sla_w slave)] ++
    (V02.rd_setreg_plan slave reg_addr ++ (rd_calls n 0 n ++ [.stop])))

/-- A receive call. -/
def Ev.isRd8 : Ev → Bool
  | .rd8 _ => true
  | _ => false

/-! ## The receives of a read in the words of the specification -/

/-- `Received P F n cnt w vs w1`: from the state `w`, the receives number
`cnt`, `cnt + 1`, ... of a read of `n` bytes were made one after the other, each
requesting the acknowledgment unless it is the last of the `n`, and each returned
`true`; `vs` lists, in order, the value of the data register `TWDR` read in the
state the receive returned, and `w1` is the state after the last of these
reads. -/
inductive Received (P : Periph σ) (F : Nat) (n : Nat) :
    Nat → World σ → List Nat → World σ → Prop
  | done (cnt : Nat) (w : World σ) : Received P F n cnt w [] w
  | step (cnt : Nat) (w w1 w2 : World σ) (vs : List Nat) :
      I2C_rd8 P F (decide (cnt + 1 < n)) w = some (true, w1) →
      Received P F n (cnt + 1) ((rdTWDR P w1).2.emit (.twdr (rdTWDR P w1).1)) vs w2 →
      Received P F n cnt w ((rdTWDR P w1).1 :: vs) w2

/-- The log of the receives number `cnt`, `cnt + 1`, ... of a read of `n`
bytes that stored the values `vs`: each receive, its `true`, then the read of
the data register. -/
def receive_log (n : Nat) : Nat → List Nat → List Ev
  | _, [] => []
  | cnt, v :: vs =>
    .rd8 (decide (cnt + 1 < n)) :: .ret true :: .twdr v :: receive_log n (cnt + 1) vs

/-- The bytes the slave of the mock delivers in `n` receives: the head of its
queue each time (0 once the queue is empty), as the 8-bit data register holds
it. -/
def delivered : List Nat → Nat → List Nat
  | _, 0 => []
  | rx, n + 1 => (rx.headD 0 % 256) :: delivered rx.tail n

/-! # Theorems -/

theorem Ext.rfl (w : World σ) : Ext w w [] := by simp [Ext]

theorem Ext.trans {w w1 w2 : World σ} {a b : List Ev} (h1 : Ext w w1 a) (h2 : Ext w1 w2 b) :
    Ext w w2 (a ++ b) := by
  obtain ⟨c1, b1, l1⟩ := h1
  obtain ⟨c2, b2, l2⟩ := h2
  exact ⟨c2.trans c1, b2.trans b1, by rw [l2, l1, List.append_assoc]⟩

theorem Ext.emit (w : World σ) (e : Ev) : Ext w (w.emit e) [e] := by simp [Ext, World.emit]

theorem Ext.wrTWCR (P : Periph σ) (v : Nat) (w : World σ) : Ext w (wrTWCR P v w) [] := by
  simp [Ext, CI2C.wrTWCR]

theorem Ext.wrTWDR (P : Periph σ) (v : Nat) (w : World σ) : Ext w (wrTWDR P v w) [] := by
  simp [Ext, CI2C.wrTWDR]

theorem Ext.rdTWCR (P : Periph σ) (w : World σ) : Ext w (rdTWCR P w).2 [] := by
  simp [Ext, CI2C.rdTWCR]

theorem Ext.rdTWDR (P : Periph σ) (w : World σ) : Ext w (rdTWDR P w).2 [] := by
  simp [Ext, CI2C.rdTWDR]

theorem Ext.status (P : Periph σ) (w : World σ) : Ext w (TWI_STATUS P w).2 [] := by
  simp [Ext, TWI_STATUS]

theorem Ext.start_timeout (P : Periph σ) (w : World σ) : Ext w (I2C_start_timeout P w) [] := by
  simp [Ext, I2C_start_timeout]

theorem Ext.timeout (P : Periph σ) (w : World σ) : Ext w (I2C_timeout P w).2 [] := by
  simp [Ext, I2C_timeout]

theorem Ext.delay (P : Periph σ) (ms : Nat) (w : World σ) : Ext w (delay P ms w) [.delay ms] := by
  simp [Ext, CI2C.delay]

theorem Ext.reset (P : Periph σ) (w : World σ) : Ext w (I2C_reset P w) [.reset] := by
  simp [Ext, I2C_reset, CI2C.wrTWCR, CI2C.rdTWCR, World.emit]

theorem wait_flag_ext (P : Periph σ) (c : Nat → Bool) (F : Nat) (w : World σ) (b : Bool)
    (w1 : World σ) (h : wait_flag P c F w = some (b, w1)) :
    Ext w w1 (if b then [] else [.reset]) := by
  induction F generalizing w with
  | zero => simp [wait_flag] at h
  | succ F ih =>
    simp only [wait_flag] at h
    split at h
    · split at h
      · simp only [Option.some.injEq, Prod.mk.injEq] at h
        obtain ⟨rfl, rfl⟩ := h
        simpa using ((Ext.rdTWCR P w).trans (Ext.timeout P _)).trans (Ext.reset P _)
      · have := ((Ext.rdTWCR P w).trans (Ext.timeout P _)).trans (ih _ h)
        simpa using this
    · simp only [Option.some.injEq, Prod.mk.injEq] at h
      obtain ⟨rfl, rfl⟩ := h
      simpa using Ext.rdTWCR P w

theorem I2C_stop_ext (P : Periph σ) (F : Nat) (w : World σ) (b : Bool) (w1 : World σ)
    (h : I2C_stop P F w = some (b, w1)) :
    Ext w w1 (.stop :: (if b then [] else [.reset]) ++ [.ret b]) := by
  unfold I2C_stop at h
  simp only at h
  split at h
  · simp at h
  · next w2 hw =>
    have e := wait_flag_ext P _ F _ _ _ hw
    simp only [Option.some.injEq, Prod.mk.injEq] at h
    obtain ⟨rfl, rfl⟩ := h
    simp_all [Ext, World.emit, CI2C.wrTWCR, I2C_start_timeout]
  · next w2 hw =>
    have e := wait_flag_ext P _ F _ _ _ hw
    simp only [Option.some.injEq, Prod.mk.injEq] at h
    obtain ⟨rfl, rfl⟩ := h
    simp_all [Ext, World.emit, CI2C.wrTWCR, I2C_start_timeout]

theorem I2C_stop_prim (P : Periph σ) (F : Nat) (w : World σ) (b : Bool) (w1 : World σ)
    (h : I2C_stop P F w = some (b, w1)) : Prim .stop b w w1 := by
  have e := I2C_stop_ext P F w b w1 h
  cases b
  · exact ⟨[.reset], by simp [Recovery], by simp, by simpa using e⟩
  · exact ⟨[], by simp [Recovery], by simp, by simpa using e⟩

theorem I2C_start_prim (P : Periph σ) (F : Nat) (w : World σ) (b : Bool) (w1 : World σ)
    (h : I2C_start P F w = some (b, w1)) : Prim .start b w w1 := by
  unfold I2C_start at h
  simp only at h
  split at h
  · simp at h
  · next w2 hw =>
    have e := wait_flag_ext P _ F _ _ _ hw
    simp only [Option.some.injEq, Prod.mk.injEq] at h
    obtain ⟨rfl, rfl⟩ := h
    refine ⟨[.reset], by simp [Recovery], by simp, ?_⟩
    simp_all [Ext, World.emit, CI2C.wrTWCR, I2C_start_timeout]
  · next w2 hw =>
    have e := wait_flag_ext P _ F _ _ _ hw
    split_ifs at h <;> simp only [Option.some.injEq, Prod.mk.injEq] at h <;>
      obtain ⟨rfl, rfl⟩ := h
    · refine ⟨[], by simp [Recovery], by simp, ?_⟩
      simp_all [Ext, World.emit, CI2C.wrTWCR, I2C_start_timeout, TWI_STATUS]
    · refine ⟨[], by simp [Recovery], by simp, ?_⟩
      simp_all [Ext, World.emit, CI2C.wrTWCR, I2C_start_timeout, TWI_STATUS]
    · refine ⟨[.reset], by simp [Recovery], by simp, ?_⟩
      simp_all [Ext, World.emit, CI2C.wrTWCR, I2C_start_timeout, TWI_STATUS, I2C_reset,
        CI2C.rdTWCR]
    · refine ⟨[], by simp [Recovery], by simp, ?_⟩
      simp_all [Ext, World.emit, CI2C.wrTWCR, I2C_start_timeout, TWI_STATUS]

theorem I2C_rd8_prim (P : Periph σ) (F : Nat) (ack : Bool) (w : World σ) (b : Bool)
    (w1 : World σ) (h : I2C_rd8 P F ack w = some (b, w1)) : Prim (.rd8 ack) b w w1 := by
  unfold I2C_rd8 at h
  simp only at h
  split at h
  · simp at h
  · next w2 hw =>
    have e := wait_flag_ext P _ F _ _ _ hw
    simp only [Option.some.injEq, Prod.mk.injEq] at h
    obtain ⟨rfl, rfl⟩ := h
    refine ⟨[.reset], by simp [Recovery], by simp, ?_⟩
    cases ack <;> simp_all [Ext, World.emit, CI2C.wrTWCR, I2C_start_timeout]
  · next w2 hw =>
    have e := wait_flag_ext P _ F _ _ _ hw
    split_ifs at h <;> simp only [Option.some.injEq, Prod.mk.injEq] at h <;>
      obtain ⟨rfl, rfl⟩ := h
    · refine ⟨[.reset], by simp [Recovery], by simp, ?_⟩
      cases ack <;> simp_all [Ext, World.emit, CI2C.wrTWCR, I2C_start_timeout, TWI_STATUS,
        I2C_reset, CI2C.rdTWCR]
    · refine ⟨[], by simp [Recovery], by simp, ?_⟩
      cases ack <;> simp_all [Ext, World.emit, CI2C.wrTWCR, I2C_start_timeout, TWI_STATUS]
    · refine ⟨[], by simp [Recovery], by simp, ?_⟩
      cases ack <;> simp_all [Ext, World.emit, CI2C.wrTWCR, I2C_start_timeout, TWI_STATUS]
    · refine ⟨[], by simp [Recovery], by simp, ?_⟩
      cases ack <;> simp_all [Ext, World.emit, CI2C.wrTWCR, I2C_start_timeout, TWI_STATUS]

theorem nested_stop_recovery (P : Periph σ) (F : Nat) (w : World σ) (b : Bool) (w1 : World σ)
    (h : I2C_stop P F w = some (b, w1)) :
    ∃ t, t ∈ Recovery ∧ t ≠ [] ∧ Ext w (w1.emit (.ret false)) (t ++ [.ret false]) := by
  have e := I2C_stop_ext P F w b w1 h
  cases b
  · exact ⟨[.stop, .reset, .ret false], by simp [Recovery], by simp,
      by simpa using e.trans (Ext.emit _ _)⟩
  · exact ⟨[.stop, .ret true], by simp [Recovery], by simp, by simpa using e.trans (Ext.emit _ _)⟩

theorem I2C_wr8_status_ext (P : Periph σ) (F : Nat) (w : World σ) (b : Bool) (w1 : World σ)
    (h : I2C_wr8_status P F w = some (b, w1)) :
    ∃ t, t ∈ Recovery ∧ (b = true → t = []) ∧ Ext w w1 (t ++ [.ret b]) := by
  unfold I2C_wr8_status at h
  simp only at h
  split_ifs at h
  · simp only [Option.some.injEq, Prod.mk.injEq] at h
    obtain ⟨rfl, rfl⟩ := h
    exact ⟨[], by simp [Recovery], by simp, by simp [Ext, World.emit, TWI_STATUS]⟩
  · split at h
    · simp at h
    · next b2 w2 hs =>
      simp only [Option.some.injEq, Prod.mk.injEq] at h
      obtain ⟨rfl, rfl⟩ := h
      obtain ⟨t, ht, _, e⟩ := nested_stop_recovery P F _ _ _ hs
      exact ⟨t, ht, by simp, by simpa using ((Ext.status P w).trans (Ext.status P _)).trans e⟩
  · simp only [Option.some.injEq, Prod.mk.injEq] at h
    obtain ⟨rfl, rfl⟩ := h
    exact ⟨[.reset], by simp [Recovery], by simp,
      by simp [Ext, World.emit, TWI_STATUS, I2C_reset, CI2C.wrTWCR, CI2C.rdTWCR]⟩

theorem I2C_wr8_prim (P : Periph σ) (F : Nat) (dat : Nat) (w : World σ) (b : Bool)
    (w1 : World σ) (h : I2C_wr8 P F dat w = some (b, w1)) : Prim (.wr8 dat) b w w1 := by
  unfold I2C_wr8 at h
  simp only at h
  split at h
  · simp at h
  · next w2 hw =>
    have e := wait_flag_ext P _ F _ _ _ hw
    simp only [Option.some.injEq, Prod.mk.injEq] at h
    obtain ⟨rfl, rfl⟩ := h
    refine ⟨[.reset], by simp [Recovery], by simp, ?_⟩
    simp_all [Ext, World.emit, CI2C.wrTWCR, CI2C.wrTWDR, I2C_start_timeout]
  · next w2 hw =>
    have e := wait_flag_ext P _ F _ _ _ hw
    obtain ⟨t, ht, hb, e2⟩ := I2C_wr8_status_ext P F _ _ _ h
    refine ⟨t, ht, hb, ?_⟩
    simp_all [Ext, World.emit, CI2C.wrTWCR, CI2C.wrTWDR, I2C_start_timeout]

theorem I2C_sndAddr_status_ext (P : Periph σ) (F : Nat) (w : World σ) (b : Bool)
    (w1 : World σ) (h : I2C_sndAddr_status P F w = some (b, w1)) :
    ∃ t, t ∈ Recovery ∧ (b = true → t = []) ∧ Ext w w1 (t ++ [.ret b]) := by
  unfold I2C_sndAddr_status at h
  simp only at h
  split_ifs at h
  · simp only [Option.some.injEq, Prod.mk.injEq] at h
    obtain ⟨rfl, rfl⟩ := h
    exact ⟨[], by simp [Recovery], by simp, by simp [Ext, World.emit, TWI_STATUS]⟩
  · simp only [Option.some.injEq, Prod.mk.injEq] at h
    obtain ⟨rfl, rfl⟩ := h
    exact ⟨[], by simp [Recovery], by simp, by simp [Ext, World.emit, TWI_STATUS]⟩
  · split at h
    · simp at h
    · next b2 w2 hs =>
      simp only [Option.some.injEq, Prod.mk.injEq] at h
      obtain ⟨rfl, rfl⟩ := h
      obtain ⟨t, ht, _, e⟩ := nested_stop_recovery P F _ _ _ hs
      exact ⟨t, ht, by simp,
        by simpa using (((Ext.status P w).trans (Ext.status P _)).trans (Ext.status P _)).trans e⟩
  · split at h
    · simp at h
    · next b2 w2 hs =>
      simp only [Option.some.injEq, Prod.mk.injEq] at h
      obtain ⟨rfl, rfl⟩ := h
      obtain ⟨t, ht, _, e⟩ := nested_stop_recovery P F _ _ _ hs
      exact ⟨t, ht, by simp,
        by simpa using ((((Ext.status P w).trans (Ext.status P _)).trans
          (Ext.status P _)).trans (Ext.status P _)).trans e⟩
  · simp only [Option.some.injEq, Prod.mk.injEq] at h
    obtain ⟨rfl, rfl⟩ := h
    exact ⟨[.reset], by simp [Recovery], by simp,
      by simp [Ext, World.emit, TWI_STATUS, I2C_reset, CI2C.wrTWCR, CI2C.rdTWCR]⟩

theorem I2C_sndAddr_prim (P : Periph σ) (F : Nat) (slave : I2C_SLAVE) (rw : I2C_RW)
    (w : World σ) (b : Bool) (w1 : World σ) (h : I2C_sndAddr P F slave rw w = some (b, w1)) :
    Prim (.sndAddr (addr_byte slave rw)) b w w1 := by
  unfold I2C_sndAddr at h
  simp only at h
  split at h
  · simp at h
  · next w2 hw =>
    have e := wait_flag_ext P _ F _ _ _ hw
    simp only [Option.some.injEq, Prod.mk.injEq] at h
    obtain ⟨rfl, rfl⟩ := h
    refine ⟨[.reset], by simp [Recovery], by simp, ?_⟩
    simp_all [Ext, World.emit, CI2C.wrTWCR, CI2C.wrTWDR, I2C_start_timeout]
  · next w2 hw =>
    have e := wait_flag_ext P _ F _ _ _ hw
    obtain ⟨t, ht, hb, e2⟩ := I2C_sndAddr_status_ext P F _ _ _ h
    refine ⟨t, ht, hb, ?_⟩
    simp_all [Ext, World.emit, CI2C.wrTWCR, CI2C.wrTWDR, I2C_start_timeout]

theorem acked_append (a b : List Ev) : acked (a ++ b) = acked a ++ acked b := by
  induction a with
  | nil => rfl
  | cons c a ih => simp [acked, ih]

theorem RunLog.le {plan : List Ev} {m : Nat} {δ : List Ev} (h : RunLog plan m δ) :
    m ≤ plan.length := by
  induction h with
  | done => simp
  | ok c plan m δ _ ih => simpa using ih
  | fail c plan t _ => simp

theorem RunLog.all (plan : List Ev) : RunLog plan plan.length (acked plan) := by
  induction plan with
  | nil => exact RunLog.done
  | cons c plan ih => exact RunLog.ok c plan _ _ ih

theorem RunLog.extend {p : List Ev} {m : Nat} {δ : List Ev} (h : RunLog p m δ) (q : List Ev)
    (hm : m < p.length) : RunLog (p ++ q) m δ := by
  induction h with
  | done => simp at hm
  | ok c plan m δ _ ih =>
    have : m < plan.length := by simpa using hm
    exact RunLog.ok c _ m δ (ih this)
  | fail c plan t ht => exact RunLog.fail c _ t ht

theorem RunLog.after (p : List Ev) {q : List Ev} {m : Nat} {δ : List Ev} (h : RunLog q m δ) :
    RunLog (p ++ q) (p.length + m) (acked p ++ δ) := by
  induction p with
  | nil => simpa [acked] using h
  | cons c p ih =>
    have := RunLog.ok c _ _ _ ih
    simpa [acked, Nat.add_right_comm] using this

theorem recovery_head (t : List Ev) (ht : t ∈ Recovery) (l : List Ev) :
    t ++ [Ev.ret false] ≠ Ev.ret true :: l := by
  simp only [Recovery, List.mem_cons, List.mem_singleton, List.not_mem_nil, or_false] at ht
  rcases ht with rfl | rfl | rfl | rfl <;> simp

theorem RunLog.cons_inv {c : Ev} {plan : List Ev} {m : Nat} {δ : List Ev}
    (h : RunLog (c :: plan) m δ) :
    (∃ m1 δ1, m = m1 + 1 ∧ δ = c :: .ret true :: δ1 ∧ RunLog plan m1 δ1) ∨
    (m = 0 ∧ ∃ t, t ∈ Recovery ∧ δ = c :: t ++ [.ret false]) := by
  generalize hp : c :: plan = p at h
  cases h with
  | done => simp at hp
  | ok c1 plan1 m1 δ1 h1 =>
    simp only [List.cons.injEq] at hp
    obtain ⟨rfl, rfl⟩ := hp
    exact Or.inl ⟨m1, δ1, rfl, rfl, h1⟩
  | fail c1 plan1 t ht =>
    simp only [List.cons.injEq] at hp
    obtain ⟨rfl, rfl⟩ := hp
    exact Or.inr ⟨rfl, t, ht, rfl⟩

theorem RunLog.unique {plan : List Ev} {m m1 : Nat} {δ : List Ev} (h : RunLog plan m δ)
    (h1 : RunLog plan m1 δ) : m = m1 := by
  induction h generalizing m1 with
  | done =>
    generalize hp : ([] : List Ev) = p at h1
    cases h1 with
    | done => rfl
    | ok => simp at hp
    | fail => simp at hp
  | ok c plan m δ _ ih =>
    rcases h1.cons_inv with ⟨m2, δ2, rfl, hδ, h2⟩ | ⟨_, t, ht, hδ⟩
    · simp only [List.cons.injEq, true_and] at hδ
      subst hδ
      rw [ih h2]
    · simp only [List.cons_append, List.cons.injEq, true_and] at hδ
      exact absurd hδ.symm (recovery_head t ht δ)
  | fail c plan t ht =>
    rcases h1.cons_inv with ⟨m2, δ2, rfl, hδ, h2⟩ | ⟨h0, _⟩
    · simp only [List.cons_append, List.cons.injEq, true_and] at hδ
      exact absurd hδ (recovery_head t ht δ2)
    · exact h0.symm

theorem RunLog.full {plan : List Ev} {m : Nat} {δ : List Ev} (h : RunLog plan m δ)
    (hm : m = plan.length) : δ = acked plan := by
  induction h with
  | done => rfl
  | ok c plan m δ _ ih =>
    have : m = plan.length := by simpa using hm
    simp [acked, ih this]
  | fail c plan t _ => simp at hm

theorem RunLog.failed {plan : List Ev} {m : Nat} {δ : List Ev} (h : RunLog plan m δ)
    (hm : m < plan.length) :
    ∃ c t, plan[m]? = some c ∧ t ∈ Recovery ∧ δ = acked (plan.take m) ++ c :: t ++ [.ret false] := by
  induction h with
  | done => simp at hm
  | ok c plan m δ _ ih =>
    have : m < plan.length := by simpa using hm
    obtain ⟨c1, t, h1, h2, h3⟩ := ih this
    exact ⟨c1, t, by simpa using h1, h2, by simp [acked, h3]⟩
  | fail c plan t ht => exact ⟨c, t, by simp, ht, by simp [acked]⟩

theorem RunLog.of_failed (plan : List Ev) (m : Nat) (c : Ev) (t : List Ev)
    (hc : plan[m]? = some c) (ht : t ∈ Recovery) :
    RunLog plan m (acked (plan.take m) ++ c :: t ++ [.ret false]) := by
  induction plan generalizing m with
  | nil => simp at hc
  | cons c1 plan ih =>
    cases m with
    | zero =>
      simp only [List.getElem?_cons_zero, Option.some.injEq] at hc
      subst hc
      simpa [acked] using RunLog.fail c1 plan t ht
    | succ m =>
      have hc1 : plan[m]? = some c := by simpa using hc
      simpa [acked] using RunLog.ok c1 plan m _ (ih m hc1)

theorem calls_append (a b : List Ev) : calls (a ++ b) = calls a ++ calls b := by
  simp [calls]

theorem values_append (a b : List Ev) : values (a ++ b) = values a ++ values b := by
  simp [values]

theorem calls_of_values_nil (δ : List Ev) (h : values δ = []) : calls δ = δ := by
  induction δ with
  | nil => rfl
  | cons e δ ih =>
    cases e <;> simp_all [values, calls, Ev.isData, List.filterMap_cons]

theorem recovery_calls (t : List Ev) (ht : t ∈ Recovery) : calls t = t ∧ values t = [] := by
  simp only [Recovery, List.mem_cons, List.mem_singleton, List.not_mem_nil, or_false] at ht
  rcases ht with rfl | rfl | rfl | rfl <;> simp [calls, values, Ev.isData]

theorem Run.nil (w : World σ) : Run [] w w true 0 [] :=
  ⟨[], Ext.rfl w, RunLog.done, rfl, by simp⟩

theorem Run.prim_fail {c : Ev} {w w1 : World σ} (h : Prim c false w w1)
    (hc : c.isData = false) : Run [c] w w1 false 0 [] := by
  obtain ⟨t, ht, _, e⟩ := h
  obtain ⟨h1, h2⟩ := recovery_calls t ht
  refine ⟨_, e, ?_, ?_, by simp⟩
  · have : calls (c :: t ++ [Ev.ret false]) = c :: t ++ [Ev.ret false] := by
      rw [List.cons_append, ← List.singleton_append, calls_append, calls_append, h1]
      cases c <;> simp_all [calls, Ev.isData]
    rw [this]
    exact RunLog.fail c [] t ht
  · rw [List.cons_append, ← List.singleton_append, values_append, values_append, h2]
    cases c <;> simp_all [values, Ev.isData]

theorem Run.prim_ok {c : Ev} {w w1 : World σ} (h : Prim c true w w1)
    (hc : c.isData = false) : Run [c] w w1 true 1 [] := by
  obtain ⟨t, ht, hb, e⟩ := h
  have := hb rfl
  subst this
  refine ⟨_, e, ?_, ?_, by simp⟩
  · have : calls (c :: [] ++ [Ev.ret true]) = [c, Ev.ret true] := by
      cases c <;> simp_all [calls, Ev.isData]
    rw [this]
    exact RunLog.ok c [] 0 [] RunLog.done
  · cases c <;> simp_all [values, Ev.isData]

theorem Run.seq {p q : List Ev} {w w1 w2 : World σ} {ok : Bool} {m1 m2 : Nat}
    {v1 v2 : List Nat} (h1 : Run p w w1 true m1 v1) (h2 : Run q w1 w2 ok m2 v2) :
    Run (p ++ q) w w2 ok (p.length + m2) (v1 ++ v2) := by
  obtain ⟨δ1, e1, r1, u1, o1⟩ := h1
  obtain ⟨δ2, e2, r2, u2, o2⟩ := h2
  have hm := o1.1 rfl
  have := r1.full hm
  refine ⟨_, e1.trans e2, ?_, by rw [values_append, u1, u2], by simp [o2]⟩
  rw [calls_append, this]
  exact RunLog.after p r2

theorem Run.lt {p : List Ev} {w w1 : World σ} {m : Nat} {vs : List Nat}
    (h : Run p w w1 false m vs) : m < p.length := by
  obtain ⟨δ, e, r, _, o⟩ := h
  exact lt_of_le_of_ne r.le (fun hh => by simpa using o.2 hh)

theorem Run.eq {p : List Ev} {w w1 : World σ} {m : Nat} {vs : List Nat}
    (h : Run p w w1 true m vs) : m = p.length := by
  obtain ⟨δ, e, r, _, o⟩ := h
  exact o.1 rfl

theorem Run.abort {p : List Ev} {w w1 : World σ} {m : Nat} {vs : List Nat}
    (h : Run p w w1 false m vs) (q : List Ev) : Run (p ++ q) w w1 false m vs := by
  have hlt := h.lt
  obtain ⟨δ, e, r, u, o⟩ := h
  exact ⟨δ, e, r.extend q hlt, u, by
    constructor
    · intro hh; cases hh
    · intro hh; simp at hh; omega⟩

theorem bump_zero (c : Nat) : bump 0 c = c := rfl

theorem bump_succ (j c : Nat) : bump (j + 1) c = bump j ((c + 1) % 65536) := by
  simp [bump, Function.iterate_succ_apply]

theorem bump_eq (j c : Nat) (hc : c < 65536) : bump j c = (c + j) % 65536 := by
  induction j generalizing c with
  | zero => simp [bump_zero, Nat.mod_eq_of_lt hc]
  | succ j ih =>
    rw [bump_succ, ih _ (Nat.mod_lt _ (by norm_num))]
    omega

theorem data_calls_length (data : List Nat) (cnt n : Nat) :
    (data_calls data cnt n).length = n := by simp [data_calls]

theorem data_calls_succ (data : List Nat) (cnt n : Nat) :
    data_calls data cnt (n + 1) = [Ev.wr8 (data.getD cnt 0)] ++ data_calls data (cnt + 1) n := by
  simp [data_calls, List.range'_succ]

theorem I2C_wr_reg_run (P : Periph σ) (F : Nat) (slave : I2C_SLAVE) (reg_addr : Nat)
    (w : World σ) (b : Bool) (w1 : World σ)
    (h : I2C_wr_reg P F slave reg_addr w = some (b, w1)) :
    ∃ m, Run ((reg_seq slave reg_addr).map .wr8) w w1 b m [] := by
  unfold I2C_wr_reg at h
  unfold reg_seq
  split_ifs at h ⊢ with h16
  · cases hs : I2C_wr8 P F ((reg_addr >>> 8) % 256) w with
    | none => rw [hs] at h; simp at h
    | some x =>
      obtain ⟨b2, w2⟩ := x
      have p1 := I2C_wr8_prim P F _ _ _ _ hs
      rw [hs] at h
      cases b2
      · simp only [Option.some.injEq, Prod.mk.injEq] at h
        obtain ⟨rfl, rfl⟩ := h
        exact ⟨_, (Run.prim_fail p1 rfl).abort [Ev.wr8 (reg_addr % 256)]⟩
      · simp only at h
        have p2 := I2C_wr8_prim P F _ _ _ _ h
        cases b
        · exact ⟨_, (Run.prim_ok p1 rfl).seq (Run.prim_fail p2 rfl)⟩
        · exact ⟨_, (Run.prim_ok p1 rfl).seq (Run.prim_ok p2 rfl)⟩
  · have p2 := I2C_wr8_prim P F _ _ _ _ h
    cases b
    · exact ⟨_, Run.prim_fail p2 rfl⟩
    · exact ⟨_, Run.prim_ok p2 rfl⟩

theorem I2C_wr_loop_run (P : Periph σ) (F : Nat) (data : List Nat) (n cnt : Nat)
    (slave : I2C_SLAVE) (w : World σ) (ok : Bool) (slave1 : I2C_SLAVE) (w1 : World σ)
    (h : I2C_wr_loop P F data n cnt slave w = some (ok, slave1, w1)) :
    ∃ j, Run (data_calls data cnt n) w w1 ok j [] ∧
      slave1 = { slave with reg_addr := bump j slave.reg_addr } := by
  induction n generalizing cnt slave w with
  | zero =>
    simp only [I2C_wr_loop, Option.some.injEq, Prod.mk.injEq] at h
    obtain ⟨rfl, rfl, rfl⟩ := h
    exact ⟨0, by simpa [data_calls] using Run.nil w, by simp [bump_zero]⟩
  | succ n ih =>
    rw [I2C_wr_loop] at h
    cases hs : I2C_wr8 P F (data.getD cnt 0) w with
    | none => rw [hs] at h; simp at h
    | some x =>
      obtain ⟨b2, w2⟩ := x
      have p1 := I2C_wr8_prim P F _ _ _ _ hs
      rw [hs] at h
      cases b2
      · simp only [Option.some.injEq, Prod.mk.injEq] at h
        obtain ⟨rfl, rfl, rfl⟩ := h
        refine ⟨0, ?_, by simp [bump_zero]⟩
        rw [data_calls_succ]
        exact (Run.prim_fail p1 rfl).abort _
      · simp only at h
        obtain ⟨j, r2, hsl⟩ := ih _ _ _ h
        refine ⟨1 + j, ?_, ?_⟩
        · rw [data_calls_succ]
          exact (Run.prim_ok p1 rfl).seq r2
        · rw [hsl, Nat.add_comm 1 j, bump_succ]

theorem reg_bytes_length_le (slave : I2C_SLAVE) (reg_addr : Nat) :
    (reg_bytes slave reg_addr).length ≤ 2 := by
  unfold reg_bytes reg_seq
  split_ifs <;> simp

theorem wr_plan_length (slave : I2C_SLAVE) (reg_addr : Nat) (data : List Nat) (bytes : Nat) :
    (wr_plan slave reg_addr data bytes).length =
      2 + (reg_bytes slave reg_addr).length + bytes + 1 := by
  simp [wr_plan, data_calls_length]
  omega

theorem I2C_wr_setreg_run (P : Periph σ) (F : Nat) (slave : I2C_SLAVE) (reg_addr : Nat)
    (w : World σ) (b : Bool) (slave1 : I2C_SLAVE) (w1 : World σ)
    (h : I2C_wr_setreg P F slave reg_addr w = some (b, slave1, w1)) :
    ∃ k, Run ((reg_bytes slave reg_addr).map .wr8) w w1 b k [] ∧
      slave1 = { slave with
        reg_addr := (if reg_bytes slave reg_addr = [] then slave.reg_addr else reg_addr) } := by
  unfold I2C_wr_setreg at h
  by_cases hc : slave.cfg.reg_size ≠ 0 ∧ reg_addr ≠ slave.reg_addr
  · rw [if_pos hc] at h
    cases h3 : I2C_wr_reg P F (I2C_slave_set_reg_addr slave reg_addr) reg_addr w with
    | none => rw [h3] at h; simp at h
    | some x3 =>
      obtain ⟨b3, w4⟩ := x3
      obtain ⟨k, rk⟩ := I2C_wr_reg_run P F _ _ _ _ _ h3
      rw [h3] at h
      simp only [Option.some.injEq, Prod.mk.injEq] at h
      obtain ⟨rfl, rfl, rfl⟩ := h
      have he : reg_bytes slave reg_addr =
          reg_seq (I2C_slave_set_reg_addr slave reg_addr) reg_addr := by
        simp [reg_bytes, hc, reg_seq, I2C_slave_set_reg_addr]
      have hne : reg_bytes slave reg_addr ≠ [] := by
        rw [he]; unfold reg_seq; split_ifs <;> simp
      refine ⟨k, ?_, by simp [I2C_slave_set_reg_addr, hne]⟩
      rw [he]
      exact rk
  · rw [if_neg hc] at h
    simp only [Option.some.injEq, Prod.mk.injEq] at h
    obtain ⟨rfl, rfl, rfl⟩ := h
    have he : reg_bytes slave reg_addr = [] := by simp only [reg_bytes, if_neg hc]
    exact ⟨0, by simpa [he] using Run.nil w, by simp [he]⟩

theorem wr_cursor_eq (slave : I2C_SLAVE) (reg_addr bytes m j : Nat)
    (hm : 2 ≤ m ∨ reg_bytes slave reg_addr = [])
    (hj : min (m - 2 - (reg_bytes slave reg_addr).length) bytes = j) :
    wr_cursor slave reg_addr bytes m =
      bump j (if reg_bytes slave reg_addr = [] then slave.reg_addr else reg_addr) := by
  unfold wr_cursor
  rw [hj]
  by_cases he : reg_bytes slave reg_addr = []
  · simp [he]
  · have : ¬ m < 2 := by
      rcases hm with hm | hm
      · omega
      · exact absurd hm he
    simp [he, this]

/-- Every returning run of `I2C_wr` with `bytes ≠ 0` is a run through `wr_plan`
that stops at the first failing call; the buffer is untouched and only the cursor
of the descriptor changes. -/
theorem I2C_wr_run (P : Periph σ) (F : Nat) (slave : I2C_SLAVE) (reg_addr : Nat)
    (data : List Nat) (bytes : Nat) (w : World σ) (ok : Bool) (slave1 : I2C_SLAVE)
    (data1 : List Nat) (w1 : World σ) (hb : bytes ≠ 0)
    (h : I2C_wr P F slave reg_addr data bytes w = some (ok, slave1, data1, w1)) :
    ∃ m, Run (wr_plan slave reg_addr data bytes) w w1 ok m [] ∧ data1 = data ∧
      slave1 = { slave with reg_addr := wr_cursor slave reg_addr bytes m } := by
  unfold I2C_wr at h
  simp only [hb, if_false] at h
  cases h1 : I2C_start P F w with
  | none => rw [h1] at h; simp at h
  | some x1 =>
  obtain ⟨b1, w2⟩ := x1
  have p1 := I2C_start_prim P F _ _ _ h1
  rw [h1] at h
  cases b1
  · simp only [Option.some.injEq, Prod.mk.injEq] at h
    obtain ⟨rfl, rfl, rfl, rfl⟩ := h
    exact ⟨0, (Run.prim_fail p1 rfl).abort _, rfl, by simp [wr_cursor, bump_zero]⟩
  simp only at h
  have r1 := Run.prim_ok p1 rfl
  cases h2 : I2C_sndAddr P F slave .I2C_WRITE w2 with
  | none => rw [h2] at h; simp at h
  | some x2 =>
  obtain ⟨b2, w3⟩ := x2
  have p2 := I2C_sndAddr_prim P F _ _ _ _ _ h2
  rw [h2] at h
  cases b2
  · simp only [Option.some.injEq, Prod.mk.injEq] at h
    obtain ⟨rfl, rfl, rfl, rfl⟩ := h
    exact ⟨_, r1.seq ((Run.prim_fail p2 rfl).abort _), rfl, by simp [wr_cursor, bump_zero]⟩
  simp only at h
  have r2 := Run.prim_ok p2 rfl
  cases h3 : I2C_wr_setreg P F slave reg_addr w3 with
  | none => rw [h3] at h; simp at h
  | some x3 =>
  obtain ⟨b3, slave3, w4⟩ := x3
  obtain ⟨k, r3, hs3⟩ := I2C_wr_setreg_run P F _ _ _ _ _ _ h3
  rw [h3] at h
  cases b3
  · simp only [Option.some.injEq, Prod.mk.injEq] at h
    obtain ⟨rfl, rfl, rfl, rfl⟩ := h
    have hk := r3.lt
    simp only [List.length_map] at hk
    refine ⟨_, r1.seq (r2.seq (r3.abort _)), rfl, ?_⟩
    rw [hs3, wr_cursor_eq _ _ _ _ 0 (by simp only [List.length_singleton]; omega)
      (by simp only [List.length_singleton]; omega), bump_zero]
  simp only at h
  have hk := r3.eq
  simp only [List.length_map] at hk
  cases h4 : I2C_wr_loop P F data bytes 0 slave3 w4 with
  | none => rw [h4] at h; simp at h
  | some x4 =>
  obtain ⟨b4, slave4, w5⟩ := x4
  obtain ⟨j, r4, hs4⟩ := I2C_wr_loop_run P F _ _ _ _ _ _ _ _ h4
  rw [h4] at h
  cases b4
  · simp only [Option.some.injEq, Prod.mk.injEq] at h
    obtain ⟨rfl, rfl, rfl, rfl⟩ := h
    have hj := r4.lt
    rw [data_calls_length] at hj
    refine ⟨_, r1.seq (r2.seq (r3.seq (r4.abort [Ev.stop]))), rfl, ?_⟩
    rw [hs4, hs3, wr_cursor_eq _ _ _ _ j
      (by simp only [List.length_singleton, List.length_map]; omega)
      (by simp only [List.length_singleton, List.length_map]; omega)]
  simp only at h
  have hj := r4.eq
  rw [data_calls_length] at hj
  cases h5 : I2C_stop P F w5 with
  | none => rw [h5] at h; simp at h
  | some x5 =>
  obtain ⟨b5, w6⟩ := x5
  have p5 := I2C_stop_prim P F _ _ _ h5
  rw [h5] at h
  simp only [Option.some.injEq, Prod.mk.injEq] at h
  obtain ⟨rfl, rfl, rfl, rfl⟩ := h
  cases b5
  · refine ⟨_, r1.seq (r2.seq (r3.seq (r4.seq (Run.prim_fail p5 rfl)))), rfl, ?_⟩
    rw [hs4, hs3, wr_cursor_eq _ _ _ _ j
      (by simp only [List.length_singleton, List.length_map]; omega)
      (by simp only [List.length_singleton, List.length_map, data_calls_length]; omega)]
  · refine ⟨_, r1.seq (r2.seq (r3.seq (r4.seq (Run.prim_ok p5 rfl)))), rfl, ?_⟩
    rw [hs4, hs3, wr_cursor_eq _ _ _ _ j
      (by simp only [List.length_singleton, List.length_map]; omega)
      (by simp only [List.length_singleton, List.length_map, data_calls_length]; omega)]

theorem rd_calls_length (bytes cnt n : Nat) : (rd_calls bytes cnt n).length = n := by
  simp [rd_calls]

theorem rd_calls_succ (bytes cnt n : Nat) :
    rd_calls bytes cnt (n + 1) =
      [Ev.rd8 (if cnt = bytes - 1 then false else true)] ++ rd_calls bytes (cnt + 1) n := by
  simp [rd_calls, List.range'_succ]

theorem Run.data (P : Periph σ) (w : World σ) :
    Run [] w ((rdTWDR P w).2.emit (.twdr (rdTWDR P w).1)) true 0 [(rdTWDR P w).1] :=
  ⟨[.twdr (rdTWDR P w).1], by simpa using (Ext.rdTWDR P w).trans (Ext.emit _ _),
    by simpa [calls, Ev.isData] using RunLog.done, by simp [values], by simp⟩

theorem I2C_rd_loop_run (P : Periph σ) (F : Nat) (bytes n cnt : Nat)
    (slave : I2C_SLAVE) (data : List Nat) (w : World σ) (ok : Bool) (slave1 : I2C_SLAVE)
    (data1 : List Nat) (w1 : World σ)
    (h : I2C_rd_loop P F bytes n cnt slave data w = some (ok, slave1, data1, w1)) :
    ∃ j vs, Run (rd_calls bytes cnt n) w w1 ok j vs ∧ vs.length = j ∧
      slave1 = { slave with reg_addr := bump j slave.reg_addr } ∧ data1 = store data cnt vs := by
  induction n generalizing cnt slave data w with
  | zero =>
    simp only [I2C_rd_loop, Option.some.injEq, Prod.mk.injEq] at h
    obtain ⟨rfl, rfl, rfl, rfl⟩ := h
    exact ⟨0, [], by simpa [rd_calls] using Run.nil w, rfl, by simp [bump_zero], rfl⟩
  | succ n ih =>
    rw [I2C_rd_loop] at h
    cases hs : I2C_rd8 P F (if cnt = bytes - 1 then false else true) w with
    | none => rw [hs] at h; simp at h
    | some x =>
      obtain ⟨b2, w2⟩ := x
      have p1 := I2C_rd8_prim P F _ _ _ _ hs
      rw [hs] at h
      cases b2
      · simp only [Option.some.injEq, Prod.mk.injEq] at h
        obtain ⟨rfl, rfl, rfl, rfl⟩ := h
        refine ⟨0, [], ?_, rfl, by simp [bump_zero], rfl⟩
        rw [rd_calls_succ]
        exact (Run.prim_fail p1 rfl).abort _
      · simp only at h
        obtain ⟨j, vs, r2, hl, hsl, hd⟩ := ih _ _ _ _ h
        refine ⟨1 + (0 + j), [] ++ ([(rdTWDR P w2).1] ++ vs), ?_, ?_, ?_, ?_⟩
        · rw [rd_calls_succ]
          exact (Run.prim_ok p1 rfl).seq ((Run.data P w2).seq r2)
        · simp [hl]; omega
        · rw [hsl, Nat.zero_add, Nat.add_comm 1 j, bump_succ]
        · rw [hd]; rfl

theorem I2C_rd_wrphase_run (P : Periph σ) (F : Nat) (slave : I2C_SLAVE) (reg_addr : Nat)
    (w : World σ) (b : Bool) (w1 : World σ)
    (h : I2C_rd_wrphase P F slave reg_addr w = some (b, w1)) :
    ∃ m, Run ([.start] ++ ([.sndAddr (addr_byte slave .I2C_WRITE)] ++
      (reg_seq slave reg_addr).map .wr8)) w w1 b m [] := by
  unfold I2C_rd_wrphase at h
  cases h1 : I2C_start P F w with
  | none => rw [h1] at h; simp at h
  | some x1 =>
  obtain ⟨b1, w2⟩ := x1
  have p1 := I2C_start_prim P F _ _ _ h1
  rw [h1] at h
  cases b1
  · simp only [Option.some.injEq, Prod.mk.injEq] at h
    obtain ⟨rfl, rfl⟩ := h
    exact ⟨0, (Run.prim_fail p1 rfl).abort _⟩
  simp only at h
  cases h2 : I2C_sndAddr P F slave .I2C_WRITE w2 with
  | none => rw [h2] at h; simp at h
  | some x2 =>
  obtain ⟨b2, w3⟩ := x2
  have p2 := I2C_sndAddr_prim P F _ _ _ _ _ h2
  rw [h2] at h
  cases b2
  · simp only [Option.some.injEq, Prod.mk.injEq] at h
    obtain ⟨rfl, rfl⟩ := h
    exact ⟨_, (Run.prim_ok p1 rfl).seq ((Run.prim_fail p2 rfl).abort _)⟩
  simp only at h
  obtain ⟨k, r3⟩ := I2C_wr_reg_run P F _ _ _ _ _ h
  exact ⟨_, (Run.prim_ok p1 rfl).seq ((Run.prim_ok p2 rfl).seq r3)⟩

theorem I2C_rd_setreg_run (P : Periph σ) (F : Nat) (slave : I2C_SLAVE) (reg_addr : Nat)
    (w : World σ) (b : Bool) (slave1 : I2C_SLAVE) (w1 : World σ)
    (h : I2C_rd_setreg P F slave reg_addr w = some (b, slave1, w1)) :
    ∃ k, Run (rd_setreg_plan slave reg_addr) w w1 b k [] ∧
      slave1 = { slave with
        reg_addr := (if reg_bytes slave reg_addr = [] then slave.reg_addr else reg_addr) } := by
  unfold I2C_rd_setreg at h
  by_cases hc : slave.cfg.reg_size ≠ 0 ∧ reg_addr ≠ slave.reg_addr
  · rw [if_pos hc] at h
    cases h3 : I2C_rd_wrphase P F (I2C_slave_set_reg_addr slave reg_addr) reg_addr w with
    | none => rw [h3] at h; simp at h
    | some x3 =>
      obtain ⟨b3, w4⟩ := x3
      obtain ⟨k, rk⟩ := I2C_rd_wrphase_run P F _ _ _ _ _ h3
      rw [h3] at h
      simp only [Option.some.injEq, Prod.mk.injEq] at h
      obtain ⟨rfl, rfl, rfl⟩ := h
      have he : reg_bytes slave reg_addr =
          reg_seq (I2C_slave_set_reg_addr slave reg_addr) reg_addr := by
        simp [reg_bytes, hc, reg_seq, I2C_slave_set_reg_addr]
      have hne : reg_bytes slave reg_addr ≠ [] := by
        rw [he]; unfold reg_seq; split_ifs <;> simp
      refine ⟨k, ?_, by simp [I2C_slave_set_reg_addr, hne]⟩
      unfold rd_setreg_plan
      rw [if_neg hne, he]
      exact rk
  · rw [if_neg hc] at h
    simp only [Option.some.injEq, Prod.mk.injEq] at h
    obtain ⟨rfl, rfl, rfl⟩ := h
    have he : reg_bytes slave reg_addr = [] := by simp only [reg_bytes, if_neg hc]
    exact ⟨0, by simpa [rd_setreg_plan, he] using Run.nil w, by simp [he]⟩

/-- Every returning run of `I2C_rd` with `bytes ≠ 0` is a run through `rd_plan`
that stops at the first failing call; the values read are stored from the start
of the buffer and only the cursor of the descriptor changes. -/
theorem I2C_rd_run (P : Periph σ) (F : Nat) (slave : I2C_SLAVE) (reg_addr : Nat)
    (data : List Nat) (bytes : Nat) (w : World σ) (ok : Bool) (slave1 : I2C_SLAVE)
    (data1 : List Nat) (w1 : World σ) (hb : bytes ≠ 0)
    (h : I2C_rd P F slave reg_addr data bytes w = some (ok, slave1, data1, w1)) :
    ∃ m vs, Run (rd_plan slave reg_addr bytes) w w1 ok m vs ∧ data1 = store data 0 vs ∧
      vs.length = min (m - (rd_setreg_plan slave reg_addr).length - 2) bytes ∧
      slave1 = { slave with reg_addr := rd_cursor slave reg_addr bytes m } := by
  unfold I2C_rd at h
  simp only [hb, if_false] at h
  cases h0 : I2C_rd_setreg P F slave reg_addr w with
  | none => rw [h0] at h; simp at h
  | some x0 =>
  obtain ⟨b0, slave0, w0⟩ := x0
  obtain ⟨k, r0, hs0⟩ := I2C_rd_setreg_run P F _ _ _ _ _ _ h0
  rw [h0] at h
  cases b0
  · simp only [Option.some.injEq, Prod.mk.injEq] at h
    obtain ⟨rfl, rfl, rfl, rfl⟩ := h
    have hk := r0.lt
    have e0 : min (k - (rd_setreg_plan slave reg_addr).length - 2) bytes = 0 := by omega
    exact ⟨k, [], r0.abort _, rfl, by simp [e0], by rw [hs0, rd_cursor, e0, bump_zero]⟩
  simp only at h
  have hk := r0.eq
  have hcfg : addr_byte slave0 .I2C_READ = addr_byte slave .I2C_READ := by rw [hs0]; rfl
  cases h1 : I2C_start P F w0 with
  | none => rw [h1] at h; simp at h
  | some x1 =>
  obtain ⟨b1, w2⟩ := x1
  have p1 := I2C_start_prim P F _ _ _ h1
  rw [h1] at h
  cases b1
  · simp only [Option.some.injEq, Prod.mk.injEq] at h
    obtain ⟨rfl, rfl, rfl, rfl⟩ := h
    refine ⟨_, _, r0.seq ((Run.prim_fail p1 rfl).abort _), rfl, ?_, ?_⟩
    · simp
    · have e0 : min ((rd_setreg_plan slave reg_addr).length + 0 -
          (rd_setreg_plan slave reg_addr).length - 2) bytes = 0 := by omega
      rw [hs0, rd_cursor, e0, bump_zero]
  simp only at h
  have r1 := Run.prim_ok p1 rfl
  cases h2 : I2C_sndAddr P F slave0 .I2C_READ w2 with
  | none => rw [h2] at h; simp at h
  | some x2 =>
  obtain ⟨b2, w3⟩ := x2
  have p2 := I2C_sndAddr_prim P F _ _ _ _ _ h2
  rw [h2] at h
  rw [hcfg] at p2
  cases b2
  · simp only [Option.some.injEq, Prod.mk.injEq] at h
    obtain ⟨rfl, rfl, rfl, rfl⟩ := h
    refine ⟨_, _, r0.seq (r1.seq ((Run.prim_fail p2 rfl).abort _)), rfl, ?_, ?_⟩
    · simp
    · have e0 : min ((rd_setreg_plan slave reg_addr).length + ([Ev.start].length + 0) -
          (rd_setreg_plan slave reg_addr).length - 2) bytes = 0 := by
        simp only [List.length_singleton]; omega
      rw [hs0, rd_cursor, e0, bump_zero]
  simp only at h
  have r2 := Run.prim_ok p2 rfl
  cases h4 : I2C_rd_loop P F bytes bytes 0 slave0 data w3 with
  | none => rw [h4] at h; simp at h
  | some x4 =>
  obtain ⟨b4, slave4, data4, w5⟩ := x4
  obtain ⟨j, vs, r4, hl, hs4, hd⟩ := I2C_rd_loop_run P F _ _ _ _ _ _ _ _ _ _ h4
  rw [h4] at h
  cases b4
  · simp only [Option.some.injEq, Prod.mk.injEq] at h
    obtain ⟨rfl, rfl, rfl, rfl⟩ := h
    have hj := r4.lt
    rw [rd_calls_length] at hj
    have e0 : min ((rd_setreg_plan slave reg_addr).length + ([Ev.start].length +
        ([Ev.sndAddr (addr_byte slave .I2C_READ)].length + j)) -
        (rd_setreg_plan slave reg_addr).length - 2) bytes = j := by
      simp only [List.length_singleton]; omega
    refine ⟨_, _, r0.seq (r1.seq (r2.seq (r4.abort [Ev.stop]))), by simpa using hd, ?_, ?_⟩
    · rw [e0]; simpa using hl
    · rw [hs4, hs0, rd_cursor, e0]
  simp only at h
  have hj := r4.eq
  rw [rd_calls_length] at hj
  cases h5 : I2C_stop P F w5 with
  | none => rw [h5] at h; simp at h
  | some x5 =>
  obtain ⟨b5, w6⟩ := x5
  have p5 := I2C_stop_prim P F _ _ _ h5
  rw [h5] at h
  simp only [Option.some.injEq, Prod.mk.injEq] at h
  obtain ⟨rfl, rfl, rfl, rfl⟩ := h
  cases b5
  · have e0 : min ((rd_setreg_plan slave reg_addr).length + ([Ev.start].length +
        ([Ev.sndAddr (addr_byte slave .I2C_READ)].length +
          ((rd_calls bytes 0 bytes).length + 0))) -
        (rd_setreg_plan slave reg_addr).length - 2) bytes = j := by
      simp only [List.length_singleton, rd_calls_length]; omega
    refine ⟨_, _, r0.seq (r1.seq (r2.seq (r4.seq (Run.prim_fail p5 rfl)))),
      by simpa using hd, ?_, ?_⟩
    · rw [e0]; simpa using hl
    · rw [hs4, hs0, rd_cursor, e0]
  · have e0 : min ((rd_setreg_plan slave reg_addr).length + ([Ev.start].length +
        ([Ev.sndAddr (addr_byte slave .I2C_READ)].length +
          ((rd_calls bytes 0 bytes).length + 1))) -
        (rd_setreg_plan slave reg_addr).length - 2) bytes = j := by
      simp only [List.length_singleton, rd_calls_length]; omega
    refine ⟨_, _, r0.seq (r1.seq (r2.seq (r4.seq (Run.prim_ok p5 rfl)))),
      by simpa using hd, ?_, ?_⟩
    · rw [e0]; simpa using hl
    · rw [hs4, hs0, rd_cursor, e0]

/-! ### The primitives on the mock -/

theorem mock_start (F : Nat) (w : World Mock) :
    ∃ w1, I2C_start MockP (F + 1) w = some (true, w1) ∧ w1.hw.mode = .started ∧
      w1.hw.ackAddr = w.hw.ackAddr ∧ w1.hw.rx = w.hw.rx := by
  by_cases hm : w.hw.mode = .idle <;>
    simp +decide [I2C_start, wait_flag, CI2C.wrTWCR, CI2C.rdTWCR, MockP, Mock.command, TWINT, TWSTA,
      TWEN, TWSTO, I2C_start_timeout, World.emit, twint_clear, TWI_STATUS, START,
      REPEATED_START, hm]

theorem mock_stop (F : Nat) (w : World Mock) :
    ∃ w1, I2C_stop MockP (F + 1) w = some (true, w1) ∧ w1.hw.mode = .idle ∧
      w1.hw.ackAddr = w.hw.ackAddr ∧ w1.hw.rx = w.hw.rx ∧ Ext w w1 [.stop, .ret true] := by
  simp +decide [I2C_stop, wait_flag, CI2C.wrTWCR, CI2C.rdTWCR, MockP, Mock.command, TWINT, TWSTA,
    TWEN, TWSTO, I2C_start_timeout, World.emit, twsto_set, Ext]

theorem mock_wr8 (F : Nat) (dat : Nat) (w : World Mock) (hm : w.hw.mode = .tx) :
    ∃ w1, I2C_wr8 MockP (F + 1) dat w = some (true, w1) ∧ w1.hw.mode = .tx ∧
      w1.hw.ackAddr = w.hw.ackAddr ∧ w1.hw.rx = w.hw.rx := by
  simp +decide [I2C_wr8, I2C_wr8_status, wait_flag, CI2C.wrTWCR, CI2C.rdTWCR, CI2C.wrTWDR, MockP,
    Mock.command, TWINT, TWSTA, TWEN, TWSTO, I2C_start_timeout, World.emit, twint_clear,
    TWI_STATUS, MT_DATA_ACK, hm]

theorem mock_rd8 (F : Nat) (ack : Bool) (w : World Mock) (hm : w.hw.mode = .rx) :
    ∃ w1, I2C_rd8 MockP (F + 1) ack w = some (true, w1) ∧ w1.hw.mode = .rx ∧
      w1.hw.ackAddr = w.hw.ackAddr ∧ w1.hw.rx = w.hw.rx.tail ∧
      (rdTWDR MockP w1).1 = w.hw.rx.headD 0 % 256 := by
  cases ack <;>
    simp +decide [I2C_rd8, wait_flag, CI2C.wrTWCR, CI2C.rdTWCR, CI2C.rdTWDR, MockP,
      Mock.command, TWINT, TWSTA, TWEN, TWSTO, TWEA, I2C_start_timeout, World.emit,
      twint_clear, TWI_STATUS, MR_DATA_ACK, MR_DATA_NACK, LOST_ARBTRTN, hm]

theorem addr_byte_write_even (slave : I2C_SLAVE) : addr_byte slave .I2C_WRITE % 2 = 0 := by
  simp only [addr_byte, I2C_RW.toNat, Nat.or_zero, Nat.shiftLeft_eq]
  omega

theorem addr_byte_read_odd (slave : I2C_SLAVE) : addr_byte slave .I2C_READ % 2 = 1 := by
  simp only [addr_byte, I2C_RW.toNat]
  rw [Nat.mod_mod_of_dvd _ (by norm_num : 2 ∣ 256)]
  simp

theorem addr_byte_write (slave : I2C_SLAVE) (ha : slave.cfg.addr ≤ 0x7F) :
    addr_byte slave .I2C_WRITE = 2 * slave.cfg.addr := by
  simp only [addr_byte, I2C_RW.toNat, Nat.or_zero, Nat.shiftLeft_eq]
  omega

theorem addr_byte_read (slave : I2C_SLAVE) (ha : slave.cfg.addr ≤ 0x7F) :
    addr_byte slave .I2C_READ = 2 * slave.cfg.addr + 1 := by
  simp only [addr_byte, I2C_RW.toNat]
  generalize slave.cfg.addr = a at ha
  interval_cases a <;> rfl

theorem mock_sndAddr (F : Nat) (slave : I2C_SLAVE) (rw : I2C_RW) (w : World Mock)
    (hm : w.hw.mode = .started) (ha : w.hw.ackAddr = true) :
    ∃ w1, I2C_sndAddr MockP (F + 1) slave rw w = some (true, w1) ∧
      w1.hw.mode = (if rw = .I2C_READ then .rx else .tx) ∧
      w1.hw.ackAddr = true ∧ w1.hw.rx = w.hw.rx := by
  cases rw
  · have hp := addr_byte_write_even slave
    simp +decide [I2C_sndAddr, I2C_sndAddr_status, wait_flag, CI2C.wrTWCR, CI2C.rdTWCR,
      CI2C.wrTWDR, MockP, Mock.command, TWINT, TWSTA, TWEN, TWSTO, I2C_start_timeout,
      World.emit, twint_clear, TWI_STATUS, MT_SLA_ACK, MR_SLA_ACK, hm, ha, hp]
  · have hp := addr_byte_read_odd slave
    simp +decide [I2C_sndAddr, I2C_sndAddr_status, wait_flag, CI2C.wrTWCR, CI2C.rdTWCR,
      CI2C.wrTWDR, MockP, Mock.command, TWINT, TWSTA, TWEN, TWSTO, I2C_start_timeout,
      World.emit, twint_clear, TWI_STATUS, MT_SLA_ACK, MR_SLA_ACK, hm, ha, hp]

theorem mock_sndAddr_nack (F : Nat) (slave : I2C_SLAVE) (w : World Mock)
    (hm : w.hw.mode = .started) (ha : w.hw.ackAddr = false) :
    ∃ w1, I2C_sndAddr MockP (F + 1) slave .I2C_WRITE w = some (false, w1) ∧
      w1.hw.ackAddr = false ∧
      Ext w w1 [.sndAddr (addr_byte slave .I2C_WRITE), .stop, .ret true, .ret false] := by
  have hp := addr_byte_write_even slave
  simp +decide [I2C_sndAddr, I2C_sndAddr_status, I2C_stop, wait_flag, CI2C.wrTWCR,
    CI2C.rdTWCR, CI2C.wrTWDR, MockP, Mock.command, TWINT, TWSTA, TWEN, TWSTO,
    I2C_start_timeout, World.emit, twint_clear, twsto_set, TWI_STATUS, MT_SLA_ACK, MR_SLA_ACK,
    MT_SLA_NACK, MR_SLA_NACK, hm, ha, hp, Ext]

/-! ### The transaction engine on the acknowledging mock -/

theorem mock_wr_reg (F : Nat) (slave : I2C_SLAVE) (reg_addr : Nat) (w : World Mock)
    (hm : w.hw.mode = .tx) :
    ∃ w1, I2C_wr_reg MockP (F + 1) slave reg_addr w = some (true, w1) ∧ w1.hw.mode = .tx ∧
      w1.hw.ackAddr = w.hw.ackAddr := by
  unfold I2C_wr_reg
  split_ifs
  · obtain ⟨w1, h1, m1, a1, _⟩ := mock_wr8 F ((reg_addr >>> 8) % 256) w hm
    obtain ⟨w2, h2, m2, a2, _⟩ := mock_wr8 F (reg_addr % 256) w1 m1
    rw [h1]
    exact ⟨w2, h2, m2, a2.trans a1⟩
  · obtain ⟨w1, h1, m1, a1, _⟩ := mock_wr8 F (reg_addr % 256) w hm
    exact ⟨w1, h1, m1, a1⟩

theorem mock_wr_loop (F : Nat) (data : List Nat) (n cnt : Nat) (slave : I2C_SLAVE)
    (w : World Mock) (hm : w.hw.mode = .tx) :
    ∃ s1 w1, I2C_wr_loop MockP (F + 1) data n cnt slave w = some (true, s1, w1) ∧
      w1.hw.mode = .tx ∧ w1.hw.ackAddr = w.hw.ackAddr := by
  induction n generalizing cnt slave w with
  | zero => exact ⟨slave, w, rfl, hm, rfl⟩
  | succ n ih =>
    obtain ⟨w1, h1, m1, a1, _⟩ := mock_wr8 F (data.getD cnt 0) w hm
    obtain ⟨s2, w2, h2, m2, a2⟩ := ih (cnt + 1)
      { slave with reg_addr := (slave.reg_addr + 1) % 65536 } w1 m1
    rw [I2C_wr_loop, h1]
    exact ⟨s2, w2, h2, m2, a2.trans a1⟩

/-- On the acknowledging mock every non-empty `I2C_wr` returns `true`, with any
positive fuel. -/
theorem mock_wr (F : Nat) (slave : I2C_SLAVE) (reg_addr : Nat) (data : List Nat) (bytes : Nat)
    (w : World Mock) (ha : w.hw.ackAddr = true) (hb : bytes ≠ 0) :
    ∃ s1 w1, I2C_wr MockP (F + 1) slave reg_addr data bytes w = some (true, s1, data, w1) ∧
      w1.hw.ackAddr = true := by
  obtain ⟨w1, h1, m1, a1, _⟩ := mock_start F w
  obtain ⟨w2, h2, m2, a2, _⟩ := mock_sndAddr F slave .I2C_WRITE w1 m1 (a1.trans ha)
  simp only [reduceCtorEq, if_false] at m2
  have h3 : ∃ s3 w3, I2C_wr_setreg MockP (F + 1) slave reg_addr w2 = some (true, s3, w3) ∧
      w3.hw.mode = .tx ∧ w3.hw.ackAddr = true := by
    unfold I2C_wr_setreg
    split_ifs
    · obtain ⟨w3, h3, m3, a3⟩ := mock_wr_reg F (I2C_slave_set_reg_addr slave reg_addr)
        reg_addr w2 m2
      rw [h3]
      exact ⟨_, w3, rfl, m3, a3.trans a2⟩
    · exact ⟨_, w2, rfl, m2, a2⟩
  obtain ⟨s3, w3, h3, m3, a3⟩ := h3
  obtain ⟨s4, w4, h4, m4, a4⟩ := mock_wr_loop F data bytes 0 s3 w3 m3
  obtain ⟨w5, h5, m5, a5, _⟩ := mock_stop F w4
  unfold I2C_wr
  rw [if_neg hb, h1]
  simp only
  rw [h2]
  simp only
  rw [h3]
  simp only
  rw [h4]
  simp only
  rw [h5]
  exact ⟨s4, w5, rfl, by rw [a5, a4, a3]⟩

theorem mock_rd_loop (F : Nat) (bytes n cnt : Nat) (slave : I2C_SLAVE) (data : List Nat)
    (w : World Mock) (hm : w.hw.mode = .rx) :
    ∃ s1 d1 w1, I2C_rd_loop MockP (F + 1) bytes n cnt slave data w = some (true, s1, d1, w1) ∧
      w1.hw.mode = .rx ∧ w1.hw.ackAddr = w.hw.ackAddr := by
  induction n generalizing cnt slave data w with
  | zero => exact ⟨slave, data, w, rfl, hm, rfl⟩
  | succ n ih =>
    obtain ⟨w1, h1, m1, a1, _⟩ := mock_rd8 F (if cnt = bytes - 1 then false else true) w hm
    obtain ⟨s2, d2, w2, h2, m2, a2⟩ := ih (cnt + 1)
      { slave with reg_addr := (slave.reg_addr + 1) % 65536 }
      (data.set cnt (rdTWDR MockP w1).1) ((rdTWDR MockP w1).2.emit (.twdr (rdTWDR MockP w1).1))
      (by simpa [CI2C.rdTWDR, MockP, World.emit] using m1)
    rw [I2C_rd_loop, h1]
    refine ⟨s2, d2, w2, h2, m2, a2.trans ?_⟩
    simpa [CI2C.rdTWDR, MockP, World.emit] using a1

/-- On the acknowledging mock every non-empty `I2C_rd` returns `true`, with any
positive fuel. -/
theorem mock_rd (F : Nat) (slave : I2C_SLAVE) (reg_addr : Nat) (data : List Nat) (bytes : Nat)
    (w : World Mock) (ha : w.hw.ackAddr = true) (hb : bytes ≠ 0) :
    ∃ s1 d1 w1, I2C_rd MockP (F + 1) slave reg_addr data bytes w = some (true, s1, d1, w1) ∧
      w1.hw.ackAddr = true := by
  have h0 : ∃ s0 w0, I2C_rd_setreg MockP (F + 1) slave reg_addr w = some (true, s0, w0) ∧
      w0.hw.ackAddr = true := by
    unfold I2C_rd_setreg
    split_ifs
    · obtain ⟨w1, h1, m1, a1, _⟩ := mock_start F w
      obtain ⟨w2, h2, m2, a2, _⟩ := mock_sndAddr F (I2C_slave_set_reg_addr slave reg_addr)
        .I2C_WRITE w1 m1 (a1.trans ha)
      simp only [reduceCtorEq, if_false] at m2
      obtain ⟨w3, h3, m3, a3⟩ := mock_wr_reg F (I2C_slave_set_reg_addr slave reg_addr)
        reg_addr w2 m2
      unfold I2C_rd_wrphase
      rw [h1]
      simp only
      rw [h2]
      simp only
      rw [h3]
      exact ⟨_, w3, rfl, a3.trans a2⟩
    · exact ⟨_, w, rfl, ha⟩
  obtain ⟨s0, w0, h0, a0⟩ := h0
  obtain ⟨w1, h1, m1, a1, _⟩ := mock_start F w0
  obtain ⟨w2, h2, m2, a2, _⟩ := mock_sndAddr F s0 .I2C_READ w1 m1 (a1.trans a0)
  simp only [if_true] at m2
  obtain ⟨s4, d4, w4, h4, m4, a4⟩ := mock_rd_loop F bytes bytes 0 s0 data w2 m2
  obtain ⟨w5, h5, m5, a5, _⟩ := mock_stop F w4
  unfold I2C_rd
  rw [if_neg hb, h0]
  simp only
  rw [h1]
  simp only
  rw [h2]
  simp only
  rw [h4]
  simp only
  rw [h5]
  exact ⟨s4, d4, w5, rfl, by rw [a5, a4, a2]⟩

/-! ## Consequences of the run lemmas -/

theorem Run.log {plan : List Ev} {w w1 : World σ} {ok : Bool} {m : Nat} {vs : List Nat}
    (h : Run plan w w1 ok m vs) (δ : List Ev) (hδ : w1.log = w.log ++ δ) :
    RunLog plan m (calls δ) ∧ values δ = vs ∧ (ok = true ↔ m = plan.length) := by
  obtain ⟨δ1, e, r, u, o⟩ := h
  have : δ1 = δ := List.append_cancel_left (e.2.2.symm.trans hδ)
  subst this
  exact ⟨r, u, o⟩

theorem Run.ok_of_no_fail {plan : List Ev} {w w1 : World σ} {ok : Bool} {m : Nat}
    {vs : List Nat} (h : Run plan w w1 ok m vs) (δ : List Ev) (hδ : w1.log = w.log ++ δ)
    (hn : Ev.ret false ∉ δ) : ok = true := by
  obtain ⟨r, _, o⟩ := h.log δ hδ
  by_contra hok
  have hlt : m < plan.length := lt_of_le_of_ne r.le (fun hh => hok (o.2 hh))
  obtain ⟨c, t, _, _, hc⟩ := r.failed hlt
  have : Ev.ret false ∈ calls δ := by rw [hc]; simp
  exact hn (List.mem_of_mem_filter this)

theorem Run.log_ok {plan : List Ev} {w w1 : World σ} {m : Nat} {vs : List Nat}
    (h : Run plan w w1 true m vs) (δ : List Ev) (hδ : w1.log = w.log ++ δ) :
    calls δ = acked plan ∧ values δ = vs := by
  obtain ⟨r, u, o⟩ := h.log δ hδ
  exact ⟨r.full (o.1 rfl), u⟩

theorem data_calls_eq (d : List Nat) : data_calls d 0 d.length = d.map Ev.wr8 := by
  unfold data_calls
  apply List.ext_getElem
  · simp
  · intro i h1 h2
    simp only [List.length_map, List.length_range'] at h1
    simp [List.getD_eq_getElem?_getD, List.getElem?_eq_getElem h1]

theorem rd_calls_eq (n : Nat) (hn : n ≠ 0) :
    rd_calls n 0 n = List.replicate (n - 1) (Ev.rd8 true) ++ [Ev.rd8 false] := by
  unfold rd_calls
  apply List.ext_getElem
  · simp; omega
  · intro i h1 h2
    simp only [List.length_map, List.length_range'] at h1
    by_cases hi : i = n - 1
    · subst hi
      simp
    · have : i < n - 1 := by omega
      simp [List.getElem_append_left, this, hi]

theorem reg_bytes_framing (slave : I2C_SLAVE) (reg_addr : Nat) (hr : reg_addr < 65536) :
    (reg_bytes slave reg_addr).map Ev.wr8 = framing slave reg_addr := by
  have hhi : (reg_addr >>> 8) % 256 = reg_addr / 256 := by
    rw [Nat.shiftRight_eq_div_pow]
    omega
  unfold reg_bytes reg_seq framing
  simp only [I2C_NO_REG, I2C_8B_REG, I2C_16B_REG]
  by_cases h0 : slave.cfg.reg_size = 0
  · simp [h0]
  · by_cases hc : reg_addr = slave.reg_addr
    · simp [hc]
    · by_cases h1 : slave.cfg.reg_size = 1
      · simp [h1, hc]
      · have h2 : slave.cfg.reg_size ≥ 2 := by omega
        simp [h0, hc, h1, h2, hhi]

theorem framing_nil_iff (slave : I2C_SLAVE) (reg_addr : Nat) :
    framing slave reg_addr = [] ↔ slave.cfg.reg_size = I2C_NO_REG ∨ reg_addr = slave.reg_addr := by
  unfold framing
  split_ifs <;> simp_all

theorem reg_bytes_nil_iff (slave : I2C_SLAVE) (reg_addr : Nat) :
    reg_bytes slave reg_addr = [] ↔ slave.cfg.reg_size = 0 ∨ reg_addr = slave.reg_addr := by
  unfold reg_bytes reg_seq
  split_ifs
  · simp_all
  · simp_all
  · simp_all
    tauto

theorem invocation_shift (P : Periph σ) (fc : Strategy σ) (reg_addr bytes : Nat)
    (first : Option (Bool × I2C_SLAVE × List Nat × World σ)) (k : Nat) :
    invocation P fc reg_addr bytes first (k + 1) =
      invocation P fc reg_addr bytes (first.bind (reinvoke P fc reg_addr bytes)) k := by
  induction k with
  | zero => rfl
  | succ k ih => rw [invocation, ih]; rfl

theorem retry_first_success (P : Periph σ) (fc : Strategy σ) (reg_addr bytes : Nat)
    (k n : Nat) (a0 : Bool) (s0 : I2C_SLAVE) (d0 : List Nat) (w0 : World σ)
    (s : I2C_SLAVE) (d : List Nat) (w1 : World σ) (hk : k ≤ n)
    (hfail : ∀ i, i < k → ∃ x, invocation P fc reg_addr bytes (some (a0, s0, d0, w0)) i =
      some (false, x))
    (hok : invocation P fc reg_addr bytes (some (a0, s0, d0, w0)) k = some (true, s, d, w1)) :
    I2C_comm_retry P fc reg_addr bytes n a0 s0 d0 w0 = some (true, s, d, w1) := by
  induction k generalizing n a0 s0 d0 w0 with
  | zero =>
    simp only [invocation, Option.some.injEq, Prod.mk.injEq] at hok
    obtain ⟨rfl, rfl, rfl, rfl⟩ := hok
    cases n <;> simp [I2C_comm_retry]
  | succ k ih =>
    obtain ⟨x, hx⟩ := hfail 0 (Nat.succ_pos k)
    simp only [invocation, Option.some.injEq, Prod.mk.injEq] at hx
    obtain ⟨rfl, _⟩ := hx
    obtain ⟨n, rfl⟩ : ∃ n1, n = n1 + 1 := ⟨n - 1, by omega⟩
    rw [invocation_shift] at hok
    have hfail1 : ∀ i, i < k → ∃ x, invocation P fc reg_addr bytes
        ((some (false, s0, d0, w0)).bind (reinvoke P fc reg_addr bytes)) i = some (false, x) := by
      intro i hi
      rw [← invocation_shift]
      exact hfail (i + 1) (by omega)
    simp only [Option.some_bind, reinvoke] at hok hfail1
    simp only [I2C_comm_retry, if_true]
    cases hf : fc s0 reg_addr d0 bytes (delay P 5 w0) with
    | none =>
      rw [hf] at hok
      have : ∀ j, invocation P fc reg_addr bytes none j = none := by
        intro j
        induction j with
        | zero => rfl
        | succ j ihj => rw [invocation, ihj]; rfl
      rw [this] at hok
      simp at hok
    | some y =>
      obtain ⟨a1, s1, d1, w2⟩ := y
      rw [hf] at hok hfail1
      exact ih n a1 s1 d1 w2 (by omega) hfail1 hok

theorem retry_all_fail (P : Periph σ) (fc : Strategy σ) (reg_addr bytes : Nat)
    (n : Nat) (a0 : Bool) (s0 : I2C_SLAVE) (d0 : List Nat) (w0 : World σ)
    (s : I2C_SLAVE) (d : List Nat) (w1 : World σ)
    (hfail : ∀ i, i < n → ∃ x, invocation P fc reg_addr bytes (some (a0, s0, d0, w0)) i =
      some (false, x))
    (hlast : invocation P fc reg_addr bytes (some (a0, s0, d0, w0)) n = some (false, s, d, w1)) :
    I2C_comm_retry P fc reg_addr bytes n a0 s0 d0 w0 = some (false, s, d, w1) := by
  induction n generalizing a0 s0 d0 w0 with
  | zero =>
    simp only [invocation, Option.some.injEq, Prod.mk.injEq] at hlast
    obtain ⟨rfl, rfl, rfl, rfl⟩ := hlast
    simp [I2C_comm_retry]
  | succ n ih =>
    obtain ⟨x, hx⟩ := hfail 0 (Nat.succ_pos n)
    simp only [invocation, Option.some.injEq, Prod.mk.injEq] at hx
    obtain ⟨rfl, _⟩ := hx
    rw [invocation_shift] at hlast
    have hfail1 : ∀ i, i < n → ∃ x, invocation P fc reg_addr bytes
        ((some (false, s0, d0, w0)).bind (reinvoke P fc reg_addr bytes)) i = some (false, x) := by
      intro i hi
      rw [← invocation_shift]
      exact hfail (i + 1) (by omega)
    simp only [Option.some_bind, reinvoke] at hlast hfail1
    simp only [I2C_comm_retry, if_true]
    cases hf : fc s0 reg_addr d0 bytes (delay P 5 w0) with
    | none =>
      rw [hf] at hlast
      have : ∀ j, invocation P fc reg_addr bytes none j = none := by
        intro j
        induction j with
        | zero => rfl
        | succ j ihj => rw [invocation, ihj]; rfl
      rw [this] at hlast
      simp at hlast
    | some y =>
      obtain ⟨a1, s1, d1, w2⟩ := y
      rw [hf] at hlast hfail1
      exact ih a1 s1 d1 w2 hfail1 hlast

theorem Prim.ok_ext {c : Ev} {w w1 : World σ} (h : Prim c true w w1) :
    Ext w w1 [c, .ret true] := by
  obtain ⟨t, _, hb, e⟩ := h
  have := hb rfl
  subst this
  simpa using e

theorem nack_wr (F : Nat) (slave : I2C_SLAVE) (reg_addr : Nat) (data : List Nat) (bytes : Nat)
    (w : World Mock) (ha : w.hw.ackAddr = false) (hb : bytes ≠ 0) :
    ∃ w1, I2C_wr MockP (F + 1) slave reg_addr data bytes w = some (false, slave, data, w1) ∧
      w1.hw.ackAddr = false ∧ Ext w w1 (nack_attempt (addr_byte slave .I2C_WRITE)) := by
  obtain ⟨w1, h1, m1, a1, _⟩ := mock_start F w
  have e1 := (I2C_start_prim MockP _ _ _ _ h1).ok_ext
  obtain ⟨w2, h2, a2, e2⟩ := mock_sndAddr_nack F slave w1 m1 (a1.trans ha)
  unfold I2C_wr
  rw [if_neg hb, h1]
  simp only
  rw [h2]
  exact ⟨w2, rfl, a2, by simpa [nack_attempt] using e1.trans e2⟩

theorem nack_retry (F : Nat) (slave : I2C_SLAVE) (reg_addr : Nat) (data : List Nat)
    (bytes : Nat) (hb : bytes ≠ 0) (n : Nat) (w : World Mock) (ha : w.hw.ackAddr = false) :
    ∃ w1, I2C_comm_retry MockP (I2C_wr MockP (F + 1)) reg_addr bytes n false slave data w =
        some (false, slave, data, w1) ∧
      w1.hw.ackAddr = false ∧ Ext w w1 (nack_retries (addr_byte slave .I2C_WRITE) n) := by
  induction n generalizing w with
  | zero => exact ⟨w, rfl, ha, Ext.rfl w⟩
  | succ n ih =>
    obtain ⟨w1, h1, a1, e1⟩ := nack_wr F slave reg_addr data bytes (delay MockP 5 w)
      (by simpa [CI2C.delay, MockP] using ha) hb
    obtain ⟨w2, h2, a2, e2⟩ := ih w1 a1
    simp only [I2C_comm_retry, if_true]
    rw [h1]
    simp only
    rw [h2]
    exact ⟨w2, rfl, a2, by simpa [nack_retries] using ((Ext.delay MockP 5 w).trans e1).trans e2⟩

theorem nack_count_start (b R : Nat) :
    (nack_attempt b ++ nack_retries b R).count .start = R + 1 := by
  induction R with
  | zero => simp [nack_attempt, nack_retries]
  | succ R ih =>
    rw [List.count_append] at ih ⊢
    simp only [nack_retries, List.count_cons, List.count_append] at ih ⊢
    simp [nack_attempt] at ih ⊢
    omega

theorem nack_count_stop (b R : Nat) :
    (nack_attempt b ++ nack_retries b R).count .stop = R + 1 := by
  induction R with
  | zero => simp [nack_attempt, nack_retries]
  | succ R ih =>
    rw [List.count_append] at ih ⊢
    simp only [nack_retries, List.count_cons, List.count_append] at ih ⊢
    simp [nack_attempt] at ih ⊢
    omega

theorem store_eq (data : List Nat) (cnt : Nat) (vs : List Nat)
    (h : cnt + vs.length ≤ data.length) :
    store data cnt vs = data.take cnt ++ vs ++ data.drop (cnt + vs.length) := by
  induction vs generalizing data cnt with
  | nil => simp [store]
  | cons v vs ih =>
    simp only [List.length_cons] at h
    rw [store, ih _ _ (by simp; omega)]
    have hc : cnt < data.length := by omega
    rw [List.set_eq_take_append_cons_drop, if_pos hc]
    have h1 : List.take (cnt + 1) (List.take cnt data ++ v :: List.drop (cnt + 1) data) =
        List.take cnt data ++ [v] := by
      rw [List.take_append_eq_append_take]
      simp [List.length_take, Nat.min_eq_left (Nat.le_of_lt hc)]
    have h2 : List.drop (cnt + 1 + vs.length)
        (List.take cnt data ++ v :: List.drop (cnt + 1) data) =
        List.drop (cnt + (vs.length + 1)) data := by
      rw [List.drop_append_eq_append_drop]
      simp only [List.length_take, Nat.min_eq_left (Nat.le_of_lt hc)]
      have e1 : List.drop (cnt + 1 + vs.length) (List.take cnt data) = [] := by
        apply List.drop_eq_nil_of_le
        simp; omega
      have e2 : cnt + 1 + vs.length - cnt = vs.length + 1 := by omega
      rw [e1, e2]
      simp [List.drop_drop]
      congr 1
      omega
    rw [h1, h2]
    simp

theorem wr_plan_eq (slave : I2C_SLAVE) (reg_addr : Nat) (d : List Nat)
    (hr : reg_addr < 65536) :
    wr_plan slave reg_addr d d.length =
      write_sequence (addr_byte slave .I2C_WRITE) slave reg_addr d := by
  simp [wr_plan, write_sequence, write_header, reg_bytes_framing _ _ hr, data_calls_eq]

theorem rd_plan_eq (slave : I2C_SLAVE) (reg_addr : Nat) (n : Nat) (hn : n ≠ 0)
    (hr : reg_addr < 65536) :
    rd_plan slave reg_addr n =
      read_sequence (addr_byte slave .I2C_WRITE) (addr_byte slave .I2C_READ) slave reg_addr n := by
  have hf := reg_bytes_framing slave reg_addr hr
  have hnil : reg_bytes slave reg_addr = [] ↔ framing slave reg_addr = [] := by
    rw [← hf]; simp
  unfold rd_plan rd_setreg_plan read_sequence read_header
  rw [rd_calls_eq n hn, hf]
  by_cases h : framing slave reg_addr = []
  · simp [h, hnil.2 h]
  · have : reg_bytes slave reg_addr ≠ [] := fun hh => h (hnil.1 hh)
    simp [h, this]

/-- The log of every returning `I2C_wr` on a non-empty request follows the write
sequence up to its first failing call. -/
theorem I2C_wr_log (P : Periph σ) (F : Nat) (slave : I2C_SLAVE) (reg_addr : Nat)
    (d : List Nat) (w : World σ) (ok : Bool) (s1 : I2C_SLAVE) (d1 : List Nat) (w1 : World σ)
    (δ : List Ev) (hd : d ≠ []) (hr : reg_addr < 65536)
    (h : I2C_wr P F slave reg_addr d d.length w = some (ok, s1, d1, w1))
    (hδ : w1.log = w.log ++ δ) :
    ∃ m, RunLog (write_sequence (addr_byte slave .I2C_WRITE) slave reg_addr d) m δ ∧
      (ok = true ↔
        m = (write_sequence (addr_byte slave .I2C_WRITE) slave reg_addr d).length) ∧
      d1 = d ∧ s1 = { slave with reg_addr := wr_cursor slave reg_addr d.length m } := by
  have hb : d.length ≠ 0 := by simpa using hd
  obtain ⟨m, r, hd1, hs1⟩ := I2C_wr_run P F slave reg_addr d d.length w ok s1 d1 w1 hb h
  obtain ⟨rl, u, o⟩ := r.log δ hδ
  rw [calls_of_values_nil δ u, wr_plan_eq _ _ _ hr] at rl
  rw [wr_plan_eq _ _ _ hr] at o
  exact ⟨m, rl, o, hd1, hs1⟩

/-- The log of every returning `I2C_rd` of `n ≠ 0` bytes follows the read
sequence up to its first failing call; the values read from the data register
are stored from the start of the buffer. -/
theorem I2C_rd_log (P : Periph σ) (F : Nat) (slave : I2C_SLAVE) (reg_addr : Nat)
    (d : List Nat) (n : Nat) (w : World σ) (ok : Bool) (s1 : I2C_SLAVE) (d1 : List Nat)
    (w1 : World σ) (δ : List Ev) (hn : n ≠ 0) (hr : reg_addr < 65536)
    (h : I2C_rd P F slave reg_addr d n w = some (ok, s1, d1, w1))
    (hδ : w1.log = w.log ++ δ) :
    ∃ m, RunLog (read_sequence (addr_byte slave .I2C_WRITE) (addr_byte slave .I2C_READ)
        slave reg_addr n) m (calls δ) ∧
      (ok = true ↔ m = (read_sequence (addr_byte slave .I2C_WRITE) (addr_byte slave .I2C_READ)
        slave reg_addr n).length) ∧
      d1 = store d 0 (values δ) ∧
      (values δ).length = min (m - (rd_setreg_plan slave reg_addr).length - 2) n ∧
      s1 = { slave with reg_addr := rd_cursor slave reg_addr n m } := by
  obtain ⟨m, vs, r, hd1, hl, hs1⟩ := I2C_rd_run P F slave reg_addr d n w ok s1 d1 w1 hn h
  obtain ⟨rl, u, o⟩ := r.log δ hδ
  rw [rd_plan_eq _ _ _ hn hr] at rl o
  subst u
  exact ⟨m, rl, o, hd1, hl, hs1⟩

theorem RunLog.no_fail {plan : List Ev} {m : Nat} {δ : List Ev} (h : RunLog plan m δ)
    (hn : Ev.ret false ∉ δ) : m = plan.length ∧ δ = acked plan := by
  have hm : m = plan.length := by
    by_contra hne
    obtain ⟨c, t, _, _, hc⟩ := h.failed (lt_of_le_of_ne h.le hne)
    exact hn (by rw [hc]; simp)
  exact ⟨hm, h.full hm⟩

theorem not_mem_calls {δ : List Ev} (hn : Ev.ret false ∉ δ) : Ev.ret false ∉ calls δ :=
  fun h => hn (List.mem_of_mem_filter h)

theorem rd_plan_length (slave : I2C_SLAVE) (reg_addr n : Nat) :
    (rd_plan slave reg_addr n).length = (rd_setreg_plan slave reg_addr).length + 2 + n + 1 := by
  simp [rd_plan, rd_calls_length]
  omega

/-- A returning `I2C_rd` in which no primitive returned `false`: it returned
`true`, made exactly the calls of the read sequence, and the buffer starts with
the `n` values read from the data register. -/
theorem I2C_rd_all_ok (P : Periph σ) (F : Nat) (slave : I2C_SLAVE) (r : Nat) (d : List Nat)
    (n : Nat) (w : World σ) (ok : Bool) (s1 : I2C_SLAVE) (d1 : List Nat) (w1 : World σ)
    (δ : List Ev) (hr : r < 65536) (hn : n ≠ 0) (hlen : n ≤ d.length)
    (h : I2C_rd P F slave r d n w = some (ok, s1, d1, w1)) (hδ : w1.log = w.log ++ δ)
    (hno : ok = true ∨ Ev.ret false ∉ δ) :
    ok = true ∧
      calls δ = acked (read_sequence (addr_byte slave .I2C_WRITE) (addr_byte slave .I2C_READ)
        slave r n) ∧
      (values δ).length = n ∧ d1 = values δ ++ d.drop n := by
  obtain ⟨m, rl, o, hd1, hl, _⟩ := I2C_rd_log P F slave r d n w ok s1 d1 w1 δ hn hr h hδ
  have hm : m = (read_sequence (addr_byte slave .I2C_WRITE) (addr_byte slave .I2C_READ)
      slave r n).length := by
    rcases hno with hok | hnf
    · exact o.1 hok
    · exact (rl.no_fail (not_mem_calls hnf)).1
  have hlen2 : (values δ).length = n := by
    rw [hl, hm, ← rd_plan_eq _ _ _ hn hr, rd_plan_length]
    omega
  refine ⟨o.2 hm, rl.full hm, hlen2, ?_⟩
  rw [hd1, store_eq _ _ _ (by simpa [hlen2] using hlen)]
  simp [hlen2]

/-! ## Failure positions -/

theorem mid_getElem_take {α : Type} (pre mid post : List α) (k : Nat) (hk : k < mid.length) :
    (pre ++ mid ++ post)[pre.length + k]? = mid[k]? ∧
      (pre ++ mid ++ post).take (pre.length + k) = pre ++ mid.take k := by
  constructor
  · rw [List.append_assoc, List.getElem?_append_right (by omega)]
    simp [List.getElem?_append_left hk]
  · rw [List.append_assoc, List.take_append_eq_append_take]
    simp only [Nat.add_sub_cancel_left]
    rw [List.take_of_length_le (by omega), List.take_append_of_le_length (by omega)]

theorem write_header_length (b : Nat) (slave : I2C_SLAVE) (r : Nat) (hr : r < 65536) :
    (write_header b slave r).length = 2 + (reg_bytes slave r).length := by
  rw [write_header, ← reg_bytes_framing _ _ hr]
  simp
  omega

theorem read_header_length (bw br : Nat) (slave : I2C_SLAVE) (r : Nat) (hr : r < 65536) :
    (read_header bw br slave r).length = (rd_setreg_plan slave r).length + 2 := by
  have hf := reg_bytes_framing slave r hr
  have hnil : reg_bytes slave r = [] ↔ framing slave r = [] := by
    rw [← hf]; simp
  unfold read_header rd_setreg_plan
  by_cases h : framing slave r = []
  · simp [h, hnil.2 h]
  · have : reg_bytes slave r ≠ [] := fun hh => h (hnil.1 hh)
    simp [h, this, ← hf]

/-- The cursor after a write that got `k` data bytes acknowledged past the header,
on a register-addressed descriptor. -/
theorem wr_cursor_data (slave : I2C_SLAVE) (r n k : Nat) (hreg : slave.cfg.reg_size ≠ 0)
    (hr : r < 65536) (hk : k ≤ n) (j : Nat) (hj : j ≤ 1) :
    wr_cursor slave r n (2 + (reg_bytes slave r).length + k + (if k = n then j else 0)) =
      (r + k) % 65536 := by
  rw [wr_cursor_eq slave r n _ k (Or.inl (by omega)) (by split_ifs <;> omega)]
  by_cases he : reg_bytes slave r = []
  · have : r = slave.reg_addr := by
      rcases (reg_bytes_nil_iff slave r).1 he with h | h
      · exact absurd h hreg
      · exact h
    rw [if_pos he, ← this, bump_eq _ _ hr]
  · rw [if_neg he, bump_eq _ _ hr]

/-- The cursor after a read that got `k` bytes past the header, on a
register-addressed descriptor. -/
theorem rd_cursor_data (slave : I2C_SLAVE) (r n k : Nat) (hreg : slave.cfg.reg_size ≠ 0)
    (hr : r < 65536) (hk : k ≤ n) (j : Nat) (hj : j ≤ 1) :
    rd_cursor slave r n ((rd_setreg_plan slave r).length + 2 + k + (if k = n then j else 0)) =
      (r + k) % 65536 := by
  unfold rd_cursor
  have : min ((rd_setreg_plan slave r).length + 2 + k + (if k = n then j else 0) -
      (rd_setreg_plan slave r).length - 2) n = k := by split_ifs <;> omega
  rw [this]
  by_cases he : reg_bytes slave r = []
  · have : r = slave.reg_addr := by
      rcases (reg_bytes_nil_iff slave r).1 he with h | h
      · exact absurd h hreg
      · exact h
    rw [if_pos he, ← this, bump_eq _ _ hr]
  · rw [if_neg he, bump_eq _ _ hr]

/-! ## Transfers that succeed at the first invocation -/

theorem I2C_comm_first_ok (P : Periph σ) (ext : Nat → Strategy σ) (F : Nat)
    (slave : I2C_SLAVE) (reg_addr : Nat) (data : List Nat) (bytes : Nat) (rw : I2C_RW)
    (w : World σ) (s1 : I2C_SLAVE) (d1 : List Nat) (w1 : World σ) (hbusy : w.busy = false)
    (h : call_fct P ext F (if rw.toNat ≠ 0 then slave.cfg.rd else slave.cfg.wr)
      slave reg_addr data bytes { w with busy := true } = some (true, s1, d1, w1)) :
    I2C_comm P ext F slave reg_addr data bytes rw w =
      some (.I2C_OK, { s1 with status := .I2C_OK }, d1, { w1 with busy := false }) := by
  unfold I2C_comm
  simp only [I2C_is_busy, hbusy, Bool.false_eq_true, if_false]
  rw [h]
  simp only
  cases w.cfg.retries <;> simp [I2C_comm_retry]

/-- On the acknowledging mock `I2C_write` with the built-in strategy on a
register-addressed descriptor returns `I2C_OK` at the first invocation with the
write sequence as log and the cursor moved past the data. -/
theorem mock_write (ext : Nat → Strategy Mock) (F : Nat) (slave : I2C_SLAVE) (r : Nat)
    (d : List Nat) (w : World Mock) (hreg : slave.cfg.reg_size ≠ I2C_NO_REG)
    (hwr : slave.cfg.wr = .wr_builtin) (hr : r < 65536) (hd : d ≠ [])
    (hbusy : w.busy = false) (hack : w.hw.ackAddr = true) :
    ∃ w1, I2C_write MockP ext (F + 1) slave r d d.length w =
        some (.I2C_OK, { slave with reg_addr := (r + d.length) % 65536, status := .I2C_OK },
          d, w1) ∧
      w1.busy = false ∧ w1.hw.ackAddr = true ∧
      w1.log = w.log ++ acked (write_sequence (addr_byte slave .I2C_WRITE) slave r d) := by
  have hb : d.length ≠ 0 := by simpa using hd
  obtain ⟨s1, w1, h, a1⟩ := mock_wr F slave r d d.length { w with busy := true } hack hb
  obtain ⟨m, ⟨δ, e, rl, u, o⟩, _, hs⟩ :=
    I2C_wr_run MockP _ slave r d d.length _ true s1 d w1 hb h
  rw [calls_of_values_nil δ u, wr_plan_eq _ _ _ hr] at rl
  rw [wr_plan_eq _ _ _ hr] at o
  have hm := o.1 rfl
  have hcur : wr_cursor slave r d.length m = (r + d.length) % 65536 := by
    rw [hm]
    have := wr_cursor_data slave r d.length d.length hreg hr (le_refl _) 1 (le_refl _)
    simpa [write_sequence, write_header_length _ _ _ hr, Nat.add_assoc] using this
  refine ⟨{ w1 with busy := false }, ?_, rfl, a1, ?_⟩
  · unfold I2C_write
    rw [I2C_comm_first_ok MockP ext (F + 1) slave r d d.length .I2C_WRITE w s1 d w1 hbusy
      (by simpa [I2C_RW.toNat, hwr, call_fct] using h), hs, hcur]
  · have := e.2.2
    rw [rl.full hm] at this
    simpa using this

/-- On the acknowledging mock `I2C_read` with the built-in strategy returns
`I2C_OK` at the first invocation, having made the calls of the read sequence. -/
theorem mock_read (ext : Nat → Strategy Mock) (F : Nat) (slave : I2C_SLAVE) (r : Nat)
    (d : List Nat) (n : Nat) (w : World Mock) (hrd : slave.cfg.rd = .rd_builtin)
    (hr : r < 65536) (hn : n ≠ 0) (hlen : n ≤ d.length) (hbusy : w.busy = false)
    (hack : w.hw.ackAddr = true) :
    ∃ s1 d1 w1 δ, I2C_read MockP ext (F + 1) slave r d n w = some (.I2C_OK, s1, d1, w1) ∧
      w1.busy = false ∧ w1.hw.ackAddr = true ∧ w1.log = w.log ++ δ ∧
      calls δ = acked (read_sequence (addr_byte slave .I2C_WRITE) (addr_byte slave .I2C_READ)
        slave r n) ∧
      (values δ).length = n ∧ d1 = values δ ++ d.drop n := by
  obtain ⟨s1, d1, w1, h, a1⟩ := mock_rd F slave r d n { w with busy := true } hack hn
  obtain ⟨m, vs, ⟨δ, e, _⟩, _⟩ := I2C_rd_run MockP _ slave r d n _ true s1 d1 w1 hn h
  obtain ⟨_, h2, h3, h4⟩ := I2C_rd_all_ok MockP _ slave r d n _ true s1 d1 w1 δ hr hn hlen h
    e.2.2 (Or.inl rfl)
  refine ⟨{ s1 with status := .I2C_OK }, d1, { w1 with busy := false }, δ, ?_, rfl, a1,
    by simpa using e.2.2, h2, h3, h4⟩
  unfold I2C_read
  exact I2C_comm_first_ok MockP ext (F + 1) slave r d n .I2C_READ w s1 d1 w1 hbusy
    (by simpa [I2C_RW.toNat, hrd, call_fct] using h)

/-! ## Configuration setters -/

theorem I2C_reset_cfg (P : Periph σ) (w : World σ) : (I2C_reset P w).cfg = w.cfg := rfl

theorem I2C_set_speed_value (P : Periph σ) (F_CPU s : Nat) (w : World σ) :
    (I2C_set_speed P F_CPU s w).2.cfg.speed =
      (if s = 0 then 100 else if s > 400 then 400 else s) ∧
    (I2C_set_speed P F_CPU s w).1 = (I2C_set_speed P F_CPU s w).2.cfg.speed :=
  ⟨rfl, rfl⟩

/-! ## The descriptor's configuration is not touched by transactions -/

theorem I2C_wr_cfg (P : Periph σ) (F : Nat) (slave : I2C_SLAVE) (reg_addr : Nat)
    (data : List Nat) (bytes : Nat) (w : World σ) (ok : Bool) (slave1 : I2C_SLAVE)
    (data1 : List Nat) (w1 : World σ)
    (h : I2C_wr P F slave reg_addr data bytes w = some (ok, slave1, data1, w1)) :
    slave1.cfg = slave.cfg := by
  by_cases hb : bytes = 0
  · simp only [I2C_wr, hb, if_true, Option.some.injEq, Prod.mk.injEq] at h
    rw [← h.2.1]
  · obtain ⟨m, _, _, hs⟩ := I2C_wr_run P F slave reg_addr data bytes w ok slave1 data1 w1 hb h
    rw [hs]

theorem I2C_rd_cfg (P : Periph σ) (F : Nat) (slave : I2C_SLAVE) (reg_addr : Nat)
    (data : List Nat) (bytes : Nat) (w : World σ) (ok : Bool) (slave1 : I2C_SLAVE)
    (data1 : List Nat) (w1 : World σ)
    (h : I2C_rd P F slave reg_addr data bytes w = some (ok, slave1, data1, w1)) :
    slave1.cfg = slave.cfg := by
  by_cases hb : bytes = 0
  · simp only [I2C_rd, hb, if_true, Option.some.injEq, Prod.mk.injEq] at h
    rw [← h.2.1]
  · obtain ⟨m, vs, _, _, _, hs⟩ :=
      I2C_rd_run P F slave reg_addr data bytes w ok slave1 data1 w1 hb h
    rw [hs]

theorem I2C_comm_retry_cfg (P : Periph σ) (fc : Strategy σ) (reg_addr bytes : Nat)
    (hfc : ∀ s d w ok s1 d1 w1, fc s reg_addr d bytes w = some (ok, s1, d1, w1) →
      s1.cfg = s.cfg)
    (n : Nat) (a : Bool) (s : I2C_SLAVE) (d : List Nat) (w : World σ) (a1 : Bool)
    (s1 : I2C_SLAVE) (d1 : List Nat) (w1 : World σ)
    (h : I2C_comm_retry P fc reg_addr bytes n a s d w = some (a1, s1, d1, w1)) :
    s1.cfg = s.cfg := by
  induction n generalizing a s d w with
  | zero =>
    simp only [I2C_comm_retry, Option.some.injEq, Prod.mk.injEq] at h
    rw [← h.2.1]
  | succ n ih =>
    simp only [I2C_comm_retry] at h
    split at h
    · cases hf : fc s reg_addr d bytes (delay P 5 w) with
      | none => rw [hf] at h; simp at h
      | some y =>
        obtain ⟨a2, s2, d2, w2⟩ := y
        rw [hf] at h
        exact (ih a2 s2 d2 w2 h).trans (hfc _ _ _ _ _ _ _ hf)
    · simp only [Option.some.injEq, Prod.mk.injEq] at h
      rw [← h.2.1]

theorem I2C_comm_cfg (P : Periph σ) (ext : Nat → Strategy σ) (F : Nat) (slave : I2C_SLAVE)
    (reg_addr : Nat) (data : List Nat) (bytes : Nat) (rw : I2C_RW) (w : World σ)
    (hwr : slave.cfg.wr = .wr_builtin) (hrd : slave.cfg.rd = .rd_builtin)
    (st : I2C_STATUS) (s1 : I2C_SLAVE) (d1 : List Nat) (w1 : World σ)
    (h : I2C_comm P ext F slave reg_addr data bytes rw w = some (st, s1, d1, w1)) :
    s1.cfg = slave.cfg := by
  have hfc : ∀ s d w ok s1 d1 w1,
      call_fct P ext F (if rw.toNat ≠ 0 then slave.cfg.rd else slave.cfg.wr)
        s reg_addr d bytes w = some (ok, s1, d1, w1) → s1.cfg = s.cfg := by
    intro s d w ok s1 d1 w1 hc
    cases rw
    · simp only [I2C_RW.toNat, ne_eq, not_true_eq_false, if_false, hwr, call_fct] at hc
      exact I2C_wr_cfg P F _ _ _ _ _ _ _ _ _ hc
    · simp only [I2C_RW.toNat, ne_eq, one_ne_zero, not_false_eq_true, if_true, hrd,
        call_fct] at hc
      exact I2C_rd_cfg P F _ _ _ _ _ _ _ _ _ hc
  unfold I2C_comm at h
  simp only at h
  split at h
  · simp only [Option.some.injEq, Prod.mk.injEq] at h
    rw [← h.2.1]
  · cases h1 : call_fct P ext F (if rw.toNat ≠ 0 then slave.cfg.rd else slave.cfg.wr)
        slave reg_addr data bytes { w with busy := true } with
    | none => rw [h1] at h; simp at h
    | some y =>
      obtain ⟨a2, s2, d2, w2⟩ := y
      rw [h1] at h
      simp only at h
      cases h2 : I2C_comm_retry P
          (call_fct P ext F (if rw.toNat ≠ 0 then slave.cfg.rd else slave.cfg.wr))
          reg_addr bytes w.cfg.retries a2 s2 d2 w2 with
      | none => rw [h2] at h; simp at h
      | some z =>
        obtain ⟨a3, s3, d3, w3⟩ := z
        rw [h2] at h
        simp only [Option.some.injEq, Prod.mk.injEq] at h
        rw [← h.2.1]
        exact (I2C_comm_retry_cfg P _ _ _ hfc _ _ _ _ _ _ _ _ _ h2).trans
          (hfc _ _ _ _ _ _ _ h1)

/-! ## The address byte on the scripted mock -/

theorem addr_byte_7bit (slave : I2C_SLAVE) (rw : I2C_RW) (ha : slave.cfg.addr ≤ 0x7F) :
    addr_byte slave rw = 2 * slave.cfg.addr + rw.toNat := by
  cases rw
  · simpa [I2C_RW.toNat] using addr_byte_write slave ha
  · simpa [I2C_RW.toNat] using addr_byte_read slave ha

theorem script_sndAddr (F : Nat) (slave : I2C_SLAVE) (rw : I2C_RW) (w : World Script)
    (s : Nat) (rest : List Nat) (hs : w.hw.script = s :: rest) :
    ∃ w1, I2C_sndAddr ScriptP (F + 1) slave rw w =
        some (decide (s &&& 0xF8 = MT_SLA_ACK ∨ s &&& 0xF8 = MR_SLA_ACK), w1) ∧
      w1.hw.twdr = addr_byte slave rw ∧ w1.hw.script = rest := by
  by_cases h1 : s &&& 0xF8 = 0x18
  · simp +decide [I2C_sndAddr, I2C_sndAddr_status, wait_flag, CI2C.wrTWCR, CI2C.rdTWCR,
      CI2C.wrTWDR, ScriptP, TWINT, TWSTA, TWEN, TWSTO, I2C_start_timeout, World.emit,
      twint_clear, TWI_STATUS, MT_SLA_ACK, MR_SLA_ACK, hs, h1]
  by_cases h2 : s &&& 0xF8 = 0x40
  · simp +decide [I2C_sndAddr, I2C_sndAddr_status, wait_flag, CI2C.wrTWCR, CI2C.rdTWCR,
      CI2C.wrTWDR, ScriptP, TWINT, TWSTA, TWEN, TWSTO, I2C_start_timeout, World.emit,
      twint_clear, TWI_STATUS, MT_SLA_ACK, MR_SLA_ACK, hs, h1, h2]
  by_cases h3 : s &&& 0xF8 = 0x20
  · simp +decide [I2C_sndAddr, I2C_sndAddr_status, I2C_stop, wait_flag, CI2C.wrTWCR,
      CI2C.rdTWCR, CI2C.wrTWDR, ScriptP, TWINT, TWSTA, TWEN, TWSTO, I2C_start_timeout,
      World.emit, twint_clear, twsto_set, TWI_STATUS, MT_SLA_ACK, MR_SLA_ACK, MT_SLA_NACK,
      MR_SLA_NACK, hs, h1, h2, h3]
  by_cases h4 : s &&& 0xF8 = 0x48
  · simp +decide [I2C_sndAddr, I2C_sndAddr_status, I2C_stop, wait_flag, CI2C.wrTWCR,
      CI2C.rdTWCR, CI2C.wrTWDR, ScriptP, TWINT, TWSTA, TWEN, TWSTO, I2C_start_timeout,
      World.emit, twint_clear, twsto_set, TWI_STATUS, MT_SLA_ACK, MR_SLA_ACK, MT_SLA_NACK,
      MR_SLA_NACK, hs, h1, h2, h3, h4]
  · simp +decide [I2C_sndAddr, I2C_sndAddr_status, I2C_stop, I2C_reset, wait_flag,
      CI2C.wrTWCR, CI2C.rdTWCR, CI2C.wrTWDR, ScriptP, TWINT, TWSTA, TWEN, TWSTO, TWEA,
      I2C_start_timeout, World.emit, twint_clear, twsto_set, TWI_STATUS, MT_SLA_ACK,
      MR_SLA_ACK, MT_SLA_NACK, MR_SLA_NACK, hs, h1, h2, h3, h4]

/-! ## How failed attempts end -/

theorem Fail.prepend {w w1 w2 : World σ} {a : List Ev} (h1 : Ext w w1 a) (h2 : Fail w1 w2) :
    Fail w w2 := by
  obtain ⟨δ, e, pre, c, t, hδ, ht, hc, hb⟩ := h2
  refine ⟨a ++ δ, h1.trans e, a ++ pre, c, t, ?_, ht, hc, hb⟩
  rw [hδ, List.append_assoc]

theorem Run.fail_prepend {p : List Ev} {w w1 w2 : World σ} {ok : Bool} {m : Nat}
    {vs : List Nat} (h1 : Run p w w1 ok m vs) (h2 : Fail w1 w2) : Fail w w2 := by
  obtain ⟨δ, e, _⟩ := h1
  exact Fail.prepend e h2

theorem Fail.of_prim {c : Ev} {w w1 : World σ} (h : Prim c false w w1) (hc : c.isAction = true)
    (hb : c = .start ∨ ∃ a, c = .rd8 a) : Fail w w1 := by
  obtain ⟨t, ht, _, e⟩ := h
  exact ⟨_, e, [], c, t, rfl, ht, hc, fun _ => hb⟩

theorem I2C_start_fail (P : Periph σ) (F : Nat) (w w1 : World σ)
    (h : I2C_start P F w = some (false, w1)) : Fail w w1 :=
  Fail.of_prim (I2C_start_prim P F _ _ _ h) rfl (Or.inl rfl)

theorem I2C_rd8_fail (P : Periph σ) (F : Nat) (ack : Bool) (w w1 : World σ)
    (h : I2C_rd8 P F ack w = some (false, w1)) : Fail w w1 :=
  Fail.of_prim (I2C_rd8_prim P F _ _ _ _ h) rfl (Or.inr ⟨ack, rfl⟩)

theorem I2C_stop_fail (P : Periph σ) (F : Nat) (w w1 : World σ)
    (h : I2C_stop P F w = some (false, w1)) : Fail w w1 := by
  have e := I2C_stop_ext P F w false w1 h
  exact ⟨_, e, [], .stop, [.reset], by simp, by simp [Recovery], rfl, by simp⟩

theorem I2C_wr8_status_fail (P : Periph σ) (F : Nat) (w w1 : World σ)
    (h : I2C_wr8_status P F w = some (false, w1)) :
    ∃ t, t ∈ Recovery ∧ t ≠ [] ∧ Ext w w1 (t ++ [.ret false]) := by
  unfold I2C_wr8_status at h
  simp only at h
  split_ifs at h
  · simp at h
  · split at h
    · simp at h
    · next b2 w2 hs =>
      simp only [Option.some.injEq, Prod.mk.injEq] at h
      obtain ⟨_, rfl⟩ := h
      obtain ⟨t, ht, hne, e⟩ := nested_stop_recovery P F _ _ _ hs
      exact ⟨t, ht, hne, by simpa using ((Ext.status P w).trans (Ext.status P _)).trans e⟩
  · simp only [Option.some.injEq, Prod.mk.injEq] at h
    obtain ⟨_, rfl⟩ := h
    exact ⟨[.reset], by simp [Recovery], by simp,
      by simp [Ext, World.emit, TWI_STATUS, I2C_reset, CI2C.wrTWCR, CI2C.rdTWCR]⟩

theorem I2C_wr8_fail (P : Periph σ) (F : Nat) (dat : Nat) (w w1 : World σ)
    (h : I2C_wr8 P F dat w = some (false, w1)) : Fail w w1 := by
  unfold I2C_wr8 at h
  simp only at h
  split at h
  · simp at h
  · next w2 hw =>
    have e := wait_flag_ext P _ F _ _ _ hw
    simp only [Option.some.injEq, Prod.mk.injEq] at h
    obtain ⟨_, rfl⟩ := h
    refine ⟨.wr8 dat :: [.reset] ++ [.ret false], ?_, [], .wr8 dat, [.reset], by simp,
      by simp [Recovery], rfl, by simp⟩
    simp_all [Ext, World.emit, CI2C.wrTWCR, CI2C.wrTWDR, I2C_start_timeout]
  · next w2 hw =>
    have e := wait_flag_ext P _ F _ _ _ hw
    obtain ⟨t, ht, hne, e2⟩ := I2C_wr8_status_fail P F _ _ h
    refine ⟨.wr8 dat :: t ++ [.ret false], ?_, [], .wr8 dat, t, by simp, ht, rfl,
      fun h0 => absurd h0 hne⟩
    simp_all [Ext, World.emit, CI2C.wrTWCR, CI2C.wrTWDR, I2C_start_timeout]

theorem I2C_sndAddr_status_fail (P : Periph σ) (F : Nat) (w w1 : World σ)
    (h : I2C_sndAddr_status P F w = some (false, w1)) :
    ∃ t, t ∈ Recovery ∧ t ≠ [] ∧ Ext w w1 (t ++ [.ret false]) := by
  unfold I2C_sndAddr_status at h
  simp only at h
  split_ifs at h
  · simp at h
  · simp at h
  · split at h
    · simp at h
    · next b2 w2 hs =>
      simp only [Option.some.injEq, Prod.mk.injEq] at h
      obtain ⟨_, rfl⟩ := h
      obtain ⟨t, ht, hne, e⟩ := nested_stop_recovery P F _ _ _ hs
      exact ⟨t, ht, hne,
        by simpa using (((Ext.status P w).trans (Ext.status P _)).trans (Ext.status P _)).trans e⟩
  · split at h
    · simp at h
    · next b2 w2 hs =>
      simp only [Option.some.injEq, Prod.mk.injEq] at h
      obtain ⟨_, rfl⟩ := h
      obtain ⟨t, ht, hne, e⟩ := nested_stop_recovery P F _ _ _ hs
      exact ⟨t, ht, hne,
        by simpa using ((((Ext.status P w).trans (Ext.status P _)).trans
          (Ext.status P _)).trans (Ext.status P _)).trans e⟩
  · simp only [Option.some.injEq, Prod.mk.injEq] at h
    obtain ⟨_, rfl⟩ := h
    exact ⟨[.reset], by simp [Recovery], by simp,
      by simp [Ext, World.emit, TWI_STATUS, I2C_reset, CI2C.wrTWCR, CI2C.rdTWCR]⟩

theorem I2C_sndAddr_fail (P : Periph σ) (F : Nat) (slave : I2C_SLAVE) (rw : I2C_RW)
    (w w1 : World σ) (h : I2C_sndAddr P F slave rw w = some (false, w1)) : Fail w w1 := by
  unfold I2C_sndAddr at h
  simp only at h
  split at h
  · simp at h
  · next w2 hw =>
    have e := wait_flag_ext P _ F _ _ _ hw
    simp only [Option.some.injEq, Prod.mk.injEq] at h
    obtain ⟨_, rfl⟩ := h
    refine ⟨.sndAddr (addr_byte slave rw) :: [.reset] ++ [.ret false], ?_, [],
      .sndAddr (addr_byte slave rw), [.reset], by simp, by simp [Recovery], rfl, by simp⟩
    simp_all [Ext, World.emit, CI2C.wrTWCR, CI2C.wrTWDR, I2C_start_timeout]
  · next w2 hw =>
    have e := wait_flag_ext P _ F _ _ _ hw
    obtain ⟨t, ht, hne, e2⟩ := I2C_sndAddr_status_fail P F _ _ h
    refine ⟨.sndAddr (addr_byte slave rw) :: t ++ [.ret false], ?_, [],
      .sndAddr (addr_byte slave rw), t, by simp, ht, rfl, fun h0 => absurd h0 hne⟩
    simp_all [Ext, World.emit, CI2C.wrTWCR, CI2C.wrTWDR, I2C_start_timeout]

theorem I2C_wr_reg_fail (P : Periph σ) (F : Nat) (slave : I2C_SLAVE) (reg_addr : Nat)
    (w w1 : World σ) (h : I2C_wr_reg P F slave reg_addr w = some (false, w1)) : Fail w w1 := by
  unfold I2C_wr_reg at h
  split_ifs at h
  · cases hs : I2C_wr8 P F ((reg_addr >>> 8) % 256) w with
    | none => rw [hs] at h; simp at h
    | some x =>
      obtain ⟨b2, w2⟩ := x
      rw [hs] at h
      cases b2
      · simp only [Option.some.injEq, Prod.mk.injEq, true_and] at h
        subst h
        exact I2C_wr8_fail P F _ _ _ hs
      · simp only at h
        exact Fail.prepend (I2C_wr8_prim P F _ _ _ _ hs).ok_ext (I2C_wr8_fail P F _ _ _ h)
  · exact I2C_wr8_fail P F _ _ _ h

theorem I2C_wr_loop_fail (P : Periph σ) (F : Nat) (data : List Nat) (n cnt : Nat)
    (slave : I2C_SLAVE) (w : World σ) (slave1 : I2C_SLAVE) (w1 : World σ)
    (h : I2C_wr_loop P F data n cnt slave w = some (false, slave1, w1)) : Fail w w1 := by
  induction n generalizing cnt slave w with
  | zero => simp [I2C_wr_loop] at h
  | succ n ih =>
    rw [I2C_wr_loop] at h
    cases hs : I2C_wr8 P F (data.getD cnt 0) w with
    | none => rw [hs] at h; simp at h
    | some x =>
      obtain ⟨b2, w2⟩ := x
      rw [hs] at h
      cases b2
      · simp only [Option.some.injEq, Prod.mk.injEq, true_and] at h
        obtain ⟨_, rfl⟩ := h
        exact I2C_wr8_fail P F _ _ _ hs
      · simp only at h
        exact Fail.prepend (I2C_wr8_prim P F _ _ _ _ hs).ok_ext (ih _ _ _ h)

theorem I2C_wr_failed (P : Periph σ) (F : Nat) (slave : I2C_SLAVE) (reg_addr : Nat)
    (data : List Nat) (bytes : Nat) (w : World σ) (slave1 : I2C_SLAVE) (data1 : List Nat)
    (w1 : World σ) (hb : bytes ≠ 0)
    (h : I2C_wr P F slave reg_addr data bytes w = some (false, slave1, data1, w1)) :
    Fail w w1 := by
  unfold I2C_wr at h
  simp only [hb, if_false] at h
  cases h1 : I2C_start P F w with
  | none => rw [h1] at h; simp at h
  | some x1 =>
  obtain ⟨b1, w2⟩ := x1
  rw [h1] at h
  cases b1
  · simp only [Option.some.injEq, Prod.mk.injEq, true_and] at h
    obtain ⟨_, _, rfl⟩ := h
    exact I2C_start_fail P F _ _ h1
  have e1 := (I2C_start_prim P F _ _ _ h1).ok_ext
  simp only at h
  cases h2 : I2C_sndAddr P F slave .I2C_WRITE w2 with
  | none => rw [h2] at h; simp at h
  | some x2 =>
  obtain ⟨b2, w3⟩ := x2
  rw [h2] at h
  cases b2
  · simp only [Option.some.injEq, Prod.mk.injEq, true_and] at h
    obtain ⟨_, _, rfl⟩ := h
    exact Fail.prepend e1 (I2C_sndAddr_fail P F _ _ _ _ h2)
  have e2 := e1.trans (I2C_sndAddr_prim P F _ _ _ _ _ h2).ok_ext
  simp only at h
  cases h3 : I2C_wr_setreg P F slave reg_addr w3 with
  | none => rw [h3] at h; simp at h
  | some x3 =>
  obtain ⟨b3, s3, w4⟩ := x3
  rw [h3] at h
  have f3 : b3 = false → Fail w3 w4 := by
    intro hb3
    subst hb3
    unfold I2C_wr_setreg at h3
    split_ifs at h3
    · cases h4 : I2C_wr_reg P F (I2C_slave_set_reg_addr slave reg_addr) reg_addr w3 with
      | none => rw [h4] at h3; simp at h3
      | some x4 =>
        obtain ⟨b4, w5⟩ := x4
        rw [h4] at h3
        simp only [Option.some.injEq, Prod.mk.injEq] at h3
        obtain ⟨rfl, _, rfl⟩ := h3
        exact I2C_wr_reg_fail P F _ _ _ _ h4
    · simp at h3
  obtain ⟨k3, ⟨δ3, e3, _⟩, _⟩ := I2C_wr_setreg_run P F _ _ _ _ _ _ h3
  cases b3
  · simp only [Option.some.injEq, Prod.mk.injEq, true_and] at h
    obtain ⟨_, _, rfl⟩ := h
    exact Fail.prepend e2 (f3 rfl)
  have e4 := e2.trans e3
  simp only at h
  cases h5 : I2C_wr_loop P F data bytes 0 s3 w4 with
  | none => rw [h5] at h; simp at h
  | some x5 =>
  obtain ⟨b5, s5, w6⟩ := x5
  rw [h5] at h
  obtain ⟨k5, ⟨δ5, e5, _⟩, _⟩ := I2C_wr_loop_run P F _ _ _ _ _ _ _ _ h5
  cases b5
  · simp only [Option.some.injEq, Prod.mk.injEq, true_and] at h
    obtain ⟨_, _, rfl⟩ := h
    exact Fail.prepend e4 (I2C_wr_loop_fail P F _ _ _ _ _ _ _ h5)
  simp only at h
  cases h6 : I2C_stop P F w6 with
  | none => rw [h6] at h; simp at h
  | some x6 =>
  obtain ⟨b6, w7⟩ := x6
  rw [h6] at h
  simp only [Option.some.injEq, Prod.mk.injEq] at h
  obtain ⟨rfl, _, _, rfl⟩ := h
  exact Fail.prepend (e4.trans e5) (I2C_stop_fail P F _ _ h6)

theorem I2C_rd_loop_fail (P : Periph σ) (F : Nat) (bytes n cnt : Nat) (slave : I2C_SLAVE)
    (data : List Nat) (w : World σ) (slave1 : I2C_SLAVE) (data1 : List Nat) (w1 : World σ)
    (h : I2C_rd_loop P F bytes n cnt slave data w = some (false, slave1, data1, w1)) :
    Fail w w1 := by
  induction n generalizing cnt slave data w with
  | zero => simp [I2C_rd_loop] at h
  | succ n ih =>
    rw [I2C_rd_loop] at h
    cases hs : I2C_rd8 P F (if cnt = bytes - 1 then false else true) w with
    | none => rw [hs] at h; simp at h
    | some x =>
      obtain ⟨b2, w2⟩ := x
      rw [hs] at h
      cases b2
      · simp only [Option.some.injEq, Prod.mk.injEq, true_and] at h
        obtain ⟨_, _, rfl⟩ := h
        exact I2C_rd8_fail P F _ _ _ hs
      · simp only at h
        exact Fail.prepend ((I2C_rd8_prim P F _ _ _ _ hs).ok_ext.trans
          ((Ext.rdTWDR P w2).trans (Ext.emit _ _))) (ih _ _ _ _ h)

theorem I2C_rd_wrphase_fail (P : Periph σ) (F : Nat) (slave : I2C_SLAVE) (reg_addr : Nat)
    (w w1 : World σ) (h : I2C_rd_wrphase P F slave reg_addr w = some (false, w1)) :
    Fail w w1 := by
  unfold I2C_rd_wrphase at h
  cases h1 : I2C_start P F w with
  | none => rw [h1] at h; simp at h
  | some x1 =>
  obtain ⟨b1, w2⟩ := x1
  rw [h1] at h
  cases b1
  · simp only [Option.some.injEq, Prod.mk.injEq, true_and] at h
    subst h
    exact I2C_start_fail P F _ _ h1
  have e1 := (I2C_start_prim P F _ _ _ h1).ok_ext
  simp only at h
  cases h2 : I2C_sndAddr P F slave .I2C_WRITE w2 with
  | none => rw [h2] at h; simp at h
  | some x2 =>
  obtain ⟨b2, w3⟩ := x2
  rw [h2] at h
  cases b2
  · simp only [Option.some.injEq, Prod.mk.injEq, true_and] at h
    subst h
    exact Fail.prepend e1 (I2C_sndAddr_fail P F _ _ _ _ h2)
  simp only at h
  exact Fail.prepend (e1.trans (I2C_sndAddr_prim P F _ _ _ _ _ h2).ok_ext)
    (I2C_wr_reg_fail P F _ _ _ _ h)

theorem I2C_rd_failed (P : Periph σ) (F : Nat) (slave : I2C_SLAVE) (reg_addr : Nat)
    (data : List Nat) (bytes : Nat) (w : World σ) (slave1 : I2C_SLAVE) (data1 : List Nat)
    (w1 : World σ) (hb : bytes ≠ 0)
    (h : I2C_rd P F slave reg_addr data bytes w = some (false, slave1, data1, w1)) :
    Fail w w1 := by
  unfold I2C_rd at h
  simp only [hb, if_false] at h
  cases h0 : I2C_rd_setreg P F slave reg_addr w with
  | none => rw [h0] at h; simp at h
  | some x0 =>
  obtain ⟨b0, s0, w0⟩ := x0
  rw [h0] at h
  have f0 : b0 = false → Fail w w0 := by
    intro hb0
    subst hb0
    unfold I2C_rd_setreg at h0
    split_ifs at h0
    · cases h4 : I2C_rd_wrphase P F (I2C_slave_set_reg_addr slave reg_addr) reg_addr w with
      | none => rw [h4] at h0; simp at h0
      | some x4 =>
        obtain ⟨b4, w5⟩ := x4
        rw [h4] at h0
        simp only [Option.some.injEq, Prod.mk.injEq] at h0
        obtain ⟨rfl, _, rfl⟩ := h0
        exact I2C_rd_wrphase_fail P F _ _ _ _ h4
    · simp at h0
  obtain ⟨k0, ⟨δ0, e0, _⟩, _⟩ := I2C_rd_setreg_run P F _ _ _ _ _ _ h0
  cases b0
  · simp only [Option.some.injEq, Prod.mk.injEq, true_and] at h
    obtain ⟨_, _, rfl⟩ := h
    exact f0 rfl
  simp only at h
  cases h1 : I2C_start P F w0 with
  | none => rw [h1] at h; simp at h
  | some x1 =>
  obtain ⟨b1, w2⟩ := x1
  rw [h1] at h
  cases b1
  · simp only [Option.some.injEq, Prod.mk.injEq, true_and] at h
    obtain ⟨_, _, rfl⟩ := h
    exact Fail.prepend e0 (I2C_start_fail P F _ _ h1)
  have e1 := e0.trans (I2C_start_prim P F _ _ _ h1).ok_ext
  simp only at h
  cases h2 : I2C_sndAddr P F s0 .I2C_READ w2 with
  | none => rw [h2] at h; simp at h
  | some x2 =>
  obtain ⟨b2, w3⟩ := x2
  rw [h2] at h
  cases b2
  · simp only [Option.some.injEq, Prod.mk.injEq, true_and] at h
    obtain ⟨_, _, rfl⟩ := h
    exact Fail.prepend e1 (I2C_sndAddr_fail P F _ _ _ _ h2)
  have e2 := e1.trans (I2C_sndAddr_prim P F _ _ _ _ _ h2).ok_ext
  simp only at h
  cases h5 : I2C_rd_loop P F bytes bytes 0 s0 data w3 with
  | none => rw [h5] at h; simp at h
  | some x5 =>
  obtain ⟨b5, s5, d5, w6⟩ := x5
  rw [h5] at h
  obtain ⟨k5, vs5, ⟨δ5, e5, _⟩, _⟩ := I2C_rd_loop_run P F _ _ _ _ _ _ _ _ _ _ h5
  cases b5
  · simp only [Option.some.injEq, Prod.mk.injEq, true_and] at h
    obtain ⟨_, _, rfl⟩ := h
    exact Fail.prepend e2 (I2C_rd_loop_fail P F _ _ _ _ _ _ _ _ _ h5)
  simp only at h
  cases h6 : I2C_stop P F w6 with
  | none => rw [h6] at h; simp at h
  | some x6 =>
  obtain ⟨b6, w7⟩ := x6
  rw [h6] at h
  simp only [Option.some.injEq, Prod.mk.injEq] at h
  obtain ⟨rfl, _, _, rfl⟩ := h
  exact Fail.prepend (e2.trans e5) (I2C_stop_fail P F _ _ h6)

theorem last_action_tail (pre : List Ev) (c : Ev) (t : List Ev) (ht : t ∈ Recovery)
    (hc : c.isAction = true) :
    last_action (pre ++ (c :: t ++ [Ev.ret false])) =
      some (if t = [] then c else if t = [Ev.stop, Ev.ret true] then Ev.stop else Ev.reset) := by
  have h1 : (pre ++ (c :: t ++ [Ev.ret false])).filter Ev.isAction =
      pre.filter Ev.isAction ++ c :: (t ++ [Ev.ret false]).filter Ev.isAction := by
    rw [List.filter_append, List.cons_append, List.filter_cons_of_pos hc]
  unfold last_action
  rw [h1, List.getLast?_append_cons]
  simp only [Recovery, List.mem_cons, List.mem_singleton, List.mem_nil_iff, or_false] at ht
  rcases ht with rfl | rfl | rfl | rfl <;> rfl

theorem Fail.ends {w w1 : World σ} (h : Fail w w1) :
    ∃ δ, w1.log = w.log ++ δ ∧
      (last_action δ = some Ev.stop ∨ last_action δ = some Ev.reset ∨
        ∃ pre c, δ = pre ++ [c, .ret false] ∧ (c = Ev.start ∨ ∃ a, c = Ev.rd8 a) ∧
          last_action δ = some c) := by
  obtain ⟨δ, e, pre, c, t, hδ, ht, hc, hb⟩ := h
  refine ⟨δ, e.2.2, ?_⟩
  have hl := last_action_tail pre c t ht hc
  rw [← hδ] at hl
  by_cases h0 : t = []
  · subst h0
    rw [if_pos rfl] at hl
    exact Or.inr (Or.inr ⟨pre, c, by simpa using hδ, hb rfl, hl⟩)
  · rw [if_neg h0] at hl
    split_ifs at hl
    · exact Or.inl hl
    · exact Or.inr (Or.inl hl)

/-! ## Timeouts on the hung mock -/

theorem hung_reset (w : World Hung) :
    (I2C_reset HungP w).hw = { w.hw with twcr := (1 <<< TWEA) ||| (1 <<< TWEN) } ∧
    (I2C_reset HungP w).log = w.log ++ [.reset] ∧ (I2C_reset HungP w).cfg = w.cfg := by
  simp +decide [I2C_reset, CI2C.wrTWCR, CI2C.rdTWCR, HungP, World.emit, TWINT, TWEA, TWEN]

theorem hung_wait (pending : Nat → Bool) (c0 : Nat) (F : Nat) (w : World Hung)
    (hp : pending (w.hw.twcr % 256) = true) (hsw : w.start_wait = c0 % 65536)
    (hc : c0 ≤ w.hw.clock) (he : w.hw.clock - c0 < 65536)
    (hstep : ∀ i, w.hw.step i + w.cfg.timeout ≤ 65535) (k : Nat) (hk : k < F)
    (hadv : w.cfg.timeout ≤ w.hw.clock - c0 + advance w.hw.step w.hw.reads k) :
    ∃ w1, wait_flag HungP pending F w = some (false, w1) ∧
      w1.hw.twcr = (1 <<< TWEA) ||| (1 <<< TWEN) ∧ c0 + w.cfg.timeout ≤ w1.hw.last ∧
      w1.log = w.log ++ [.reset] := by
  induction F generalizing w k with
  | zero => omega
  | succ F ih =>
    have hrd : rdTWCR HungP w = (w.hw.twcr % 256, w) := rfl
    have hel : ((HungP.millis w.hw).1 % 65536 + 65536 - w.start_wait % 65536) % 65536 =
        w.hw.clock - c0 := by
      have : (HungP.millis w.hw).1 = w.hw.clock := rfl
      rw [this, hsw]
      omega
    unfold wait_flag
    rw [hrd]
    simp only [hp, if_true]
    by_cases ht : w.cfg.timeout ≤ w.hw.clock - c0
    · have h1 : (I2C_timeout HungP w).1 = true := by
        simp only [I2C_timeout, hel, ge_iff_le, ht, decide_True]
      rw [if_pos h1]
      obtain ⟨r1, r2, _⟩ := hung_reset (I2C_timeout HungP w).2
      refine ⟨_, rfl, ?_, ?_, ?_⟩
      · rw [r1]
      · rw [r1]
        show c0 + w.cfg.timeout ≤ w.hw.clock
        omega
      · rw [r2]; rfl
    · have h1 : (I2C_timeout HungP w).1 = false := by
        simp only [I2C_timeout, hel, ge_iff_le, ht, decide_False]
      rw [if_neg (by simp [h1])]
      have hs := hstep w.hw.reads
      have hclk : (I2C_timeout HungP w).2.hw.clock = w.hw.clock + w.hw.step w.hw.reads := rfl
      obtain ⟨k, rfl⟩ : ∃ k1, k = k1 + 1 := by
        cases k with
        | zero => simp only [advance] at hadv; omega
        | succ k1 => exact ⟨k1, rfl⟩
      simp only [advance] at hadv
      obtain ⟨w1, g1, g2, g3, g4⟩ := ih (I2C_timeout HungP w).2 hp hsw
        (by rw [hclk]; omega) (by rw [hclk]; show _ < 65536; omega) hstep k (by omega)
        (by
          rw [hclk]
          show w.cfg.timeout ≤ w.hw.clock + w.hw.step w.hw.reads - c0 +
            advance w.hw.step (w.hw.reads + 1) k
          omega)
      exact ⟨w1, g1, g2, g3, g4⟩

theorem hung_cmd (pending : Nat → Bool) (v : Nat) (F : Nat) (w : World Hung)
    (hp : pending ((v &&& (255 ^^^ (1 <<< TWINT))) % 256) = true)
    (hstep : ∀ i, w.hw.step i + w.cfg.timeout ≤ 65535) (k : Nat) (hk : k < F)
    (hadv : w.cfg.timeout ≤ advance w.hw.step w.hw.reads (k + 1)) :
    ∃ w1, wait_flag HungP pending F (wrTWCR HungP v (I2C_start_timeout HungP w)) =
        some (false, w1) ∧
      w1.hw.twcr = (1 <<< TWEA) ||| (1 <<< TWEN) ∧ w.hw.clock + w.cfg.timeout ≤ w1.hw.last ∧
      w1.log = w.log ++ [.reset] := by
  have hs := hstep w.hw.reads
  simp only [advance] at hadv
  exact hung_wait pending w.hw.clock F (wrTWCR HungP v (I2C_start_timeout HungP w)) hp rfl
    (by show w.hw.clock ≤ w.hw.clock + w.hw.step w.hw.reads; omega)
    (by show w.hw.clock + w.hw.step w.hw.reads - w.hw.clock < 65536; omega) hstep k hk
    (by
      show w.cfg.timeout ≤ w.hw.clock + w.hw.step w.hw.reads - w.hw.clock +
        advance w.hw.step (w.hw.reads + 1) k
      omega)

theorem hung_start (F : Nat) (w : World Hung)
    (hstep : ∀ i, w.hw.step i + w.cfg.timeout ≤ 65535) (k : Nat) (hk : k < F)
    (hadv : w.cfg.timeout ≤ advance w.hw.step w.hw.reads (k + 1)) :
    ∃ w1, I2C_start HungP F w = some (false, w1) ∧
      w1.hw.twcr = (1 <<< TWEA) ||| (1 <<< TWEN) ∧ w.hw.clock + w.cfg.timeout ≤ w1.hw.last ∧
      w1.log = w.log ++ [.start, .reset, .ret false] := by
  obtain ⟨w1, g1, g2, g3, g4⟩ := hung_cmd twint_clear
    ((1 <<< TWINT) ||| (1 <<< TWSTA) ||| (1 <<< TWEN)) F (w.emit .start) (by decide) hstep k hk hadv
  refine ⟨w1.emit (.ret false), ?_, g2, g3, ?_⟩
  · unfold I2C_start
    simp only
    rw [g1]
  · simp [World.emit, g4]

theorem hung_stop (F : Nat) (w : World Hung)
    (hstep : ∀ i, w.hw.step i + w.cfg.timeout ≤ 65535) (k : Nat) (hk : k < F)
    (hadv : w.cfg.timeout ≤ advance w.hw.step w.hw.reads (k + 1)) :
    ∃ w1, I2C_stop HungP F w = some (false, w1) ∧
      w1.hw.twcr = (1 <<< TWEA) ||| (1 <<< TWEN) ∧ w.hw.clock + w.cfg.timeout ≤ w1.hw.last ∧
      w1.log = w.log ++ [.stop, .reset, .ret false] := by
  obtain ⟨w1, g1, g2, g3, g4⟩ := hung_cmd twsto_set
    ((1 <<< TWINT) ||| (1 <<< TWEN) ||| (1 <<< TWSTO)) F (w.emit .stop) (by decide) hstep k hk hadv
  refine ⟨w1.emit (.ret false), ?_, g2, g3, ?_⟩
  · unfold I2C_stop
    simp only
    rw [g1]
  · simp [World.emit, g4]

theorem hung_wr8 (F : Nat) (dat : Nat) (w : World Hung)
    (hstep : ∀ i, w.hw.step i + w.cfg.timeout ≤ 65535) (k : Nat) (hk : k < F)
    (hadv : w.cfg.timeout ≤ advance w.hw.step w.hw.reads (k + 1)) :
    ∃ w1, I2C_wr8 HungP F dat w = some (false, w1) ∧
      w1.hw.twcr = (1 <<< TWEA) ||| (1 <<< TWEN) ∧ w.hw.clock + w.cfg.timeout ≤ w1.hw.last ∧
      w1.log = w.log ++ [.wr8 dat, .reset, .ret false] := by
  obtain ⟨w1, g1, g2, g3, g4⟩ := hung_cmd twint_clear
    ((1 <<< TWINT) ||| (1 <<< TWEN)) F (wrTWDR HungP (dat % 256) (w.emit (.wr8 dat)))
    (by decide) hstep k hk hadv
  refine ⟨w1.emit (.ret false), ?_, g2, g3, ?_⟩
  · unfold I2C_wr8
    simp only
    rw [g1]
  · simp [World.emit, g4, CI2C.wrTWDR]

theorem hung_sndAddr (F : Nat) (slave : I2C_SLAVE) (rw : I2C_RW) (w : World Hung)
    (hstep : ∀ i, w.hw.step i + w.cfg.timeout ≤ 65535) (k : Nat) (hk : k < F)
    (hadv : w.cfg.timeout ≤ advance w.hw.step w.hw.reads (k + 1)) :
    ∃ w1, I2C_sndAddr HungP F slave rw w = some (false, w1) ∧
      w1.hw.twcr = (1 <<< TWEA) ||| (1 <<< TWEN) ∧ w.hw.clock + w.cfg.timeout ≤ w1.hw.last ∧
      w1.log = w.log ++ [.sndAddr (addr_byte slave rw), .reset, .ret false] := by
  obtain ⟨w1, g1, g2, g3, g4⟩ := hung_cmd twint_clear
    ((1 <<< TWINT) ||| (1 <<< TWEN)) F
    (wrTWDR HungP (addr_byte slave rw) (w.emit (.sndAddr (addr_byte slave rw))))
    (by decide) hstep k hk hadv
  refine ⟨w1.emit (.ret false), ?_, g2, g3, ?_⟩
  · unfold I2C_sndAddr
    simp only
    rw [g1]
  · simp [World.emit, g4, CI2C.wrTWDR]

theorem hung_rd8 (F : Nat) (ack : Bool) (w : World Hung)
    (hstep : ∀ i, w.hw.step i + w.cfg.timeout ≤ 65535) (k : Nat) (hk : k < F)
    (hadv : w.cfg.timeout ≤ advance w.hw.step w.hw.reads (k + 1)) :
    ∃ w1, I2C_rd8 HungP F ack w = some (false, w1) ∧
      w1.hw.twcr = (1 <<< TWEA) ||| (1 <<< TWEN) ∧ w.hw.clock + w.cfg.timeout ≤ w1.hw.last ∧
      w1.log = w.log ++ [.rd8 ack, .reset, .ret false] := by
  cases ack
  · obtain ⟨w1, g1, g2, g3, g4⟩ := hung_cmd twint_clear
      ((1 <<< TWINT) ||| (1 <<< TWEN)) F (w.emit (.rd8 false)) (by decide) hstep k hk hadv
    refine ⟨w1.emit (.ret false), ?_, g2, g3, ?_⟩
    · unfold I2C_rd8
      simp only [Bool.false_eq_true, if_false]
      rw [g1]
    · simp [World.emit, g4]
  · obtain ⟨w1, g1, g2, g3, g4⟩ := hung_cmd twint_clear
      ((1 <<< TWINT) ||| (1 <<< TWEN) ||| (1 <<< TWEA)) F (w.emit (.rd8 true)) (by decide)
      hstep k hk hadv
    refine ⟨w1.emit (.ret false), ?_, g2, g3, ?_⟩
    · unfold I2C_rd8
      simp only [if_true]
      rw [g1]
    · simp [World.emit, g4]

/-! ## The memory mock -/

theorem mem_start (F : Nat) (w : World Mem) :
    ∃ w1, I2C_start MemP (F + 1) w = some (true, w1) ∧ w1.hw.mode = .started ∧
      w1.hw.width = w.hw.width ∧ w1.hw.ptr = w.hw.ptr ∧ w1.hw.mem = w.hw.mem := by
  by_cases hm : w.hw.mode = .idle <;>
    simp +decide [I2C_start, wait_flag, CI2C.wrTWCR, CI2C.rdTWCR, MemP, Mem.command, TWINT, TWSTA,
      TWEN, TWSTO, I2C_start_timeout, World.emit, twint_clear, TWI_STATUS, START,
      REPEATED_START, hm]

theorem mem_stop (F : Nat) (w : World Mem) :
    ∃ w1, I2C_stop MemP (F + 1) w = some (true, w1) ∧ w1.hw.mode = .idle ∧
      w1.hw.width = w.hw.width ∧ w1.hw.ptr = w.hw.ptr ∧ w1.hw.mem = w.hw.mem := by
  simp +decide [I2C_stop, wait_flag, CI2C.wrTWCR, CI2C.rdTWCR, MemP, Mem.command, TWINT, TWSTA,
    TWEN, TWSTO, I2C_start_timeout, World.emit, twsto_set]

theorem mem_sndAddr_wr (F : Nat) (slave : I2C_SLAVE) (w : World Mem)
    (hm : w.hw.mode = .started) :
    ∃ w1, I2C_sndAddr MemP (F + 1) slave .I2C_WRITE w = some (true, w1) ∧ w1.hw.mode = .tx ∧
      w1.hw.pending = w.hw.width ∧
      w1.hw.width = w.hw.width ∧ w1.hw.ptr = w.hw.ptr ∧ w1.hw.mem = w.hw.mem := by
  have hp := addr_byte_write_even slave
  simp +decide [I2C_sndAddr, I2C_sndAddr_status, wait_flag, CI2C.wrTWCR, CI2C.rdTWCR,
    CI2C.wrTWDR, MemP, Mem.command, TWINT, TWSTA, TWEN, TWSTO, I2C_start_timeout,
    World.emit, twint_clear, TWI_STATUS, MT_SLA_ACK, MR_SLA_ACK, hm, hp]

theorem mem_sndAddr_rd (F : Nat) (slave : I2C_SLAVE) (w : World Mem)
    (hm : w.hw.mode = .started) :
    ∃ w1, I2C_sndAddr MemP (F + 1) slave .I2C_READ w = some (true, w1) ∧ w1.hw.mode = .rx ∧
      w1.hw.width = w.hw.width ∧ w1.hw.ptr = w.hw.ptr ∧ w1.hw.mem = w.hw.mem := by
  have hp := addr_byte_read_odd slave
  simp +decide [I2C_sndAddr, I2C_sndAddr_status, wait_flag, CI2C.wrTWCR, CI2C.rdTWCR,
    CI2C.wrTWDR, MemP, Mem.command, TWINT, TWSTA, TWEN, TWSTO, I2C_start_timeout,
    World.emit, twint_clear, TWI_STATUS, MT_SLA_ACK, MR_SLA_ACK, hm, hp]

theorem mem_wr8_reg (F : Nat) (dat : Nat) (w : World Mem) (hm : w.hw.mode = .tx)
    (hp : w.hw.pending ≠ 0) :
    ∃ w1, I2C_wr8 MemP (F + 1) dat w = some (true, w1) ∧ w1.hw.mode = .tx ∧
      w1.hw.pending = w.hw.pending - 1 ∧ w1.hw.width = w.hw.width ∧
      w1.hw.ptr = (if w.hw.pending = w.hw.width then dat % 256
        else w.hw.ptr * 256 + dat % 256) ∧
      w1.hw.mem = w.hw.mem := by
  simp +decide [I2C_wr8, I2C_wr8_status, wait_flag, CI2C.wrTWCR, CI2C.rdTWCR, CI2C.wrTWDR, MemP,
    Mem.command, TWINT, TWSTA, TWEN, TWSTO, I2C_start_timeout, World.emit, twint_clear,
    TWI_STATUS, MT_DATA_ACK, hm, hp]

theorem mem_wr8_data (F : Nat) (dat : Nat) (w : World Mem) (hm : w.hw.mode = .tx)
    (hp : w.hw.pending = 0) :
    ∃ w1, I2C_wr8 MemP (F + 1) dat w = some (true, w1) ∧ w1.hw.mode = .tx ∧
      w1.hw.pending = 0 ∧ w1.hw.width = w.hw.width ∧ w1.hw.ptr = w.hw.ptr + 1 ∧
      w1.hw.mem = (fun a => if a = w.hw.ptr then dat % 256 else w.hw.mem a) := by
  simp +decide [I2C_wr8, I2C_wr8_status, wait_flag, CI2C.wrTWCR, CI2C.rdTWCR, CI2C.wrTWDR, MemP,
    Mem.command, TWINT, TWSTA, TWEN, TWSTO, I2C_start_timeout, World.emit, twint_clear,
    TWI_STATUS, MT_DATA_ACK, hm, hp]

theorem mem_rd8 (F : Nat) (ack : Bool) (w : World Mem) (hm : w.hw.mode = .rx) :
    ∃ w1, I2C_rd8 MemP (F + 1) ack w = some (true, w1) ∧ w1.hw.mode = .rx ∧
      w1.hw.width = w.hw.width ∧ w1.hw.ptr = w.hw.ptr + 1 ∧ w1.hw.mem = w.hw.mem ∧
      (rdTWDR MemP w1).1 = w.hw.mem w.hw.ptr % 256 := by
  cases ack <;>
    simp +decide [I2C_rd8, wait_flag, CI2C.wrTWCR, CI2C.rdTWCR, CI2C.rdTWDR, MemP,
      Mem.command, TWINT, TWSTA, TWEN, TWSTO, TWEA, I2C_start_timeout, World.emit,
      twint_clear, TWI_STATUS, MR_DATA_ACK, MR_DATA_NACK, LOST_ARBTRTN, hm]

theorem mem_wr_reg (F : Nat) (slave : I2C_SLAVE) (reg_addr : Nat) (w : World Mem)
    (hm : w.hw.mode = .tx) (hp : w.hw.pending = w.hw.width)
    (hw : w.hw.width = reg_width slave) :
    ∃ w1, I2C_wr_reg MemP (F + 1) slave reg_addr w = some (true, w1) ∧ w1.hw.mode = .tx ∧
      w1.hw.pending = 0 ∧ w1.hw.width = w.hw.width ∧
      w1.hw.ptr = reg_pointer slave reg_addr ∧ w1.hw.mem = w.hw.mem := by
  unfold I2C_wr_reg
  unfold reg_width at hw
  unfold reg_pointer
  split_ifs with h16
  · rw [if_pos h16] at hw
    obtain ⟨w1, h1, m1, p1, d1, q1, e1⟩ := mem_wr8_reg F ((reg_addr >>> 8) % 256) w hm
      (by omega)
    obtain ⟨w2, h2, m2, p2, d2, q2, e2⟩ := mem_wr8_reg F (reg_addr % 256) w1 m1 (by omega)
    rw [h1]
    refine ⟨w2, h2, m2, by omega, d2.trans d1, ?_, e2.trans e1⟩
    rw [q2, if_neg (by omega), q1, if_pos hp]
    simp
  · rw [if_neg h16] at hw
    obtain ⟨w1, h1, m1, p1, d1, q1, e1⟩ := mem_wr8_reg F (reg_addr % 256) w hm (by omega)
    refine ⟨w1, h1, m1, by omega, d1, ?_, e1⟩
    rw [q1, if_pos hp]
    simp

theorem mem_wr_loop (F : Nat) (data : List Nat) (n cnt : Nat) (slave : I2C_SLAVE)
    (w : World Mem) (hm : w.hw.mode = .tx) (hp : w.hw.pending = 0) :
    ∃ w1, I2C_wr_loop MemP (F + 1) data n cnt slave w =
        some (true, { slave with reg_addr := bump n slave.reg_addr }, w1) ∧
      w1.hw.mode = .tx ∧ w1.hw.width = w.hw.width ∧ w1.hw.ptr = w.hw.ptr + n ∧
      (∀ i, i < n → w1.hw.mem (w.hw.ptr + i) = data.getD (cnt + i) 0 % 256) ∧
      (∀ a, a < w.hw.ptr → w1.hw.mem a = w.hw.mem a) := by
  induction n generalizing cnt slave w with
  | zero => exact ⟨w, rfl, hm, rfl, rfl, by intro i hi; omega, fun _ _ => rfl⟩
  | succ n ih =>
    obtain ⟨w1, h1, m1, p1, d1, q1, e1⟩ := mem_wr8_data F (data.getD cnt 0) w hm hp
    obtain ⟨w2, h2, m2, d2, q2, e2, f2⟩ := ih (cnt + 1)
      { slave with reg_addr := (slave.reg_addr + 1) % 65536 } w1 m1 p1
    rw [I2C_wr_loop, h1]
    simp only
    rw [h2]
    refine ⟨w2, ?_, m2, d2.trans d1, by omega, ?_, ?_⟩
    · rw [bump_succ]
    · intro i hi
      rcases Nat.eq_zero_or_pos i with rfl | hpos
      · rw [Nat.add_zero, f2 _ (by omega), e1]
        simp
      · have := e2 (i - 1) (by omega)
        rw [q1] at this
        have e3 : w.hw.ptr + 1 + (i - 1) = w.hw.ptr + i := by omega
        have e4 : cnt + 1 + (i - 1) = cnt + i := by omega
        rw [e3, e4] at this
        exact this
    · intro a ha
      rw [f2 a (by omega), e1]
      simp only
      rw [if_neg (by omega)]

theorem mem_rd_loop (F : Nat) (bytes n cnt : Nat) (slave : I2C_SLAVE) (data : List Nat)
    (w : World Mem) (hm : w.hw.mode = .rx) (hlen : cnt + n ≤ data.length) :
    ∃ d1 w1, I2C_rd_loop MemP (F + 1) bytes n cnt slave data w =
        some (true, { slave with reg_addr := bump n slave.reg_addr }, d1, w1) ∧
      w1.hw.mode = .rx ∧ w1.hw.width = w.hw.width ∧ w1.hw.mem = w.hw.mem ∧
      d1.length = data.length ∧
      (∀ j, d1.getD j 0 = if cnt ≤ j ∧ j < cnt + n then w.hw.mem (w.hw.ptr + (j - cnt)) % 256
        else data.getD j 0) := by
  induction n generalizing cnt slave data w with
  | zero =>
    refine ⟨data, w, rfl, hm, rfl, rfl, rfl, ?_⟩
    intro j
    rw [if_neg (by omega)]
  | succ n ih =>
    obtain ⟨w1, h1, m1, d1, q1, e1, v1⟩ := mem_rd8 F (if cnt = bytes - 1 then false else true)
      w hm
    obtain ⟨d2, w2, h2, m2, dd2, e2, l2, g2⟩ := ih (cnt + 1)
      { slave with reg_addr := (slave.reg_addr + 1) % 65536 }
      (data.set cnt (rdTWDR MemP w1).1) ((rdTWDR MemP w1).2.emit (.twdr (rdTWDR MemP w1).1))
      (by simpa [CI2C.rdTWDR, MemP, World.emit] using m1)
      (by simp only [List.length_set]; omega)
    rw [I2C_rd_loop, h1]
    simp only
    rw [h2]
    have hw2 : ((rdTWDR MemP w1).2.emit (.twdr (rdTWDR MemP w1).1)).hw = w1.hw := rfl
    refine ⟨d2, w2, ?_, m2, ?_, ?_, ?_, ?_⟩
    · rw [bump_succ]
    · rw [dd2, hw2, d1]
    · rw [e2, hw2, e1]
    · rw [l2, List.length_set]
    · intro j
      rw [g2 j, hw2, e1, q1, v1]
      by_cases hj : j = cnt
      · subst hj
        rw [if_neg (by omega), if_pos (by omega)]
        simp [List.getD_eq_getElem?_getD, List.getElem?_set, show j < data.length by omega]
      · by_cases h3 : cnt + 1 ≤ j ∧ j < cnt + 1 + n
        · rw [if_pos h3, if_pos (by omega)]
          have : w.hw.ptr + 1 + (j - (cnt + 1)) = w.hw.ptr + (j - cnt) := by omega
          rw [this]
        · rw [if_neg h3, if_neg (by omega)]
          simp [List.getD_eq_getElem?_getD, List.getElem?_set, Ne.symm hj]

theorem mem_wr (F : Nat) (slave : I2C_SLAVE) (reg_addr : Nat) (data : List Nat) (bytes : Nat)
    (w : World Mem) (hb : bytes ≠ 0) (hreg : slave.cfg.reg_size ≠ 0)
    (hcur : reg_addr ≠ slave.reg_addr) (hw : w.hw.width = reg_width slave) :
    ∃ w1, I2C_wr MemP (F + 1) slave reg_addr data bytes w =
        some (true, { slave with reg_addr := bump bytes reg_addr }, data, w1) ∧
      w1.hw.width = w.hw.width ∧
      (∀ i, i < bytes → w1.hw.mem (reg_pointer slave reg_addr + i) = data.getD i 0 % 256) := by
  obtain ⟨w1, h1, m1, d1, _, _⟩ := mem_start F w
  obtain ⟨w2, h2, m2, p2, d2, _, _⟩ := mem_sndAddr_wr F slave w1 m1
  obtain ⟨w3, h3, m3, p3, d3, q3, _⟩ := mem_wr_reg F (I2C_slave_set_reg_addr slave reg_addr)
    reg_addr w2 m2 (p2.trans d2.symm) (by rw [d2, d1, hw]; rfl)
  obtain ⟨w4, h4, m4, d4, q4, e4, _⟩ := mem_wr_loop F data bytes 0
    (I2C_slave_set_reg_addr slave reg_addr) w3 m3 p3
  obtain ⟨w5, h5, m5, d5, q5, e5⟩ := mem_stop F w4
  have hset : I2C_wr_setreg MemP (F + 1) slave reg_addr w2 =
      some (true, I2C_slave_set_reg_addr slave reg_addr, w3) := by
    unfold I2C_wr_setreg
    rw [if_pos ⟨hreg, hcur⟩, h3]
  unfold I2C_wr
  rw [if_neg hb, h1]
  simp only
  rw [h2]
  simp only
  rw [hset]
  simp only
  rw [h4]
  simp only
  rw [h5]
  refine ⟨w5, rfl, by rw [d5, d4, d3, d2, d1], ?_⟩
  intro i hi
  have := e4 i hi
  rw [q3] at this
  rw [e5, show reg_pointer slave reg_addr = reg_pointer (I2C_slave_set_reg_addr slave reg_addr)
    reg_addr from rfl, this, Nat.zero_add]

theorem mem_rd (F : Nat) (slave : I2C_SLAVE) (reg_addr : Nat) (data : List Nat) (bytes : Nat)
    (w : World Mem) (hb : bytes ≠ 0) (hreg : slave.cfg.reg_size ≠ 0)
    (hcur : reg_addr ≠ slave.reg_addr) (hw : w.hw.width = reg_width slave)
    (hlen : bytes ≤ data.length) :
    ∃ d1 w1, I2C_rd MemP (F + 1) slave reg_addr data bytes w =
        some (true, { slave with reg_addr := bump bytes reg_addr }, d1, w1) ∧
      d1.length = data.length ∧
      (∀ j, d1.getD j 0 = if j < bytes then w.hw.mem (reg_pointer slave reg_addr + j) % 256
        else data.getD j 0) := by
  obtain ⟨w1, h1, m1, d1, _, e1⟩ := mem_start F w
  obtain ⟨w2, h2, m2, p2, d2, _, e2⟩ := mem_sndAddr_wr F
    (I2C_slave_set_reg_addr slave reg_addr) w1 m1
  obtain ⟨w3, h3, m3, p3, d3, q3, e3⟩ := mem_wr_reg F (I2C_slave_set_reg_addr slave reg_addr)
    reg_addr w2 m2 (p2.trans d2.symm) (by rw [d2, d1, hw]; rfl)
  obtain ⟨w4, h4, m4, d4, q4, e4⟩ := mem_start F w3
  obtain ⟨w5, h5, m5, d5, q5, e5⟩ := mem_sndAddr_rd F
    (I2C_slave_set_reg_addr slave reg_addr) w4 m4
  obtain ⟨b6, w6, h6, m6, d6, e6, l6, g6⟩ := mem_rd_loop F bytes bytes 0
    (I2C_slave_set_reg_addr slave reg_addr) data w5 m5 (by omega)
  obtain ⟨w7, h7, _⟩ := mem_stop F w6
  have hset : I2C_rd_setreg MemP (F + 1) slave reg_addr w =
      some (true, I2C_slave_set_reg_addr slave reg_addr, w3) := by
    unfold I2C_rd_setreg I2C_rd_wrphase
    rw [if_pos ⟨hreg, hcur⟩, h1]
    simp only
    rw [h2]
    simp only
    rw [h3]
  unfold I2C_rd
  rw [if_neg hb, hset]
  simp only
  rw [h4]
  simp only
  rw [h5]
  simp only
  rw [h6]
  simp only
  rw [h7]
  refine ⟨b6, w7, rfl, l6, ?_⟩
  intro j
  rw [g6 j, e5, e4, e3, e2, e1, q5, q4, q3]
  by_cases hj : j < bytes
  · rw [if_pos (by omega), if_pos hj, Nat.sub_zero]
    rfl
  · rw [if_neg (by omega), if_neg hj]

/-! ## The primitives on every completion status -/

theorem script_start (F : Nat) (w : World Script) (s : Nat) (rest : List Nat)
    (hs : w.hw.script = s :: rest) :
    ∃ w1, I2C_start ScriptP (F + 1) w =
        some (decide (s &&& 0xF8 = START ∨ s &&& 0xF8 = REPEATED_START), w1) ∧
      w1.log = w.log ++ (Ev.start :: (if s &&& 0xF8 = LOST_ARBTRTN then [Ev.reset] else []) ++
        [Ev.ret (decide (s &&& 0xF8 = START ∨ s &&& 0xF8 = REPEATED_START))]) ∧
      w1.hw.script = rest := by
  by_cases h1 : s &&& 0xF8 = 0x08
  · simp +decide [I2C_start, wait_flag, CI2C.wrTWCR, CI2C.rdTWCR, ScriptP, TWINT, TWSTA, TWEN,
      TWSTO, I2C_start_timeout, World.emit, twint_clear, TWI_STATUS, START, REPEATED_START,
      LOST_ARBTRTN, hs, h1]
  by_cases h2 : s &&& 0xF8 = 0x10
  · simp +decide [I2C_start, wait_flag, CI2C.wrTWCR, CI2C.rdTWCR, ScriptP, TWINT, TWSTA, TWEN,
      TWSTO, I2C_start_timeout, World.emit, twint_clear, TWI_STATUS, START, REPEATED_START,
      LOST_ARBTRTN, hs, h1, h2]
  by_cases h3 : s &&& 0xF8 = 0x38
  · simp +decide [I2C_start, I2C_reset, wait_flag, CI2C.wrTWCR, CI2C.rdTWCR, ScriptP, TWINT,
      TWSTA, TWEN, TWSTO, TWEA, I2C_start_timeout, World.emit, twint_clear, TWI_STATUS, START,
      REPEATED_START, LOST_ARBTRTN, hs, h1, h2, h3]
  · simp +decide [I2C_start, wait_flag, CI2C.wrTWCR, CI2C.rdTWCR, ScriptP, TWINT, TWSTA, TWEN,
      TWSTO, I2C_start_timeout, World.emit, twint_clear, TWI_STATUS, START, REPEATED_START,
      LOST_ARBTRTN, hs, h1, h2, h3]

theorem script_wr8 (F : Nat) (dat : Nat) (w : World Script) (s : Nat) (rest : List Nat)
    (hs : w.hw.script = s :: rest) :
    ∃ w1, I2C_wr8 ScriptP (F + 1) dat w = some (decide (s &&& 0xF8 = MT_DATA_ACK), w1) ∧
      w1.log = w.log ++ (Ev.wr8 dat ::
        (if s &&& 0xF8 = MT_DATA_ACK then []
         else if s &&& 0xF8 = MT_DATA_NACK then [Ev.stop, Ev.ret true] else [Ev.reset]) ++
        [Ev.ret (decide (s &&& 0xF8 = MT_DATA_ACK))]) ∧
      w1.hw.twdr = dat % 256 ∧ w1.hw.script = rest := by
  by_cases h1 : s &&& 0xF8 = 0x28
  · simp +decide [I2C_wr8, I2C_wr8_status, wait_flag, CI2C.wrTWCR, CI2C.rdTWCR, CI2C.wrTWDR,
      ScriptP, TWINT, TWSTA, TWEN, TWSTO, I2C_start_timeout, World.emit, twint_clear,
      TWI_STATUS, MT_DATA_ACK, MT_DATA_NACK, hs, h1]
  by_cases h2 : s &&& 0xF8 = 0x30
  · simp +decide [I2C_wr8, I2C_wr8_status, I2C_stop, wait_flag, CI2C.wrTWCR, CI2C.rdTWCR,
      CI2C.wrTWDR, ScriptP, TWINT, TWSTA, TWEN, TWSTO, I2C_start_timeout, World.emit,
      twint_clear, twsto_set, TWI_STATUS, MT_DATA_ACK, MT_DATA_NACK, hs, h1, h2]
  · simp +decide [I2C_wr8, I2C_wr8_status, I2C_reset, wait_flag, CI2C.wrTWCR, CI2C.rdTWCR,
      CI2C.wrTWDR, ScriptP, TWINT, TWSTA, TWEN, TWSTO, TWEA, I2C_start_timeout, World.emit,
      twint_clear, TWI_STATUS, MT_DATA_ACK, MT_DATA_NACK, hs, h1, h2]

theorem traced_rd8 (F : Nat) (ack : Bool) (w : World (Script × List Nat)) (s : Nat)
    (rest : List Nat) (hs : w.hw.1.script = s :: rest) :
    ∃ w1, I2C_rd8 (Traced ScriptP) (F + 1) ack w =
        some (decide ((s &&& 0xF8 = MR_DATA_ACK ∧ ack = true) ∨
          (s &&& 0xF8 = MR_DATA_NACK ∧ ack = false)), w1) ∧
      w1.hw.2 = w.hw.2 ++
        ((if ack then (1 <<< TWINT) ||| (1 <<< TWEN) ||| (1 <<< TWEA)
          else (1 <<< TWINT) ||| (1 <<< TWEN)) ::
         (if s &&& 0xF8 = LOST_ARBTRTN then [0, 1 <<< TWEA, (1 <<< TWEA) ||| (1 <<< TWEN)]
          else [])) ∧
      w1.log = w.log ++ (Ev.rd8 ack :: (if s &&& 0xF8 = LOST_ARBTRTN then [Ev.reset] else []) ++
        [Ev.ret (decide ((s &&& 0xF8 = MR_DATA_ACK ∧ ack = true) ∨
          (s &&& 0xF8 = MR_DATA_NACK ∧ ack = false)))]) ∧
      w1.hw.1.script = rest := by
  by_cases h1 : s &&& 0xF8 = 0x38
  · cases ack <;>
      simp +decide [I2C_rd8, I2C_reset, wait_flag, CI2C.wrTWCR, CI2C.rdTWCR, Traced, ScriptP,
        TWINT, TWSTA, TWEN, TWSTO, TWEA, I2C_start_timeout, World.emit, twint_clear, TWI_STATUS,
        MR_DATA_ACK, MR_DATA_NACK, LOST_ARBTRTN, hs, h1]
  by_cases h2 : s &&& 0xF8 = 0x58
  · cases ack <;>
      simp +decide [I2C_rd8, wait_flag, CI2C.wrTWCR, CI2C.rdTWCR, Traced, ScriptP,
        TWINT, TWSTA, TWEN, TWSTO, TWEA, I2C_start_timeout, World.emit, twint_clear, TWI_STATUS,
        MR_DATA_ACK, MR_DATA_NACK, LOST_ARBTRTN, hs, h1, h2]
  by_cases h3 : s &&& 0xF8 = 0x50
  · cases ack <;>
      simp +decide [I2C_rd8, wait_flag, CI2C.wrTWCR, CI2C.rdTWCR, Traced, ScriptP,
        TWINT, TWSTA, TWEN, TWSTO, TWEA, I2C_start_timeout, World.emit, twint_clear, TWI_STATUS,
        MR_DATA_ACK, MR_DATA_NACK, LOST_ARBTRTN, hs, h1, h2, h3]
  · cases ack <;>
      simp +decide [I2C_rd8, wait_flag, CI2C.wrTWCR, CI2C.rdTWCR, Traced, ScriptP,
        TWINT, TWSTA, TWEN, TWSTO, TWEA, I2C_start_timeout, World.emit, twint_clear, TWI_STATUS,
        MR_DATA_ACK, MR_DATA_NACK, LOST_ARBTRTN, hs, h1, h2, h3]

/-! ## Dispatch through the strategy pointers -/

theorem invocation_none (P : Periph σ) (fc : Strategy σ) (reg_addr bytes : Nat) (j : Nat) :
    invocation P fc reg_addr bytes none j = none := by
  induction j with
  | zero => rfl
  | succ j ih => rw [invocation, ih]; rfl

theorem I2C_comm_ok_at (P : Periph σ) (ext : Nat → Strategy σ) (F : Nat) (slave : I2C_SLAVE)
    (reg_addr : Nat) (data : List Nat) (bytes : Nat) (rw : I2C_RW) (w : World σ)
    (fc : Strategy σ)
    (hfc : call_fct P ext F (if rw.toNat ≠ 0 then slave.cfg.rd else slave.cfg.wr) = fc)
    (hbusy : w.busy = false) (k : Nat) (s : I2C_SLAVE) (d : List Nat) (w1 : World σ)
    (hk : k ≤ w.cfg.retries)
    (hfail : ∀ i, i < k → ∃ x, invocation P fc reg_addr bytes
      (fc slave reg_addr data bytes { w with busy := true }) i = some (false, x))
    (hok : invocation P fc reg_addr bytes
      (fc slave reg_addr data bytes { w with busy := true }) k = some (true, s, d, w1)) :
    I2C_comm P ext F slave reg_addr data bytes rw w =
      some (.I2C_OK, { s with status := .I2C_OK }, d, { w1 with busy := false }) := by
  subst hfc
  unfold I2C_comm
  simp only [I2C_is_busy, hbusy, Bool.false_eq_true, if_false]
  cases hf : call_fct P ext F (if rw.toNat ≠ 0 then slave.cfg.rd else slave.cfg.wr)
      slave reg_addr data bytes { w with busy := true } with
  | none =>
    rw [hf, invocation_none] at hok
    simp at hok
  | some y =>
    obtain ⟨a1, s1, d1, w2⟩ := y
    rw [hf] at hok hfail
    simp only
    rw [retry_first_success P _ reg_addr bytes k _ a1 s1 d1 w2 s d w1 hk hfail hok]
    simp

theorem I2C_comm_nack_all (P : Periph σ) (ext : Nat → Strategy σ) (F : Nat)
    (slave : I2C_SLAVE) (reg_addr : Nat) (data : List Nat) (bytes : Nat) (rw : I2C_RW)
    (w : World σ) (fc : Strategy σ)
    (hfc : call_fct P ext F (if rw.toNat ≠ 0 then slave.cfg.rd else slave.cfg.wr) = fc)
    (hbusy : w.busy = false) (s : I2C_SLAVE) (d : List Nat) (w1 : World σ)
    (hfail : ∀ i, i < w.cfg.retries → ∃ x, invocation P fc reg_addr bytes
      (fc slave reg_addr data bytes { w with busy := true }) i = some (false, x))
    (hlast : invocation P fc reg_addr bytes
      (fc slave reg_addr data bytes { w with busy := true }) w.cfg.retries =
        some (false, s, d, w1)) :
    I2C_comm P ext F slave reg_addr data bytes rw w =
      some (.I2C_NACK, { s with status := .I2C_NACK }, d, { w1 with busy := false }) := by
  subst hfc
  unfold I2C_comm
  simp only [I2C_is_busy, hbusy, Bool.false_eq_true, if_false]
  cases hf : call_fct P ext F (if rw.toNat ≠ 0 then slave.cfg.rd else slave.cfg.wr)
      slave reg_addr data bytes { w with busy := true } with
  | none =>
    rw [hf, invocation_none] at hlast
    simp at hlast
  | some y =>
    obtain ⟨a1, s1, d1, w2⟩ := y
    rw [hf] at hlast hfail
    simp only
    rw [retry_all_fail P _ reg_addr bytes _ a1 s1 d1 w2 s d w1 hfail hlast]
    simp

theorem set_rw_func_write (slave : I2C_SLAVE) (f : ci2c_fct_ptr) :
    I2C_slave_set_rw_func slave f .I2C_WRITE = { slave with cfg := { slave.cfg with wr := f } } := by
  simp [I2C_slave_set_rw_func, I2C_RW.toNat]

theorem set_rw_func_read (slave : I2C_SLAVE) (f : ci2c_fct_ptr) :
    I2C_slave_set_rw_func slave f .I2C_READ = { slave with cfg := { slave.cfg with rd := f } } := by
  simp [I2C_slave_set_rw_func, I2C_RW.toNat]

theorem I2C_comm_not_busy (P : Periph σ) (ext : Nat → Strategy σ) (F : Nat) (slave : I2C_SLAVE)
    (reg_addr : Nat) (data : List Nat) (bytes : Nat) (rw : I2C_RW) (w : World σ)
    (hbusy : w.busy = false) (st : I2C_STATUS) (s1 : I2C_SLAVE) (d1 : List Nat) (w1 : World σ)
    (h : I2C_comm P ext F slave reg_addr data bytes rw w = some (st, s1, d1, w1)) :
    st ≠ .I2C_BUSY ∧ w1.busy = false := by
  unfold I2C_comm at h
  simp only [I2C_is_busy, hbusy, Bool.false_eq_true, if_false] at h
  cases h1 : call_fct P ext F (if rw.toNat ≠ 0 then slave.cfg.rd else slave.cfg.wr)
      slave reg_addr data bytes { w with busy := true } with
  | none => rw [h1] at h; simp at h
  | some y =>
    obtain ⟨a2, s2, d2, w2⟩ := y
    rw [h1] at h
    simp only at h
    cases h2 : I2C_comm_retry P
        (call_fct P ext F (if rw.toNat ≠ 0 then slave.cfg.rd else slave.cfg.wr))
        reg_addr bytes w.cfg.retries a2 s2 d2 w2 with
    | none => rw [h2] at h; simp at h
    | some z =>
      obtain ⟨a3, s3, d3, w3⟩ := z
      rw [h2] at h
      simp only [Option.some.injEq, Prod.mk.injEq] at h
      obtain ⟨rfl, _, _, rfl⟩ := h
      refine ⟨?_, rfl⟩
      cases a3 <;> simp

theorem Reachable.not_busy {P : Periph σ} {ext : Nat → Strategy σ} {w : World σ}
    (h : Reachable P ext w) : w.busy = false := by
  induction h with
  | init h => rfl
  | set_retries x w _ ih => exact ih
  | set_timeout x w _ ih => exact ih
  | set_speed F_CPU s w _ ih => exact ih
  | reset w _ ih => exact ih
  | start F w b w1 _ h ih =>
    obtain ⟨t, _, _, e⟩ := I2C_start_prim P F _ _ _ h
    exact e.2.1.trans ih
  | stop F w b w1 _ h ih =>
    obtain ⟨t, _, _, e⟩ := I2C_stop_prim P F _ _ _ h
    exact e.2.1.trans ih
  | wr8 F dat w b w1 _ h ih =>
    obtain ⟨t, _, _, e⟩ := I2C_wr8_prim P F _ _ _ _ h
    exact e.2.1.trans ih
  | rd8 F ack w b w1 _ h ih =>
    obtain ⟨t, _, _, e⟩ := I2C_rd8_prim P F _ _ _ _ h
    exact e.2.1.trans ih
  | sndAddr F slave rw w b w1 _ h ih =>
    obtain ⟨t, _, _, e⟩ := I2C_sndAddr_prim P F _ _ _ _ _ h
    exact e.2.1.trans ih
  | write F slave r d n w st s1 d1 w1 _ h ih =>
    exact (I2C_comm_not_busy P ext F slave r d n .I2C_WRITE w ih st s1 d1 w1 h).2
  | read F slave r d n w st s1 d1 w1 _ h ih =>
    exact (I2C_comm_not_busy P ext F slave r d n .I2C_READ w ih st s1 d1 w1 h).2

theorem I2C_wr_world_cfg (P : Periph σ) (F : Nat) (slave : I2C_SLAVE) (reg_addr : Nat)
    (data : List Nat) (bytes : Nat) (w : World σ) (ok : Bool) (slave1 : I2C_SLAVE)
    (data1 : List Nat) (w1 : World σ)
    (h : I2C_wr P F slave reg_addr data bytes w = some (ok, slave1, data1, w1)) :
    w1.cfg = w.cfg := by
  by_cases hb : bytes = 0
  · simp only [I2C_wr, hb, if_true, Option.some.injEq, Prod.mk.injEq] at h
    rw [← h.2.2.2]
  · obtain ⟨m, ⟨δ, e, _⟩, _⟩ := I2C_wr_run P F slave reg_addr data bytes w ok slave1 data1 w1 hb h
    exact e.1

theorem I2C_rd_world_cfg (P : Periph σ) (F : Nat) (slave : I2C_SLAVE) (reg_addr : Nat)
    (data : List Nat) (bytes : Nat) (w : World σ) (ok : Bool) (slave1 : I2C_SLAVE)
    (data1 : List Nat) (w1 : World σ)
    (h : I2C_rd P F slave reg_addr data bytes w = some (ok, slave1, data1, w1)) :
    w1.cfg = w.cfg := by
  by_cases hb : bytes = 0
  · simp only [I2C_rd, hb, if_true, Option.some.injEq, Prod.mk.injEq] at h
    rw [← h.2.2.2]
  · obtain ⟨m, vs, ⟨δ, e, _⟩, _⟩ :=
      I2C_rd_run P F slave reg_addr data bytes w ok slave1 data1 w1 hb h
    exact e.1

theorem call_fct_limits (P : Periph σ) (ext : Nat → Strategy σ) (F : Nat)
    (hext : ∀ k s r d n w ok s1 d1 w1, ext k s r d n w = some (ok, s1, d1, w1) →
      w.cfg.retries ≤ 8 ∧ w.cfg.timeout ≤ 500 → w1.cfg.retries ≤ 8 ∧ w1.cfg.timeout ≤ 500)
    (p : ci2c_fct_ptr) (s : I2C_SLAVE) (r : Nat) (d : List Nat) (n : Nat) (w : World σ)
    (ok : Bool) (s1 : I2C_SLAVE) (d1 : List Nat) (w1 : World σ)
    (h : call_fct P ext F p s r d n w = some (ok, s1, d1, w1))
    (hw : w.cfg.retries ≤ 8 ∧ w.cfg.timeout ≤ 500) :
    w1.cfg.retries ≤ 8 ∧ w1.cfg.timeout ≤ 500 := by
  cases p with
  | wr_builtin => rw [I2C_wr_world_cfg P F _ _ _ _ _ _ _ _ _ h]; exact hw
  | rd_builtin => rw [I2C_rd_world_cfg P F _ _ _ _ _ _ _ _ _ h]; exact hw
  | user k => exact hext k _ _ _ _ _ _ _ _ _ h hw

theorem I2C_comm_retry_limits (P : Periph σ) (fc : Strategy σ) (reg_addr bytes : Nat)
    (hfc : ∀ s d w ok s1 d1 w1, fc s reg_addr d bytes w = some (ok, s1, d1, w1) →
      w.cfg.retries ≤ 8 ∧ w.cfg.timeout ≤ 500 → w1.cfg.retries ≤ 8 ∧ w1.cfg.timeout ≤ 500)
    (R : Nat) (a : Bool) (s : I2C_SLAVE) (d : List Nat) (w : World σ) (a1 : Bool)
    (s1 : I2C_SLAVE) (d1 : List Nat) (w1 : World σ)
    (h : I2C_comm_retry P fc reg_addr bytes R a s d w = some (a1, s1, d1, w1))
    (hw : w.cfg.retries ≤ 8 ∧ w.cfg.timeout ≤ 500) :
    w1.cfg.retries ≤ 8 ∧ w1.cfg.timeout ≤ 500 := by
  induction R generalizing a s d w with
  | zero =>
    simp only [I2C_comm_retry, Option.some.injEq, Prod.mk.injEq] at h
    rw [← h.2.2.2]; exact hw
  | succ R ih =>
    simp only [I2C_comm_retry] at h
    split at h
    · cases hf : fc s reg_addr d bytes (delay P 5 w) with
      | none => rw [hf] at h; simp at h
      | some y =>
        obtain ⟨a2, s2, d2, w2⟩ := y
        rw [hf] at h
        exact ih a2 s2 d2 w2 h (hfc _ _ _ _ _ _ _ hf hw)
    · simp only [Option.some.injEq, Prod.mk.injEq] at h
      rw [← h.2.2.2]; exact hw

theorem I2C_comm_limits (P : Periph σ) (ext : Nat → Strategy σ) (F : Nat)
    (hext : ∀ k s r d n w ok s1 d1 w1, ext k s r d n w = some (ok, s1, d1, w1) →
      w.cfg.retries ≤ 8 ∧ w.cfg.timeout ≤ 500 → w1.cfg.retries ≤ 8 ∧ w1.cfg.timeout ≤ 500)
    (slave : I2C_SLAVE) (reg_addr : Nat) (data : List Nat) (bytes : Nat) (rw : I2C_RW)
    (w : World σ) (st : I2C_STATUS) (s1 : I2C_SLAVE) (d1 : List Nat) (w1 : World σ)
    (h : I2C_comm P ext F slave reg_addr data bytes rw w = some (st, s1, d1, w1))
    (hw : w.cfg.retries ≤ 8 ∧ w.cfg.timeout ≤ 500) :
    w1.cfg.retries ≤ 8 ∧ w1.cfg.timeout ≤ 500 := by
  unfold I2C_comm at h
  simp only at h
  split at h
  · simp only [Option.some.injEq, Prod.mk.injEq] at h
    rw [← h.2.2.2]; exact hw
  · cases h1 : call_fct P ext F (if rw.toNat ≠ 0 then slave.cfg.rd else slave.cfg.wr)
        slave reg_addr data bytes { w with busy := true } with
    | none => rw [h1] at h; simp at h
    | some y =>
      obtain ⟨a2, s2, d2, w2⟩ := y
      rw [h1] at h
      simp only at h
      cases h2 : I2C_comm_retry P
          (call_fct P ext F (if rw.toNat ≠ 0 then slave.cfg.rd else slave.cfg.wr))
          reg_addr bytes w.cfg.retries a2 s2 d2 w2 with
      | none => rw [h2] at h; simp at h
      | some z =>
        obtain ⟨a3, s3, d3, w3⟩ := z
        rw [h2] at h
        simp only [Option.some.injEq, Prod.mk.injEq] at h
        rw [← h.2.2.2]
        exact I2C_comm_retry_limits P _ _ _
          (fun s d w ok s1 d1 w1 hh => call_fct_limits P ext F hext _ _ _ _ _ _ _ _ _ _ hh)
          _ _ _ _ _ a3 s3 d3 w3 h2
          (call_fct_limits P ext F hext _ _ _ _ _ _ _ _ _ _ h1 hw)

theorem Reachable.limits {P : Periph σ} {ext : Nat → Strategy σ} {w : World σ}
    (hext : ∀ k s r d n w ok s1 d1 w1, ext k s r d n w = some (ok, s1, d1, w1) →
      w.cfg.retries ≤ 8 ∧ w.cfg.timeout ≤ 500 → w1.cfg.retries ≤ 8 ∧ w1.cfg.timeout ≤ 500)
    (h : Reachable P ext w) : w.cfg.retries ≤ 8 ∧ w.cfg.timeout ≤ 500 := by
  induction h with
  | init h => exact ⟨(by decide : DEF_CI2C_NB_RETRIES ≤ 8), (by decide : DEF_CI2C_TIMEOUT ≤ 500)⟩
  | set_retries x w _ ih =>
    refine ⟨?_, ih.2⟩
    show (if x > 8 then 8 else x) ≤ 8
    split <;> omega
  | set_timeout x w _ ih =>
    refine ⟨ih.1, ?_⟩
    show (if x > 500 then 500 else x) ≤ 500
    split <;> omega
  | set_speed F_CPU s w _ ih => exact ih
  | reset w _ ih => exact ih
  | start F w b w1 _ h ih =>
    obtain ⟨t, _, _, e⟩ := I2C_start_prim P F _ _ _ h
    rw [e.1]; exact ih
  | stop F w b w1 _ h ih =>
    obtain ⟨t, _, _, e⟩ := I2C_stop_prim P F _ _ _ h
    rw [e.1]; exact ih
  | wr8 F dat w b w1 _ h ih =>
    obtain ⟨t, _, _, e⟩ := I2C_wr8_prim P F _ _ _ _ h
    rw [e.1]; exact ih
  | rd8 F ack w b w1 _ h ih =>
    obtain ⟨t, _, _, e⟩ := I2C_rd8_prim P F _ _ _ _ h
    rw [e.1]; exact ih
  | sndAddr F slave rw w b w1 _ h ih =>
    obtain ⟨t, _, _, e⟩ := I2C_sndAddr_prim P F _ _ _ _ _ h
    rw [e.1]; exact ih
  | write F slave r d n w st s1 d1 w1 _ h ih =>
    exact I2C_comm_limits P ext F hext slave r d n .I2C_WRITE w st s1 d1 w1 h ih
  | read F slave r d n w st s1 d1 w1 _ h ih =>
    exact I2C_comm_limits P ext F hext slave r d n .I2C_READ w st s1 d1 w1 h ih

theorem comm_retry_invocation (P : Periph σ) (fc : Strategy σ) (reg_addr bytes : Nat)
    (R : Nat) (a : Bool) (s : I2C_SLAVE) (d : List Nat) (w : World σ)
    (x : Bool × I2C_SLAVE × List Nat × World σ)
    (h : I2C_comm_retry P fc reg_addr bytes R a s d w = some x) :
    ∃ j, j ≤ R ∧ invocation P fc reg_addr bytes (some (a, s, d, w)) j = some x := by
  induction R generalizing a s d w with
  | zero =>
    simp only [I2C_comm_retry, Option.some.injEq] at h
    exact ⟨0, le_refl _, by rw [← h]; rfl⟩
  | succ R ih =>
    simp only [I2C_comm_retry] at h
    split at h
    · cases hf : fc s reg_addr d bytes (delay P 5 w) with
      | none => rw [hf] at h; simp at h
      | some y =>
        obtain ⟨a2, s2, d2, w2⟩ := y
        rw [hf] at h
        obtain ⟨j, hj, hi⟩ := ih a2 s2 d2 w2 h
        refine ⟨j + 1, by omega, ?_⟩
        rw [invocation_shift]
        simp only [Option.some_bind, reinvoke, hf]
        exact hi
    · simp only [Option.some.injEq] at h
      exact ⟨0, Nat.zero_le _, by rw [← h]; rfl⟩

theorem comm_retry_returns (P : Periph σ) (fc : Strategy σ) (reg_addr bytes : Nat)
    (hfc : ∀ s d w, (fc s reg_addr d bytes w).isSome = true)
    (R : Nat) (a : Bool) (s : I2C_SLAVE) (d : List Nat) (w : World σ) :
    (I2C_comm_retry P fc reg_addr bytes R a s d w).isSome = true := by
  induction R generalizing a s d w with
  | zero => rfl
  | succ R ih =>
    simp only [I2C_comm_retry]
    split
    · cases hf : fc s reg_addr d bytes (delay P 5 w) with
      | none =>
        have := hfc s d (delay P 5 w)
        rw [hf] at this
        simp at this
      | some y =>
        obtain ⟨a2, s2, d2, w2⟩ := y
        exact ih a2 s2 d2 w2
    · rfl

theorem I2C_comm_invocation (P : Periph σ) (ext : Nat → Strategy σ) (F : Nat)
    (slave : I2C_SLAVE) (reg_addr : Nat) (data : List Nat) (bytes : Nat) (rw : I2C_RW)
    (w : World σ) (hbusy : w.busy = false) (st : I2C_STATUS) (s1 : I2C_SLAVE) (d1 : List Nat)
    (w1 : World σ)
    (h : I2C_comm P ext F slave reg_addr data bytes rw w = some (st, s1, d1, w1)) :
    ∃ j a s2 w2, j ≤ w.cfg.retries ∧
      invocation P (call_fct P ext F (if rw.toNat ≠ 0 then slave.cfg.rd else slave.cfg.wr))
        reg_addr bytes
        (call_fct P ext F (if rw.toNat ≠ 0 then slave.cfg.rd else slave.cfg.wr)
          slave reg_addr data bytes { w with busy := true }) j = some (a, s2, d1, w2) ∧
      st = (if a then I2C_STATUS.I2C_OK else I2C_STATUS.I2C_NACK) ∧
      s1 = { s2 with status := st } ∧ w1 = { w2 with busy := false } := by
  unfold I2C_comm at h
  simp only [I2C_is_busy, hbusy, Bool.false_eq_true, if_false] at h
  cases h1 : call_fct P ext F (if rw.toNat ≠ 0 then slave.cfg.rd else slave.cfg.wr)
      slave reg_addr data bytes { w with busy := true } with
  | none => rw [h1] at h; simp at h
  | some y =>
    obtain ⟨a2, s2, d2, w2⟩ := y
    rw [h1] at h
    simp only at h
    cases h2 : I2C_comm_retry P
        (call_fct P ext F (if rw.toNat ≠ 0 then slave.cfg.rd else slave.cfg.wr))
        reg_addr bytes w.cfg.retries a2 s2 d2 w2 with
    | none => rw [h2] at h; simp at h
    | some z =>
      obtain ⟨a3, s3, d3, w3⟩ := z
      rw [h2] at h
      simp only [Option.some.injEq, Prod.mk.injEq] at h
      obtain ⟨rfl, rfl, rfl, rfl⟩ := h
      obtain ⟨j, hj, hi⟩ := comm_retry_invocation P _ _ _ _ _ _ _ _ _ h2
      exact ⟨j, a3, s3, w3, hj, hi, rfl, rfl, rfl⟩

theorem I2C_comm_returns (P : Periph σ) (ext : Nat → Strategy σ) (F : Nat)
    (slave : I2C_SLAVE) (reg_addr : Nat) (data : List Nat) (bytes : Nat) (rw : I2C_RW)
    (w : World σ)
    (hfc : ∀ s d w, (call_fct P ext F (if rw.toNat ≠ 0 then slave.cfg.rd else slave.cfg.wr)
      s reg_addr d bytes w).isSome = true) :
    (I2C_comm P ext F slave reg_addr data bytes rw w).isSome = true := by
  unfold I2C_comm
  simp only
  split
  · rfl
  · cases h1 : call_fct P ext F (if rw.toNat ≠ 0 then slave.cfg.rd else slave.cfg.wr)
        slave reg_addr data bytes { w with busy := true } with
    | none =>
      have := hfc slave data { w with busy := true }
      rw [h1] at this
      simp at this
    | some y =>
      obtain ⟨a2, s2, d2, w2⟩ := y
      simp only
      have := comm_retry_returns P _ reg_addr bytes hfc w.cfg.retries a2 s2 d2 w2
      cases h2 : I2C_comm_retry P
          (call_fct P ext F (if rw.toNat ≠ 0 then slave.cfg.rd else slave.cfg.wr))
          reg_addr bytes w.cfg.retries a2 s2 d2 w2 with
      | none => rw [h2] at this; simp at this
      | some z => rfl

/-! ## Timeout zero -/

theorem timeout_zero (P : Periph σ) (w : World σ) (h0 : w.cfg.timeout = 0) :
    (I2C_timeout P w).1 = true := by
  simp [I2C_timeout, h0]

theorem zero_wait (P : Periph σ) (F : Nat) (v : Nat) (w : World σ) (h0 : w.cfg.timeout = 0)
    (hslow : ∀ v h, twint_clear ((P.rdTWCR (P.wrTWCR v h)).1 % 256) = true) :
    ∃ w1, wait_flag P twint_clear (F + 1) (wrTWCR P v w) = some (false, w1) ∧
      Ext w w1 [.reset] := by
  have hp : twint_clear (rdTWCR P (wrTWCR P v w)).1 = true := hslow v w.hw
  have ht : (I2C_timeout P (rdTWCR P (wrTWCR P v w)).2).1 = true :=
    timeout_zero P _ h0
  refine ⟨I2C_reset P (I2C_timeout P (rdTWCR P (wrTWCR P v w)).2).2, ?_, ?_⟩
  · simp only [wait_flag, hp, ht, if_true]
  · simpa using (((Ext.wrTWCR P v w).trans (Ext.rdTWCR P _)).trans (Ext.timeout P _)).trans
      (Ext.reset P _)

theorem zero_start (P : Periph σ) (F : Nat) (w : World σ) (h0 : w.cfg.timeout = 0)
    (hslow : ∀ v h, twint_clear ((P.rdTWCR (P.wrTWCR v h)).1 % 256) = true) :
    ∃ w1, I2C_start P (F + 1) w = some (false, w1) ∧ Ext w w1 [.start, .reset, .ret false] := by
  obtain ⟨w1, h1, e1⟩ := zero_wait P F ((1 <<< TWINT) ||| (1 <<< TWSTA) ||| (1 <<< TWEN))
    (I2C_start_timeout P (w.emit .start)) h0 hslow
  refine ⟨w1.emit (.ret false), ?_, ?_⟩
  · unfold I2C_start
    simp only
    rw [h1]
  · simpa using (((Ext.emit w .start).trans (Ext.start_timeout P _)).trans e1).trans
      (Ext.emit _ _)

theorem zero_sndAddr (P : Periph σ) (F : Nat) (slave : I2C_SLAVE) (rw : I2C_RW) (w : World σ)
    (h0 : w.cfg.timeout = 0)
    (hslow : ∀ v h, twint_clear ((P.rdTWCR (P.wrTWCR v h)).1 % 256) = true) :
    ∃ w1, I2C_sndAddr P (F + 1) slave rw w = some (false, w1) ∧
      Ext w w1 [.sndAddr (addr_byte slave rw), .reset, .ret false] := by
  obtain ⟨w1, h1, e1⟩ := zero_wait P F ((1 <<< TWINT) ||| (1 <<< TWEN))
    (I2C_start_timeout P (wrTWDR P (addr_byte slave rw)
      (w.emit (.sndAddr (addr_byte slave rw))))) h0 hslow
  refine ⟨w1.emit (.ret false), ?_, ?_⟩
  · unfold I2C_sndAddr
    simp only
    rw [h1]
  · simpa using ((((Ext.emit w (.sndAddr (addr_byte slave rw))).trans
      (Ext.wrTWDR P _ _)).trans (Ext.start_timeout P _)).trans e1).trans (Ext.emit _ _)

theorem zero_wr8 (P : Periph σ) (F : Nat) (dat : Nat) (w : World σ) (h0 : w.cfg.timeout = 0)
    (hslow : ∀ v h, twint_clear ((P.rdTWCR (P.wrTWCR v h)).1 % 256) = true) :
    ∃ w1, I2C_wr8 P (F + 1) dat w = some (false, w1) ∧
      Ext w w1 [.wr8 dat, .reset, .ret false] := by
  obtain ⟨w1, h1, e1⟩ := zero_wait P F ((1 <<< TWINT) ||| (1 <<< TWEN))
    (I2C_start_timeout P (wrTWDR P (dat % 256) (w.emit (.wr8 dat)))) h0 hslow
  refine ⟨w1.emit (.ret false), ?_, ?_⟩
  · unfold I2C_wr8
    simp only
    rw [h1]
  · simpa using ((((Ext.emit w (.wr8 dat)).trans (Ext.wrTWDR P _ _)).trans
      (Ext.start_timeout P _)).trans e1).trans (Ext.emit _ _)

theorem zero_rd8 (P : Periph σ) (F : Nat) (ack : Bool) (w : World σ) (h0 : w.cfg.timeout = 0)
    (hslow : ∀ v h, twint_clear ((P.rdTWCR (P.wrTWCR v h)).1 % 256) = true) :
    ∃ w1, I2C_rd8 P (F + 1) ack w = some (false, w1) ∧
      Ext w w1 [.rd8 ack, .reset, .ret false] := by
  cases ack
  · obtain ⟨w1, h1, e1⟩ := zero_wait P F ((1 <<< TWINT) ||| (1 <<< TWEN))
      (I2C_start_timeout P (w.emit (.rd8 false))) h0 hslow
    refine ⟨w1.emit (.ret false), ?_, ?_⟩
    · unfold I2C_rd8
      simp only [Bool.false_eq_true, if_false]
      rw [h1]
    · simpa using (((Ext.emit w (.rd8 false)).trans (Ext.start_timeout P _)).trans e1).trans
        (Ext.emit _ _)
  · obtain ⟨w1, h1, e1⟩ := zero_wait P F ((1 <<< TWINT) ||| (1 <<< TWEN) ||| (1 <<< TWEA))
      (I2C_start_timeout P (w.emit (.rd8 true))) h0 hslow
    refine ⟨w1.emit (.ret false), ?_, ?_⟩
    · unfold I2C_rd8
      simp only [if_true]
      rw [h1]
    · simpa using (((Ext.emit w (.rd8 true)).trans (Ext.start_timeout P _)).trans e1).trans
        (Ext.emit _ _)

theorem zero_wr (P : Periph σ) (F : Nat) (slave : I2C_SLAVE) (r : Nat) (d : List Nat) (n : Nat)
    (w : World σ) (h0 : w.cfg.timeout = 0)
    (hslow : ∀ v h, twint_clear ((P.rdTWCR (P.wrTWCR v h)).1 % 256) = true) :
    ∃ s1 w1, I2C_wr P (F + 1) slave r d n w = some (false, s1, d, w1) ∧ w1.cfg = w.cfg ∧
      s1.cfg = slave.cfg := by
  by_cases hn : n = 0
  · exact ⟨slave, w, by simp [I2C_wr, hn], rfl, rfl⟩
  · obtain ⟨w1, h1, e1⟩ := zero_start P F w h0 hslow
    refine ⟨slave, w1, ?_, e1.1, rfl⟩
    unfold I2C_wr
    rw [if_neg hn, h1]

theorem zero_rd (P : Periph σ) (F : Nat) (slave : I2C_SLAVE) (r : Nat) (d : List Nat) (n : Nat)
    (w : World σ) (h0 : w.cfg.timeout = 0)
    (hslow : ∀ v h, twint_clear ((P.rdTWCR (P.wrTWCR v h)).1 % 256) = true) :
    ∃ s1 w1, I2C_rd P (F + 1) slave r d n w = some (false, s1, d, w1) ∧ w1.cfg = w.cfg ∧
      s1.cfg = slave.cfg := by
  by_cases hn : n = 0
  · exact ⟨slave, w, by simp [I2C_rd, hn], rfl, rfl⟩
  · by_cases hc : slave.cfg.reg_size ≠ 0 ∧ r ≠ slave.reg_addr
    · obtain ⟨w1, h1, e1⟩ := zero_start P F w h0 hslow
      refine ⟨I2C_slave_set_reg_addr slave r, w1, ?_, e1.1, rfl⟩
      unfold I2C_rd I2C_rd_setreg I2C_rd_wrphase
      rw [if_neg hn, if_pos hc, h1]
    · obtain ⟨w1, h1, e1⟩ := zero_start P F w h0 hslow
      refine ⟨slave, w1, ?_, e1.1, rfl⟩
      unfold I2C_rd I2C_rd_setreg
      rw [if_neg hn, if_neg hc]
      simp only
      rw [h1]

theorem zero_retry (P : Periph σ) (fc : Strategy σ) (r n : Nat)
    (hfc : ∀ s d w, w.cfg.timeout = 0 →
      ∃ s1 w1, fc s r d n w = some (false, s1, d, w1) ∧ w1.cfg = w.cfg)
    (R : Nat) (s : I2C_SLAVE) (d : List Nat) (w : World σ) (h0 : w.cfg.timeout = 0) :
    ∃ s1 w1, I2C_comm_retry P fc r n R false s d w = some (false, s1, d, w1) := by
  induction R generalizing s w with
  | zero => exact ⟨s, w, rfl⟩
  | succ R ih =>
    obtain ⟨s1, w1, h1, c1⟩ := hfc s d (delay P 5 w) h0
    obtain ⟨s2, w2, h2⟩ := ih s1 w1 (by rw [c1]; exact h0)
    refine ⟨s2, w2, ?_⟩
    simp only [I2C_comm_retry, if_true]
    rw [h1]
    simp only
    rw [h2]

theorem zero_comm (P : Periph σ) (ext : Nat → Strategy σ) (F : Nat) (slave : I2C_SLAVE)
    (r : Nat) (d : List Nat) (n : Nat) (rw : I2C_RW) (w : World σ) (h0 : w.cfg.timeout = 0)
    (hbusy : w.busy = false)
    (hfc : ∀ s d w, w.cfg.timeout = 0 →
      ∃ s1 w1, call_fct P ext F (if rw.toNat ≠ 0 then slave.cfg.rd else slave.cfg.wr)
        s r d n w = some (false, s1, d, w1) ∧ w1.cfg = w.cfg) :
    ∃ s1 w1, I2C_comm P ext F slave r d n rw w = some (.I2C_NACK, s1, d, w1) := by
  obtain ⟨s1, w1, h1, c1⟩ := hfc slave d { w with busy := true } h0
  obtain ⟨s2, w2, h2⟩ := zero_retry P _ r n hfc w.cfg.retries s1 d w1 (by rw [c1]; exact h0)
  refine ⟨{ s2 with status := .I2C_NACK }, { w2 with busy := false }, ?_⟩
  unfold I2C_comm
  simp only [I2C_is_busy, hbusy, Bool.false_eq_true, if_false]
  rw [h1]
  simp only
  rw [h2]
  simp

theorem and_mask_twint_clear (x : Nat) :
    twint_clear ((x &&& (255 ^^^ (1 <<< TWINT))) % 256) = true := by
  have h1 : x &&& (255 ^^^ (1 <<< TWINT)) ≤ 127 := Nat.and_le_right
  have h2 : (x &&& (255 ^^^ (1 <<< TWINT))) % 256 = x &&& (255 ^^^ (1 <<< TWINT)) :=
    Nat.mod_eq_of_lt (by omega)
  rw [h2]
  generalize x &&& (255 ^^^ (1 <<< TWINT)) = y at h1
  unfold twint_clear
  interval_cases y <;> rfl

theorem slow_needs_poll (v : Nat) (h : Mock × Bool) :
    twint_clear ((SlowP.rdTWCR (SlowP.wrTWCR v h)).1 % 256) = true :=
  and_mask_twint_clear _

theorem sndAddr_v02_prim (P : Periph σ) (F : Nat) (sl_addr : Nat)
    (w : World σ) (b : Bool) (w1 : World σ) (h : V02.I2C_sndAddr P F sl_addr w = some (b, w1)) :
    Prim (.sndAddr (sl_addr % 256)) b w w1 := by
  unfold V02.I2C_sndAddr at h
  simp only at h
  split at h
  · simp at h
  · next w2 hw =>
    have e := wait_flag_ext P _ F _ _ _ hw
    simp only [Option.some.injEq, Prod.mk.injEq] at h
    obtain ⟨rfl, rfl⟩ := h
    refine ⟨[.reset], by simp [Recovery], by simp, ?_⟩
    simp_all [Ext, World.emit, CI2C.wrTWCR, CI2C.wrTWDR, I2C_start_timeout]
  · next w2 hw =>
    have e := wait_flag_ext P _ F _ _ _ hw
    obtain ⟨t, ht, hb, e2⟩ := I2C_sndAddr_status_ext P F _ _ _ h
    refine ⟨t, ht, hb, ?_⟩
    simp_all [Ext, World.emit, CI2C.wrTWCR, CI2C.wrTWDR, I2C_start_timeout]

theorem rd_setreg_v02_run (P : Periph σ) (F : Nat) (slave : I2C_SLAVE) (reg_addr : Nat)
    (w : World σ) (b : Bool) (w1 : World σ)
    (h : V02.I2C_rd_setreg P F slave reg_addr w = some (b, w1)) :
    ∃ m, Run (V02.rd_setreg_plan slave reg_addr) w w1 b m [] := by
  unfold V02.I2C_rd_setreg at h
  unfold V02.rd_setreg_plan
  split_ifs at h ⊢ with hreg
  · cases h0 : I2C_wr_reg P F slave reg_addr w with
    | none => rw [h0] at h; simp at h
    | some x0 =>
    obtain ⟨b0, w0⟩ := x0
    obtain ⟨k, r0⟩ := I2C_wr_reg_run P F _ _ _ _ _ h0
    rw [h0] at h
    cases b0
    · simp only [Option.some.injEq, Prod.mk.injEq] at h
      obtain ⟨rfl, rfl⟩ := h
      exact ⟨_, r0.abort _⟩
    simp only at h
    cases h1 : I2C_start P F w0 with
    | none => rw [h1] at h; simp at h
    | some x1 =>
    obtain ⟨b1, w2⟩ := x1
    have p1 := I2C_start_prim P F _ _ _ h1
    rw [h1] at h
    cases b1
    · simp only [Option.some.injEq, Prod.mk.injEq] at h
      obtain ⟨rfl, rfl⟩ := h
      exact ⟨_, r0.seq ((Run.prim_fail p1 rfl).abort _)⟩
    simp only at h
    have p2 := sndAddr_v02_prim P F _ _ _ _ h
    cases b
    · exact ⟨_, r0.seq ((Run.prim_ok p1 rfl).seq (Run.prim_fail p2 rfl))⟩
    · exact ⟨_, r0.seq ((Run.prim_ok p1 rfl).seq (Run.prim_ok p2 rfl))⟩
  · simp only [Option.some.injEq, Prod.mk.injEq] at h
    obtain ⟨rfl, rfl⟩ := h
    exact ⟨0, Run.nil w⟩

/-- Every returning `I2C_rd` of version 0.2 is a run through its plan for
`nb` receives, `nb` being the count with zero replaced by one; the values read
are stored from the start of the buffer and the cursor is the register address
advanced once per value. -/
theorem rd_v02_run (P : Periph σ) (F : Nat) (slave : I2C_SLAVE) (reg_addr : Nat)
    (data : List Nat) (bytes : Nat) (w : World σ) (ok : Bool) (slave1 : I2C_SLAVE)
    (data1 : List Nat) (w1 : World σ)
    (h : V02.I2C_rd P F slave reg_addr data bytes w = some (ok, slave1, data1, w1)) :
    ∃ m vs, Run (V02.rd_plan slave reg_addr (if bytes = 0 then 1 else bytes)) w w1 ok m vs ∧
      data1 = store data 0 vs ∧ vs.length ≤ (if bytes = 0 then 1 else bytes) ∧
      (ok = true → vs.length = (if bytes = 0 then 1 else bytes)) ∧
      slave1 = { slave with reg_addr := bump vs.length reg_addr } := by
  unfold V02.I2C_rd at h
  have hnb : (if bytes = 0 then (bytes + 1) % 65536 else bytes) = (if bytes = 0 then 1 else bytes) := by
    split_ifs with hb
    · subst hb; rfl
    · rfl
  simp only [hnb] at h
  generalize (if bytes = 0 then 1 else bytes) = nb at h ⊢
  unfold V02.rd_plan
  cases h1 : I2C_start P F w with
  | none => rw [h1] at h; simp at h
  | some x1 =>
  obtain ⟨b1, w2⟩ := x1
  have p1 := I2C_start_prim P F _ _ _ h1
  rw [h1] at h
  cases b1
  · simp only [Option.some.injEq, Prod.mk.injEq] at h
    obtain ⟨rfl, rfl, rfl, rfl⟩ := h
    exact ⟨_, [], (Run.prim_fail p1 rfl).abort _, rfl, by simp, by simp, by
      simp [bump, I2C_slave_set_reg_addr]⟩
  simp only at h
  have r1 := Run.prim_ok p1 rfl
  cases h2 : V02.I2C_sndAddr P F ((slave.cfg.addr % 256) <<< 1) w2 with
  | none => simp only [I2C_slave_set_reg_addr] at h; rw [h2] at h; simp at h
  | some x2 =>
  obtain ⟨b2, w3⟩ := x2
  have p2 := sndAddr_v02_prim P F _ _ _ _ h2
  simp only [I2C_slave_set_reg_addr] at h
  rw [h2] at h
  cases b2
  · simp only [Option.some.injEq, Prod.mk.injEq] at h
    obtain ⟨rfl, rfl, rfl, rfl⟩ := h
    exact ⟨_, [], r1.seq ((Run.prim_fail p2 rfl).abort _), rfl, by simp, by simp, by
      simp [bump]⟩
  simp only at h
  have r2 := Run.prim_ok p2 rfl
  cases h3 : V02.I2C_rd_setreg P F { slave with reg_addr := reg_addr } reg_addr w3 with
  | none => rw [h3] at h; simp at h
  | some x3 =>
  obtain ⟨b3, w4⟩ := x3
  obtain ⟨k, r3⟩ := rd_setreg_v02_run P F _ _ _ _ _ h3
  have hp : V02.rd_setreg_plan { slave with reg_addr := reg_addr } reg_addr =
      V02.rd_setreg_plan slave reg_addr := rfl
  rw [hp] at r3
  rw [h3] at h
  cases b3
  · simp only [Option.some.injEq, Prod.mk.injEq] at h
    obtain ⟨rfl, rfl, rfl, rfl⟩ := h
    exact ⟨_, [], r1.seq (r2.seq (r3.abort _)), rfl, by simp, by simp, by simp [bump]⟩
  simp only at h
  cases h4 : I2C_rd_loop P F nb nb 0 { slave with reg_addr := reg_addr } data w4 with
  | none => rw [h4] at h; simp at h
  | some x4 =>
  obtain ⟨b4, slave4, data4, w5⟩ := x4
  obtain ⟨j, vs, r4, hl, hs4, hd⟩ := I2C_rd_loop_run P F _ _ _ _ _ _ _ _ _ _ h4
  rw [h4] at h
  cases b4
  · simp only [Option.some.injEq, Prod.mk.injEq] at h
    obtain ⟨rfl, rfl, rfl, rfl⟩ := h
    have hj := r4.lt
    rw [rd_calls_length] at hj
    refine ⟨_, _, r1.seq (r2.seq (r3.seq (r4.abort [Ev.stop]))), by simpa using hd, ?_, ?_, ?_⟩
    · simp; omega
    · simp
    · rw [hs4]; simp [hl]
  simp only at h
  have hj := r4.eq
  rw [rd_calls_length] at hj
  cases h5 : I2C_stop P F w5 with
  | none => rw [h5] at h; simp at h
  | some x5 =>
  obtain ⟨b5, w6⟩ := x5
  have p5 := I2C_stop_prim P F _ _ _ h5
  rw [h5] at h
  simp only [Option.some.injEq, Prod.mk.injEq] at h
  obtain ⟨rfl, rfl, rfl, rfl⟩ := h
  cases b5
  · refine ⟨_, _, r1.seq (r2.seq (r3.seq (r4.seq (Run.prim_fail p5 rfl)))),
      by simpa using hd, ?_, ?_, ?_⟩
    · simp; omega
    · simp
    · rw [hs4]; simp [hl]
  · refine ⟨_, _, r1.seq (r2.seq (r3.seq (r4.seq (Run.prim_ok p5 rfl)))),
      by simpa using hd, ?_, ?_, ?_⟩
    · simp; omega
    · intro _; simp; omega
    · rw [hs4]; simp [hl]

/-! ## Bit-rate arithmetic -/

/-- When the quotient is at least 16 the signed evaluation of the bit-rate
expression is the unsigned one, reduced to eight bits by the assignment. -/
theorem twbr_value_nat (F_CPU speed : Nat) (h : 16 ≤ F_CPU / 1000 / speed) :
    twbr_value F_CPU speed = (F_CPU / 1000 / speed - 16) / 2 % 256 := by
  unfold twbr_value
  obtain ⟨y, hy⟩ := Nat.exists_eq_add_of_le h
  rw [hy]
  have h1 : (((16 + y : Nat) : Int) - 16) = (y : Int) := by push_cast; ring
  rw [h1, Int.tdiv_eq_ediv (by positivity) (by norm_num)]
  have h2 : ((y : Int) / 2 % 256) = (((y / 2 % 256 : Nat)) : Int) := by push_cast; rfl
  rw [h2, Int.toNat_ofNat]
  simp

theorem twbr_quotient_ge (s : Nat) (h1 : 1 ≤ s) (h2 : s ≤ 400) : 16 ≤ 16000000 / 1000 / s := by
  rw [Nat.le_div_iff_mul_le (by omega)]
  omega

theorem twbr_fits_iff (s : Nat) (h1 : 1 ≤ s) :
    (16000000 / 1000 / s - 16) / 2 < 256 ↔ 31 ≤ s := by
  have h : 16000000 / 1000 / s < 528 ↔ 31 ≤ s := by
    rw [Nat.div_lt_iff_lt_mul (by omega)]
    omega
  omega

theorem set_speed_v02_value (P : Periph σ) (F_CPU s : Nat) (w : World σ) :
    (V02.I2C_set_speed P F_CPU s w).2.cfg.speed =
      (if s = 0 then 100 else if s > 1000 then 100 else s) ∧
    (V02.I2C_set_speed P F_CPU s w).1 =
      decide ((if s = 0 then 100 else if s > 1000 then 100 else s) = s) := by
  simp [V02.I2C_set_speed, I2C_reset_cfg, CI2C.wrTWBR, CI2C.wrTWSR, CI2C.rdTWSR, CI2C.wrTWCR,
    CI2C.rdTWCR, V02.I2C_SLOW, V02.I2C_FAST]

/-! ## Reads of version 0.2 -/

theorem V02.sla_w_even (slave : I2C_SLAVE) : V02.sla_w slave % 2 = 0 := by
  simp only [V02.sla_w, Nat.shiftLeft_eq]
  omega

theorem V02.sla_r_odd (slave : I2C_SLAVE) : V02.sla_r slave % 2 = 1 := by
  simp only [V02.sla_r]
  rw [Nat.mod_mod_of_dvd _ (by norm_num : 2 ∣ 256)]
  simp

theorem V02.sla_7bit (slave : I2C_SLAVE) (ha : slave.cfg.addr ≤ 0x7F) :
    V02.sla_w slave = 2 * slave.cfg.addr ∧ V02.sla_r slave = 2 * slave.cfg.addr + 1 := by
  have h1 := addr_byte_write slave ha
  have h2 := addr_byte_read slave ha
  simp only [addr_byte, I2C_RW.toNat, Nat.or_zero] at h1 h2
  exact ⟨h1, h2⟩

theorem RunLog.split {p q : List Ev} {m : Nat} {δ : List Ev} (h : RunLog (p ++ q) m δ) :
    (m < p.length ∧ RunLog p m δ) ∨
    (p.length ≤ m ∧ ∃ δ1, δ = acked p ++ δ1 ∧ RunLog q (m - p.length) δ1) := by
  induction p generalizing m δ with
  | nil => exact Or.inr ⟨by simp, δ, by simp [acked], by simpa using h⟩
  | cons c p ih =>
    rcases RunLog.cons_inv h with ⟨m1, δ1, rfl, rfl, h1⟩ | ⟨rfl, t, ht, rfl⟩
    · rcases ih h1 with ⟨hl, hr⟩ | ⟨hl, δ2, rfl, hr⟩
      · exact Or.inl ⟨by simpa using hl, RunLog.ok c p m1 δ1 hr⟩
      · refine Or.inr ⟨by simpa using hl, δ2, by simp [acked], ?_⟩
        simpa using hr
    · exact Or.inl ⟨by simp, RunLog.fail c p t ht⟩

theorem RunLog.mem {p : List Ev} {m : Nat} {δ : List Ev} (h : RunLog p m δ) (e : Ev)
    (he : e ∈ δ) : e ∈ p ∨ e = .ret true ∨ e = .ret false ∨ e = .reset ∨ e = .stop := by
  induction h with
  | done => simp at he
  | ok c plan m δ _ ih =>
    simp only [List.mem_cons] at he
    rcases he with rfl | rfl | he
    · exact Or.inl (by simp)
    · exact Or.inr (Or.inl rfl)
    · rcases ih he with h1 | h1
      · exact Or.inl (List.mem_cons_of_mem _ h1)
      · exact Or.inr h1
  | fail c plan t ht =>
    simp only [Recovery, List.mem_cons, List.mem_singleton, List.not_mem_nil, or_false] at ht
    rcases ht with rfl | rfl | rfl | rfl <;> simp at he <;> aesop

theorem mem_calls_of_rd8 {δ : List Ev} {a : Bool} (h : Ev.rd8 a ∈ δ) : Ev.rd8 a ∈ calls δ := by
  simp [calls, Ev.isData, h]

theorem mem_calls_of_sndAddr {δ : List Ev} {b : Nat} (h : Ev.sndAddr b ∈ δ) :
    Ev.sndAddr b ∈ calls δ := by
  simp [calls, Ev.isData, h]

theorem reg_seq_no_rd8 (slave : I2C_SLAVE) (r : Nat) (a : Bool) :
    Ev.rd8 a ∉ (reg_seq slave r).map Ev.wr8 := by
  simp

theorem reg_seq_no_sndAddr (slave : I2C_SLAVE) (r : Nat) (b : Nat) :
    Ev.sndAddr b ∉ (reg_seq slave r).map Ev.wr8 := by
  simp

theorem rd_calls_no_sndAddr (bytes cnt n : Nat) (b : Nat) :
    Ev.sndAddr b ∉ rd_calls bytes cnt n := by
  simp [rd_calls]

/-- A run through `pre ++ (rd_calls nb 0 nb ++ [stop])` with `nb ≠ 0` whose log
holds a receive: all the calls of `pre` returned `true` before the first
receive, which is the call that follows them in the log. -/
theorem RunLog.first_receive {pre : List Ev} {nb m : Nat} {δ : List Ev}
    (h : RunLog (pre ++ (rd_calls nb 0 nb ++ [Ev.stop])) m δ) (hnb : nb ≠ 0)
    (hpre : ∀ a, Ev.rd8 a ∉ pre) (hr : ∃ a, Ev.rd8 a ∈ δ) :
    ∃ rest, δ = acked pre ++ Ev.rd8 (if nb = 1 then false else true) :: rest := by
  rcases h.split with ⟨_, hl⟩ | ⟨_, δ1, rfl, h1⟩
  · obtain ⟨a, ha⟩ := hr
    rcases hl.mem _ ha with h2 | h2 | h2 | h2 | h2
    · exact absurd h2 (hpre a)
    all_goals simp at h2
  · obtain ⟨k, rfl⟩ := Nat.exists_eq_succ_of_ne_zero hnb
    rw [rd_calls_succ, List.append_assoc, List.singleton_append] at h1
    have ha : (if 0 = k + 1 - 1 then false else true) = (if k + 1 = 1 then false else true) := by
      rcases Nat.eq_zero_or_pos k with rfl | hk
      · rfl
      · rw [if_neg (by omega), if_neg (by omega)]
    rw [ha] at h1
    rcases RunLog.cons_inv h1 with ⟨m1, δ2, _, rfl, _⟩ | ⟨_, t, _, rfl⟩
    · exact ⟨_, rfl⟩
    · exact ⟨t ++ [Ev.ret false], by simp⟩

/-- The log of a returning `I2C_rd` of version 0.2 is a run through its plan. -/
theorem rd_v02_log (P : Periph σ) (F : Nat) (slave : I2C_SLAVE) (r : Nat)
    (d : List Nat) (n : Nat) (w : World σ) (ok : Bool) (s1 : I2C_SLAVE) (d1 : List Nat)
    (w1 : World σ) (δ : List Ev)
    (h : V02.I2C_rd P F slave r d n w = some (ok, s1, d1, w1)) (hδ : w1.log = w.log ++ δ) :
    ∃ m, RunLog (V02.rd_plan slave r (if n = 0 then 1 else n)) m (calls δ) ∧
      (ok = true ↔ m = (V02.rd_plan slave r (if n = 0 then 1 else n)).length) ∧
      d1 = store d 0 (values δ) ∧
      (ok = true → (values δ).length = (if n = 0 then 1 else n)) ∧
      s1 = { slave with reg_addr := bump (values δ).length r } := by
  obtain ⟨m, vs, run, hd, _, hl, hs⟩ := rd_v02_run P F slave r d n w ok s1 d1 w1 h
  obtain ⟨rl, hv, o⟩ := run.log δ hδ
  subst hv
  exact ⟨m, rl, o, hd, hl, hs⟩

theorem filter_isRd8_acked (p : List Ev) :
    (acked p).filter Ev.isRd8 = p.filter Ev.isRd8 := by
  induction p with
  | nil => rfl
  | cons c p ih =>
    simp only [acked, List.filter_cons, ih]
    simp [Ev.isRd8]

theorem filter_isRd8_calls (δ : List Ev) : (calls δ).filter Ev.isRd8 = δ.filter Ev.isRd8 := by
  simp only [calls, List.filter_filter]
  congr 1
  funext e
  cases e <;> simp [Ev.isRd8, Ev.isData]

theorem V02.rd_setreg_plan_no_rd8 (slave : I2C_SLAVE) (r : Nat) :
    (V02.rd_setreg_plan slave r).filter Ev.isRd8 = [] := by
  unfold V02.rd_setreg_plan reg_seq
  split_ifs <;> simp [Ev.isRd8]

/-- The two versions of `I2C_sndAddr` agree when the byte passed to version 0.2
is the byte version 1.2 builds. -/
theorem sndAddr_v02_eq (P : Periph σ) (F : Nat) (b : Nat) (slave : I2C_SLAVE) (rw : I2C_RW)
    (w : World σ) (hb : b % 256 = addr_byte slave rw) :
    V02.I2C_sndAddr P F b w = I2C_sndAddr P F slave rw w := by
  unfold V02.I2C_sndAddr I2C_sndAddr
  rw [hb]

/-- The acknowledging mock with a register map serves a read of version 0.2
of any count: `I2C_rd` returns `true` for every positive fuel. -/
theorem mock_rd_v02 (F : Nat) (slave : I2C_SLAVE) (reg_addr : Nat) (data : List Nat)
    (bytes : Nat) (w : World Mock) (ha : w.hw.ackAddr = true) (hreg : slave.cfg.reg_size ≠ 0) :
    ∃ s1 d1 w1, V02.I2C_rd MockP (F + 1) slave reg_addr data bytes w = some (true, s1, d1, w1) := by
  obtain ⟨w1, h1, m1, a1, _⟩ := mock_start F w
  have e1 : ∀ s : I2C_SLAVE, V02.I2C_sndAddr MockP (F + 1) ((s.cfg.addr % 256) <<< 1) =
      CI2C.I2C_sndAddr MockP (F + 1) s .I2C_WRITE := fun s =>
    funext fun x => sndAddr_v02_eq MockP (F + 1) _ s _ x (by simp [addr_byte, I2C_RW.toNat])
  have e2 : ∀ s : I2C_SLAVE, V02.I2C_sndAddr MockP (F + 1) (((s.cfg.addr % 256) <<< 1) ||| 1) =
      CI2C.I2C_sndAddr MockP (F + 1) s .I2C_READ := fun s =>
    funext fun x => sndAddr_v02_eq MockP (F + 1) _ s _ x (by simp [addr_byte, I2C_RW.toNat])
  obtain ⟨w2, h2, m2, a2, _⟩ := mock_sndAddr F slave .I2C_WRITE w1 m1 (a1.trans ha)
  simp only [reduceCtorEq, if_false] at m2
  obtain ⟨w3, h3, m3, a3⟩ := mock_wr_reg F { slave with reg_addr := reg_addr } reg_addr w2 m2
  obtain ⟨w4, h4, m4, a4, _⟩ := mock_start F w3
  obtain ⟨w5, h5, m5, a5, _⟩ := mock_sndAddr F slave .I2C_READ w4 m4
    (a4.trans (a3.trans a2))
  simp only [if_true] at m5
  obtain ⟨s6, d6, w6, h6, m6, a6⟩ := mock_rd_loop F (if bytes = 0 then (bytes + 1) % 65536 else bytes)
    (if bytes = 0 then (bytes + 1) % 65536 else bytes) 0 { slave with reg_addr := reg_addr } data w5 m5
  obtain ⟨w7, h7, _⟩ := mock_stop F w6
  refine ⟨s6, d6, w7, ?_⟩
  have hs : V02.I2C_rd_setreg MockP (F + 1) { slave with reg_addr := reg_addr } reg_addr w2 =
      some (true, w5) := by
    unfold V02.I2C_rd_setreg
    rw [if_pos hreg, h3]
    simp only
    rw [h4]
    simp only
    rw [e2]
    exact h5
  unfold V02.I2C_rd
  simp only [I2C_slave_set_reg_addr]
  rw [h1]
  simp only
  rw [e1, h2]
  simp only
  rw [hs]
  simp only
  rw [h6]
  simp only
  rw [h7]

theorem V02.sla_shift (slave : I2C_SLAVE) (ha : slave.cfg.addr ≤ 0x7F) :
    V02.sla_w slave = slave.cfg.addr <<< 1 ∧ V02.sla_r slave = (slave.cfg.addr <<< 1) ||| 1 := by
  have h1 : slave.cfg.addr % 256 = slave.cfg.addr := Nat.mod_eq_of_lt (by omega)
  have h2 : slave.cfg.addr <<< 1 < 2 ^ 8 := by rw [Nat.shiftLeft_eq]; omega
  have h3 : (slave.cfg.addr <<< 1) ||| 1 < 2 ^ 8 := Nat.or_lt_two_pow h2 (by norm_num)
  simp only [V02.sla_w, V02.sla_r, h1]
  exact ⟨Nat.mod_eq_of_lt h2, Nat.mod_eq_of_lt h3⟩

/-! ## Each stored byte is the data register after its receive -/

theorem Received.logged {P : Periph σ} {F n cnt : Nat} {w w1 : World σ} {vs : List Nat}
    (h : Received P F n cnt w vs w1) : w1.log = w.log ++ receive_log n cnt vs := by
  induction h with
  | done cnt w => simp [receive_log]
  | step cnt w w1 w2 vs h1 _ ih =>
    have e := (I2C_rd8_prim P F _ _ _ _ h1).ok_ext
    rw [ih]
    simp only [World.emit, CI2C.rdTWDR, receive_log, e.2.2]
    simp

theorem values_receive_log (n cnt : Nat) (vs : List Nat) :
    values (receive_log n cnt vs) = vs := by
  induction vs generalizing cnt with
  | nil => rfl
  | cons v vs ih => simp [receive_log, values, ih] ; exact ih _

theorem calls_receive_log (n cnt : Nat) (vs : List Nat) :
    calls (receive_log n cnt vs) =
      acked ((List.range' cnt vs.length).map fun i => Ev.rd8 (decide (i + 1 < n))) := by
  induction vs generalizing cnt with
  | nil => rfl
  | cons v vs ih =>
    simp only [receive_log, List.length_cons, List.range'_succ, List.map_cons, acked]
    rw [← ih (cnt + 1)]
    simp [calls, Ev.isData]

theorem I2C_rd_loop_received (P : Periph σ) (F : Nat) (bytes k cnt : Nat)
    (slave : I2C_SLAVE) (data : List Nat) (w : World σ) (slave1 : I2C_SLAVE)
    (data1 : List Nat) (w1 : World σ) (hk : cnt + k = bytes)
    (h : I2C_rd_loop P F bytes k cnt slave data w = some (true, slave1, data1, w1)) :
    ∃ vs, Received P F bytes cnt w vs w1 ∧ vs.length = k ∧ data1 = store data cnt vs := by
  induction k generalizing cnt slave data w with
  | zero =>
    simp only [I2C_rd_loop, Option.some.injEq, Prod.mk.injEq] at h
    obtain ⟨_, rfl, rfl, rfl⟩ := h
    exact ⟨[], Received.done cnt _, rfl, rfl⟩
  | succ k ih =>
    rw [I2C_rd_loop] at h
    have ha : (if cnt = bytes - 1 then false else true) = decide (cnt + 1 < bytes) := by
      by_cases hc : cnt = bytes - 1
      · rw [if_pos hc]; symm; rw [decide_eq_false_iff_not]; omega
      · rw [if_neg hc]; symm; rw [decide_eq_true_eq]; omega
    rw [ha] at h
    cases hs : I2C_rd8 P F (decide (cnt + 1 < bytes)) w with
    | none => rw [hs] at h; simp at h
    | some x =>
      obtain ⟨b2, w2⟩ := x
      rw [hs] at h
      cases b2
      · simp at h
      · simp only at h
        obtain ⟨vs, r, hl, hd⟩ := ih (cnt + 1) _ _ _ (by omega) h
        exact ⟨(rdTWDR P w2).1 :: vs, Received.step cnt w w2 w1 vs hs r, by simp [hl],
          by rw [hd]; rfl⟩

theorem values_acked (p : List Ev) : values (acked p) = values p := by
  induction p with
  | nil => rfl
  | cons c p ih =>
    simp only [acked, values, List.filterMap_cons] at ih ⊢
    cases c <;> simp [ih]

theorem values_framing (slave : I2C_SLAVE) (r : Nat) : values (framing slave r) = [] := by
  unfold framing
  split_ifs <;> simp [values]

theorem values_read_header (bw br : Nat) (slave : I2C_SLAVE) (r : Nat) :
    values (read_header bw br slave r) = [] := by
  unfold read_header
  split_ifs with hf
  · simp [values]
  · rw [values_append, values_append, values_framing]
    simp [values]

theorem rd_header_eq (slave : I2C_SLAVE) (r : Nat) (hr : r < 65536) :
    rd_setreg_plan slave r ++ [Ev.start, Ev.sndAddr (addr_byte slave .I2C_READ)] =
      read_header (addr_byte slave .I2C_WRITE) (addr_byte slave .I2C_READ) slave r := by
  have hf := reg_bytes_framing slave r hr
  have hnil : reg_bytes slave r = [] ↔ framing slave r = [] := by
    rw [← hf]; simp
  unfold rd_setreg_plan read_header
  rw [hf]
  by_cases h : framing slave r = []
  · simp [h, hnil.2 h]
  · have : reg_bytes slave r ≠ [] := fun hh => h (hnil.1 hh)
    simp [h, this]

theorem receive_calls_eq (n : Nat) (hn : n ≠ 0) :
    ((List.range' 0 n).map fun i => Ev.rd8 (decide (i + 1 < n))) =
      List.replicate (n - 1) (Ev.rd8 true) ++ [Ev.rd8 false] := by
  apply List.ext_getElem
  · simp; omega
  · intro i h1 h2
    simp only [List.length_map, List.length_range'] at h1
    by_cases hi : i = n - 1
    · subst hi
      simp
      omega
    · have : i < n - 1 := by omega
      simp [List.getElem_append_left, this]
      omega

/-- A successful `I2C_rd`, step by step: the header is logged, every call
acknowledged, up to a state `w0`; from `w0` the `n` receives are made, each
followed by the read of the data register whose value goes to the buffer; the
stop that follows returns `true` in the final state. -/
theorem I2C_rd_received (P : Periph σ) (F : Nat) (slave : I2C_SLAVE) (r : Nat)
    (d : List Nat) (n : Nat) (w : World σ) (s1 : I2C_SLAVE) (d1 : List Nat) (w1 : World σ)
    (hr : r < 65536) (hn : n ≠ 0)
    (h : I2C_rd P F slave r d n w = some (true, s1, d1, w1)) :
    ∃ w0 w5 vs, w0.log = w.log ++ acked (read_header (addr_byte slave .I2C_WRITE)
        (addr_byte slave .I2C_READ) slave r) ∧
      Received P F n 0 w0 vs w5 ∧ vs.length = n ∧ d1 = store d 0 vs ∧
      I2C_stop P F w5 = some (true, w1) ∧
      w1.log = w.log ++ (acked (read_header (addr_byte slave .I2C_WRITE)
        (addr_byte slave .I2C_READ) slave r) ++ receive_log n 0 vs ++ [Ev.stop, Ev.ret true]) := by
  unfold I2C_rd at h
  simp only [hn, if_false] at h
  cases h0 : I2C_rd_setreg P F slave r w with
  | none => rw [h0] at h; simp at h
  | some x0 =>
  obtain ⟨b0, slave0, w0⟩ := x0
  obtain ⟨k, r0, hs0⟩ := I2C_rd_setreg_run P F _ _ _ _ _ _ h0
  rw [h0] at h
  cases b0
  · simp at h
  simp only at h
  have hcfg : addr_byte slave0 .I2C_READ = addr_byte slave .I2C_READ := by rw [hs0]; rfl
  obtain ⟨δ0, e0, rl0, u0, o0⟩ := r0
  have hδ0 : δ0 = acked (rd_setreg_plan slave r) := by
    rw [← calls_of_values_nil δ0 u0]
    exact rl0.full (o0.1 rfl)
  cases h1 : I2C_start P F w0 with
  | none => rw [h1] at h; simp at h
  | some x1 =>
  obtain ⟨b1, w2⟩ := x1
  have p1 := I2C_start_prim P F _ _ _ h1
  rw [h1] at h
  cases b1
  · simp at h
  simp only at h
  have e1 := p1.ok_ext
  cases h2 : I2C_sndAddr P F slave0 .I2C_READ w2 with
  | none => rw [h2] at h; simp at h
  | some x2 =>
  obtain ⟨b2, w3⟩ := x2
  have p2 := I2C_sndAddr_prim P F _ _ _ _ _ h2
  rw [h2] at h
  rw [hcfg] at p2
  cases b2
  · simp at h
  simp only at h
  have e2 := p2.ok_ext
  cases h4 : I2C_rd_loop P F n n 0 slave0 d w3 with
  | none => rw [h4] at h; simp at h
  | some x4 =>
  obtain ⟨b4, slave4, data4, w5⟩ := x4
  rw [h4] at h
  cases b4
  · simp at h
  simp only at h
  obtain ⟨vs, rc, hl, hd⟩ := I2C_rd_loop_received P F n n 0 _ _ _ _ _ _ (by omega) h4
  cases h5 : I2C_stop P F w5 with
  | none => rw [h5] at h; simp at h
  | some x5 =>
  obtain ⟨b5, w6⟩ := x5
  have p5 := I2C_stop_prim P F _ _ _ h5
  rw [h5] at h
  simp only [Option.some.injEq, Prod.mk.injEq] at h
  obtain ⟨rfl, rfl, rfl, rfl⟩ := h
  have e5 := p5.ok_ext
  have hw3 : w3.log = w.log ++ acked (read_header (addr_byte slave .I2C_WRITE)
      (addr_byte slave .I2C_READ) slave r) := by
    rw [← rd_header_eq slave r hr, acked_append, e2.2.2, e1.2.2, e0.2.2, hδ0]
    simp [acked]
  refine ⟨w3, w5, vs, hw3, rc, hl, hd, h5, ?_⟩
  rw [e5.2.2, rc.logged, hw3]
  simp

/-! ## The bytes the mock delivers -/

theorem mock_wr_reg_rx (F : Nat) (slave : I2C_SLAVE) (reg_addr : Nat) (w : World Mock)
    (hm : w.hw.mode = .tx) :
    ∃ w1, I2C_wr_reg MockP (F + 1) slave reg_addr w = some (true, w1) ∧ w1.hw.mode = .tx ∧
      w1.hw.ackAddr = w.hw.ackAddr ∧ w1.hw.rx = w.hw.rx := by
  unfold I2C_wr_reg
  split_ifs
  · obtain ⟨w1, h1, m1, a1, x1⟩ := mock_wr8 F ((reg_addr >>> 8) % 256) w hm
    obtain ⟨w2, h2, m2, a2, x2⟩ := mock_wr8 F (reg_addr % 256) w1 m1
    rw [h1]
    exact ⟨w2, h2, m2, a2.trans a1, x2.trans x1⟩
  · exact mock_wr8 F (reg_addr % 256) w hm

theorem mock_rd_loop_values (F : Nat) (bytes n cnt : Nat) (slave : I2C_SLAVE)
    (data : List Nat) (w : World Mock) (hm : w.hw.mode = .rx) :
    ∃ s1 w1, I2C_rd_loop MockP (F + 1) bytes n cnt slave data w =
        some (true, s1, store data cnt (delivered w.hw.rx n), w1) ∧
      w1.hw.mode = .rx ∧ w1.hw.ackAddr = w.hw.ackAddr := by
  induction n generalizing cnt slave data w with
  | zero => exact ⟨slave, w, rfl, hm, rfl⟩
  | succ n ih =>
    obtain ⟨w1, h1, m1, a1, x1, v1⟩ :=
      mock_rd8 F (if cnt = bytes - 1 then false else true) w hm
    obtain ⟨s2, w2, h2, m2, a2⟩ := ih (cnt + 1)
      { slave with reg_addr := (slave.reg_addr + 1) % 65536 }
      (data.set cnt (rdTWDR MockP w1).1) ((rdTWDR MockP w1).2.emit (.twdr (rdTWDR MockP w1).1))
      (by simpa [CI2C.rdTWDR, MockP, World.emit] using m1)
    have hx : ((rdTWDR MockP w1).2.emit (.twdr (rdTWDR MockP w1).1)).hw.rx = w.hw.rx.tail := by
      simpa [CI2C.rdTWDR, MockP, World.emit] using x1
    have ha : ((rdTWDR MockP w1).2.emit (.twdr (rdTWDR MockP w1).1)).hw.ackAddr =
        w.hw.ackAddr := by
      simpa [CI2C.rdTWDR, MockP, World.emit] using a1
    rw [I2C_rd_loop, h1]
    simp only
    rw [h2, hx, v1]
    exact ⟨s2, w2, rfl, m2, a2.trans ha⟩

/-- On the acknowledging mock `I2C_rd` returns `true` for every positive fuel,
and the buffer holds the bytes the slave delivered, in order. -/
theorem mock_rd_values (F : Nat) (slave : I2C_SLAVE) (reg_addr : Nat) (data : List Nat)
    (bytes : Nat) (w : World Mock) (ha : w.hw.ackAddr = true) (hb : bytes ≠ 0) :
    ∃ s1 w1, I2C_rd MockP (F + 1) slave reg_addr data bytes w =
      some (true, s1, store data 0 (delivered w.hw.rx bytes), w1) := by
  have h0 : ∃ s0 w0, I2C_rd_setreg MockP (F + 1) slave reg_addr w = some (true, s0, w0) ∧
      w0.hw.ackAddr = true ∧ w0.hw.rx = w.hw.rx := by
    unfold I2C_rd_setreg
    split_ifs
    · obtain ⟨w1, h1, m1, a1, x1⟩ := mock_start F w
      obtain ⟨w2, h2, m2, a2, x2⟩ := mock_sndAddr F (I2C_slave_set_reg_addr slave reg_addr)
        .I2C_WRITE w1 m1 (a1.trans ha)
      simp only [reduceCtorEq, if_false] at m2
      obtain ⟨w3, h3, m3, a3, x3⟩ := mock_wr_reg_rx F (I2C_slave_set_reg_addr slave reg_addr)
        reg_addr w2 m2
      unfold I2C_rd_wrphase
      rw [h1]
      simp only
      rw [h2]
      simp only
      rw [h3]
      exact ⟨_, w3, rfl, a3.trans a2, x3.trans (x2.trans x1)⟩
    · exact ⟨_, w, rfl, ha, rfl⟩
  obtain ⟨s0, w0, h0, a0, x0⟩ := h0
  obtain ⟨w1, h1, m1, a1, x1⟩ := mock_start F w0
  obtain ⟨w2, h2, m2, a2, x2⟩ := mock_sndAddr F s0 .I2C_READ w1 m1 (a1.trans a0)
  simp only [if_true] at m2
  obtain ⟨s4, w4, h4, m4, a4⟩ := mock_rd_loop_values F bytes bytes 0 s0 data w2 m2
  obtain ⟨w5, h5, _⟩ := mock_stop F w4
  have hx : w2.hw.rx = w.hw.rx := x2.trans (x1.trans x0)
  rw [hx] at h4
  unfold I2C_rd
  rw [if_neg hb, h0]
  simp only
  rw [h1]
  simp only
  rw [h2]
  simp only
  rw [h4]
  simp only
  rw [h5]
  exact ⟨s4, w5, rfl⟩

theorem delivered_length (rx : List Nat) (n : Nat) : (delivered rx n).length = n := by
  induction n generalizing rx with
  | zero => rfl
  | succ n ih => simp [delivered, ih]

theorem mock_command_twbr (v : Nat) (h : Mock) : (h.command v).twbr = h.twbr := by
  unfold Mock.command
  split_ifs <;> first | rfl | (cases h.mode <;> rfl)

theorem mock_reset_twbr (w : World Mock) : (I2C_reset MockP w).hw.twbr = w.hw.twbr := by
  simp only [I2C_reset, CI2C.wrTWCR, CI2C.rdTWCR, MockP, World.emit, mock_command_twbr]

theorem set_speed_v02_twbr (F_CPU s : Nat) (wm : World Mock) :
    (V02.I2C_set_speed MockP F_CPU s wm).2.hw.twbr =
      V02.twbr_value F_CPU (if s = 0 ∨ s > 1000 then 100 else s) := by
  have hs : (if s = 0 then V02.I2C_SLOW else if s > V02.I2C_FAST then V02.I2C_SLOW else s) =
      (if s = 0 ∨ s > 1000 then 100 else s) := by
    simp only [V02.I2C_SLOW, V02.I2C_FAST]
    split_ifs <;> first | rfl | omega
  rw [← hs]
  simp only [V02.I2C_set_speed, mock_reset_twbr]
  rfl

theorem twbr_v02_exact (s : Nat) (h31 : 31 ≤ s) (h65 : s ≤ 65) :
    V02.twbr_value 16000000 s = (16000000 / (s * 1000) - 16) / 2 := by
  unfold V02.twbr_value
  rw [Nat.mod_eq_of_lt (by omega : s * 1000 < 65536)]
  have hge : 16 ≤ 16000000 / (s * 1000) := by
    rw [Nat.le_div_iff_mul_le (by omega)]
    omega
  have hlt : 16000000 / (s * 1000) < 528 := by
    rw [Nat.div_lt_iff_lt_mul (by omega)]
    omega
  obtain ⟨y, hy⟩ := Nat.exists_eq_add_of_le hge
  rw [hy] at hlt ⊢
  have h1 : (((16 + y : Nat) : Int) - 16) = (y : Int) := by push_cast; ring
  rw [h1, Int.tdiv_eq_ediv (by positivity) (by norm_num)]
  have h2 : ((y : Int) / 2 % 256) = (((y / 2 % 256 : Nat)) : Int) := by push_cast; rfl
  rw [h2, Int.toNat_ofNat]
  simp only [Nat.add_sub_cancel_left]
  exact Nat.mod_eq_of_lt (by omega)

/-! ## Claims -/

/-- C1: `I2C_comm` entered with `busy == false` (through `I2C_write` or
`I2C_read`), with retry limit `R = i2c.cfg.retries`.  The invocations of the
selected strategy are numbered from 0, invocation 0 running with `busy` set and
each later one after one `delay(5)` on the state its predecessor left.  If
invocation `k <= R` is the first to return `true`, `I2C_comm` returns `I2C_OK`
with exactly the descriptor, buffer and driver state invocation `k` left (so
`k + 1` invocations and `k` delays were made); if invocations `0..R` all return
`false`, it returns `I2C_NACK` with what invocation `R` left (`R + 1` invocations,
`R` delays).  In both cases the returned status is stored in `slave->status`
and `busy` is false. -/
theorem C1_comm_retry_policy (P : Periph σ) (ext : Nat → Strategy σ) (F : Nat)
    (slave : I2C_SLAVE) (reg_addr : Nat) (data : List Nat) (bytes : Nat) (rw : I2C_RW)
    (w : World σ) (hbusy : w.busy = false) :
    (∀ k s d w1, k ≤ w.cfg.retries →
      (∀ i, i < k → ∃ x, invocation P
        (call_fct P ext F (if rw.toNat ≠ 0 then slave.cfg.rd else slave.cfg.wr)) reg_addr bytes
        (call_fct P ext F (if rw.toNat ≠ 0 then slave.cfg.rd else slave.cfg.wr)
          slave reg_addr data bytes { w with busy := true }) i = some (false, x)) →
      invocation P
        (call_fct P ext F (if rw.toNat ≠ 0 then slave.cfg.rd else slave.cfg.wr)) reg_addr bytes
        (call_fct P ext F (if rw.toNat ≠ 0 then slave.cfg.rd else slave.cfg.wr)
          slave reg_addr data bytes { w with busy := true }) k = some (true, s, d, w1) →
      I2C_comm P ext F slave reg_addr data bytes rw w =
        some (.I2C_OK, { s with status := .I2C_OK }, d, { w1 with busy := false })) ∧
    (∀ s d w1,
      (∀ i, i < w.cfg.retries → ∃ x, invocation P
        (call_fct P ext F (if rw.toNat ≠ 0 then slave.cfg.rd else slave.cfg.wr)) reg_addr bytes
        (call_fct P ext F (if rw.toNat ≠ 0 then slave.cfg.rd else slave.cfg.wr)
          slave reg_addr data bytes { w with busy := true }) i = some (false, x)) →
      invocation P
        (call_fct P ext F (if rw.toNat ≠ 0 then slave.cfg.rd else slave.cfg.wr)) reg_addr bytes
        (call_fct P ext F (if rw.toNat ≠ 0 then slave.cfg.rd else slave.cfg.wr)
          slave reg_addr data bytes { w with busy := true }) w.cfg.retries =
        some (false, s, d, w1) →
      I2C_comm P ext F slave reg_addr data bytes rw w =
        some (.I2C_NACK, { s with status := .I2C_NACK }, d, { w1 with busy := false })) := by
  constructor
  · intro k s d w1 hk hfail hok
    unfold I2C_comm
    simp only [I2C_is_busy, hbusy, Bool.false_eq_true, if_false]
    cases hf : call_fct P ext F (if rw.toNat ≠ 0 then slave.cfg.rd else slave.cfg.wr)
        slave reg_addr data bytes { w with busy := true } with
    | none =>
      rw [hf] at hok
      have : ∀ j, invocation P (call_fct P ext F
          (if rw.toNat ≠ 0 then slave.cfg.rd else slave.cfg.wr)) reg_addr bytes none j = none := by
        intro j
        induction j with
        | zero => rfl
        | succ j ihj => rw [invocation, ihj]; rfl
      rw [this] at hok
      simp at hok
    | some y =>
      obtain ⟨a1, s1, d1, w2⟩ := y
      rw [hf] at hok hfail
      simp only
      rw [retry_first_success P _ reg_addr bytes k _ a1 s1 d1 w2 s d w1 hk hfail hok]
      simp
  · intro s d w1 hfail hlast
    unfold I2C_comm
    simp only [I2C_is_busy, hbusy, Bool.false_eq_true, if_false]
    cases hf : call_fct P ext F (if rw.toNat ≠ 0 then slave.cfg.rd else slave.cfg.wr)
        slave reg_addr data bytes { w with busy := true } with
    | none =>
      rw [hf] at hlast
      have : ∀ j, invocation P (call_fct P ext F
          (if rw.toNat ≠ 0 then slave.cfg.rd else slave.cfg.wr)) reg_addr bytes none j = none := by
        intro j
        induction j with
        | zero => rfl
        | succ j ihj => rw [invocation, ihj]; rfl
      rw [this] at hlast
      simp at hlast
    | some y =>
      obtain ⟨a1, s1, d1, w2⟩ := y
      rw [hf] at hlast hfail
      simp only
      rw [retry_all_fail P _ reg_addr bytes _ a1 s1 d1 w2 s d w1 hfail hlast]
      simp

/-- Witness of C1: on the mock that refuses the address byte, with the initial
retry limit 3, `I2C_comm` returns `I2C_NACK`, stores it in the descriptor, leaves
`busy` false and has waited three times. -/
theorem C1_comm_retry_policy_witness :
    (World.init (Mock.init false [])).busy = false ∧
    (I2C_comm MockP noExt 1 (I2C_slave_init ⟨⟨0, 0, .user 0, .user 1⟩, 0, .I2C_OK⟩ 0x50 1)
        0x10 [0xAA] 1 .I2C_WRITE (World.init (Mock.init false []))).map
      (fun r => (r.1, r.2.1.status, r.2.2.2.busy, r.2.2.2.log.count (.delay 5))) =
      some (.I2C_NACK, .I2C_NACK, false, 3) := by
  refine ⟨rfl, ?_⟩
  rw [(C1_comm_retry_policy MockP noExt 1
    (I2C_slave_init ⟨⟨0, 0, .user 0, .user 1⟩, 0, .I2C_OK⟩ 0x50 1) 0x10 [0xAA] 1 .I2C_WRITE
    (World.init (Mock.init false [])) rfl).2 _ _ _
    (by intro i hi
        have : i = 0 ∨ i = 1 ∨ i = 2 := by
          have : i < 3 := hi
          omega
        rcases this with rfl | rfl | rfl <;> exact ⟨_, rfl⟩) rfl]
  rfl

/-- C2: on the mock that acknowledges every start and refuses every address
byte, for every retry limit `R = i2c.cfg.retries` and every non-empty write
request on a descriptor with the built-in write strategy, `I2C_write` returns
`I2C_NACK` (with any positive fuel) after exactly `R + 1` attempts: the log is
one attempt followed by `R` times `delay(5)` and an attempt, each attempt being
start, address byte, stop, failure; it holds `R + 1` start conditions and `R + 1`
stop conditions. -/
theorem C2_nack_address_attempts (ext : Nat → Strategy Mock) (F : Nat) (slave : I2C_SLAVE)
    (reg_addr : Nat) (data : List Nat) (bytes : Nat) (w : World Mock)
    (hwr : slave.cfg.wr = .wr_builtin) (hb : bytes ≠ 0) (hbusy : w.busy = false)
    (ha : w.hw.ackAddr = false) :
    ∃ w1, I2C_write MockP ext (F + 1) slave reg_addr data bytes w =
        some (.I2C_NACK, { slave with status := .I2C_NACK }, data, w1) ∧
      w1.busy = false ∧
      w1.log = w.log ++ (nack_attempt (addr_byte slave .I2C_WRITE) ++
        nack_retries (addr_byte slave .I2C_WRITE) w.cfg.retries) ∧
      (nack_attempt (addr_byte slave .I2C_WRITE) ++
        nack_retries (addr_byte slave .I2C_WRITE) w.cfg.retries).count .start =
          w.cfg.retries + 1 ∧
      (nack_attempt (addr_byte slave .I2C_WRITE) ++
        nack_retries (addr_byte slave .I2C_WRITE) w.cfg.retries).count .stop =
          w.cfg.retries + 1 := by
  obtain ⟨w1, h1, a1, e1⟩ := nack_wr F slave reg_addr data bytes { w with busy := true } ha hb
  obtain ⟨w2, h2, a2, e2⟩ := nack_retry F slave reg_addr data bytes hb w.cfg.retries w1 a1
  have e := e1.trans e2
  refine ⟨{ w2 with busy := false }, ?_, rfl, ?_, nack_count_start _ _, nack_count_stop _ _⟩
  · unfold I2C_write I2C_comm
    simp only [I2C_is_busy, hbusy, Bool.false_eq_true, if_false, I2C_RW.toNat, ne_eq,
      not_true_eq_false, hwr, call_fct]
    rw [h1]
    simp only
    rw [h2]
    simp
  · simpa using e.2.2

/-- Witness of C2: the initial driver state (retry limit 3) over the refusing
mock, a fresh 8-bit descriptor at address 0x50 and a two-byte write. -/
theorem C2_nack_address_attempts_witness :
    ∃ w1, I2C_write MockP noExt 1
        (I2C_slave_init ⟨⟨0, 0, .user 0, .user 1⟩, 0, .I2C_OK⟩ 0x50 1) 0x10 [0xAA, 0xBB] 2
        (World.init (Mock.init false [])) =
        some (.I2C_NACK,
          { I2C_slave_init ⟨⟨0, 0, .user 0, .user 1⟩, 0, .I2C_OK⟩ 0x50 1 with
            status := .I2C_NACK }, [0xAA, 0xBB], w1) ∧
      w1.busy = false ∧
      w1.log = [] ++ (nack_attempt 0xA0 ++ nack_retries 0xA0 3) ∧
      (nack_attempt 0xA0 ++ nack_retries 0xA0 3).count .start = 3 + 1 ∧
      (nack_attempt 0xA0 ++ nack_retries 0xA0 3).count .stop = 3 + 1 :=
  C2_nack_address_attempts noExt 0
    (I2C_slave_init ⟨⟨0, 0, .user 0, .user 1⟩, 0, .I2C_OK⟩ 0x50 1) 0x10 [0xAA, 0xBB] 2
    (World.init (Mock.init false [])) rfl (by decide) rfl rfl

/-- C3: `I2C_write` and `I2C_read` entered while `busy` is set return `I2C_BUSY`
at once, for every peripheral, strategy table and fuel: the strategy is not
invoked, the driver state (peripheral registers, log of primitives and delays,
configuration, busy flag) and the buffer are returned as they were, and the
descriptor differs only in `status`, which is `I2C_BUSY`. -/
theorem C3_busy_returns_busy (P : Periph σ) (ext : Nat → Strategy σ) (F : Nat)
    (slave : I2C_SLAVE) (reg_addr : Nat) (data : List Nat) (bytes : Nat) (w : World σ)
    (hbusy : w.busy = true) :
    I2C_write P ext F slave reg_addr data bytes w =
        some (.I2C_BUSY, { slave with status := .I2C_BUSY }, data, w) ∧
    I2C_read P ext F slave reg_addr data bytes w =
        some (.I2C_BUSY, { slave with status := .I2C_BUSY }, data, w) := by
  simp [I2C_write, I2C_read, I2C_comm, I2C_is_busy, hbusy]

/-- Witness of C3 on the mock, with a strategy table and no fuel. -/
theorem C3_busy_returns_busy_witness :
    ({ World.init (Mock.init true []) with busy := true } : World Mock).busy = true ∧
    (I2C_write MockP noExt 0 (I2C_slave_init ⟨⟨0, 0, .user 0, .user 1⟩, 0, .I2C_NACK⟩ 0x50 1)
        0x10 [1, 2] 2 { World.init (Mock.init true []) with busy := true } =
      some (.I2C_BUSY,
        { I2C_slave_init ⟨⟨0, 0, .user 0, .user 1⟩, 0, .I2C_NACK⟩ 0x50 1 with
          status := .I2C_BUSY },
        [1, 2], { World.init (Mock.init true []) with busy := true })) :=
  ⟨rfl, (C3_busy_returns_busy MockP noExt 0 _ 0x10 [1, 2] 2
    { World.init (Mock.init true []) with busy := true } rfl).1⟩

/-- C4: `I2C_wr` and `I2C_rd` called with `bytes == 0` return `false`, for every
peripheral and fuel, and hand back the descriptor, the buffer and the driver
state (peripheral registers, log of primitives) exactly as they were: no start
condition and no other primitive is issued. -/
theorem C4_zero_bytes_fails (P : Periph σ) (F : Nat) (slave : I2C_SLAVE) (reg_addr : Nat)
    (data : List Nat) (w : World σ) :
    I2C_wr P F slave reg_addr data 0 w = some (false, slave, data, w) ∧
    I2C_rd P F slave reg_addr data 0 w = some (false, slave, data, w) := by
  simp [I2C_wr, I2C_rd]

/-- C5: `I2C_wr` on a descriptor with address `a <= 0x7F`, a 16-bit register
address `r` and non-empty data `d`.  For every peripheral and fuel, if the call
returns and no primitive has returned `false`, it returns `true` and its log is
exactly the write sequence with every call acknowledged: start, address byte
`2 * a`, the framing, `d[0] .. d[n-1]`, stop.  On the acknowledging mock the call
does return `true` with that log, with any positive fuel.  The framing is empty
for width `none` whatever `r` and the cursor are, and otherwise, when `r` is not
the cursor, it is the byte `r / 256` (16-bit width only) followed by `r % 256`,
with `(r / 256) * 256 + r % 256 = r`. -/
theorem C5_write_bus_sequence (P : Periph σ) (F : Nat) (slave : I2C_SLAVE) (r : Nat)
    (d : List Nat) (w : World σ) (ha : slave.cfg.addr ≤ 0x7F) (hr : r < 65536) (hd : d ≠ []) :
    (∀ ok s1 d1 w1 δ, I2C_wr P F slave r d d.length w = some (ok, s1, d1, w1) →
      w1.log = w.log ++ δ → (∀ e ∈ δ, e ≠ Ev.ret false) →
      ok = true ∧ δ = acked (write_sequence (2 * slave.cfg.addr) slave r d)) ∧
    (∀ (F1 : Nat) (wm : World Mock), wm.hw.ackAddr = true →
      ∃ s1 w1, I2C_wr MockP (F1 + 1) slave r d d.length wm = some (true, s1, d, w1) ∧
        w1.log = wm.log ++ acked (write_sequence (2 * slave.cfg.addr) slave r d)) ∧
    (slave.cfg.reg_size = I2C_NO_REG → framing slave r = []) ∧
    (slave.cfg.reg_size ≠ I2C_NO_REG → r ≠ slave.reg_addr →
      framing slave r = if slave.cfg.reg_size = I2C_8B_REG then [.wr8 (r % 256)]
        else [.wr8 (r / 256), .wr8 (r % 256)]) ∧
    r / 256 * 256 + r % 256 = r := by
  have hab := addr_byte_write slave ha
  refine ⟨?_, ?_, ?_, ?_, by omega⟩
  · intro ok s1 d1 w1 δ h hδ hn
    have hn1 : Ev.ret false ∉ δ := fun hh => hn _ hh rfl
    obtain ⟨m, rl, o, _, _⟩ := I2C_wr_log P F slave r d w ok s1 d1 w1 δ hd hr h hδ
    obtain ⟨hm, hlog⟩ := rl.no_fail hn1
    rw [hab] at hlog
    exact ⟨o.2 hm, hlog⟩
  · intro F1 wm hack
    have hb : d.length ≠ 0 := by simpa using hd
    obtain ⟨s1, w1, h, _⟩ := mock_wr F1 slave r d d.length wm hack hb
    obtain ⟨m, r1, _, _⟩ := I2C_wr_run MockP _ slave r d d.length wm true s1 d w1 hb h
    obtain ⟨δ, e, rl, u, o⟩ := r1
    rw [calls_of_values_nil δ u, wr_plan_eq _ _ _ hr, hab] at rl
    rw [wr_plan_eq _ _ _ hr, hab] at o
    exact ⟨s1, w1, h, by rw [e.2.2, rl.full (o.1 rfl)]⟩
  · intro h0
    simp [framing, h0]
  · intro h0 hc
    simp [framing, h0, hc]

/-- Witness of C5: a 16-bit descriptor at address 0x50 with cursor 0xFFFF, a
write of two bytes at register 0x1234 on the acknowledging mock. -/
theorem C5_write_bus_sequence_witness :
    ∃ s1 w1, I2C_wr MockP 1 ⟨⟨0x50, 2, .wr_builtin, .rd_builtin⟩, 0xFFFF, .I2C_OK⟩ 0x1234
        [0xAA, 0xBB] 2 (World.init (Mock.init true [])) = some (true, s1, [0xAA, 0xBB], w1) ∧
      w1.log = [] ++ acked [.start, .sndAddr 0xA0, .wr8 0x12, .wr8 0x34, .wr8 0xAA, .wr8 0xBB,
        .stop] :=
  (C5_write_bus_sequence MockP 1 ⟨⟨0x50, 2, .wr_builtin, .rd_builtin⟩, 0xFFFF, .I2C_OK⟩ 0x1234
    [0xAA, 0xBB] (World.init (Mock.init true [])) (by decide) (by decide) (by decide)).2.1 0
    (World.init (Mock.init true [])) rfl

/-- C6: `I2C_rd` of `n >= 1` bytes at a 16-bit register address `r` into a
buffer of at least `n` bytes.  For every peripheral and fuel, if the call returns
and no primitive has returned `false`, it returns `true` and its calls are exactly
the read sequence, every call acknowledged: the write phase (start, address with
the write bit, framing) only when there is framing to send, then start, address
with the read bit, `n - 1` receives requesting acknowledgment and a last one
withholding it, stop.  Exactly `n` values were read from the data register and
the buffer holds them, in order, in its first `n` places.  Each of them is the
data register read after its receive: the log is the acknowledged header, then
for every `i < n` receive `i`, its `true` and the read of the value stored at
index `i`, then the stop; and from the state `w0` the header left, receive `i` was
called on the state left by the read of value `i - 1`, returned `true` in a state
in which `TWDR` reads the value stored at index `i`, and the stop was called on the
state the last read left.  On the acknowledging mock the call does return `true`
with any positive fuel, and the buffer holds in its first `n` places the bytes
the slave delivered in the `n` receives.  There is framing to send iff the width
is not `none` and `r` differs from the cursor. -/
theorem C6_read_bus_sequence (P : Periph σ) (F : Nat) (slave : I2C_SLAVE) (r : Nat)
    (d : List Nat) (n : Nat) (w : World σ) (hr : r < 65536) (hn : n ≠ 0)
    (hlen : n ≤ d.length) :
    (∀ ok s1 d1 w1 δ, I2C_rd P F slave r d n w = some (ok, s1, d1, w1) →
      w1.log = w.log ++ δ → (∀ e ∈ δ, e ≠ Ev.ret false) →
      ok = true ∧
      calls δ = acked (read_sequence (addr_byte slave .I2C_WRITE) (addr_byte slave .I2C_READ)
        slave r n) ∧
      (values δ).length = n ∧ d1 = values δ ++ d.drop n ∧
      δ = acked (read_header (addr_byte slave .I2C_WRITE) (addr_byte slave .I2C_READ) slave r) ++
        receive_log n 0 (values δ) ++ [Ev.stop, Ev.ret true] ∧
      ∃ w0 w5, w0.log = w.log ++ acked (read_header (addr_byte slave .I2C_WRITE)
          (addr_byte slave .I2C_READ) slave r) ∧
        Received P F n 0 w0 (values δ) w5 ∧ I2C_stop P F w5 = some (true, w1)) ∧
    (∀ (F1 : Nat) (wm : World Mock), wm.hw.ackAddr = true →
      ∃ s1 w1 δ, I2C_rd MockP (F1 + 1) slave r d n wm =
          some (true, s1, delivered wm.hw.rx n ++ d.drop n, w1) ∧
        w1.log = wm.log ++ δ ∧
        calls δ = acked (read_sequence (addr_byte slave .I2C_WRITE)
          (addr_byte slave .I2C_READ) slave r n) ∧
        values δ = delivered wm.hw.rx n) ∧
    (framing slave r ≠ [] ↔ slave.cfg.reg_size ≠ I2C_NO_REG ∧ r ≠ slave.reg_addr) := by
  refine ⟨?_, ?_, ?_⟩
  · intro ok s1 d1 w1 δ h hδ hno
    obtain ⟨hok, hc, hl, hd⟩ := I2C_rd_all_ok P F slave r d n w ok s1 d1 w1 δ hr hn hlen h hδ
      (Or.inr (fun hh => hno _ hh rfl))
    subst hok
    obtain ⟨w0, w5, vs, hw0, rc, _, _, h5, hlog⟩ :=
      I2C_rd_received P F slave r d n w s1 d1 w1 hr hn h
    have hδ2 : δ = acked (read_header (addr_byte slave .I2C_WRITE) (addr_byte slave .I2C_READ)
        slave r) ++ receive_log n 0 vs ++ [Ev.stop, Ev.ret true] :=
      List.append_cancel_left (hδ.symm.trans hlog)
    have hv : values δ = vs := by
      rw [hδ2, values_append, values_append, values_acked, values_read_header,
        values_receive_log]
      simp [values]
    rw [hv]
    exact ⟨rfl, hc, by rw [← hv]; exact hl, by rw [← hv]; exact hd, hδ2, w0, w5, hw0, rc, h5⟩
  · intro F1 wm hack
    obtain ⟨s1, w1, h⟩ := mock_rd_values F1 slave r d n wm hack hn
    obtain ⟨m, vs, r1, _⟩ := I2C_rd_run MockP _ slave r d n wm true s1 _ w1 hn h
    obtain ⟨δ, e, _⟩ := r1
    obtain ⟨_, h2, h3, h4⟩ := I2C_rd_all_ok MockP _ slave r d n wm true s1 _ w1 δ hr hn hlen h
      e.2.2 (Or.inl rfl)
    have hs : store d 0 (delivered wm.hw.rx n) = delivered wm.hw.rx n ++ d.drop n := by
      rw [store_eq _ _ _ (by simpa [delivered_length] using hlen)]
      simp [delivered_length]
    rw [hs] at h h4
    have hv : values δ = delivered wm.hw.rx n :=
      (List.append_inj_left h4 (by rw [h3, delivered_length])).symm
    exact ⟨s1, w1, δ, h, e.2.2, h2, hv⟩
  · rw [Ne, framing_nil_iff]
    tauto

/-- Witness of C6: a 16-bit descriptor at address 0x50 with cursor 0xFFFF reads
three bytes at register 0x1234 from the acknowledging mock, whose slave sends
7, 8, 9: the buffer `[0, 0, 0, 0]` becomes `[7, 8, 9, 0]`. -/
theorem C6_read_bus_sequence_witness :
    ∃ s1 w1 δ,
      I2C_rd MockP 1 ⟨⟨0x50, 2, .wr_builtin, .rd_builtin⟩, 0xFFFF, .I2C_OK⟩ 0x1234 [0, 0, 0, 0] 3
        (World.init (Mock.init true [7, 8, 9, 10])) = some (true, s1, [7, 8, 9, 0], w1) ∧
      w1.log = [] ++ δ ∧
      calls δ = acked [.start, .sndAddr 0xA0, .wr8 0x12, .wr8 0x34, .start, .sndAddr 0xA1,
        .rd8 true, .rd8 true, .rd8 false, .stop] ∧
      values δ = [7, 8, 9] :=
  (C6_read_bus_sequence MockP 1 ⟨⟨0x50, 2, .wr_builtin, .rd_builtin⟩, 0xFFFF, .I2C_OK⟩ 0x1234
    [0, 0, 0, 0] 3 (World.init (Mock.init true [7, 8, 9, 10])) (by decide) (by decide)
    (by decide)).2.1 0 (World.init (Mock.init true [7, 8, 9, 10])) rfl

/-- C7: the cached cursor of a register-addressed descriptor (width 8 or 16
bits), for a 16-bit register address `r`, every peripheral and every fuel.
(1), (2): after `I2C_wr` resp. `I2C_rd` of `n >= 1` bytes at `r` has returned
`true`, the cursor is `(r + n) mod 65536`.  (3), (4): if the attempt fails at data
byte `k` after the header, that is, its log is the header and `k` data bytes (resp.
receives), all acknowledged, followed by the call for byte `k`, what that call
logs while failing, and its `false`, then the attempt returns `false` and the
cursor is `(r + k) mod 65536`.  (5), (6): the log of any transaction on a
register-addressed descriptor `s` follows, up to its first failing call, the
write resp. read sequence, whose framing (the register-address bytes) is empty
iff the requested register equals the cursor of `s`. -/
theorem C7_cursor_tracking (P : Periph σ) (F : Nat) (slave : I2C_SLAVE) (r : Nat)
    (w : World σ) (hreg : slave.cfg.reg_size ≠ I2C_NO_REG) (hr : r < 65536) :
    (∀ d s1 d1 w1, d ≠ [] → I2C_wr P F slave r d d.length w = some (true, s1, d1, w1) →
      s1.reg_addr = (r + d.length) % 65536) ∧
    (∀ d n s1 d1 w1, n ≠ 0 → I2C_rd P F slave r d n w = some (true, s1, d1, w1) →
      s1.reg_addr = (r + n) % 65536) ∧
    (∀ d k ok s1 d1 w1 t, k < d.length →
      I2C_wr P F slave r d d.length w = some (ok, s1, d1, w1) → t ∈ Recovery →
      w1.log = w.log ++ (acked (write_header (addr_byte slave .I2C_WRITE) slave r ++
        (d.take k).map .wr8) ++ .wr8 (d.getD k 0) :: t ++ [.ret false]) →
      ok = false ∧ s1.reg_addr = (r + k) % 65536) ∧
    (∀ d n k ok s1 d1 w1 δ t, k < n →
      I2C_rd P F slave r d n w = some (ok, s1, d1, w1) → t ∈ Recovery → w1.log = w.log ++ δ →
      calls δ = acked (read_header (addr_byte slave .I2C_WRITE) (addr_byte slave .I2C_READ)
        slave r ++ List.replicate k (.rd8 true)) ++
          .rd8 (decide (k + 1 < n)) :: t ++ [.ret false] →
      ok = false ∧ s1.reg_addr = (r + k) % 65536) ∧
    (∀ (s : I2C_SLAVE) r2 d2 ok s1 d1 w1 δ, s.cfg.reg_size ≠ I2C_NO_REG → r2 < 65536 →
      d2 ≠ [] → I2C_wr P F s r2 d2 d2.length w = some (ok, s1, d1, w1) →
      w1.log = w.log ++ δ →
      (∃ m, RunLog (write_sequence (addr_byte s .I2C_WRITE) s r2 d2) m δ) ∧
      (framing s r2 = [] ↔ r2 = s.reg_addr)) ∧
    (∀ (s : I2C_SLAVE) r2 d2 n2 ok s1 d1 w1 δ, s.cfg.reg_size ≠ I2C_NO_REG → r2 < 65536 →
      n2 ≠ 0 → I2C_rd P F s r2 d2 n2 w = some (ok, s1, d1, w1) → w1.log = w.log ++ δ →
      (∃ m, RunLog (read_sequence (addr_byte s .I2C_WRITE) (addr_byte s .I2C_READ) s r2 n2) m
        (calls δ)) ∧
      (framing s r2 = [] ↔ r2 = s.reg_addr)) := by
  have hreg0 : slave.cfg.reg_size ≠ 0 := hreg
  refine ⟨?_, ?_, ?_, ?_, ?_, ?_⟩
  · intro d s1 d1 w1 hd h
    obtain ⟨δ, hδ⟩ : ∃ δ, w1.log = w.log ++ δ := by
      obtain ⟨m, ⟨δ, e, _⟩, _⟩ := I2C_wr_run P F slave r d d.length w true s1 d1 w1
        (by simpa using hd) h
      exact ⟨δ, e.2.2⟩
    obtain ⟨m, _, o, _, hs⟩ := I2C_wr_log P F slave r d w true s1 d1 w1 δ hd hr h hδ
    have hm := o.1 rfl
    rw [hs, hm]
    have := wr_cursor_data slave r d.length d.length hreg0 hr (le_refl _) 1 (le_refl _)
    simpa [write_sequence, write_header_length _ _ _ hr, Nat.add_assoc] using this
  · intro d n s1 d1 w1 hn h
    obtain ⟨δ, hδ⟩ : ∃ δ, w1.log = w.log ++ δ := by
      obtain ⟨m, vs, ⟨δ, e, _⟩, _⟩ := I2C_rd_run P F slave r d n w true s1 d1 w1 hn h
      exact ⟨δ, e.2.2⟩
    obtain ⟨m, _, o, _, _, hs⟩ := I2C_rd_log P F slave r d n w true s1 d1 w1 δ hn hr h hδ
    have hm := o.1 rfl
    rw [hs, hm]
    have := rd_cursor_data slave r n n hreg0 hr (le_refl _) 1 (le_refl _)
    have hl : (read_sequence (addr_byte slave .I2C_WRITE) (addr_byte slave .I2C_READ)
        slave r n).length = (rd_setreg_plan slave r).length + 2 + n + 1 := by
      rw [← rd_plan_eq _ _ _ hn hr, rd_plan_length]
    simpa [hl] using this
  · intro d k ok s1 d1 w1 t hk h ht hlog
    have hd : d ≠ [] := by intro hh; simp [hh] at hk
    obtain ⟨m, rl, o, _, hs⟩ := I2C_wr_log P F slave r d w ok s1 d1 w1 _ hd hr h hlog
    have hmid := mid_getElem_take (write_header (addr_byte slave .I2C_WRITE) slave r)
      (d.map Ev.wr8) [Ev.stop] k (by simpa using hk)
    have hget : (write_sequence (addr_byte slave .I2C_WRITE) slave r d)[
        (write_header (addr_byte slave .I2C_WRITE) slave r).length + k]? =
        some (Ev.wr8 (d.getD k 0)) := by
      rw [write_sequence, hmid.1]
      simp [List.getD_eq_getElem?_getD, List.getElem?_eq_getElem hk]
    have rl2 := RunLog.of_failed _ _ _ t hget ht
    rw [write_sequence, hmid.2, ← List.map_take] at rl2
    have hm := rl.unique rl2
    have hlt : m < (write_sequence (addr_byte slave .I2C_WRITE) slave r d).length := by
      rw [hm]; simp [write_sequence]; omega
    refine ⟨?_, ?_⟩
    · cases ok
      · rfl
      · exact absurd (o.1 rfl) (by omega)
    · rw [hs, hm, write_header_length _ _ _ hr]
      have := wr_cursor_data slave r d.length k hreg0 hr (le_of_lt hk) 0 (by omega)
      simpa using this
  · intro d n k ok s1 d1 w1 δ t hk h ht hδ hlog
    have hn : n ≠ 0 := by omega
    obtain ⟨m, rl, o, _, _, hs⟩ := I2C_rd_log P F slave r d n w ok s1 d1 w1 δ hn hr h hδ
    have hseq : read_sequence (addr_byte slave .I2C_WRITE) (addr_byte slave .I2C_READ)
        slave r n = read_header (addr_byte slave .I2C_WRITE) (addr_byte slave .I2C_READ)
        slave r ++ (List.replicate (n - 1) (Ev.rd8 true) ++ [Ev.rd8 false]) ++ [Ev.stop] := by
      simp [read_sequence]
    have hmid := mid_getElem_take (read_header (addr_byte slave .I2C_WRITE)
      (addr_byte slave .I2C_READ) slave r)
      (List.replicate (n - 1) (Ev.rd8 true) ++ [Ev.rd8 false]) [Ev.stop] k
      (by simp; omega)
    have hk1 : (List.replicate (n - 1) (Ev.rd8 true) ++ [Ev.rd8 false])[k]? =
        some (Ev.rd8 (decide (k + 1 < n))) := by
      by_cases hlast : k = n - 1
      · subst hlast
        have : ¬ (n - 1 + 1 < n) := by omega
        simp [this]
      · have h1 : k < n - 1 := by omega
        have h2 : k + 1 < n := by omega
        simp [List.getElem?_append_left, h1, h2]
    have hk2 : (List.replicate (n - 1) (Ev.rd8 true) ++ [Ev.rd8 false]).take k =
        List.replicate k (Ev.rd8 true) := by
      rw [List.take_append_of_le_length (by simp; omega), List.take_replicate]
      congr 1
      omega
    have hget := hmid.1
    rw [hk1, ← hseq] at hget
    have rl2 := RunLog.of_failed _ _ _ t hget ht
    rw [hseq, hmid.2, hk2, ← hlog, ← hseq] at rl2
    have hm := rl.unique rl2
    have hl : (read_sequence (addr_byte slave .I2C_WRITE) (addr_byte slave .I2C_READ)
        slave r n).length = (rd_setreg_plan slave r).length + 2 + n + 1 := by
      rw [← rd_plan_eq _ _ _ hn hr, rd_plan_length]
    have hh := read_header_length (addr_byte slave .I2C_WRITE) (addr_byte slave .I2C_READ)
      slave r hr
    refine ⟨?_, ?_⟩
    · cases ok
      · rfl
      · exact absurd (o.1 rfl) (by omega)
    · rw [hs, hm, hh]
      have := rd_cursor_data slave r n k hreg0 hr (le_of_lt hk) 0 (by omega)
      simpa using this
  · intro s r2 d2 ok s1 d1 w1 δ hs hr2 hd2 h hδ
    obtain ⟨m, rl, _⟩ := I2C_wr_log P F s r2 d2 w ok s1 d1 w1 δ hd2 hr2 h hδ
    refine ⟨⟨m, rl⟩, ?_⟩
    rw [framing_nil_iff]
    constructor
    · rintro (h0 | h0)
      · exact absurd h0 hs
      · exact h0
    · exact Or.inr
  · intro s r2 d2 n2 ok s1 d1 w1 δ hs hr2 hn2 h hδ
    obtain ⟨m, rl, _⟩ := I2C_rd_log P F s r2 d2 n2 w ok s1 d1 w1 δ hn2 hr2 h hδ
    refine ⟨⟨m, rl⟩, ?_⟩
    rw [framing_nil_iff]
    constructor
    · rintro (h0 | h0)
      · exact absurd h0 hs
      · exact h0
    · exact Or.inr

/-- Witness of C7: an 8-bit descriptor at address 0x50 with cursor 0xFFFF writes
`[1, 2, 3]` at register 0x10.  On the acknowledging mock the write succeeds and
the cursor is 0x13; on the mock that refuses the third transmitted byte the write
fails at data byte 1 and the cursor is 0x11. -/
theorem C7_cursor_tracking_witness :
    (∃ s1 d1 w1, I2C_wr MockP 1 ⟨⟨0x50, 1, .wr_builtin, .rd_builtin⟩, 0xFFFF, .I2C_OK⟩ 0x10
        [1, 2, 3] 3 (World.init (Mock.init true [])) = some (true, s1, d1, w1) ∧
      s1.reg_addr = (0x10 + 3) % 65536) ∧
    (∃ s1 d1 w1, I2C_wr RefuseP 1 ⟨⟨0x50, 1, .wr_builtin, .rd_builtin⟩, 0xFFFF, .I2C_OK⟩ 0x10
        [1, 2, 3] 3 (World.init (Mock.init true [], some 2)) = some (false, s1, d1, w1) ∧
      s1.reg_addr = (0x10 + 1) % 65536) :=
  ⟨⟨_, _, _, rfl,
    (C7_cursor_tracking MockP 1 ⟨⟨0x50, 1, .wr_builtin, .rd_builtin⟩, 0xFFFF, .I2C_OK⟩ 0x10
      (World.init (Mock.init true [])) (by decide) (by decide)).1 [1, 2, 3] _ _ _
      (by decide) rfl⟩,
   ⟨_, _, _, rfl,
    ((C7_cursor_tracking RefuseP 1 ⟨⟨0x50, 1, .wr_builtin, .rd_builtin⟩, 0xFFFF, .I2C_OK⟩ 0x10
      (World.init (Mock.init true [], some 2)) (by decide) (by decide)).2.2.1 [1, 2, 3] 1 false
      _ _ _ [.stop, .ret true] (by decide) rfl (by decide) rfl).2⟩⟩

/-- C8, counterexample: a fresh 8-bit descriptor at address 0x50 on the
acknowledging mock writes `[0xAA]` to register 0x10, `[0xBB]` to register 0x10 and
`[0xCC]` to register 0x11.  All three return `I2C_OK`; the second write sends the
register-address byte 0x10 again and the third sends no register-address byte. -/
theorem C8_elision_counterexample :
    elision_scenario MockP 1 (I2C_slave_init ⟨⟨0, 0, .user 0, .user 1⟩, 0, .I2C_OK⟩ 0x50 1)
        [0xAA] [0xBB] [0xCC] (World.init (Mock.init true [])) =
      some (.I2C_OK, .I2C_OK, .I2C_OK,
        [.start, .ret true, .sndAddr 0xA0, .ret true, .wr8 0x10, .ret true, .wr8 0xBB,
          .ret true, .stop, .ret true],
        [.start, .ret true, .sndAddr 0xA0, .ret true, .wr8 0xCC, .ret true, .stop,
          .ret true]) := by
  rfl

/-- C8, amended: on a register-addressed descriptor with the built-in write
strategy and the acknowledging mock, for all non-empty payloads `d1`, `d2`, `d3`
of fewer than 65536 bytes, the three writes of the elision scenario return
`I2C_OK`.  The second write (to 0x10, the cursor being `0x10 + |d1|`) makes the
calls of the write sequence with its framing, which is not empty: the
register-address bytes are sent again.  The third write (to 0x11, the cursor being
`0x10 + |d2|`) makes the calls of the write sequence whose framing is empty iff
`|d2| = 1`. -/
theorem C8_elision_follows_cursor (F : Nat) (slave : I2C_SLAVE) (d1 d2 d3 : List Nat)
    (w : World Mock) (hreg : slave.cfg.reg_size ≠ I2C_NO_REG)
    (hwr : slave.cfg.wr = .wr_builtin) (h1 : d1 ≠ []) (h2 : d2 ≠ []) (h3 : d3 ≠ [])
    (l1 : d1.length < 65536) (l2 : d2.length < 65536) (hbusy : w.busy = false)
    (hack : w.hw.ackAddr = true) :
    elision_scenario MockP (F + 1) slave d1 d2 d3 w =
      some (.I2C_OK, .I2C_OK, .I2C_OK,
        acked (write_sequence (addr_byte slave .I2C_WRITE)
          { slave with reg_addr := (0x10 + d1.length) % 65536 } 0x10 d2),
        acked (write_sequence (addr_byte slave .I2C_WRITE)
          { slave with reg_addr := (0x10 + d2.length) % 65536 } 0x11 d3)) ∧
    framing { slave with reg_addr := (0x10 + d1.length) % 65536 } 0x10 ≠ [] ∧
    (framing { slave with reg_addr := (0x10 + d2.length) % 65536 } 0x11 = [] ↔
      d2.length = 1) := by
  have n1 : d1.length ≠ 0 := by simpa using h1
  have n2 : d2.length ≠ 0 := by simpa using h2
  obtain ⟨w1, e1, b1, a1, _⟩ := mock_write noExt F slave 0x10 d1 w hreg hwr (by decide) h1
    hbusy hack
  obtain ⟨w2, e2, b2, a2, g2⟩ := mock_write noExt F
    { slave with reg_addr := (0x10 + d1.length) % 65536, status := .I2C_OK } 0x10 d2 w1
    hreg hwr (by decide) h2 b1 a1
  obtain ⟨w3, e3, b3, a3, g3⟩ := mock_write noExt F
    { slave with reg_addr := (0x10 + d2.length) % 65536, status := .I2C_OK } 0x11 d3 w2
    hreg hwr (by decide) h3 b2 a2
  refine ⟨?_, ?_, ?_⟩
  · unfold elision_scenario
    rw [e1]
    simp only
    rw [e2]
    simp only
    rw [e3]
    simp only
    rw [g3, List.drop_left, g2, List.drop_left]
    rfl
  · rw [Ne, framing_nil_iff]
    simp only [not_or]
    exact ⟨hreg, by omega⟩
  · rw [framing_nil_iff]
    constructor
    · rintro (h0 | h0)
      · exact absurd h0 hreg
      · simp only at h0
        omega
    · intro h0
      right
      simp only [h0]

/-- Witness of the amended C8 at the input of the counterexample. -/
theorem C8_elision_follows_cursor_witness :
    elision_scenario MockP 1 (I2C_slave_init ⟨⟨0, 0, .user 0, .user 1⟩, 0, .I2C_OK⟩ 0x50 1)
        [0xAA] [0xBB] [0xCC] (World.init (Mock.init true [])) =
      some (.I2C_OK, .I2C_OK, .I2C_OK,
        acked [.start, .sndAddr 0xA0, .wr8 0x10, .wr8 0xBB, .stop],
        acked [.start, .sndAddr 0xA0, .wr8 0xCC, .stop]) :=
  (C8_elision_follows_cursor 0 (I2C_slave_init ⟨⟨0, 0, .user 0, .user 1⟩, 0, .I2C_OK⟩ 0x50 1)
    [0xAA] [0xBB] [0xCC] (World.init (Mock.init true [])) (by decide) rfl (by decide)
    (by decide) (by decide) (by decide) (by decide) rfl rfl).1

/-- C9, counterexample: a 16-bit descriptor fresh from `I2C_slave_init` writes one
byte to register 0xFFFF and reads one byte from register 0xFFFF on the
acknowledging mock.  Both first transactions return `I2C_OK` and neither sends a
register-address byte: the write sends start, address, the data byte, stop; the
read sends start, address with the read bit, one receive, stop. -/
theorem C9_sentinel_counterexample :
    (I2C_write MockP noExt 1 (I2C_slave_init ⟨⟨0, 0, .user 0, .user 1⟩, 0, .I2C_NACK⟩ 0x50 2)
        0xFFFF [0xAA] 1 (World.init (Mock.init true []))).map (fun x => (x.1, x.2.2.2.log)) =
      some (.I2C_OK, [.start, .ret true, .sndAddr 0xA0, .ret true, .wr8 0xAA, .ret true,
        .stop, .ret true]) ∧
    (I2C_read MockP noExt 1 (I2C_slave_init ⟨⟨0, 0, .user 0, .user 1⟩, 0, .I2C_NACK⟩ 0x50 2)
        0xFFFF [0] 1 (World.init (Mock.init true [7]))).map (fun x => (x.1, x.2.2.2.log)) =
      some (.I2C_OK, [.start, .ret true, .sndAddr 0xA1, .ret true, .rd8 false, .ret true,
        .twdr 7, .stop, .ret true]) :=
  ⟨rfl, rfl⟩

/-- C9, amended: a descriptor initialised by `I2C_slave_init` (over any prior
memory content) with a register width other than `none`, and a register address
`r < 0xFFFF`.  The cursor sentinel 0xFFFF differs from `r`, so the framing of the
first transaction is not empty: it is the byte `r / 256` (16-bit width) and the
byte `r % 256`.  For every peripheral and fuel the first `I2C_wr` or `I2C_rd` at
`r` follows, up to its first failing call, the write resp. read sequence with
that framing, and on the acknowledging mock the first `I2C_write` and the first
`I2C_read` at `r` return `I2C_OK` having made all the calls of the sequence. -/
theorem C9_first_access_sends_address (P : Periph σ) (F : Nat) (prior : I2C_SLAVE)
    (sl_addr reg_sz r : Nat) (w : World σ) (hsz : reg_sz ≠ I2C_NO_REG) (hr : r < 65535) :
    (framing (I2C_slave_init prior sl_addr reg_sz) r =
      if (I2C_slave_init prior sl_addr reg_sz).cfg.reg_size = I2C_8B_REG then [.wr8 (r % 256)]
      else [.wr8 (r / 256), .wr8 (r % 256)]) ∧
    (∀ d ok s1 d1 w1 δ, d ≠ [] →
      I2C_wr P F (I2C_slave_init prior sl_addr reg_sz) r d d.length w = some (ok, s1, d1, w1) →
      w1.log = w.log ++ δ →
      ∃ m, RunLog (write_sequence (addr_byte (I2C_slave_init prior sl_addr reg_sz) .I2C_WRITE)
        (I2C_slave_init prior sl_addr reg_sz) r d) m δ) ∧
    (∀ d n ok s1 d1 w1 δ, n ≠ 0 →
      I2C_rd P F (I2C_slave_init prior sl_addr reg_sz) r d n w = some (ok, s1, d1, w1) →
      w1.log = w.log ++ δ →
      ∃ m, RunLog (read_sequence (addr_byte (I2C_slave_init prior sl_addr reg_sz) .I2C_WRITE)
        (addr_byte (I2C_slave_init prior sl_addr reg_sz) .I2C_READ)
        (I2C_slave_init prior sl_addr reg_sz) r n) m (calls δ)) ∧
    (∀ (F1 : Nat) (wm : World Mock) d, d ≠ [] → wm.busy = false → wm.hw.ackAddr = true →
      ∃ s1 w1, I2C_write MockP noExt (F1 + 1) (I2C_slave_init prior sl_addr reg_sz) r d
          d.length wm = some (.I2C_OK, s1, d, w1) ∧
        w1.log = wm.log ++ acked (write_sequence
          (addr_byte (I2C_slave_init prior sl_addr reg_sz) .I2C_WRITE)
          (I2C_slave_init prior sl_addr reg_sz) r d)) ∧
    (∀ (F1 : Nat) (wm : World Mock) d n, n ≠ 0 → n ≤ d.length → wm.busy = false →
      wm.hw.ackAddr = true →
      ∃ s1 d1 w1 δ, I2C_read MockP noExt (F1 + 1) (I2C_slave_init prior sl_addr reg_sz) r d n
          wm = some (.I2C_OK, s1, d1, w1) ∧
        w1.log = wm.log ++ δ ∧
        calls δ = acked (read_sequence
          (addr_byte (I2C_slave_init prior sl_addr reg_sz) .I2C_WRITE)
          (addr_byte (I2C_slave_init prior sl_addr reg_sz) .I2C_READ)
          (I2C_slave_init prior sl_addr reg_sz) r n)) := by
  have hr1 : r < 65536 := by omega
  have hcur : (I2C_slave_init prior sl_addr reg_sz).reg_addr = 65535 := by
    simp [I2C_slave_init]
  have hreg : (I2C_slave_init prior sl_addr reg_sz).cfg.reg_size ≠ I2C_NO_REG := by
    simp only [I2C_slave_init, I2C_slave_set_rw_func, I2C_slave_set_reg_size,
      I2C_slave_set_addr, I2C_RW.toNat, I2C_NO_REG, I2C_16B_REG] at hsz ⊢
    split_ifs <;> simp <;> omega
  have hwr : (I2C_slave_init prior sl_addr reg_sz).cfg.wr = .wr_builtin := by
    simp [I2C_slave_init, I2C_slave_set_rw_func, I2C_RW.toNat]
  have hrd : (I2C_slave_init prior sl_addr reg_sz).cfg.rd = .rd_builtin := by
    simp [I2C_slave_init, I2C_slave_set_rw_func, I2C_RW.toNat]
  refine ⟨?_, ?_, ?_, ?_, ?_⟩
  · have hne : r ≠ (I2C_slave_init prior sl_addr reg_sz).reg_addr := by rw [hcur]; omega
    simp [framing, hreg, hne]
  · intro d ok s1 d1 w1 δ hd h hδ
    obtain ⟨m, rl, _⟩ := I2C_wr_log P F _ r d w ok s1 d1 w1 δ hd hr1 h hδ
    exact ⟨m, rl⟩
  · intro d n ok s1 d1 w1 δ hn h hδ
    obtain ⟨m, rl, _⟩ := I2C_rd_log P F _ r d n w ok s1 d1 w1 δ hn hr1 h hδ
    exact ⟨m, rl⟩
  · intro F1 wm d hd hbusy hack
    obtain ⟨w1, h, _, _, hl⟩ := mock_write noExt F1 _ r d wm hreg hwr hr1 hd hbusy hack
    exact ⟨_, w1, h, hl⟩
  · intro F1 wm d n hn hlen hbusy hack
    obtain ⟨s1, d1, w1, δ, h, _, _, hl, hc, _⟩ := mock_read noExt F1 _ r d n wm hrd hr1 hn
      hlen hbusy hack
    exact ⟨s1, d1, w1, δ, h, hl, hc⟩

/-- Witness of the amended C9: a 16-bit descriptor initialised at address 0x50
writes `[0xAA]` to register 0x1234 on the acknowledging mock. -/
theorem C9_first_access_sends_address_witness :
    ∃ s1 w1, I2C_write MockP noExt 1
        (I2C_slave_init ⟨⟨0, 0, .user 0, .user 1⟩, 0, .I2C_NACK⟩ 0x50 2) 0x1234 [0xAA] 1
        (World.init (Mock.init true [])) = some (.I2C_OK, s1, [0xAA], w1) ∧
      w1.log = [] ++ acked [.start, .sndAddr 0xA0, .wr8 0x12, .wr8 0x34, .wr8 0xAA, .stop] :=
  (C9_first_access_sends_address MockP 0 ⟨⟨0, 0, .user 0, .user 1⟩, 0, .I2C_NACK⟩ 0x50 2 0x1234
    (World.init (Mock.init true [])) (by decide) (by decide)).2.2.2.1 0
    (World.init (Mock.init true [])) [0xAA] (by decide) rfl rfl

/-- C10, the code at the failing input: an 8-bit descriptor fresh from
`I2C_slave_init` at address 0x50, the initial retry limit, and a slave that
refuses the first byte it is sent after the address (the register-address byte
0x10) and acknowledges everything afterwards.  `I2C_write(slave, 0x10, [0xAA], 1)`
returns `I2C_OK`, but its retry sent start, address, the data byte 0xAA and stop:
the register-address byte was not sent again.  `I2C_read(slave, 0x10, buf, 1)`
likewise returns `I2C_OK` after a retry that skipped the whole write phase. -/
theorem C10_retry_skips_register_address :
    (I2C_write RefuseP noExt 1
        (I2C_slave_init ⟨⟨0, 0, .user 0, .user 1⟩, 0, .I2C_NACK⟩ 0x50 1) 0x10 [0xAA] 1
        (World.init (Mock.init true [], some 0))).map
        (fun x => (x.1, x.2.1.reg_addr, x.2.2.2.log)) =
      some (.I2C_OK, 0x11,
        [.start, .ret true, .sndAddr 0xA0, .ret true, .wr8 0x10, .stop, .ret true, .ret false,
         .delay 5,
         .start, .ret true, .sndAddr 0xA0, .ret true, .wr8 0xAA, .ret true, .stop,
         .ret true]) ∧
    (I2C_read RefuseP noExt 1
        (I2C_slave_init ⟨⟨0, 0, .user 0, .user 1⟩, 0, .I2C_NACK⟩ 0x50 1) 0x10 [0] 1
        (World.init (Mock.init true [7], some 0))).map
        (fun x => (x.1, x.2.1.reg_addr, x.2.2.2.log)) =
      some (.I2C_OK, 0x11,
        [.start, .ret true, .sndAddr 0xA0, .ret true, .wr8 0x10, .stop, .ret true, .ret false,
         .delay 5,
         .start, .ret true, .sndAddr 0xA1, .ret true, .rd8 false, .ret true, .twdr 7, .stop,
         .ret true]) :=
  ⟨rfl, rfl⟩

/-- C11 fails, on a peripheral that completes every command at once and
reports the scripted status codes.  (1) `I2C_wr` when the start condition ends
in status 0x00 (bus error): `I2C_start` fails and `I2C_wr` returns false, its
last bus action being the start.  (2) `I2C_rd` of one byte, the start reporting
0x08, the address byte 0x40 and the received byte 0x00: `I2C_rd8` fails and
`I2C_rd` returns false, its last bus action being the byte reception.  Neither
attempt issued a stop or a reset. -/
theorem C11_clean_bus_counterexample :
    (I2C_wr ScriptP 1 (I2C_slave_init ⟨⟨0, 0, .user 0, .user 1⟩, 0, .I2C_NACK⟩ 0x50 1)
      0x10 [0xAA] 1 (World.init (Script.init [0x00]))).map
        (fun x => (x.1, x.2.2.2.log, last_action x.2.2.2.log)) =
      some (false, [.start, .ret false], some .start) ∧
    (I2C_rd ScriptP 1 (I2C_slave_init ⟨⟨0, 0, .user 0, .user 1⟩, 0, .I2C_NACK⟩ 0x50 0)
      0x10 [0] 1 (World.init (Script.init [0x08, 0x40, 0x00]))).map
        (fun x => (x.1, x.2.2.2.log, last_action x.2.2.2.log)) =
      some (false, [.start, .ret true, .sndAddr 0xA1, .ret true, .rd8 false, .ret false],
        some (.rd8 false)) :=
  ⟨rfl, rfl⟩

/-- C11, amended: for every peripheral behaviour and fuel, every failing
attempt of `I2C_wr` or `I2C_rd` on a non-empty request (so one that touched the
bus) logged events `δ` whose last bus action is a stop condition or a bus
reset, unless the attempt ended in `I2C_start` or `I2C_rd8` returning failure
without any recovery: then `δ` ends with that call and its failure, and the
start or the byte reception is the last bus action.  A failed `I2C_sndAddr`,
`I2C_wr8` or `I2C_stop` is always followed by a stop or a reset. -/
theorem C11_failed_attempt_ends (P : Periph σ) (F : Nat) (slave : I2C_SLAVE) (r : Nat)
    (d : List Nat) (n : Nat) (w : World σ) (hn : n ≠ 0) :
    (∀ s1 d1 w1, I2C_wr P F slave r d n w = some (false, s1, d1, w1) →
      ∃ δ, w1.log = w.log ++ δ ∧
        (last_action δ = some Ev.stop ∨ last_action δ = some Ev.reset ∨
          ∃ pre c, δ = pre ++ [c, Ev.ret false] ∧ (c = Ev.start ∨ ∃ a, c = Ev.rd8 a) ∧
            last_action δ = some c)) ∧
    (∀ s1 d1 w1, I2C_rd P F slave r d n w = some (false, s1, d1, w1) →
      ∃ δ, w1.log = w.log ++ δ ∧
        (last_action δ = some Ev.stop ∨ last_action δ = some Ev.reset ∨
          ∃ pre c, δ = pre ++ [c, Ev.ret false] ∧ (c = Ev.start ∨ ∃ a, c = Ev.rd8 a) ∧
            last_action δ = some c)) :=
  ⟨fun s1 d1 w1 h => (I2C_wr_failed P F slave r d n w s1 d1 w1 hn h).ends,
   fun s1 d1 w1 h => (I2C_rd_failed P F slave r d n w s1 d1 w1 hn h).ends⟩

/-- Witness of C11: a one-byte request to a slave that refuses its address;
both attempts fail, and end with the stop condition `I2C_sndAddr` issues. -/
theorem C11_failed_attempt_ends_witness :
    ((I2C_wr MockP 1 (I2C_slave_init ⟨⟨0, 0, .user 0, .user 1⟩, 0, .I2C_NACK⟩ 0x50 1)
        0x10 [0xAA] 1 (World.init (Mock.init false []))).map
          (fun x => (x.1, last_action x.2.2.2.log)) = some (false, some .stop) ∧
      (I2C_rd MockP 1 (I2C_slave_init ⟨⟨0, 0, .user 0, .user 1⟩, 0, .I2C_NACK⟩ 0x50 1)
        0x10 [0xAA] 1 (World.init (Mock.init false []))).map
          (fun x => (x.1, last_action x.2.2.2.log)) = some (false, some .stop)) ∧
    ((∀ s1 d1 w1, I2C_wr MockP 1
        (I2C_slave_init ⟨⟨0, 0, .user 0, .user 1⟩, 0, .I2C_NACK⟩ 0x50 1) 0x10 [0xAA] 1
        (World.init (Mock.init false [])) = some (false, s1, d1, w1) →
      ∃ δ, w1.log = (World.init (Mock.init false [])).log ++ δ ∧
        (last_action δ = some Ev.stop ∨ last_action δ = some Ev.reset ∨
          ∃ pre c, δ = pre ++ [c, Ev.ret false] ∧ (c = Ev.start ∨ ∃ a, c = Ev.rd8 a) ∧
            last_action δ = some c)) ∧
    (∀ s1 d1 w1, I2C_rd MockP 1
        (I2C_slave_init ⟨⟨0, 0, .user 0, .user 1⟩, 0, .I2C_NACK⟩ 0x50 1) 0x10 [0xAA] 1
        (World.init (Mock.init false [])) = some (false, s1, d1, w1) →
      ∃ δ, w1.log = (World.init (Mock.init false [])).log ++ δ ∧
        (last_action δ = some Ev.stop ∨ last_action δ = some Ev.reset ∨
          ∃ pre c, δ = pre ++ [c, Ev.ret false] ∧ (c = Ev.start ∨ ∃ a, c = Ev.rd8 a) ∧
            last_action δ = some c))) :=
  ⟨⟨rfl, rfl⟩, C11_failed_attempt_ends MockP 1
    (I2C_slave_init ⟨⟨0, 0, .user 0, .user 1⟩, 0, .I2C_NACK⟩ 0x50 1) 0x10 [0xAA] 1
    (World.init (Mock.init false [])) (by decide)⟩

/-- C12: round trip on the memory mock.  For every prior content of the
descriptor, every address and every register width other than `I2C_NO_REG`
given to `I2C_slave_init`, a slave whose pointer width matches the descriptor,
every register address `r < 0xFFFF` (the claim's `0x00` among them), every
non-empty sequence `d` of bytes of length `n < 65536`, every buffer of length
`n` and any positive fuel: `I2C_write(slave, r, d, n)` returns `I2C_OK`, and
`I2C_read(slave, r, buffer, n)` on the descriptor and driver state the write
left returns `I2C_OK` with the buffer equal to `d`. -/
theorem C12_round_trip (F : Nat) (prior : I2C_SLAVE) (a reg_sz r : Nat) (d buf : List Nat)
    (w : World Mem) (hreg : reg_sz ≠ I2C_NO_REG) (hr : r < 0xFFFF) (hd : d ≠ [])
    (hbyte : ∀ x ∈ d, x < 256) (hn : d.length < 65536) (hbuf : buf.length = d.length)
    (hbusy : w.busy = false) (hw : w.hw.width = reg_width (I2C_slave_init prior a reg_sz)) :
    ∃ s1 w1 s2 w2,
      I2C_write MemP noExt (F + 1) (I2C_slave_init prior a reg_sz) r d d.length w =
        some (.I2C_OK, s1, d, w1) ∧
      I2C_read MemP noExt (F + 1) s1 r buf d.length w1 = some (.I2C_OK, s2, d, w2) := by
  have hb : d.length ≠ 0 := by simpa using hd
  have hsz : (I2C_slave_init prior a reg_sz).cfg.reg_size ≠ 0 := by
    simp only [I2C_slave_init, I2C_slave_set_reg_size, I2C_slave_set_rw_func, I2C_RW.toNat,
      I2C_slave_set_addr, I2C_16B_REG, I2C_NO_REG] at hreg ⊢
    split_ifs <;> simp <;> omega
  have hwr : (I2C_slave_init prior a reg_sz).cfg.wr = .wr_builtin := by
    simp [I2C_slave_init, I2C_slave_set_rw_func, I2C_RW.toNat]
  have hrd : (I2C_slave_init prior a reg_sz).cfg.rd = .rd_builtin := by
    simp [I2C_slave_init, I2C_slave_set_rw_func, I2C_RW.toNat]
  have hc0 : (I2C_slave_init prior a reg_sz).reg_addr = 65535 := by
    simp [I2C_slave_init]
  obtain ⟨w1, h1, d1, e1⟩ := mem_wr F (I2C_slave_init prior a reg_sz) r d d.length
    { w with busy := true } hb hsz (by rw [hc0]; omega) hw
  have hcomm1 := I2C_comm_first_ok MemP noExt (F + 1) (I2C_slave_init prior a reg_sz) r d
    d.length .I2C_WRITE w _ d w1 hbusy (by simpa [I2C_RW.toNat, hwr, call_fct] using h1)
  have hcur : bump d.length r = (r + d.length) % 65536 := bump_eq _ _ (by omega)
  obtain ⟨b2, w2, h2, l2, g2⟩ := mem_rd F
    { I2C_slave_init prior a reg_sz with reg_addr := bump d.length r, status := .I2C_OK }
    r buf d.length { w1 with busy := true } hb hsz
    (by show r ≠ bump d.length r; rw [hcur]; omega) (d1.trans hw) (by omega)
  have hcomm2 := I2C_comm_first_ok MemP noExt (F + 1)
    { I2C_slave_init prior a reg_sz with reg_addr := bump d.length r, status := .I2C_OK }
    r buf d.length .I2C_READ { w1 with busy := false } _ b2 w2 rfl
    (by simpa [I2C_RW.toNat, hrd, call_fct] using h2)
  have hb2 : b2 = d := by
    apply List.ext_getElem (by rw [l2, hbuf])
    intro j hj1 hj2
    have := g2 j
    rw [if_pos hj2] at this
    have e := e1 j hj2
    change w1.hw.mem (reg_pointer (I2C_slave_init prior a reg_sz) r + j) = _ at e
    change b2.getD j 0 = w1.hw.mem (reg_pointer (I2C_slave_init prior a reg_sz) r + j) % 256
      at this
    rw [e, List.getD_eq_getElem _ _ hj1, List.getD_eq_getElem _ _ hj2, Nat.mod_mod] at this
    rw [this]
    exact Nat.mod_eq_of_lt (hbyte _ (List.getElem_mem _))
  subst hb2
  exact ⟨_, _, _, _, hcomm1, hcomm2⟩

/-- Witness of C12: the specification's `d = [0xAA, 0xBB]` at register 0x00, an
8-bit descriptor at address 0x50 and a slave with zeroed memory. -/
theorem C12_round_trip_witness :
    ∃ s1 w1 s2 w2,
      I2C_write MemP noExt (0 + 1)
        (I2C_slave_init ⟨⟨0, 0, .user 0, .user 1⟩, 0, .I2C_NACK⟩ 0x50 I2C_8B_REG) 0x00
        [0xAA, 0xBB] [0xAA, 0xBB].length (World.init (Mem.init 1 (fun _ => 0))) =
        some (.I2C_OK, s1, [0xAA, 0xBB], w1) ∧
      I2C_read MemP noExt (0 + 1) s1 0x00 [0, 0] [0xAA, 0xBB].length w1 =
        some (.I2C_OK, s2, [0xAA, 0xBB], w2) :=
  C12_round_trip 0 ⟨⟨0, 0, .user 0, .user 1⟩, 0, .I2C_NACK⟩ 0x50 I2C_8B_REG 0x00 [0xAA, 0xBB]
    [0, 0] (World.init (Mem.init 1 (fun _ => 0))) (by decide) (by decide) (by decide)
    (by decide) (by decide) rfl rfl rfl

/-- C13: timeouts, on the mock whose completion flag never sets and whose
pending stop never clears.  The millisecond clock advances by `step i` after its
reading number `i` (possibly by 0: the poll loop is faster than the clock), with
`step i + timeout <= 65535` so that the 16-bit elapsed time cannot wrap between
two polls.  If the clock keeps advancing, that is, if over some number `k + 1`
of readings it advances by the configured timeout or more, then with fuel above
`k` each of `I2C_start`, `I2C_sndAddr`, `I2C_wr8`, `I2C_rd8` and `I2C_stop`
terminates and returns failure; the last clock value it read is at least the
configured timeout past the clock value at its entry; and on return `TWCR` holds
exactly `(1 << TWEA) | (1 << TWEN)`, the log being the call, one bus reset and
the failure. -/
theorem C13_timeout_returns_failure (F : Nat) (slave : I2C_SLAVE) (rw : I2C_RW) (dat : Nat)
    (ack : Bool) (w : World Hung) (hstep : ∀ i, w.hw.step i + w.cfg.timeout ≤ 65535)
    (k : Nat) (hk : k < F) (hadv : w.cfg.timeout ≤ advance w.hw.step w.hw.reads (k + 1)) :
    (∃ w1, I2C_start HungP F w = some (false, w1) ∧
      w1.hw.twcr = (1 <<< TWEA) ||| (1 <<< TWEN) ∧ w.hw.clock + w.cfg.timeout ≤ w1.hw.last ∧
      w1.log = w.log ++ [.start, .reset, .ret false]) ∧
    (∃ w1, I2C_sndAddr HungP F slave rw w = some (false, w1) ∧
      w1.hw.twcr = (1 <<< TWEA) ||| (1 <<< TWEN) ∧ w.hw.clock + w.cfg.timeout ≤ w1.hw.last ∧
      w1.log = w.log ++ [.sndAddr (addr_byte slave rw), .reset, .ret false]) ∧
    (∃ w1, I2C_wr8 HungP F dat w = some (false, w1) ∧
      w1.hw.twcr = (1 <<< TWEA) ||| (1 <<< TWEN) ∧ w.hw.clock + w.cfg.timeout ≤ w1.hw.last ∧
      w1.log = w.log ++ [.wr8 dat, .reset, .ret false]) ∧
    (∃ w1, I2C_rd8 HungP F ack w = some (false, w1) ∧
      w1.hw.twcr = (1 <<< TWEA) ||| (1 <<< TWEN) ∧ w.hw.clock + w.cfg.timeout ≤ w1.hw.last ∧
      w1.log = w.log ++ [.rd8 ack, .reset, .ret false]) ∧
    (∃ w1, I2C_stop HungP F w = some (false, w1) ∧
      w1.hw.twcr = (1 <<< TWEA) ||| (1 <<< TWEN) ∧ w.hw.clock + w.cfg.timeout ≤ w1.hw.last ∧
      w1.log = w.log ++ [.stop, .reset, .ret false]) :=
  ⟨hung_start F w hstep k hk hadv, hung_sndAddr F slave rw w hstep k hk hadv,
    hung_wr8 F dat w hstep k hk hadv, hung_rd8 F ack w hstep k hk hadv,
    hung_stop F w hstep k hk hadv⟩

/-- Witness of C13: the initial driver state (timeout 100 ms), the clock at
65500 so that its 16-bit value wraps during the wait, a clock that stands still
at every other reading and advances by 13 ms at the others, fuel 17. -/
theorem C13_timeout_returns_failure_witness :
    (∃ w1, I2C_start HungP 17
        (World.init (Hung.init 65500 (fun i => if i % 2 = 0 then 0 else 13))) =
        some (false, w1) ∧
      w1.hw.twcr = (1 <<< TWEA) ||| (1 <<< TWEN) ∧ 65500 + 100 ≤ w1.hw.last ∧
      w1.log = [] ++ [.start, .reset, .ret false]) ∧
    (∃ w1, I2C_sndAddr HungP 17
        (I2C_slave_init ⟨⟨0, 0, .user 0, .user 1⟩, 0, .I2C_NACK⟩ 0x50 1) .I2C_WRITE
        (World.init (Hung.init 65500 (fun i => if i % 2 = 0 then 0 else 13))) =
        some (false, w1) ∧
      w1.hw.twcr = (1 <<< TWEA) ||| (1 <<< TWEN) ∧ 65500 + 100 ≤ w1.hw.last ∧
      w1.log = [] ++ [.sndAddr (addr_byte
        (I2C_slave_init ⟨⟨0, 0, .user 0, .user 1⟩, 0, .I2C_NACK⟩ 0x50 1) .I2C_WRITE), .reset,
        .ret false]) ∧
    (∃ w1, I2C_wr8 HungP 17 0xAA
        (World.init (Hung.init 65500 (fun i => if i % 2 = 0 then 0 else 13))) =
        some (false, w1) ∧
      w1.hw.twcr = (1 <<< TWEA) ||| (1 <<< TWEN) ∧ 65500 + 100 ≤ w1.hw.last ∧
      w1.log = [] ++ [.wr8 0xAA, .reset, .ret false]) ∧
    (∃ w1, I2C_rd8 HungP 17 true
        (World.init (Hung.init 65500 (fun i => if i % 2 = 0 then 0 else 13))) =
        some (false, w1) ∧
      w1.hw.twcr = (1 <<< TWEA) ||| (1 <<< TWEN) ∧ 65500 + 100 ≤ w1.hw.last ∧
      w1.log = [] ++ [.rd8 true, .reset, .ret false]) ∧
    (∃ w1, I2C_stop HungP 17
        (World.init (Hung.init 65500 (fun i => if i % 2 = 0 then 0 else 13))) =
        some (false, w1) ∧
      w1.hw.twcr = (1 <<< TWEA) ||| (1 <<< TWEN) ∧ 65500 + 100 ≤ w1.hw.last ∧
      w1.log = [] ++ [.stop, .reset, .ret false]) :=
  C13_timeout_returns_failure 17
    (I2C_slave_init ⟨⟨0, 0, .user 0, .user 1⟩, 0, .I2C_NACK⟩ 0x50 1) .I2C_WRITE 0xAA true
    (World.init (Hung.init 65500 (fun i => if i % 2 = 0 then 0 else 13)))
    (fun i => by
      show (if i % 2 = 0 then 0 else 13) + 100 ≤ 65535
      split <;> decide)
    16 (by decide) (by decide)

/-- C14 fails: the descriptor at address 0x50, direction WRITE, on a
peripheral that reports 0x40 (address + read acknowledged) after the address
byte: `I2C_sndAddr` returns success. -/
theorem C14_sndAddr_counterexample :
    (I2C_sndAddr ScriptP 1 (I2C_slave_init ⟨⟨0, 0, .user 0, .user 1⟩, 0, .I2C_NACK⟩ 0x50 1)
      .I2C_WRITE (World.init (Script.init [0x40]))).map (fun x => (x.1, x.2.hw.twdr, x.2.log)) =
      some (true, 0xA0, [.sndAddr 0xA0, .ret true]) ∧
    (I2C_sndAddr ScriptP 1 (I2C_slave_init ⟨⟨0, 0, .user 0, .user 1⟩, 0, .I2C_NACK⟩ 0x50 1)
      .I2C_READ (World.init (Script.init [0x18]))).map (fun x => (x.1, x.2.hw.twdr, x.2.log)) =
      some (true, 0xA1, [.sndAddr 0xA1, .ret true]) :=
  ⟨rfl, rfl⟩

/-- C14, amended: for every descriptor with address `a <= 0x7F`, every
direction `rw` and every status code `s` the peripheral reports once the address
byte is sent, `I2C_sndAddr` loads the data register with `(a << 1) | rw`
(`= 2 * a + rw`) and returns success exactly when the status (upper five bits of
`s`) is one of the two "address + ACK" codes, 0x18 or 0x40, whichever direction
was requested; with any other status it returns failure. -/
theorem C14_sndAddr_either_ack (F : Nat) (slave : I2C_SLAVE) (rw : I2C_RW) (w : World Script)
    (s : Nat) (rest : List Nat) (ha : slave.cfg.addr ≤ 0x7F) (hs : w.hw.script = s :: rest) :
    ∃ w1, I2C_sndAddr ScriptP (F + 1) slave rw w =
        some (decide (s &&& 0xF8 = 0x18 ∨ s &&& 0xF8 = 0x40), w1) ∧
      w1.hw.twdr = 2 * slave.cfg.addr + rw.toNat ∧
      addr_byte slave rw = 2 * slave.cfg.addr + rw.toNat := by
  obtain ⟨w1, h, ht, _⟩ := script_sndAddr F slave rw w s rest hs
  exact ⟨w1, h, ht.trans (addr_byte_7bit slave rw ha), addr_byte_7bit slave rw ha⟩

/-- Witness of C14: address 0x50, direction READ, status 0x40. -/
theorem C14_sndAddr_either_ack_witness :
    ∃ w1, I2C_sndAddr ScriptP (0 + 1)
        (I2C_slave_init ⟨⟨0, 0, .user 0, .user 1⟩, 0, .I2C_NACK⟩ 0x50 1) .I2C_READ
        (World.init (Script.init [0x40])) =
        some (decide (0x40 &&& 0xF8 = 0x18 ∨ 0x40 &&& 0xF8 = 0x40), w1) ∧
      w1.hw.twdr = 2 * 0x50 + I2C_RW.I2C_READ.toNat ∧
      addr_byte (I2C_slave_init ⟨⟨0, 0, .user 0, .user 1⟩, 0, .I2C_NACK⟩ 0x50 1) .I2C_READ =
        2 * 0x50 + I2C_RW.I2C_READ.toNat :=
  C14_sndAddr_either_ack 0 (I2C_slave_init ⟨⟨0, 0, .user 0, .user 1⟩, 0, .I2C_NACK⟩ 0x50 1)
    .I2C_READ (World.init (Script.init [0x40])) 0x40 [] (by decide) rfl

/-- C15: for every descriptor and every value `a`: when `a <= 0x7F`,
`I2C_slave_set_addr` returns true, `I2C_slave_get_addr` then returns `a`, and
the other fields of the descriptor are as before; when `a > 0x7F` it returns
false and the descriptor is unchanged in every field. -/
theorem C15_set_addr_get_addr (slave : I2C_SLAVE) (a : Nat) :
    (a ≤ 0x7F →
      (I2C_slave_set_addr slave a).1 = true ∧
      I2C_slave_get_addr (I2C_slave_set_addr slave a).2 = a ∧
      (I2C_slave_set_addr slave a).2 = { slave with cfg := { slave.cfg with addr := a } }) ∧
    (a > 0x7F → I2C_slave_set_addr slave a = (false, slave)) := by
  constructor
  · intro h
    have : ¬ a > 0x7F := by omega
    simp [I2C_slave_set_addr, I2C_slave_get_addr, this]
  · intro h
    simp [I2C_slave_set_addr, h]

/-- C16: for every request `x`, `I2C_set_retries(x)` stores and returns
`min(x, 8)` and `I2C_set_timeout(x)` stores and returns `min(x, 500)`, and these
are the values used afterwards.  The watchdog `I2C_timeout` run after
`I2C_set_timeout(x)` compares the elapsed 16-bit time with `min(x, 500)`.  The
retry loop of `I2C_comm` run after `I2C_set_retries(x)` is the loop with
`min(x, 8)` retries; on the mock that refuses every address byte a non-empty
write then makes exactly `min(x, 8) + 1` attempts. -/
theorem C16_clamped_settings (P : Periph σ) (x : Nat) (w : World σ) :
    (I2C_set_retries x w).1 = min x 8 ∧
    (I2C_set_retries x w).2 = { w with cfg := { w.cfg with retries := min x 8 } } ∧
    (I2C_set_timeout x w).1 = min x 500 ∧
    (I2C_set_timeout x w).2 = { w with cfg := { w.cfg with timeout := min x 500 } } ∧
    (I2C_timeout P (I2C_set_timeout x w).2).1 =
      decide (((P.millis w.hw).1 % 65536 + 65536 - w.start_wait % 65536) % 65536 ≥ min x 500) ∧
    (∀ (ext : Nat → Strategy σ) (F : Nat) (slave : I2C_SLAVE) (r : Nat) (d : List Nat)
        (n : Nat) (rw : I2C_RW), w.busy = false →
      I2C_comm P ext F slave r d n rw (I2C_set_retries x w).2 =
        match call_fct P ext F (if rw.toNat ≠ 0 then slave.cfg.rd else slave.cfg.wr)
            slave r d n { (I2C_set_retries x w).2 with busy := true } with
        | none => none
        | some (ack, s1, d1, w1) =>
          match I2C_comm_retry P
              (call_fct P ext F (if rw.toNat ≠ 0 then slave.cfg.rd else slave.cfg.wr))
              r n (min x 8) ack s1 d1 w1 with
          | none => none
          | some (ack, s2, d2, w2) =>
            some ((if ack then I2C_STATUS.I2C_OK else I2C_STATUS.I2C_NACK),
              { s2 with status := (if ack then I2C_STATUS.I2C_OK else I2C_STATUS.I2C_NACK) },
              d2, { w2 with busy := false })) ∧
    (∀ (ext : Nat → Strategy Mock) (F : Nat) (slave : I2C_SLAVE) (r : Nat) (d : List Nat)
        (n : Nat) (m : World Mock),
      slave.cfg.wr = .wr_builtin → n ≠ 0 → m.busy = false → m.hw.ackAddr = false →
      ∃ w1, I2C_write MockP ext (F + 1) slave r d n (I2C_set_retries x m).2 =
          some (.I2C_NACK, { slave with status := .I2C_NACK }, d, w1) ∧
        (w1.log.drop m.log.length).count .start = min x 8 + 1) := by
  have hr : (if x > 8 then 8 else x) = min x 8 := by
    split <;> omega
  have ht : (if x > 500 then 500 else x) = min x 500 := by
    split <;> omega
  refine ⟨hr, ?_, ht, ?_, ?_, ?_, ?_⟩
  · simp only [I2C_set_retries, hr]
  · simp only [I2C_set_timeout, ht]
  · simp only [I2C_set_timeout, I2C_timeout, ht]
  · intro ext F slave r d n rw hbusy
    simp only [I2C_comm, I2C_is_busy, I2C_set_retries, hbusy, hr, Bool.false_eq_true, if_false]
  · intro ext F slave r d n m hwr hn hbusy ha
    obtain ⟨w1, h1, a1, e1⟩ := nack_wr F slave r d n
      { (I2C_set_retries x m).2 with busy := true } ha hn
    obtain ⟨w2, h2, a2, e2⟩ := nack_retry F slave r d n hn (min x 8) w1 a1
    have e := e1.trans e2
    refine ⟨{ w2 with busy := false }, ?_, ?_⟩
    · unfold I2C_write I2C_comm
      simp only [I2C_is_busy, I2C_set_retries, hbusy, hr, Bool.false_eq_true, if_false,
        I2C_RW.toNat, ne_eq, not_true_eq_false, hwr, call_fct]
      simp only [I2C_set_retries, hr] at h1
      rw [h1]
      simp only
      rw [h2]
      simp
    · have hl : w2.log = m.log ++ (nack_attempt (addr_byte slave .I2C_WRITE) ++
          nack_retries (addr_byte slave .I2C_WRITE) (min x 8)) := by
        simpa [I2C_set_retries] using e.2.2
      simp only [hl, List.drop_left]
      exact nack_count_start _ _

/-- C17 fails: a request of 250 kHz is stored as 250, which is none of the
tiers 100, 400, 1000, 3400. -/
theorem C17_speed_counterexample :
    (I2C_set_speed MockP 16000000 250 (World.init (Mock.init true []))).2.cfg.speed = 250 ∧
    decide ((I2C_set_speed MockP 16000000 250 (World.init (Mock.init true []))).2.cfg.speed
      ∈ [I2C_STD, I2C_FM, I2C_FMP, I2C_HS]) = false :=
  ⟨rfl, by decide⟩

/-- C17, amended: for every requested speed `s`, after `I2C_set_speed(s)` the
configured bus speed lies in 1..400 kHz: it is 100 when `s = 0`, 400 when
`s > 400` (so the tiers 1000 and 3400 are both replaced by 400), and `s` itself,
tier or not, when `1 <= s <= 400`.  It is one of the tiers 100 and 400 whenever
the request is 0, one of the four tiers, or above 400. -/
theorem C17_speed_range (P : Periph σ) (F_CPU s : Nat) (w : World σ) :
    1 ≤ (I2C_set_speed P F_CPU s w).2.cfg.speed ∧
    (I2C_set_speed P F_CPU s w).2.cfg.speed ≤ 400 ∧
    (s = 0 → (I2C_set_speed P F_CPU s w).2.cfg.speed = 100) ∧
    (s > 400 → (I2C_set_speed P F_CPU s w).2.cfg.speed = 400) ∧
    (I2C_set_speed P F_CPU I2C_FMP w).2.cfg.speed = 400 ∧
    (I2C_set_speed P F_CPU I2C_HS w).2.cfg.speed = 400 ∧
    ((1 ≤ s ∧ s ≤ 400) → (I2C_set_speed P F_CPU s w).2.cfg.speed = s) ∧
    ((s = 0 ∨ s ∈ [I2C_STD, I2C_FM, I2C_FMP, I2C_HS] ∨ s > 400) →
      (I2C_set_speed P F_CPU s w).2.cfg.speed = I2C_STD ∨
      (I2C_set_speed P F_CPU s w).2.cfg.speed = I2C_FM) := by
  rw [(I2C_set_speed_value P F_CPU s w).1, (I2C_set_speed_value P F_CPU I2C_FMP w).1,
    (I2C_set_speed_value P F_CPU I2C_HS w).1]
  simp only [I2C_STD, I2C_FM, I2C_FMP, I2C_HS, List.mem_cons, List.mem_singleton, List.mem_nil_iff,
    or_false]
  refine ⟨?_, ?_, ?_, ?_, by decide, by decide, ?_, ?_⟩
  · split_ifs <;> omega
  · split_ifs <;> omega
  · intro h
    rw [if_pos h]
  · intro h
    split_ifs <;> omega
  · intro h
    split_ifs <;> omega
  · intro h
    split_ifs <;> omega

/-- C18: for every requested speed `s`, `I2C_set_speed(s)` returns exactly the
speed it stored in the configuration; that value is 100 when `s = 0`, 400 when
`s > 400` and `s` otherwise, so the requests `I2C_FMP = 1000` and
`I2C_HS = 3400` both configure 400; the result lies in 1..400. -/
theorem C18_set_speed_result (P : Periph σ) (F_CPU s : Nat) (w : World σ) :
    (I2C_set_speed P F_CPU s w).1 = (I2C_set_speed P F_CPU s w).2.cfg.speed ∧
    (I2C_set_speed P F_CPU s w).1 = (if s = 0 then 100 else if s > 400 then 400 else s) ∧
    (I2C_set_speed P F_CPU I2C_FMP w).1 = 400 ∧
    (I2C_set_speed P F_CPU I2C_HS w).1 = 400 ∧
    1 ≤ (I2C_set_speed P F_CPU s w).1 ∧ (I2C_set_speed P F_CPU s w).1 ≤ 400 := by
  have h := I2C_set_speed_value P F_CPU s w
  refine ⟨h.2, h.2.trans h.1, rfl, rfl, ?_, ?_⟩
  · rw [h.2, h.1]; split_ifs <;> omega
  · rw [h.2, h.1]; split_ifs <;> omega

/-- C19 fails: over descriptor memory whose address byte holds 0xFF,
`I2C_slave_init(slave, 0x80, I2C_8B_REG)` leaves the address at 0xFF. -/
theorem C19_init_counterexample :
    (I2C_slave_init ⟨⟨0xFF, 0, .user 0, .user 1⟩, 0, .I2C_NACK⟩ 0x80 I2C_8B_REG).cfg.addr = 0xFF ∧
    decide ((I2C_slave_init ⟨⟨0xFF, 0, .user 0, .user 1⟩, 0, .I2C_NACK⟩ 0x80
      I2C_8B_REG).cfg.addr ≤ 0x7F) = false :=
  ⟨rfl, by decide⟩

/-- C19, amended: for every prior content of the descriptor memory and every
argument pair, `I2C_slave_init` stores `sl_addr` as the address when
`sl_addr <= 0x7F` and keeps the prior address when `sl_addr > 0x7F`; so the
descriptor it produces satisfies `address <= 0x7F` whenever `sl_addr <= 0x7F` or
the prior address was `<= 0x7F`.  The invariant is preserved by every setter
and by every transaction (`I2C_comm`, hence `I2C_write` and `I2C_read`) run by
the built-in read and write functions, for every peripheral. -/
theorem C19_address_invariant (prior : I2C_SLAVE) (sl_addr reg_sz : Nat) :
    (sl_addr ≤ 0x7F → (I2C_slave_init prior sl_addr reg_sz).cfg.addr = sl_addr) ∧
    (sl_addr > 0x7F → (I2C_slave_init prior sl_addr reg_sz).cfg.addr = prior.cfg.addr) ∧
    (sl_addr ≤ 0x7F ∨ prior.cfg.addr ≤ 0x7F →
      (I2C_slave_init prior sl_addr reg_sz).cfg.addr ≤ 0x7F) ∧
    (∀ s : I2C_SLAVE, s.cfg.addr ≤ 0x7F →
      (∀ a, (I2C_slave_set_addr s a).2.cfg.addr ≤ 0x7F) ∧
      (∀ z, (I2C_slave_set_reg_size s z).2.cfg.addr ≤ 0x7F) ∧
      (∀ f rw, (I2C_slave_set_rw_func s f rw).cfg.addr ≤ 0x7F) ∧
      (∀ r, (I2C_slave_set_reg_addr s r).cfg.addr ≤ 0x7F) ∧
      (∀ (P : Periph σ) (ext : Nat → Strategy σ) (F r : Nat) (d : List Nat) (n : Nat)
          (rw : I2C_RW) (w : World σ) (st : I2C_STATUS) (s1 : I2C_SLAVE) (d1 : List Nat)
          (w1 : World σ),
        s.cfg.wr = .wr_builtin → s.cfg.rd = .rd_builtin →
        I2C_comm P ext F s r d n rw w = some (st, s1, d1, w1) → s1.cfg.addr ≤ 0x7F)) := by
  have h1 : sl_addr ≤ 0x7F → (I2C_slave_init prior sl_addr reg_sz).cfg.addr = sl_addr := by
    intro h
    have : ¬ sl_addr > 0x7F := by omega
    simp [I2C_slave_init, I2C_slave_set_addr, I2C_slave_set_reg_size, I2C_slave_set_rw_func,
      I2C_RW.toNat, this]
  have h2 : sl_addr > 0x7F →
      (I2C_slave_init prior sl_addr reg_sz).cfg.addr = prior.cfg.addr := by
    intro h
    simp [I2C_slave_init, I2C_slave_set_addr, I2C_slave_set_reg_size, I2C_slave_set_rw_func,
      I2C_RW.toNat, h]
  refine ⟨h1, h2, ?_, ?_⟩
  · intro h
    by_cases hs : sl_addr ≤ 0x7F
    · rw [h1 hs]; exact hs
    · rw [h2 (by omega)]; omega
  · intro s hs
    refine ⟨?_, ?_, ?_, ?_, ?_⟩
    · intro a
      unfold I2C_slave_set_addr
      split
      · exact hs
      · simp only; omega
    · intro z; exact hs
    · intro f rw
      unfold I2C_slave_set_rw_func
      split <;> exact hs
    · intro r; exact hs
    · intro P ext F r d n rw w st s1 d1 w1 hwr hrd h
      rw [I2C_comm_cfg P ext F s r d n rw w hwr hrd st s1 d1 w1 h]
      exact hs

/-- C20, the code at the failing input: `I2C_slave_get_reg_size` converts the
stored width to `bool`, so it returns true exactly when the width is not
`I2C_NO_REG`; for a descriptor initialised with `I2C_8B_REG` (a register map
with 1-byte addresses) it returns true. -/
theorem C20_get_reg_size_8bit (slave : I2C_SLAVE) :
    (I2C_slave_get_reg_size slave = true ↔ slave.cfg.reg_size ≠ I2C_NO_REG) ∧
    (I2C_slave_init slave 0x50 I2C_8B_REG).cfg.reg_size = I2C_8B_REG ∧
    I2C_slave_get_reg_size (I2C_slave_init slave 0x50 I2C_8B_REG) = true :=
  ⟨by simp [I2C_slave_get_reg_size, I2C_NO_REG], rfl, rfl⟩

/-- C21: for every descriptor and every raw size value `z`,
`I2C_slave_set_reg_size` returns true and stores `z` when `z <= I2C_16B_REG`
(none, 8-bit or 16-bit), and otherwise returns false and stores `I2C_16B_REG`;
in both cases the descriptor differs from the one given in the stored width
only, and the stored width is one of the three enumerators. -/
theorem C21_set_reg_size (slave : I2C_SLAVE) (z : Nat) :
    (z ≤ I2C_16B_REG → I2C_slave_set_reg_size slave z =
      (true, { slave with cfg := { slave.cfg with reg_size := z } })) ∧
    (z > I2C_16B_REG → I2C_slave_set_reg_size slave z =
      (false, { slave with cfg := { slave.cfg with reg_size := I2C_16B_REG } })) ∧
    (I2C_slave_set_reg_size slave z).2 =
      { slave with cfg := { slave.cfg with
        reg_size := (I2C_slave_set_reg_size slave z).2.cfg.reg_size } } ∧
    ((I2C_slave_set_reg_size slave z).2.cfg.reg_size = I2C_NO_REG ∨
     (I2C_slave_set_reg_size slave z).2.cfg.reg_size = I2C_8B_REG ∨
     (I2C_slave_set_reg_size slave z).2.cfg.reg_size = I2C_16B_REG) := by
  refine ⟨?_, ?_, rfl, ?_⟩
  · intro h
    have : ¬ z > I2C_16B_REG := by omega
    simp [I2C_slave_set_reg_size, this]
  · intro h
    simp [I2C_slave_set_reg_size, h]
  · simp only [I2C_slave_set_reg_size, I2C_16B_REG, I2C_8B_REG, I2C_NO_REG]
    split_ifs <;> omega

/-- C22: for every descriptor and function pointer `f`,
`I2C_slave_set_rw_func(slave, f, I2C_WRITE)` replaces the write strategy only and
`I2C_slave_set_rw_func(slave, f, I2C_READ)` the read strategy only.  Afterwards
`I2C_write` (resp. `I2C_read`), entered with `busy` false, runs the retry policy
on the function `f` denotes (entry `k` of the table of application functions
when `f` is `user k`), invoked with the caller's register address, buffer and
count: if invocation `k <= R` of that function is the first to return true the
transfer returns `I2C_OK` with what that invocation left, and if invocations
`0..R` all return false it returns `I2C_NACK`. -/
theorem C22_set_rw_func (P : Periph σ) (ext : Nat → Strategy σ) (F : Nat) (slave : I2C_SLAVE)
    (f : ci2c_fct_ptr) (r : Nat) (d : List Nat) (n : Nat) (w : World σ)
    (hbusy : w.busy = false) :
    I2C_slave_set_rw_func slave f .I2C_WRITE =
      { slave with cfg := { slave.cfg with wr := f } } ∧
    I2C_slave_set_rw_func slave f .I2C_READ =
      { slave with cfg := { slave.cfg with rd := f } } ∧
    (∀ k, call_fct P ext F (.user k) = ext k) ∧
    (∀ k s d1 w1, k ≤ w.cfg.retries →
      (∀ i, i < k → ∃ x, invocation P (call_fct P ext F f) r n
        (call_fct P ext F f (I2C_slave_set_rw_func slave f .I2C_WRITE) r d n
          { w with busy := true }) i = some (false, x)) →
      invocation P (call_fct P ext F f) r n
        (call_fct P ext F f (I2C_slave_set_rw_func slave f .I2C_WRITE) r d n
          { w with busy := true }) k = some (true, s, d1, w1) →
      I2C_write P ext F (I2C_slave_set_rw_func slave f .I2C_WRITE) r d n w =
        some (.I2C_OK, { s with status := .I2C_OK }, d1, { w1 with busy := false })) ∧
    (∀ s d1 w1,
      (∀ i, i < w.cfg.retries → ∃ x, invocation P (call_fct P ext F f) r n
        (call_fct P ext F f (I2C_slave_set_rw_func slave f .I2C_WRITE) r d n
          { w with busy := true }) i = some (false, x)) →
      invocation P (call_fct P ext F f) r n
        (call_fct P ext F f (I2C_slave_set_rw_func slave f .I2C_WRITE) r d n
          { w with busy := true }) w.cfg.retries = some (false, s, d1, w1) →
      I2C_write P ext F (I2C_slave_set_rw_func slave f .I2C_WRITE) r d n w =
        some (.I2C_NACK, { s with status := .I2C_NACK }, d1, { w1 with busy := false })) ∧
    (∀ k s d1 w1, k ≤ w.cfg.retries →
      (∀ i, i < k → ∃ x, invocation P (call_fct P ext F f) r n
        (call_fct P ext F f (I2C_slave_set_rw_func slave f .I2C_READ) r d n
          { w with busy := true }) i = some (false, x)) →
      invocation P (call_fct P ext F f) r n
        (call_fct P ext F f (I2C_slave_set_rw_func slave f .I2C_READ) r d n
          { w with busy := true }) k = some (true, s, d1, w1) →
      I2C_read P ext F (I2C_slave_set_rw_func slave f .I2C_READ) r d n w =
        some (.I2C_OK, { s with status := .I2C_OK }, d1, { w1 with busy := false })) ∧
    (∀ s d1 w1,
      (∀ i, i < w.cfg.retries → ∃ x, invocation P (call_fct P ext F f) r n
        (call_fct P ext F f (I2C_slave_set_rw_func slave f .I2C_READ) r d n
          { w with busy := true }) i = some (false, x)) →
      invocation P (call_fct P ext F f) r n
        (call_fct P ext F f (I2C_slave_set_rw_func slave f .I2C_READ) r d n
          { w with busy := true }) w.cfg.retries = some (false, s, d1, w1) →
      I2C_read P ext F (I2C_slave_set_rw_func slave f .I2C_READ) r d n w =
        some (.I2C_NACK, { s with status := .I2C_NACK }, d1, { w1 with busy := false })) := by
  have hw : call_fct P ext F (if I2C_RW.I2C_WRITE.toNat ≠ 0
      then (I2C_slave_set_rw_func slave f .I2C_WRITE).cfg.rd
      else (I2C_slave_set_rw_func slave f .I2C_WRITE).cfg.wr) = call_fct P ext F f := by
    simp [set_rw_func_write, I2C_RW.toNat]
  have hr : call_fct P ext F (if I2C_RW.I2C_READ.toNat ≠ 0
      then (I2C_slave_set_rw_func slave f .I2C_READ).cfg.rd
      else (I2C_slave_set_rw_func slave f .I2C_READ).cfg.wr) = call_fct P ext F f := by
    simp [set_rw_func_read, I2C_RW.toNat]
  refine ⟨set_rw_func_write slave f, set_rw_func_read slave f, fun _ => rfl, ?_, ?_, ?_, ?_⟩
  · intro k s d1 w1 hk hfail hok
    exact I2C_comm_ok_at P ext F _ r d n .I2C_WRITE w _ hw hbusy k s d1 w1 hk hfail hok
  · intro s d1 w1 hfail hlast
    exact I2C_comm_nack_all P ext F _ r d n .I2C_WRITE w _ hw hbusy s d1 w1 hfail hlast
  · intro k s d1 w1 hk hfail hok
    exact I2C_comm_ok_at P ext F _ r d n .I2C_READ w _ hr hbusy k s d1 w1 hk hfail hok
  · intro s d1 w1 hfail hlast
    exact I2C_comm_nack_all P ext F _ r d n .I2C_READ w _ hr hbusy s d1 w1 hfail hlast

/-- Witness of C22: an application function that returns true at once, set as
write strategy.  `I2C_write` returns `I2C_OK` with fuel 0, with which the
built-in transaction cannot make a single poll, and the log stays empty. -/
theorem C22_set_rw_func_witness :
    (World.init (Mock.init true [])).busy = false ∧
    I2C_write MockP (fun _ s _ d _ w => some (true, s, d, w)) 0
      (I2C_slave_set_rw_func ⟨⟨0x50, 1, .wr_builtin, .rd_builtin⟩, 0xFFFF, .I2C_NACK⟩
        (.user 7) .I2C_WRITE) 0x10 [0xAA] 1 (World.init (Mock.init true [])) =
      some (.I2C_OK,
        { I2C_slave_set_rw_func ⟨⟨0x50, 1, .wr_builtin, .rd_builtin⟩, 0xFFFF, .I2C_NACK⟩
            (.user 7) .I2C_WRITE with status := .I2C_OK },
        [0xAA], { World.init (Mock.init true []) with busy := false }) :=
  ⟨rfl, (C22_set_rw_func MockP (fun _ s _ d _ w => some (true, s, d, w)) 0
    ⟨⟨0x50, 1, .wr_builtin, .rd_builtin⟩, 0xFFFF, .I2C_NACK⟩ (.user 7) 0x10 [0xAA] 1
    (World.init (Mock.init true [])) rfl).2.2.2.1 0 _ _
    { World.init (Mock.init true []) with busy := true } (Nat.zero_le _)
    (fun i hi => absurd hi (Nat.not_lt_zero i)) rfl⟩

/-- C24: on the peripheral that completes the start command at once and
reports the status code `s`, `I2C_start` returns success exactly when the status
(`s` masked with 0xF8) is 0x08 or 0x10; its log is the call, a bus reset exactly
when the status is 0x38 (arbitration lost), and the returned boolean: with every
other status it returns failure having issued neither a reset nor a stop. -/
theorem C24_start_status (F : Nat) (w : World Script) (s : Nat) (rest : List Nat)
    (hs : w.hw.script = s :: rest) :
    ∃ w1, I2C_start ScriptP (F + 1) w =
        some (decide (s &&& 0xF8 = 0x08 ∨ s &&& 0xF8 = 0x10), w1) ∧
      w1.log = w.log ++ (Ev.start :: (if s &&& 0xF8 = 0x38 then [Ev.reset] else []) ++
        [Ev.ret (decide (s &&& 0xF8 = 0x08 ∨ s &&& 0xF8 = 0x10))]) := by
  obtain ⟨w1, h1, h2, _⟩ := script_start F w s rest hs
  exact ⟨w1, h1, h2⟩

/-- Witness of C24: status 0x00 (bus error) after the start command. -/
theorem C24_start_status_witness :
    ∃ w1, I2C_start ScriptP (0 + 1) (World.init (Script.init [0x00])) =
        some (decide (0x00 &&& 0xF8 = 0x08 ∨ 0x00 &&& 0xF8 = 0x10), w1) ∧
      w1.log = (World.init (Script.init [0x00])).log ++
        (Ev.start :: (if 0x00 &&& 0xF8 = 0x38 then [Ev.reset] else []) ++
        [Ev.ret (decide (0x00 &&& 0xF8 = 0x08 ∨ 0x00 &&& 0xF8 = 0x10))]) :=
  C24_start_status 0 (World.init (Script.init [0x00])) 0x00 [] rfl

/-- C25: on the peripheral that completes every command at once and reports
the status code `s` for the byte, for every byte `dat`: `I2C_wr8` loads `TWDR`
with the byte and returns success exactly when the status (`s` masked with 0xF8)
is 0x28; on 0x30 its log is the call, a stop condition (which succeeds) and
failure; on every other status it is the call, a bus reset and failure. -/
theorem C25_wr8_status (F : Nat) (dat : Nat) (w : World Script) (s : Nat) (rest : List Nat)
    (hs : w.hw.script = s :: rest) :
    ∃ w1, I2C_wr8 ScriptP (F + 1) dat w = some (decide (s &&& 0xF8 = 0x28), w1) ∧
      w1.log = w.log ++ (Ev.wr8 dat ::
        (if s &&& 0xF8 = 0x28 then []
         else if s &&& 0xF8 = 0x30 then [Ev.stop, Ev.ret true] else [Ev.reset]) ++
        [Ev.ret (decide (s &&& 0xF8 = 0x28))]) ∧
      w1.hw.twdr = dat % 256 := by
  obtain ⟨w1, h1, h2, h3, _⟩ := script_wr8 F dat w s rest hs
  exact ⟨w1, h1, h2, h3⟩

/-- Witness of C25: the byte 0xAA refused with status 0x30. -/
theorem C25_wr8_status_witness :
    ∃ w1, I2C_wr8 ScriptP (0 + 1) 0xAA (World.init (Script.init [0x30])) =
        some (decide (0x30 &&& 0xF8 = 0x28), w1) ∧
      w1.log = (World.init (Script.init [0x30])).log ++ (Ev.wr8 0xAA ::
        (if 0x30 &&& 0xF8 = 0x28 then []
         else if 0x30 &&& 0xF8 = 0x30 then [Ev.stop, Ev.ret true] else [Ev.reset]) ++
        [Ev.ret (decide (0x30 &&& 0xF8 = 0x28))]) ∧
      w1.hw.twdr = 0xAA % 256 :=
  C25_wr8_status 0 0xAA (World.init (Script.init [0x30])) 0x30 [] rfl

/-- C26: on the peripheral that completes every command at once, reports the
status code `s` for the received byte and records the values written to `TWCR`:
the command `I2C_rd8(ack)` writes has the acknowledge-enable bit `TWEA` set
exactly when `ack` is true; it returns success exactly when the status (`s`
masked with 0xF8) is 0x50 and `ack`, or 0x58 and not `ack`; on 0x38 (arbitration
lost) it resets the bus (`TWCR` written with 0, `TWEA`, `TWEA | TWEN`) and fails;
on any other mismatch it fails having written nothing more to `TWCR`: no reset
and no stop. -/
theorem C26_rd8_status (F : Nat) (ack : Bool) (w : World (Script × List Nat)) (s : Nat)
    (rest : List Nat) (hs : w.hw.1.script = s :: rest) :
    ∃ w1 cmd, I2C_rd8 (Traced ScriptP) (F + 1) ack w =
        some (decide ((s &&& 0xF8 = 0x50 ∧ ack = true) ∨ (s &&& 0xF8 = 0x58 ∧ ack = false)),
          w1) ∧
      (cmd &&& (1 <<< TWEA) ≠ 0 ↔ ack = true) ∧
      w1.hw.2 = w.hw.2 ++ (cmd ::
        (if s &&& 0xF8 = 0x38 then [0, 1 <<< TWEA, (1 <<< TWEA) ||| (1 <<< TWEN)] else [])) ∧
      w1.log = w.log ++ (Ev.rd8 ack :: (if s &&& 0xF8 = 0x38 then [Ev.reset] else []) ++
        [Ev.ret (decide ((s &&& 0xF8 = 0x50 ∧ ack = true) ∨
          (s &&& 0xF8 = 0x58 ∧ ack = false)))]) := by
  obtain ⟨w1, h1, h2, h3, _⟩ := traced_rd8 F ack w s rest hs
  exact ⟨w1, _, h1, by cases ack <;> decide, h2, h3⟩

/-- Witness of C26: acknowledgment requested, status 0x58 (the byte was not
acknowledged). -/
theorem C26_rd8_status_witness :
    ∃ w1 cmd, I2C_rd8 (Traced ScriptP) (0 + 1) true (World.init (Script.init [0x58], [])) =
        some (decide ((0x58 &&& 0xF8 = 0x50 ∧ true = true) ∨
          (0x58 &&& 0xF8 = 0x58 ∧ true = false)), w1) ∧
      (cmd &&& (1 <<< TWEA) ≠ 0 ↔ true = true) ∧
      w1.hw.2 = (World.init (Script.init [0x58], ([] : List Nat))).hw.2 ++ (cmd ::
        (if 0x58 &&& 0xF8 = 0x38 then [0, 1 <<< TWEA, (1 <<< TWEA) ||| (1 <<< TWEN)] else [])) ∧
      w1.log = (World.init (Script.init [0x58], ([] : List Nat))).log ++
        (Ev.rd8 true :: (if 0x58 &&& 0xF8 = 0x38 then [Ev.reset] else []) ++
        [Ev.ret (decide ((0x58 &&& 0xF8 = 0x50 ∧ true = true) ∨
          (0x58 &&& 0xF8 = 0x58 ∧ true = false)))]) :=
  C26_rd8_status 0 true (World.init (Script.init [0x58], [])) 0x58 [] rfl

/-- C27: the watchdog comparison is wraparound-safe.  `I2C_start_timeout`
stores the low 16 bits of the counter it reads.  If the stored timestamp is the
low 16 bits of a reading `c`, and the low 16 bits of the reading `I2C_timeout`
takes are those of `c + e` with `e < 65536` (the counter was read `e` ms later,
whether or not its low 16 bits wrapped past 0xFFFF in between), then
`I2C_timeout()` is true exactly when `e` is at least the configured timeout. -/
theorem C27_timeout_wraparound (P : Periph σ) (w0 w : World σ) (c e : Nat)
    (hc : (P.millis w0.hw).1 = c) (hsw : w.start_wait = (I2C_start_timeout P w0).start_wait)
    (hm : (P.millis w.hw).1 % 65536 = (c + e) % 65536) (he : e < 65536) :
    (I2C_start_timeout P w0).start_wait = c % 65536 ∧
    (I2C_timeout P w).1 = decide (e ≥ w.cfg.timeout) := by
  have h1 : (I2C_start_timeout P w0).start_wait = c % 65536 := by
    simp [I2C_start_timeout, hc]
  refine ⟨h1, ?_⟩
  have h2 : ((P.millis w.hw).1 % 65536 + 65536 - w.start_wait % 65536) % 65536 = e := by
    rw [hm, hsw, h1]
    omega
  simp only [I2C_timeout, h2]

/-- Witness of C27: the timestamp 65500 taken at clock 65500, the timeout
100 ms, and a reading 100 ms later, at clock 65600, whose low 16 bits are 64. -/
theorem C27_timeout_wraparound_witness :
    (I2C_start_timeout MockP (World.init { Mock.init true [] with clock := 65500 })).start_wait =
      65500 % 65536 ∧
    (I2C_timeout MockP { World.init { Mock.init true [] with clock := 65600 } with
      start_wait := 65500 }).1 =
      decide (100 ≥ ({ World.init { Mock.init true [] with clock := 65600 } with
        start_wait := 65500 } : World Mock).cfg.timeout) := by
  have h := C27_timeout_wraparound MockP
    (World.init { Mock.init true [] with clock := 65500 })
    { World.init { Mock.init true [] with clock := 65600 } with start_wait := 65500 }
    65500 100 rfl (by simp [I2C_start_timeout, MockP, World.init, Mock.init])
    (by simp [MockP, World.init, Mock.init]) (by decide)
  exact h

/-- C28: configuration invariant.  In every state reachable from the initial
configuration (retries 3, timeout 100) by any sequence of `I2C_set_retries`,
`I2C_set_timeout`, `I2C_set_speed`, bus primitives and transfers, where the
application's strategy functions keep the two limits (they can reach the static
configuration through the setters only), `retries <= 8` and `timeout <= 500`
hold.  Consequently every `I2C_comm` (the body of `I2C_write` and of
`I2C_read`) that returns from such a state returns the outcome of invocation
number `j <= 8` of the strategy, that is, after at most 9 invocations and at
most 8 delays; and it does return whenever every invocation of the strategy
returns. -/
theorem C28_config_invariant (P : Periph σ) (ext : Nat → Strategy σ)
    (hext : ∀ k s r d n w ok s1 d1 w1, ext k s r d n w = some (ok, s1, d1, w1) →
      w.cfg.retries ≤ 8 ∧ w.cfg.timeout ≤ 500 → w1.cfg.retries ≤ 8 ∧ w1.cfg.timeout ≤ 500)
    (w : World σ) (hw : Reachable P ext w) :
    w.cfg.retries ≤ 8 ∧ w.cfg.timeout ≤ 500 ∧
    (∀ F slave r d n rw st s1 d1 w1,
      I2C_comm P ext F slave r d n rw w = some (st, s1, d1, w1) →
      ∃ j a s2 w2, j ≤ 8 ∧
        invocation P (call_fct P ext F (if rw.toNat ≠ 0 then slave.cfg.rd else slave.cfg.wr))
          r n
          (call_fct P ext F (if rw.toNat ≠ 0 then slave.cfg.rd else slave.cfg.wr)
            slave r d n { w with busy := true }) j = some (a, s2, d1, w2) ∧
        st = (if a then I2C_STATUS.I2C_OK else I2C_STATUS.I2C_NACK) ∧
        s1 = { s2 with status := st } ∧ w1 = { w2 with busy := false }) ∧
    (∀ F slave r d n rw,
      (∀ s d0 w0, (call_fct P ext F (if rw.toNat ≠ 0 then slave.cfg.rd else slave.cfg.wr)
        s r d0 n w0).isSome = true) →
      (I2C_comm P ext F slave r d n rw w).isSome = true) := by
  have hl := hw.limits hext
  refine ⟨hl.1, hl.2, ?_, ?_⟩
  · intro F slave r d n rw st s1 d1 w1 h
    obtain ⟨j, a, s2, w2, hj, hi, h1, h2, h3⟩ :=
      I2C_comm_invocation P ext F slave r d n rw w hw.not_busy st s1 d1 w1 h
    exact ⟨j, a, s2, w2, le_trans hj hl.1, hi, h1, h2, h3⟩
  · intro F slave r d n rw hfc
    exact I2C_comm_returns P ext F slave r d n rw w hfc

/-- Witness of C28: the state reached from the initial one by
`I2C_set_retries(200)` and `I2C_set_timeout(1000)`. -/
theorem C28_config_invariant_witness :
    (I2C_set_timeout 1000 (I2C_set_retries 200 (World.init (Mock.init true []))).2).2.cfg.retries
      ≤ 8 ∧
    (I2C_set_timeout 1000 (I2C_set_retries 200 (World.init (Mock.init true []))).2).2.cfg.timeout
      ≤ 500 :=
  ⟨(C28_config_invariant MockP noExt
      (fun k s r d n w ok s1 d1 w1 h hw => by
        simp only [noExt, Option.some.injEq, Prod.mk.injEq] at h
        rw [← h.2.2.2]; exact hw)
      _ (Reachable.set_timeout 1000 _ (Reachable.set_retries 200 _ (Reachable.init _)))).1,
   (C28_config_invariant MockP noExt
      (fun k s r d n w ok s1 d1 w1 h hw => by
        simp only [noExt, Option.some.injEq, Prod.mk.injEq] at h
        rw [← h.2.2.2]; exact hw)
      _ (Reachable.set_timeout 1000 _ (Reachable.set_retries 200 _ (Reachable.init _)))).2.1⟩

/-- C29: busy-flag invariant.  In every state reachable from the initial
driver state by calls, one after the other, of the setters, the bus reset, the
primitives and `I2C_write` / `I2C_read` (each having returned, whatever the
strategy functions did), `busy` is false and `I2C_is_busy()` reports false;
hence `I2C_comm` (the body of `I2C_write` and of `I2C_read`) entered from such a
state never returns `I2C_BUSY`, and leaves `busy` false. -/
theorem C29_busy_invariant (P : Periph σ) (ext : Nat → Strategy σ) (w : World σ)
    (hw : Reachable P ext w) :
    w.busy = false ∧ I2C_is_busy w = false ∧
    (∀ F slave r d n rw st s1 d1 w1,
      I2C_comm P ext F slave r d n rw w = some (st, s1, d1, w1) →
      st ≠ .I2C_BUSY ∧ w1.busy = false) :=
  ⟨hw.not_busy, hw.not_busy,
    fun F slave r d n rw st s1 d1 w1 h =>
      I2C_comm_not_busy P ext F slave r d n rw w hw.not_busy st s1 d1 w1 h⟩

/-- Witness of C29: the state a one-byte write on the acknowledging mock
leaves, reached from the initial state. -/
theorem C29_busy_invariant_witness :
    ∃ st s1 d1 w1, I2C_write MockP noExt 1 ⟨⟨0x50, 1, .wr_builtin, .rd_builtin⟩, 0xFFFF, .I2C_OK⟩
        0x10 [0xAA] 1 (World.init (Mock.init true [])) = some (st, s1, d1, w1) ∧
      w1.busy = false ∧ I2C_is_busy w1 = false :=
  ⟨_, _, _, _, rfl,
    (C29_busy_invariant MockP noExt _
      (Reachable.write 1 ⟨⟨0x50, 1, .wr_builtin, .rd_builtin⟩, 0xFFFF, .I2C_OK⟩ 0x10 [0xAA] 1
        (World.init (Mock.init true [])) _ _ _ _ (Reachable.init _) rfl)).1,
    (C29_busy_invariant MockP noExt _
      (Reachable.write 1 ⟨⟨0x50, 1, .wr_builtin, .rd_builtin⟩, 0xFFFF, .I2C_OK⟩ 0x10 [0xAA] 1
        (World.init (Mock.init true [])) _ _ _ _ (Reachable.init _) rfl)).2.1⟩

/-- C30: timeout zero.  `I2C_set_timeout(0)` stores 0.  With the timeout at 0,
`I2C_timeout()` is true whatever the clock reads.  On a peripheral whose
completion flag is still clear at the first reading of `TWCR` after a command
(it needs at least one poll to complete), each of `I2C_start`, `I2C_sndAddr`,
`I2C_wr8` and `I2C_rd8` resets the bus and returns failure (with any positive
fuel), and every `I2C_write` / `I2C_read` with the built-in strategies, entered
with `busy` false, returns `I2C_NACK` with the buffer untouched.  On the mock
whose flag is set at the first poll, `I2C_start` succeeds with the timeout at
0. -/
theorem C30_zero_timeout (P : Periph σ) (ext : Nat → Strategy σ) (F : Nat) (slave : I2C_SLAVE)
    (rw : I2C_RW) (dat : Nat) (ack : Bool) (r : Nat) (d : List Nat) (n : Nat) (w : World σ)
    (h0 : w.cfg.timeout = 0) (hbusy : w.busy = false)
    (hwr : slave.cfg.wr = .wr_builtin) (hrd : slave.cfg.rd = .rd_builtin)
    (hslow : ∀ v h, twint_clear ((P.rdTWCR (P.wrTWCR v h)).1 % 256) = true) :
    (∀ w0 : World σ, (I2C_set_timeout 0 w0).1 = 0 ∧ (I2C_set_timeout 0 w0).2.cfg.timeout = 0) ∧
    (I2C_timeout P w).1 = true ∧
    (∃ w1, I2C_start P (F + 1) w = some (false, w1) ∧
      w1.log = w.log ++ [.start, .reset, .ret false]) ∧
    (∃ w1, I2C_sndAddr P (F + 1) slave rw w = some (false, w1) ∧
      w1.log = w.log ++ [.sndAddr (addr_byte slave rw), .reset, .ret false]) ∧
    (∃ w1, I2C_wr8 P (F + 1) dat w = some (false, w1) ∧
      w1.log = w.log ++ [.wr8 dat, .reset, .ret false]) ∧
    (∃ w1, I2C_rd8 P (F + 1) ack w = some (false, w1) ∧
      w1.log = w.log ++ [.rd8 ack, .reset, .ret false]) ∧
    (∃ s1 w1, I2C_write P ext (F + 1) slave r d n w = some (.I2C_NACK, s1, d, w1)) ∧
    (∃ s1 w1, I2C_read P ext (F + 1) slave r d n w = some (.I2C_NACK, s1, d, w1)) ∧
    (∀ m : World Mock, m.cfg.timeout = 0 → ∃ m1, I2C_start MockP (F + 1) m = some (true, m1)) := by
  refine ⟨fun w0 => ⟨rfl, rfl⟩, timeout_zero P w h0, ?_, ?_, ?_, ?_, ?_, ?_, ?_⟩
  · obtain ⟨w1, h1, e1⟩ := zero_start P F w h0 hslow
    exact ⟨w1, h1, e1.2.2⟩
  · obtain ⟨w1, h1, e1⟩ := zero_sndAddr P F slave rw w h0 hslow
    exact ⟨w1, h1, e1.2.2⟩
  · obtain ⟨w1, h1, e1⟩ := zero_wr8 P F dat w h0 hslow
    exact ⟨w1, h1, e1.2.2⟩
  · obtain ⟨w1, h1, e1⟩ := zero_rd8 P F ack w h0 hslow
    exact ⟨w1, h1, e1.2.2⟩
  · unfold I2C_write
    refine zero_comm P ext (F + 1) slave r d n .I2C_WRITE w h0 hbusy ?_
    intro s d0 w0 hw0
    obtain ⟨s1, w1, h1, c1, _⟩ := zero_wr P F s r d0 n w0 hw0 hslow
    exact ⟨s1, w1, by simpa [I2C_RW.toNat, hwr, call_fct] using h1, c1⟩
  · unfold I2C_read
    refine zero_comm P ext (F + 1) slave r d n .I2C_READ w h0 hbusy ?_
    intro s d0 w0 hw0
    obtain ⟨s1, w1, h1, c1, _⟩ := zero_rd P F s r d0 n w0 hw0 hslow
    exact ⟨s1, w1, by simpa [I2C_RW.toNat, hrd, call_fct] using h1, c1⟩
  · intro m _
    obtain ⟨m1, h1, _⟩ := mock_start F m
    exact ⟨m1, h1⟩

/-- Witness of C30: the mock that completes every command at the second poll.
With the initial timeout of 100 ms a one-byte write returns `I2C_OK`; after
`I2C_set_timeout(0)` the same write returns `I2C_NACK`. -/
theorem C30_zero_timeout_witness :
    (I2C_write SlowP noExt 2 ⟨⟨0x50, 1, .wr_builtin, .rd_builtin⟩, 0xFFFF, .I2C_OK⟩ 0x10
        [0xAA] 1 (World.init (Mock.init true [], false))).map (fun x => x.1) =
      some .I2C_OK ∧
    (∃ s1 w1, I2C_write SlowP noExt (1 + 1)
        ⟨⟨0x50, 1, .wr_builtin, .rd_builtin⟩, 0xFFFF, .I2C_OK⟩ 0x10 [0xAA] 1
        (I2C_set_timeout 0 (World.init (Mock.init true [], false))).2 =
      some (.I2C_NACK, s1, [0xAA], w1)) :=
  ⟨rfl, (C30_zero_timeout SlowP noExt 1 ⟨⟨0x50, 1, .wr_builtin, .rd_builtin⟩, 0xFFFF, .I2C_OK⟩
    .I2C_WRITE 0xAA true 0x10 [0xAA] 1 (I2C_set_timeout 0 (World.init (Mock.init true [], false))).2
    rfl rfl rfl rfl slow_needs_poll).2.2.2.2.2.2.1⟩

/-- C31 fails in the code: at `F_CPU` = 16 MHz the quotient never underflows for
the speeds 1..400 that `I2C_set_speed` can store, but the value
`((F_CPU / 1000) / speed - 16) / 2` fits the 8-bit register `TWBR` only for
speeds of 31 kHz and more: the register receives the computed value exactly when
`31 <= speed`.  `I2C_set_speed(30)` returns 30 as the configured bus speed,
computes 258 and leaves 2 in `TWBR`. -/
theorem C31_twbr_truncation :
    (∀ s, 1 ≤ s → s ≤ 400 → 16 ≤ 16000000 / 1000 / s) ∧
    (∀ s, 1 ≤ s → s ≤ 400 →
      (twbr_value 16000000 s = (16000000 / 1000 / s - 16) / 2 ↔ 31 ≤ s)) ∧
    (∀ s, 1 ≤ s → s ≤ 400 →
      ((16000000 / 1000 / s - 16) / 2 ≤ 255 ↔ 31 ≤ s)) ∧
    (16000000 / 1000 / 30 - 16) / 2 = 258 ∧
    (I2C_set_speed MockP 16000000 30 (World.init (Mock.init true []))).1 = 30 ∧
    (I2C_set_speed MockP 16000000 30 (World.init (Mock.init true []))).2.hw.twbr = 2 := by
  refine ⟨twbr_quotient_ge, ?_, ?_, by decide, rfl, rfl⟩
  · intro s h1 h2
    rw [twbr_value_nat _ _ (twbr_quotient_ge s h1 h2), ← twbr_fits_iff s h1]
    constructor
    · intro h
      rw [← h]
      exact Nat.mod_lt _ (by norm_num)
    · intro h
      exact Nat.mod_eq_of_lt h
  · intro s h1 h2
    rw [← twbr_fits_iff s h1]
    omega

/-- C32 fails in the code.  In version 0.2, for every requested speed `s`,
`I2C_set_speed(s)` returns true exactly when the speed it stored in the
configuration (`i2c.cfg.speed`) is `s`, which is the case exactly when
`1 <= s <= 1000`, and for `s = 0` and `s > 1000` it stores 100 and returns false.
But the bus speed is what the divisor in `TWBR` makes it, and the divisor is
computed from the 16-bit product `i2c.cfg.speed * 1000`: on the mock the
register receives `V02.twbr_value` of the stored speed, which at 16 MHz is the
value of `((F_CPU / (speed * 1000)) - 16) / 2` for the speeds 31..65 only.  For
the three enumerated speeds the function returns true and leaves 224, 147 and
207 in `TWBR` where the expression is worth 72, 12 and 0 (version 1.2 writes 72
for 100 kHz and 12 for 400 kHz); for `s = 0` it returns false and leaves 224,
which is not the divisor of 100 kHz either. -/
theorem C32_v02_set_speed (P : Periph σ) (F_CPU s : Nat) (w : World σ) :
    ((V02.I2C_set_speed P F_CPU s w).1 = true ↔
      (V02.I2C_set_speed P F_CPU s w).2.cfg.speed = s) ∧
    ((V02.I2C_set_speed P F_CPU s w).1 = true ↔ 1 ≤ s ∧ s ≤ 1000) ∧
    (s = 0 ∨ s > 1000 →
      (V02.I2C_set_speed P F_CPU s w).2.cfg.speed = 100 ∧
      (V02.I2C_set_speed P F_CPU s w).1 = false) ∧
    (∀ wm : World Mock, (V02.I2C_set_speed MockP F_CPU s wm).2.hw.twbr =
      V02.twbr_value F_CPU (if s = 0 ∨ s > 1000 then 100 else s)) ∧
    (31 ≤ s → s ≤ 65 → V02.twbr_value 16000000 s = (16000000 / (s * 1000) - 16) / 2) ∧
    ((V02.I2C_set_speed MockP 16000000 100 (World.init (Mock.init true []))).1 = true ∧
      (V02.I2C_set_speed MockP 16000000 100 (World.init (Mock.init true []))).2.hw.twbr = 224 ∧
      (16000000 / (100 * 1000) - 16) / 2 = 72 ∧ twbr_value 16000000 100 = 72) ∧
    ((V02.I2C_set_speed MockP 16000000 400 (World.init (Mock.init true []))).1 = true ∧
      (V02.I2C_set_speed MockP 16000000 400 (World.init (Mock.init true []))).2.hw.twbr = 147 ∧
      (16000000 / (400 * 1000) - 16) / 2 = 12 ∧ twbr_value 16000000 400 = 12) ∧
    ((V02.I2C_set_speed MockP 16000000 1000 (World.init (Mock.init true []))).1 = true ∧
      (V02.I2C_set_speed MockP 16000000 1000 (World.init (Mock.init true []))).2.hw.twbr = 207 ∧
      (16000000 / (1000 * 1000) - 16) / 2 = 0) ∧
    ((V02.I2C_set_speed MockP 16000000 0 (World.init (Mock.init true []))).1 = false ∧
      (V02.I2C_set_speed MockP 16000000 0 (World.init (Mock.init true []))).2.cfg.speed = 100 ∧
      (V02.I2C_set_speed MockP 16000000 0 (World.init (Mock.init true []))).2.hw.twbr = 224) := by
  obtain ⟨h1, h2⟩ := set_speed_v02_value P F_CPU s w
  refine ⟨?_, ?_, ?_, ?_, ?_, ⟨rfl, rfl, by decide, by decide⟩, ⟨rfl, rfl, by decide, by decide⟩,
    ⟨rfl, rfl, by decide⟩, ⟨rfl, rfl, rfl⟩⟩
  · rw [h1, h2]; simp
  · rw [h2]
    simp only [decide_eq_true_eq]
    split_ifs <;> omega
  · intro h
    rw [h1, h2]
    simp only [decide_eq_false_iff_not]
    split_ifs <;> omega
  · intro wm
    exact set_speed_v02_twbr F_CPU s wm
  · intro h31 h65
    exact twbr_v02_exact s h31 h65

/-- C33: in version 0.2, `I2C_rd` with a count of zero is `I2C_rd` with a count
of one, for every peripheral: the two calls return the same result.  `d` is the
memory at the address `data`, at least one cell of it, although the count
announces none.  When the call returns and none of its primitives returned
`false`, it returns `true`; it made the calls start, address `addr << 1`, the
calls of its register block, one `I2C_rcv8(false)` (acknowledgment withheld) and
stop, that receive being the only one; it read the data register once and wrote
the value `v` to the first cell at `data`, so the memory is `v` followed by the
other cells unchanged; and the cursor of the descriptor is the register address
advanced by one (16-bit). -/
theorem C33_v02_zero_bytes_read (P : Periph σ) (F : Nat) (slave : I2C_SLAVE) (r : Nat)
    (d : List Nat) (w : World σ) (ok : Bool) (s1 : I2C_SLAVE) (d1 : List Nat) (w1 : World σ)
    (δ : List Ev) (h : V02.I2C_rd P F slave r d 0 w = some (ok, s1, d1, w1))
    (hd : d ≠ []) (hδ : w1.log = w.log ++ δ) (hno : Ev.ret false ∉ δ) :
    V02.I2C_rd P F slave r d 1 w = some (ok, s1, d1, w1) ∧ ok = true ∧
    calls δ = acked ([Ev.start, Ev.sndAddr (V02.sla_w slave)] ++
      (V02.rd_setreg_plan slave r ++ [Ev.rd8 false, Ev.stop])) ∧
    δ.filter Ev.isRd8 = [Ev.rd8 false] ∧
    ∃ v, values δ = [v] ∧ d1 = v :: d.tail ∧ d1.length = d.length ∧
      s1 = { slave with reg_addr := (r + 1) % 65536 } := by
  obtain ⟨m, rl, o, hst, hl, hs⟩ := rd_v02_log P F slave r d 0 w ok s1 d1 w1 δ h hδ
  simp only [if_true] at rl o hl
  obtain ⟨hm, hc⟩ := rl.no_fail (not_mem_calls hno)
  have hok : ok = true := o.2 hm
  have hp : V02.rd_plan slave r 1 = [Ev.start, Ev.sndAddr (V02.sla_w slave)] ++
      (V02.rd_setreg_plan slave r ++ [Ev.rd8 false, Ev.stop]) := by
    simp [V02.rd_plan, rd_calls]
  rw [hp] at hc
  have hv := hl hok
  obtain ⟨v, hv1⟩ := List.length_eq_one.1 hv
  obtain ⟨x, rest, rfl⟩ := List.exists_cons_of_ne_nil hd
  refine ⟨h, hok, hc, ?_, v, hv1, ?_, ?_, ?_⟩
  · rw [← filter_isRd8_calls, hc, filter_isRd8_acked, List.filter_append, List.filter_append,
      V02.rd_setreg_plan_no_rd8]
    simp [Ev.isRd8]
  · rw [hst, hv1]; rfl
  · rw [hst, hv1]; rfl
  · rw [hs, hv]; rfl

/-- Witness of C33: a zero-byte read at register 0x10 of an 8-bit descriptor on
the acknowledging mock that has the byte 0x5A to deliver. -/
theorem C33_v02_zero_bytes_read_witness :
    ∃ w1, V02.I2C_rd MockP 1 ⟨⟨0x50, 1, .wr_builtin, .rd_builtin⟩, 0, .I2C_OK⟩ 0x10 [0] 0
        (World.init (Mock.init true [0x5A])) =
        some (true, ⟨⟨0x50, 1, .wr_builtin, .rd_builtin⟩, 0x11, .I2C_OK⟩, [0x5A], w1) ∧
      w1.log = (World.init (Mock.init true [0x5A])).log ++
        [.start, .ret true, .sndAddr 0xA0, .ret true, .wr8 0x10, .ret true, .start, .ret true,
          .sndAddr 0xA1, .ret true, .rd8 false, .ret true, .twdr 0x5A, .stop, .ret true] ∧
      Ev.ret false ∉ [Ev.start, .ret true, .sndAddr 0xA0, .ret true, .wr8 0x10, .ret true,
          .start, .ret true, .sndAddr 0xA1, .ret true, .rd8 false, .ret true, .twdr 0x5A, .stop,
          .ret true] ∧
      (V02.I2C_rd MockP 1 ⟨⟨0x50, 1, .wr_builtin, .rd_builtin⟩, 0, .I2C_OK⟩ 0x10 [0] 1
          (World.init (Mock.init true [0x5A])) =
          some (true, ⟨⟨0x50, 1, .wr_builtin, .rd_builtin⟩, 0x11, .I2C_OK⟩, [0x5A], w1) ∧
        true = true ∧
        calls [Ev.start, .ret true, .sndAddr 0xA0, .ret true, .wr8 0x10, .ret true,
          .start, .ret true, .sndAddr 0xA1, .ret true, .rd8 false, .ret true, .twdr 0x5A, .stop,
          .ret true] =
          acked ([Ev.start, Ev.sndAddr (V02.sla_w ⟨⟨0x50, 1, .wr_builtin, .rd_builtin⟩, 0, .I2C_OK⟩)] ++
            (V02.rd_setreg_plan ⟨⟨0x50, 1, .wr_builtin, .rd_builtin⟩, 0, .I2C_OK⟩ 0x10 ++
              [Ev.rd8 false, Ev.stop])) ∧
        [Ev.start, .ret true, .sndAddr 0xA0, .ret true, .wr8 0x10, .ret true,
          .start, .ret true, .sndAddr 0xA1, .ret true, .rd8 false, .ret true, .twdr 0x5A, .stop,
          .ret true].filter Ev.isRd8 = [Ev.rd8 false] ∧
        ∃ v, values [Ev.start, .ret true, .sndAddr 0xA0, .ret true, .wr8 0x10, .ret true,
            .start, .ret true, .sndAddr 0xA1, .ret true, .rd8 false, .ret true, .twdr 0x5A, .stop,
            .ret true] = [v] ∧
          [0x5A] = v :: [0].tail ∧ [0x5A].length = [0].length ∧
          (⟨⟨0x50, 1, .wr_builtin, .rd_builtin⟩, 0x11, .I2C_OK⟩ : I2C_SLAVE) =
            { (⟨⟨0x50, 1, .wr_builtin, .rd_builtin⟩, 0, .I2C_OK⟩ : I2C_SLAVE) with
              reg_addr := (0x10 + 1) % 65536 }) :=
  ⟨_, rfl, rfl, by decide,
    C33_v02_zero_bytes_read MockP 1 ⟨⟨0x50, 1, .wr_builtin, .rd_builtin⟩, 0, .I2C_OK⟩ 0x10 [0]
      (World.init (Mock.init true [0x5A])) true _ _ _ _ rfl (by decide) rfl (by decide)⟩

/-- C34: in version 0.2, for every peripheral and every returning call of
`I2C_rd`, with the events `δ` it logged.  The address byte `addr << 1` is even
(write direction) and `(addr << 1) | 1` is odd (read direction).  For a
descriptor of width `I2C_NO_REG` every address call in `δ` sends `addr << 1`,
and when `δ` holds a receive the calls before the first receive are the start
and that address, nothing else.  For every other width, when `δ` holds a receive,
the calls before the first receive are start, `addr << 1`, the register-address
bytes, a repeated start and `(addr << 1) | 1`, each of which returned `true`. -/
theorem C34_v02_read_address (P : Periph σ) (F : Nat) (slave : I2C_SLAVE) (r : Nat)
    (d : List Nat) (n : Nat) (w : World σ) (ok : Bool) (s1 : I2C_SLAVE) (d1 : List Nat)
    (w1 : World σ) (δ : List Ev)
    (h : V02.I2C_rd P F slave r d n w = some (ok, s1, d1, w1)) (hδ : w1.log = w.log ++ δ) :
    V02.sla_w slave % 2 = 0 ∧ V02.sla_r slave % 2 = 1 ∧
    (slave.cfg.addr ≤ 0x7F →
      V02.sla_w slave = slave.cfg.addr <<< 1 ∧ V02.sla_r slave = (slave.cfg.addr <<< 1) ||| 1) ∧
    (slave.cfg.reg_size = I2C_NO_REG →
      (∀ b, Ev.sndAddr b ∈ δ → b = V02.sla_w slave) ∧
      ((∃ a, Ev.rd8 a ∈ δ) → ∃ a rest,
        calls δ = acked [Ev.start, Ev.sndAddr (V02.sla_w slave)] ++ Ev.rd8 a :: rest)) ∧
    (slave.cfg.reg_size ≠ I2C_NO_REG →
      ((∃ a, Ev.rd8 a ∈ δ) → ∃ a rest,
        calls δ = acked ([Ev.start, Ev.sndAddr (V02.sla_w slave)] ++
          ((reg_seq slave r).map Ev.wr8 ++ [Ev.start, Ev.sndAddr (V02.sla_r slave)])) ++
          Ev.rd8 a :: rest)) := by
  obtain ⟨m, rl, _⟩ := rd_v02_log P F slave r d n w ok s1 d1 w1 δ h hδ
  have hnb : (if n = 0 then 1 else n) ≠ 0 := by split_ifs <;> omega
  generalize (if n = 0 then 1 else n) = nb at rl hnb
  refine ⟨V02.sla_w_even slave, V02.sla_r_odd slave, V02.sla_shift slave, ?_, ?_⟩
  · intro hreg
    have hp : V02.rd_plan slave r nb =
        [Ev.start, Ev.sndAddr (V02.sla_w slave)] ++ (rd_calls nb 0 nb ++ [Ev.stop]) := by
      simp [V02.rd_plan, V02.rd_setreg_plan, hreg, I2C_NO_REG]
    rw [hp] at rl
    constructor
    · intro b hb
      rcases rl.mem _ (mem_calls_of_sndAddr hb) with h1 | h1 | h1 | h1 | h1
      · simp only [List.mem_append, List.mem_cons, List.mem_singleton, List.not_mem_nil,
          or_false, reduceCtorEq, false_or, Ev.sndAddr.injEq] at h1
        rcases h1 with h1 | h1
        · exact h1
        · exact absurd h1 (rd_calls_no_sndAddr _ _ _ _)
      all_goals simp at h1
    · intro hr
      obtain ⟨a, ha⟩ := hr
      obtain ⟨rest, hrest⟩ := rl.first_receive hnb (by simp) ⟨a, mem_calls_of_rd8 ha⟩
      exact ⟨_, rest, hrest⟩
  · intro hreg hr
    have hp : V02.rd_plan slave r nb =
        ([Ev.start, Ev.sndAddr (V02.sla_w slave)] ++
          ((reg_seq slave r).map Ev.wr8 ++ [Ev.start, Ev.sndAddr (V02.sla_r slave)])) ++
          (rd_calls nb 0 nb ++ [Ev.stop]) := by
      have : slave.cfg.reg_size ≠ 0 := hreg
      simp [V02.rd_plan, V02.rd_setreg_plan, this]
    rw [hp] at rl
    obtain ⟨a, ha⟩ := hr
    obtain ⟨rest, hrest⟩ := rl.first_receive hnb (by simp) ⟨a, mem_calls_of_rd8 ha⟩
    exact ⟨_, rest, hrest⟩

/-- Witness of C34 on the acknowledging mock: a one-byte read through a
descriptor of width `I2C_NO_REG` (the slave, addressed for writing, does not
deliver, and the receive fails), and a two-byte read at register 0x10 through an
8-bit descriptor. -/
theorem C34_v02_read_address_witness :
    (∃ s1 d1 w1, V02.I2C_rd MockP 1 ⟨⟨0x50, 0, .wr_builtin, .rd_builtin⟩, 0, .I2C_OK⟩ 0 [0] 1
        (World.init (Mock.init true [7])) = some (false, s1, d1, w1) ∧
      w1.log = (World.init (Mock.init true [7])).log ++
        [.start, .ret true, .sndAddr 0xA0, .ret true, .rd8 false, .ret false] ∧
      (∀ b, Ev.sndAddr b ∈ [Ev.start, .ret true, .sndAddr 0xA0, .ret true, .rd8 false,
          .ret false] →
        b = V02.sla_w ⟨⟨0x50, 0, .wr_builtin, .rd_builtin⟩, 0, .I2C_OK⟩) ∧
      ((∃ a, Ev.rd8 a ∈ [Ev.start, .ret true, .sndAddr 0xA0, .ret true, .rd8 false,
          .ret false]) →
        ∃ a rest, calls [Ev.start, .ret true, .sndAddr 0xA0, .ret true, .rd8 false, .ret false] =
          acked [Ev.start,
            Ev.sndAddr (V02.sla_w ⟨⟨0x50, 0, .wr_builtin, .rd_builtin⟩, 0, .I2C_OK⟩)] ++
            Ev.rd8 a :: rest)) ∧
    (∃ s1 d1 w1, V02.I2C_rd MockP 1 ⟨⟨0x50, 1, .wr_builtin, .rd_builtin⟩, 0, .I2C_OK⟩ 0x10
        [0, 0] 2 (World.init (Mock.init true [7, 8])) = some (true, s1, d1, w1) ∧
      w1.log = (World.init (Mock.init true [7, 8])).log ++
        [.start, .ret true, .sndAddr 0xA0, .ret true, .wr8 0x10, .ret true, .start, .ret true,
          .sndAddr 0xA1, .ret true, .rd8 true, .ret true, .twdr 7, .rd8 false, .ret true,
          .twdr 8, .stop, .ret true] ∧
      ((∃ a, Ev.rd8 a ∈ [Ev.start, .ret true, .sndAddr 0xA0, .ret true, .wr8 0x10, .ret true,
          .start, .ret true, .sndAddr 0xA1, .ret true, .rd8 true, .ret true, .twdr 7,
          .rd8 false, .ret true, .twdr 8, .stop, .ret true]) →
        ∃ a rest, calls [Ev.start, .ret true, .sndAddr 0xA0, .ret true, .wr8 0x10, .ret true,
            .start, .ret true, .sndAddr 0xA1, .ret true, .rd8 true, .ret true, .twdr 7,
            .rd8 false, .ret true, .twdr 8, .stop, .ret true] =
          acked ([Ev.start,
            Ev.sndAddr (V02.sla_w ⟨⟨0x50, 1, .wr_builtin, .rd_builtin⟩, 0, .I2C_OK⟩)] ++
            ((reg_seq ⟨⟨0x50, 1, .wr_builtin, .rd_builtin⟩, 0, .I2C_OK⟩ 0x10).map Ev.wr8 ++
              [Ev.start,
                Ev.sndAddr (V02.sla_r ⟨⟨0x50, 1, .wr_builtin, .rd_builtin⟩, 0, .I2C_OK⟩)])) ++
            Ev.rd8 a :: rest)) :=
  ⟨⟨_, _, _, rfl, rfl,
      (C34_v02_read_address MockP 1 ⟨⟨0x50, 0, .wr_builtin, .rd_builtin⟩, 0, .I2C_OK⟩ 0 [0] 1
        (World.init (Mock.init true [7])) false _ _ _ _ rfl rfl).2.2.2.1 rfl⟩,
   ⟨_, _, _, rfl, rfl,
      (C34_v02_read_address MockP 1 ⟨⟨0x50, 1, .wr_builtin, .rd_builtin⟩, 0, .I2C_OK⟩ 0x10
        [0, 0] 2 (World.init (Mock.init true [7, 8])) true _ _ _ _ rfl rfl).2.2.2.2
        (by decide)⟩⟩

end CI2C
